import Mathlib

/-! # BAS-2048: the deterministic game engine

A shallow embedding of the engine of `src/main.js` (square board, class
`Game2048` with its seeded generator `SeededRandom`) and of `src/hex.js`
(hexagonal board, class `HexGame`), followed by the properties proved of it.

Conventions of the embedding.

* A JavaScript number that the code only ever uses as an integer is an `Int`
  (or a `Nat` where it cannot be negative); the one addition of the code whose
  integer sum can leave the range of exact doubles, `this.seed += 0x6d2b79f5`,
  rounds to the nearest double (`roundDouble`).  The 32-bit operators `^`, `|`,
  `>>>` and `Math.imul` are modelled after ECMAScript: operands go through
  `ToInt32`/`ToUint32`, the result is a signed (`^`, `|`, `Math.imul`) or an
  unsigned (`>>>`) 32-bit integer.
* `SeededRandom.next` returns the fraction `k / 2^32`; the embedding returns
  the numerator `k`.  `x < 0.9` for such a fraction is `k < 3865470567` (the
  double nearest to 0.9 lies strictly between 3865470566 / 2^32 and
  3865470567 / 2^32), and `Math.floor(x * len)` is `k * len / 2^32`.
* A string is the list of its UTF-16 code units (`charCodeAt`).
* `Math.random()` is an input of the functions that call it.
-/

namespace BAS2048

/-! ## 32-bit integer operators of JavaScript -/

/-- ECMAScript `ToUint32` on an integer: the residue modulo `2^32`. -/
def toUint32 (x : Int) : Nat := (x % 4294967296).toNat

/-- ECMAScript `ToInt32` on an integer: the residue in `[-2^31, 2^31)`. -/
def toInt32 (x : Int) : Int :=
  if 2147483648 ≤ toUint32 x then (toUint32 x : Int) - 4294967296 else (toUint32 x : Int)

/-- The operator `a ^ b`. -/
def jsXor (a b : Int) : Int := toInt32 ((toUint32 a ^^^ toUint32 b : Nat) : Int)

/-- The operator `a | b`. -/
def jsOr (a b : Int) : Int := toInt32 ((toUint32 a ||| toUint32 b : Nat) : Int)

/-- The operator `a >>> k` for a shift count `k < 32`. -/
def jsShrU (a : Int) (k : Nat) : Int := ((toUint32 a >>> k : Nat) : Int)

/-- The function `Math.imul(a, b)`. -/
def imul (a b : Int) : Int := toInt32 ((toUint32 a * toUint32 b : Nat) : Int)

/-! ## `hashSeed` and `SeededRandom` (src/main.js 33-44, 288-295) -/

/-- The function `hashSeed(str)`; `str` is the list of code units of the string. -/
def hashSeed (str : List Nat) : Nat :=
  toUint32 (str.foldl (fun (h : Int) (c : Nat) => imul (jsXor h (c : Int)) 16777619)
    (jsShrU 2166136261 0))

/-- A seed handed to `new Game2048(size, seed)`: a string or an integer. -/
inductive Seed where
  | str (codes : List Nat)
  | num (value : Int)
  deriving DecidableEq, Repr

/-- The class `SeededRandom`: its only field is `seed`. -/
structure SeededRandom where
  seed : Int
  deriving DecidableEq, Repr

/-- The constructor `new SeededRandom(seed)`. -/
def SeededRandom.new : Seed → SeededRandom
  | Seed.num v => ⟨v⟩
  | Seed.str s => ⟨(hashSeed s : Int)⟩

/-- The loop that finds the spacing of the doubles around an integer of magnitude `m`: from
the power of two `u`, doubled at most `fuel` times, the first one with `m < 2^53 * u`. -/
def ulpLoop (m : Nat) : Nat → Nat → Nat
  | 0, u => u
  | fuel + 1, u => if m < 9007199254740992 * u then u else ulpLoop m fuel (2 * u)

/-- The double nearest to the integer `x`, a tie going to the even significand: the number
that the addition of two doubles stores when their exact sum is `x`.  An integer of
magnitude up to `2^53` is a double; above, the doubles are the multiples of the spacing `u`
with a significand of 53 bits.  The sum of a double and `0x6d2b79f5` stays below the
largest double's rounding limit, so no sum of the code rounds to `Infinity`. -/
def roundDouble (x : Int) : Int :=
  if x.natAbs < 9007199254740992 then x
  else
    let u := ulpLoop x.natAbs 1024 1
    let q := x.natAbs / u
    let r := x.natAbs % u
    let q1 := if 2 * r < u then q else if u < 2 * r then q + 1 else if q % 2 = 0 then q else q + 1
    if x < 0 then -((q1 * u : Nat) : Int) else ((q1 * u : Nat) : Int)

/-- The method `SeededRandom.next()`: the new generator and the numerator `k` of the
returned fraction `k / 4294967296`.  The statement `this.seed += 0x6d2b79f5` adds two
doubles. -/
def SeededRandom.next (g : SeededRandom) : SeededRandom × Nat :=
  let seed := roundDouble (g.seed + 0x6d2b79f5)
  let t := seed
  let t := imul (jsXor t (jsShrU t 15)) (jsOr t 1)
  let t := jsXor t (t + imul (jsXor t (jsShrU t 7)) (jsOr t 61))
  (⟨seed⟩, toUint32 (jsShrU (jsXor t (jsShrU t 14)) 0))

/-- The fraction returned by `SeededRandom.next()`. -/
def SeededRandom.nextValue (g : SeededRandom) : ℚ := (g.next.2 : ℚ) / 4294967296

/-- The 32-bit FNV-1a hash as the specification words it: start from `0x811c9dc5`, for
each character xor then multiply by 16777619, unsigned 32-bit throughout. -/
def fnv1a (str : List Nat) : Nat :=
  str.foldl (fun h c => ((h ^^^ c) * 16777619) % 4294967296) 0x811c9dc5

/-- The mulberry32 mix of an unsigned 32-bit word, all in arithmetic modulo `2^32`. -/
def mulberry32Mix (s : Nat) : Nat :=
  let t := ((s ^^^ (s >>> 15)) * (s ||| 1)) % 4294967296
  let t := t ^^^ ((t + ((t ^^^ (t >>> 7)) * (t ||| 61)) % 4294967296) % 4294967296)
  (t ^^^ (t >>> 14)) % 4294967296

/-! ## Reading a property of a plain object -/

/-- What the read `obj[name]` of a plain object gives: `undefined` for a name that is no
property; the own entry; or, for a name that the object inherits from `Object.prototype`, a
function or the prototype object: a truthy value that is no array and has no fields `row`
and `col`. -/
inductive Lookup (α : Type) where
  | absent
  | inherited
  | own (value : α)
  deriving DecidableEq, Repr

/-- The names of the properties of `Object.prototype`, which every plain object inherits. -/
def objectPrototypeNames : List String :=
  ["constructor", "__defineGetter__", "__defineSetter__", "hasOwnProperty",
   "__lookupGetter__", "__lookupSetter__", "isPrototypeOf", "propertyIsEnumerable",
   "toString", "valueOf", "__proto__", "toLocaleString"]

/-! ## The square board: class `Game2048` (src/main.js 46-286) -/

/-- The class `Tile`.  The fields `id` and `prev` are written but only read by the
renderer; they are left out. -/
structure Tile where
  value : Nat
  row : Int
  col : Int
  merged : Bool
  deriving DecidableEq, Repr

/-- A cell position `{ row, col }`, also used for the direction vectors. -/
structure Cell where
  row : Int
  col : Int
  deriving DecidableEq, Repr

/-- The field `grid`: an array of rows, each an array of `Tile` or `null`. -/
abbrev Grid := List (List (Option Tile))

/-- The read `grid[r][c]` (a missing entry reads as empty). -/
def gridAt (grid : Grid) (r c : Nat) : Option Tile :=
  match grid[r]? with
  | some cells => (cells[c]?).join
  | none => none

/-- The write `grid[r][c] = x`. -/
def gridSet (grid : Grid) (r c : Nat) (x : Option Tile) : Grid :=
  match grid[r]? with
  | some cells => grid.set r (cells.set c x)
  | none => grid

/-- The tile values of a grid, `null` being `none`. -/
def gridValues (grid : Grid) : List (List (Option Nat)) :=
  grid.map (fun line => line.map (fun t => t.map Tile.value))

/-- The object returned by `move`; `{ moved: false }` leaves the other fields undefined. -/
structure MoveResult where
  moved : Bool
  gained : Option Nat
  score : Option Nat
  over : Option Bool
  won : Option Bool
  deriving DecidableEq, Repr

/-- The class `Game2048`. -/
structure Game2048 where
  size : Nat
  seed : Seed
  rng : SeededRandom
  grid : Grid
  score : Nat
  over : Bool
  won : Bool
  cachedValue : Option Nat
  counted : Bool
  deriving DecidableEq, Repr

namespace Game2048

/-- The method `empty()`. -/
def empty (g : Game2048) : Grid :=
  List.replicate g.size (List.replicate g.size none)

/-- The method `random()`: the game with the generator advanced, and the numerator of the
fraction drawn. -/
def random (g : Game2048) : Game2048 × Nat :=
  ({ g with rng := g.rng.next.1 }, g.rng.next.2)

/-- The method `peekNextValue()`. -/
def peekNextValue (g : Game2048) : Nat × Game2048 :=
  match g.cachedValue with
  | some v => (v, g)
  | none =>
    let value := if g.random.2 < 3865470567 then 2 else 4
    (value, { g.random.1 with cachedValue := some value })

/-- The method `consumeNextValue()`. -/
def consumeNextValue (g : Game2048) : Nat × Game2048 :=
  match g.cachedValue with
  | some v => (v, { g with cachedValue := none })
  | none => (if g.random.2 < 3865470567 then 2 else 4, g.random.1)

/-- The method `availableCells()`. -/
def availableCells (g : Game2048) : List Cell :=
  (List.range g.size).flatMap fun r =>
    ((List.range g.size).filter fun c => (gridAt g.grid r c).isNone).map fun (c : Nat) =>
      ({ row := (r : Int), col := (c : Int) } : Cell)

/-- The method `withinBounds(cell)`. -/
def withinBounds (g : Game2048) (cell : Cell) : Bool :=
  decide (0 ≤ cell.row) && decide (cell.row < (g.size : Int)) &&
    decide (0 ≤ cell.col) && decide (cell.col < (g.size : Int))

/-- The method `cellContent(cell)`. -/
def cellContent (g : Game2048) (cell : Cell) : Option Tile :=
  if g.withinBounds cell then gridAt g.grid cell.row.toNat cell.col.toNat else none

/-- The method `insertTile(tile)`. -/
def insertTile (g : Game2048) (tile : Tile) : Game2048 :=
  { g with grid := gridSet g.grid tile.row.toNat tile.col.toNat (some tile) }

/-- The method `addRandomTile()`.  The index `Math.floor(random() * cells.length)` is
`k * cells.length / 2^32`; it is below `cells.length`, so the last branch is not reached. -/
def addRandomTile (g : Game2048) : Bool × Game2048 :=
  let cells := g.availableCells
  if cells.length = 0 then (false, g)
  else
    let value := g.consumeNextValue.1
    let g1 := g.consumeNextValue.2
    match cells[g1.random.2 * cells.length / 4294967296]? with
    | some cell => (true, g1.random.1.insertTile ⟨value, cell.row, cell.col, false⟩)
    | none => (false, g1.random.1)

/-- The method `reset()`. -/
def reset (g : Game2048) : Game2048 :=
  let g0 : Game2048 :=
    { g with grid := g.empty, score := 0, over := false, won := false,
             cachedValue := none, counted := false }
  g0.addRandomTile.2.addRandomTile.2

/-- The method `prepareTiles()`. -/
def prepareTiles (g : Game2048) : Game2048 :=
  { g with grid := g.grid.map fun line => line.map fun t =>
      t.map fun tile => { tile with merged := false } }

/-- The method `buildTraversals(vector)`: the pair `(rows, cols)`. -/
def buildTraversals (g : Game2048) (vector : Cell) : List Nat × List Nat :=
  let rows := List.range g.size
  let cols := List.range g.size
  (if vector.row = 1 then rows.reverse else rows, if vector.col = 1 then cols.reverse else cols)

/-- The `do ... while` loop of `findFarthest`, run for at most `fuel` iterations: the pair
`(previous, cell)` at loop exit, or `none` when the fuel runs out first. -/
def findFarthestLoop (g : Game2048) (vector : Cell) : Nat → Cell → Option (Cell × Cell)
  | 0, _ => none
  | fuel + 1, cell =>
    let previous := cell
    let cell : Cell := { row := previous.row + vector.row, col := previous.col + vector.col }
    if g.withinBounds cell && (g.cellContent cell).isNone then
      findFarthestLoop g vector fuel cell
    else some (previous, cell)

/-- The method `findFarthest(cell, vector)`: the pair `(farthest, next)`. -/
def findFarthest (g : Game2048) (cell vector : Cell) : Option (Cell × Option Cell) :=
  (findFarthestLoop g vector g.size cell).map fun p =>
    (p.1, if g.withinBounds p.2 then some p.2 else none)

/-- The method `movesAvailable()`. -/
def movesAvailable (g : Game2048) : Bool :=
  if g.availableCells.length ≠ 0 then true
  else
    (List.range g.size).any fun r => (List.range g.size).any fun c =>
      match gridAt g.grid r c with
      | none => false
      | some tile =>
        [({ row := (r : Int) + 1, col := (c : Int) } : Cell),
         ({ row := (r : Int), col := (c : Int) + 1 } : Cell)].any fun n =>
          match g.cellContent n with
          | some other => other.value == tile.value
          | none => false

/-- The method `getVector(direction)`: the read `map[direction]` of the object literal with
the four entries `up`, `down`, `left` and `right`. -/
def getVector (direction : String) : Lookup Cell :=
  if direction = "up" then Lookup.own ⟨-1, 0⟩
  else if direction = "down" then Lookup.own ⟨1, 0⟩
  else if direction = "left" then Lookup.own ⟨0, -1⟩
  else if direction = "right" then Lookup.own ⟨0, 1⟩
  else if direction ∈ objectPrototypeNames then Lookup.inherited
  else Lookup.absent

/-- The variables a call of `move` updates while it walks the board. -/
structure MoveAcc where
  game : Game2048
  moved : Bool
  gained : Nat
  deriving DecidableEq, Repr

/-- The `else` branch of the inner `forEach` of `move`: the tile goes to `farthest` when
that is another cell. -/
def moveCellSlide (acc : MoveAcc) (tile : Tile) (farthest : Cell) (row col : Nat) : MoveAcc :=
  if farthest.row ≠ (row : Int) ∨ farthest.col ≠ (col : Int) then
    let grid1 := gridSet acc.game.grid row col none
    let tile1 : Tile := { tile with row := farthest.row, col := farthest.col }
    { acc with game := { acc.game with
                           grid := gridSet grid1 tile1.row.toNat tile1.col.toNat (some tile1) },
               moved := true }
  else acc

/-- The `if` branch of the inner `forEach` of `move`: the tile merges into `next`, which
sits at `nc`. -/
def moveCellMerge (acc : MoveAcc) (tile : Tile) (nc : Cell) (row col : Nat) : MoveAcc :=
  let merged : Tile := ⟨tile.value * 2, nc.row, nc.col, true⟩
  let grid1 := gridSet acc.game.grid row col none
  let grid2 := gridSet grid1 nc.row.toNat nc.col.toNat (some merged)
  { game := { acc.game with grid := grid2,
                            score := acc.game.score + merged.value,
                            won := if 2048 ≤ merged.value then true else acc.game.won },
    moved := true,
    gained := acc.gained + merged.value }

/-- The body of the inner `forEach` of `move` at the cell `(row, col)`; `none` when
`findFarthest` ran out of fuel. -/
def moveCell (vector : Cell) (acc : MoveAcc) (row col : Nat) : Option MoveAcc :=
  match gridAt acc.game.grid row col with
  | none => some acc
  | some tile =>
    match acc.game.findFarthest ⟨(row : Int), (col : Int)⟩ vector with
    | none => none
    | some (farthest, nextCell) =>
      match nextCell, nextCell.bind acc.game.cellContent with
      | some nc, some next =>
        if next.value = tile.value ∧ next.merged = false then
          some (moveCellMerge acc tile nc row col)
        else some (moveCellSlide acc tile farthest row col)
      | _, _ => some (moveCellSlide acc tile farthest row col)

/-- The sliding phase of `move`: `prepareTiles`, `buildTraversals` and the two nested
`forEach` loops, up to (not including) `if (moved)`. -/
def slide (g : Game2048) (vector : Cell) : Option MoveAcc :=
  let g1 := g.prepareTiles
  let traversals := g1.buildTraversals vector
  traversals.1.foldlM (fun acc row =>
    traversals.2.foldlM (fun acc col => moveCell vector acc row col) acc) ⟨g1, false, 0⟩

/-- The tail of `move` from `if (moved)` on: the spawn and the end-of-game test. -/
def finishMove (acc : MoveAcc) : Game2048 :=
  if acc.moved then
    let g1 := acc.game.addRandomTile.2
    if g1.movesAvailable then g1 else { g1 with over := true }
  else acc.game

/-- The method `move(direction)`: the returned object and the game after the call; `none`
when a `findFarthest` loop ran out of fuel.  For a name inherited from `Object.prototype`
the vector is truthy and its `row` and `col` are `undefined`: `prepareTiles` runs,
`buildTraversals` reverses nothing, and in `findFarthest` the first `cell` has the
coordinates `NaN`, for which `withinBounds` is false, so `farthest` is the cell of the tile
and `next` is `null`: no tile moves or merges, and the call returns
`{ moved: false, gained: 0, score, over, won }`. -/
def move (g : Game2048) (direction : String) : Option (MoveResult × Game2048) :=
  match getVector direction with
  | Lookup.absent => some (⟨false, none, none, none, none⟩, g)
  | Lookup.inherited =>
    if g.over then some (⟨false, none, none, none, none⟩, g)
    else some (⟨false, some 0, some g.score, some g.over, some g.won⟩, g.prepareTiles)
  | Lookup.own vector =>
    if g.over then some (⟨false, none, none, none, none⟩, g)
    else
      (g.slide vector).map fun acc =>
        let g1 := finishMove acc
        (⟨acc.moved, some acc.gained, some g1.score, some g1.over, some g1.won⟩, g1)

/-- The function `randomSeed()`: `Math.random().toString(36).slice(2, 10)`; the string
drawn is the argument. -/
def randomSeed (drawn : List Nat) : Seed := Seed.str drawn

/-- JavaScript truthiness of a seed argument: `undefined`, the empty string and the number
zero are falsy. -/
def seedTruthy : Option Seed → Bool
  | none => false
  | some (Seed.str s) => !s.isEmpty
  | some (Seed.num v) => v != 0

/-- The constructor `new Game2048(size, seed)`; `drawn` is what `randomSeed()` would
return at this call. -/
def new (size : Nat) (seed : Option Seed) (drawn : List Nat) : Game2048 :=
  let seed1 : Seed :=
    match seed with
    | some s => if seedTruthy (some s) then s else randomSeed drawn
    | none => randomSeed drawn
  reset { size := size, seed := seed1, rng := SeededRandom.new seed1, grid := [], score := 0,
          over := false, won := false, cachedValue := none, counted := false }

end Game2048

/-! ## The hexagonal board: `src/hex.js` -/

/-- An axial cell `{ q, r }`. -/
structure Hex where
  q : Int
  r : Int
  deriving DecidableEq, Repr

/-- A key of the grid map.  The code uses the string `"q,r"`, which determines `q` and `r`;
the embedding uses the pair. -/
abbrev HexKey := Int × Int

/-- The function `keyOf(cell)`. -/
def keyOf (cell : Hex) : HexKey := (cell.q, cell.r)

/-- The integers `lo, lo + 1, ..., hi` of a loop `for (x = lo; x <= hi; x += 1)`. -/
def intRange (lo hi : Int) : List Int :=
  (List.range (hi + 1 - lo).toNat).map fun (k : Nat) => lo + (k : Int)

/-- The function `buildCoords(size)`. -/
def buildCoords (size : Int) : List Hex :=
  (intRange (-size) size).flatMap fun r =>
    (intRange (max (-size) (-r - size)) (min size (-r + size))).map fun q => ({ q := q, r := r } : Hex)

/-- The constant `neighbourDirs`. -/
def neighbourDirs : List Hex :=
  [⟨1, 0⟩, ⟨-1, 0⟩, ⟨1, -1⟩, ⟨-1, 1⟩, ⟨0, -1⟩, ⟨0, 1⟩]

/-- The `axis` field of a line definition. -/
inductive Axis where
  | q | r | s
  deriving DecidableEq, Repr

/-- An entry of `definitions` in `buildLines`: the grouping axis and the comparator. -/
structure LineDef where
  axis : Axis
  sort : Hex → Hex → Int

/-- The table `definitions` of `buildLines`, in the order of its entries. -/
def definitions : List (String × LineDef) :=
  [("e", ⟨Axis.r, fun a b => b.q - a.q⟩),
   ("w", ⟨Axis.r, fun a b => a.q - b.q⟩),
   ("ne", ⟨Axis.s, fun a b => b.q - a.q⟩),
   ("sw", ⟨Axis.s, fun a b => a.q - b.q⟩),
   ("nw", ⟨Axis.q, fun a b => a.r - b.r⟩),
   ("se", ⟨Axis.q, fun a b => b.r - a.r⟩)]

/-- The value `axisValue` that `buildLines` computes for a cell. -/
def axisValue (axis : Axis) (cell : Hex) : Int :=
  match axis with
  | Axis.q => cell.q
  | Axis.r => cell.r
  | Axis.s => -cell.q - cell.r

/-- The two statements `if (!groups.has(v)) groups.set(v, []); groups.get(v).push(cell)` on
the map `groups`, kept as the list of its entries in insertion order. -/
def groupPush (groups : List (Int × List Hex)) (v : Int) (cell : Hex) : List (Int × List Hex) :=
  match groups with
  | [] => [(v, [cell])]
  | (k, members) :: rest =>
    if k = v then (k, members ++ [cell]) :: rest else (k, members) :: groupPush rest v cell

/-- The lines that `buildLines` builds for one entry of `definitions`: the groups in
insertion order, each sorted (`Array.prototype.sort` is stable) and mapped to keys. -/
def buildLineList (cells : List Hex) (ld : LineDef) : List (List HexKey) :=
  (cells.foldl (fun groups cell => groupPush groups (axisValue ld.axis cell) cell) []).map
    fun entry => (List.insertionSort (fun a b => ld.sort a b ≤ 0) entry.2).map keyOf

/-- The function `buildLines(cells)`: the object `lines` as the list of its entries. -/
def buildLines (cells : List Hex) : List (String × List (List HexKey)) :=
  definitions.map fun entry => (entry.1, buildLineList cells entry.2)

/-- The module variables `radius`, `coords`, `coordKeys` and `linesByDir`. -/
structure Geometry where
  radius : Int
  coords : List Hex
  coordKeys : List HexKey
  linesByDir : List (String × List (List HexKey))

/-- The function `rebuildGeometry(size)`. -/
def rebuildGeometry (size : Int) : Geometry :=
  { radius := size,
    coords := buildCoords size,
    coordKeys := (buildCoords size).map keyOf,
    linesByDir := buildLines (buildCoords size) }

/-- The read `linesByDir[direction]` of the plain object that `buildLines` returns. -/
def Geometry.lines (geo : Geometry) (direction : String) : Lookup (List (List HexKey)) :=
  match geo.linesByDir.find? fun entry => entry.1 == direction with
  | some entry => Lookup.own entry.2
  | none => if direction ∈ objectPrototypeNames then Lookup.inherited else Lookup.absent

/-- The six directions of the hexagonal board. -/
inductive HexDirection where
  | e | w | ne | sw | nw | se
  deriving DecidableEq, Repr

/-- The string that names a direction in the code. -/
def HexDirection.name : HexDirection → String
  | HexDirection.e => "e"
  | HexDirection.w => "w"
  | HexDirection.ne => "ne"
  | HexDirection.sw => "sw"
  | HexDirection.nw => "nw"
  | HexDirection.se => "se"

/-- A `Map` from keys to tile values (`null` is `none`), as the list of its entries in
insertion order. -/
abbrev HexGrid := List (HexKey × Option Nat)

/-- The call `grid.has(key)`. -/
def mapHas (grid : HexGrid) (key : HexKey) : Bool :=
  match grid with
  | [] => false
  | (k, _) :: rest => if k = key then true else mapHas rest key

/-- The call `grid.get(key)`.  For a key without an entry the code reads `undefined`; the
embedding reads it as empty, and the theorems are about grids that have an entry for
every cell of the geometry. -/
def mapGet (grid : HexGrid) (key : HexKey) : Option Nat :=
  match grid with
  | [] => none
  | (k, v) :: rest => if k = key then v else mapGet rest key

/-- The call `grid.set(key, value)`. -/
def mapSet (grid : HexGrid) (key : HexKey) (value : Option Nat) : HexGrid :=
  match grid with
  | [] => [(key, value)]
  | (k, v) :: rest => if k = key then (k, value) :: rest else (k, v) :: mapSet rest key value

/-- JavaScript falsiness of a grid value: `null` and `0`. -/
def falsy (value : Option Nat) : Bool :=
  match value with
  | none => true
  | some v => v == 0

/-- The class `HexGame`, together with the module variable `moveCount`. -/
structure HexGame where
  grid : HexGrid
  score : Nat
  over : Bool
  won : Bool
  cachedValue : Option Nat
  counted : Bool
  moveCount : Nat
  deriving DecidableEq, Repr

/-- The outcome of the two calls of `Math.random()` in `addRandomTile`: `small` tells whether
the first (made by `consumeNextValue` when nothing is cached) is below `valueChance`, and
`pick len` is the value of `Math.floor(Math.random() * len)`, which is below `len` because
`Math.random()` is below 1. -/
structure HexDraw where
  small : Bool
  pick : Nat → Nat
  pick_lt : ∀ len, 0 < len → pick len < len

/-- The variables of the `for` loop that merges a compacted line in `HexGame.move`. -/
structure MergeAcc where
  merged : List (Option Nat)
  gained : Nat
  won : Bool
  deriving DecidableEq, Repr

/-- The variables a call of `HexGame.move` updates while it walks the lines. -/
structure HexAcc where
  game : HexGame
  moved : Bool
  gained : Nat
  deriving DecidableEq, Repr

namespace HexGame

/-- The method `peekNextValue()`; `small` is `Math.random() < valueChance`. -/
def peekNextValue (g : HexGame) (small : Bool) : Nat × HexGame :=
  match g.cachedValue with
  | some v => (v, g)
  | none => (if small then 2 else 4, { g with cachedValue := some (if small then 2 else 4) })

/-- The method `consumeNextValue()`; `small` is `Math.random() < valueChance`. -/
def consumeNextValue (g : HexGame) (small : Bool) : Nat × HexGame :=
  match g.cachedValue with
  | some v => (v, { g with cachedValue := none })
  | none => (if small then 2 else 4, g)

/-- The method `availableCells()`. -/
def availableCells (geo : Geometry) (g : HexGame) : List HexKey :=
  geo.coordKeys.filter fun key => falsy (mapGet g.grid key)

/-- The method `addRandomTile()`.  The last branch is not reached, `d.pick cells.length`
being below `cells.length`. -/
def addRandomTile (geo : Geometry) (g : HexGame) (d : HexDraw) : Bool × HexGame :=
  let cells := g.availableCells geo
  if cells.length = 0 then (false, g)
  else
    let value := (g.consumeNextValue d.small).1
    let g1 := (g.consumeNextValue d.small).2
    match cells[d.pick cells.length]? with
    | some key => (true, { g1 with grid := mapSet g1.grid key (some value) })
    | none => (false, g1)

/-- The method `reset()`. -/
def reset (geo : Geometry) (g : HexGame) (d1 d2 : HexDraw) : HexGame :=
  let g0 : HexGame :=
    { g with grid := geo.coordKeys.foldl (fun m key => mapSet m key none) [],
             score := 0, over := false, won := false, cachedValue := none, counted := false,
             moveCount := 0 }
  ((g0.addRandomTile geo d1).2.addRandomTile geo d2).2

/-- The method `movesAvailable()`. -/
def movesAvailable (geo : Geometry) (g : HexGame) : Bool :=
  if (g.availableCells geo).length ≠ 0 then true
  else
    geo.coords.any fun cell =>
      if falsy (mapGet g.grid (keyOf cell)) then false
      else
        neighbourDirs.any fun dir =>
          if mapHas g.grid (keyOf ⟨cell.q + dir.q, cell.r + dir.r⟩) then
            mapGet g.grid (keyOf ⟨cell.q + dir.q, cell.r + dir.r⟩) == mapGet g.grid (keyOf cell)
          else false

/-- The loop `for (let i = 0; i < compact.length; i += 1)` of `move`, from index `i` on, run
for at most `fuel` iterations (`i` grows at every iteration, so `compact.length` iterations
are enough). -/
def mergeLoop (compact : List Nat) : Nat → Nat → MergeAcc → MergeAcc
  | 0, _, st => st
  | fuel + 1, i, st =>
    match compact[i]? with
    | none => st
    | some a =>
      if compact[i + 1]? = some a then
        mergeLoop compact fuel (i + 1 + 1)
          { merged := st.merged ++ [some (a * 2)],
            gained := st.gained + a * 2,
            won := if 2048 ≤ a * 2 then true else st.won }
      else mergeLoop compact fuel (i + 1) { st with merged := st.merged ++ [some a] }

/-- The body of `lines.forEach` in `move`. -/
def moveLine (acc : HexAcc) (line : List HexKey) : HexAcc :=
  let oldValues := line.map fun key => mapGet acc.game.grid key
  let compact := oldValues.filterMap id
  let res := mergeLoop compact compact.length 0 ⟨[], acc.gained, acc.game.won⟩
  let merged := res.merged ++ List.replicate (line.length - res.merged.length) none
  (line.zip (oldValues.zip merged)).foldl
    (fun a entry =>
      { a with game := { a.game with grid := mapSet a.game.grid entry.1 entry.2.2 },
               moved := a.moved || decide (entry.2.1 ≠ entry.2.2) })
    { game := { acc.game with won := res.won }, moved := acc.moved, gained := res.gained }

/-- The sliding phase of `move`: the loop `lines.forEach`, up to `if (moved)`. -/
def slide (g : HexGame) (lines : List (List HexKey)) : HexAcc :=
  lines.foldl moveLine ⟨g, false, 0⟩

/-- The tail of `move` from `if (moved)` on. -/
def finishMove (geo : Geometry) (acc : HexAcc) (d : HexDraw) : HexGame :=
  if acc.moved then
    let g1 : HexGame := { acc.game with score := acc.game.score + acc.gained }
    let g2 := (g1.addRandomTile geo d).2
    let g3 : HexGame := { g2 with moveCount := g2.moveCount + 1 }
    if g3.movesAvailable geo then g3 else { g3 with over := true }
  else acc.game

/-- The method `move(direction)`: the returned object and the game after the call; `none`
when the call throws.  For a name inherited from `Object.prototype` the value `lines` is
truthy and has no method `forEach`, so `lines.forEach(...)` throws a `TypeError`, before
any field of the game is written. -/
def move (geo : Geometry) (g : HexGame) (direction : String) (d : HexDraw) :
    Option (MoveResult × HexGame) :=
  if g.over then some (⟨false, none, none, none, none⟩, g)
  else
    match geo.lines direction with
    | Lookup.absent => some (⟨false, none, none, none, none⟩, g)
    | Lookup.inherited => none
    | Lookup.own lines =>
      let acc := g.slide lines
      let g1 := finishMove geo acc d
      some (⟨acc.moved, some acc.gained, some g1.score, some g1.over, some g1.won⟩, g1)

end HexGame

/-! ## The line algorithm of the specification (section 4.3) -/

/-- Compaction: the tile values of a line in order, the empties dropped. -/
def compact (line : List (Option Nat)) : List Nat := line.filterMap id

/-- One merge pass over a compacted line: an adjacent equal pair becomes one tile of double
value and the partner is skipped. -/
def mergeRow : List Nat → List Nat
  | [] => []
  | [a] => [a]
  | a :: b :: rest => if a = b then (a * 2) :: mergeRow rest else a :: mergeRow (b :: rest)

/-- The doubled values that the merge pass creates, in order. -/
def mergeGains : List Nat → List Nat
  | [] => []
  | [_] => []
  | a :: b :: rest => if a = b then (a * 2) :: mergeGains rest else mergeGains (b :: rest)

/-- Padding of a merged line with empties up to length `n`. -/
def padLine (n : Nat) (tiles : List Nat) : List (Option Nat) :=
  tiles.map some ++ List.replicate (n - tiles.length) none

/-- A line after the move: compacted, merged, padded to length `n`. -/
def slideLine (n : Nat) (line : List (Option Nat)) : List (Option Nat) :=
  padLine n (mergeRow (compact line))

/-- The four directions of the square board. -/
inductive Direction where
  | up | down | left | right
  deriving DecidableEq, Repr

/-- The string that names a direction in the code. -/
def Direction.name : Direction → String
  | Direction.up => "up"
  | Direction.down => "down"
  | Direction.left => "left"
  | Direction.right => "right"

/-- The position `(row, col)` of the `i`-th cell of line `l`, the line being a row (left,
right) or a column (up, down) read from the edge the tiles move toward. -/
def lineCoord (d : Direction) (n l i : Nat) : Nat × Nat :=
  match d with
  | Direction.up => (i, l)
  | Direction.down => (n - 1 - i, l)
  | Direction.left => (l, i)
  | Direction.right => (l, n - 1 - i)

/-- The line through `(row, col)` and the index of `(row, col)` on it: the inverse of
`lineCoord`. -/
def lineIndex (d : Direction) (n row col : Nat) : Nat × Nat :=
  match d with
  | Direction.up => (col, row)
  | Direction.down => (col, n - 1 - row)
  | Direction.left => (row, col)
  | Direction.right => (row, n - 1 - col)

/-- The entry `(row, col)` of a grid of values (a missing entry reads as empty). -/
def valueAt (vals : List (List (Option Nat))) (row col : Nat) : Option Nat :=
  match vals[row]? with
  | some cells => (cells[col]?).join
  | none => none

/-- The values of line `l` of an `n × n` grid of values, in sweep order. -/
def readLine (d : Direction) (n : Nat) (vals : List (List (Option Nat))) (l : Nat) :
    List (Option Nat) :=
  (List.range n).map fun i => valueAt vals (lineCoord d n l i).1 (lineCoord d n l i).2

/-- The grid that the line algorithm produces from an `n × n` grid of values. -/
def lineAlgorithm (d : Direction) (n : Nat) (vals : List (List (Option Nat))) :
    List (List (Option Nat)) :=
  (List.range n).map fun row => (List.range n).map fun col =>
    ((slideLine n (readLine d n vals (lineIndex d n row col).1))[(lineIndex d n row col).2]?).join

/-- The doubled values the line algorithm creates, line by line. -/
def lineAlgorithmGains (d : Direction) (n : Nat) (vals : List (List (Option Nat))) :
    List Nat :=
  (List.range n).flatMap fun l => mergeGains (compact (readLine d n vals l))

/-- An `n × n` grid: `n` rows of `n` entries. -/
def GridWF (n : Nat) (grid : Grid) : Prop :=
  grid.length = n ∧ ∀ cells ∈ grid, cells.length = n

instance (n : Nat) (grid : Grid) : Decidable (GridWF n grid) := by
  unfold GridWF; exact inferInstance

/-! ## Auxiliary definitions used to state the theorems -/

/-- What `HexGame.move` returns and the game it leaves, for the calls that return: the
result of `move` when the game is over or `linesByDir[direction]` is absent or an own
entry (for an inherited name, where `move` throws, the game as it was).  The lemmas about
`move` are stated through it. -/
def HexGame.moveOwn (geo : Geometry) (g : HexGame) (direction : String) (d : HexDraw) :
    MoveResult × HexGame :=
  if g.over then (⟨false, none, none, none, none⟩, g)
  else
    match geo.lines direction with
    | Lookup.own lines =>
      let acc := g.slide lines
      let g1 := HexGame.finishMove geo acc d
      (⟨acc.moved, some acc.gained, some g1.score, some g1.over, some g1.won⟩, g1)
    | _ => (⟨false, none, none, none, none⟩, g)

/-- The values returned by `n` calls of `peekNextValue()` in a row, and the game after
them. -/
def Game2048.peekMany : Nat → Game2048 → List Nat × Game2048
  | 0, g => ([], g)
  | n + 1, g =>
    (g.peekNextValue.1 :: (peekMany n g.peekNextValue.2).1, (peekMany n g.peekNextValue.2).2)

/-- The cached next value is absent, 2 or 4, as in every game built by the constructor and
changed by the methods of the class. -/
def Game2048.CachedOk (g : Game2048) : Prop :=
  g.cachedValue = none ∨ g.cachedValue = some 2 ∨ g.cachedValue = some 4

/-- The state of a line while `Game2048.move` walks it from the edge the tiles move toward:
`closed` are the tiles placed that can no longer merge, `pending` is the last tile placed when
it has not merged yet, `seen` counts the cells walked, `gains` are the doubled values
created and `mv` tells whether a tile merged or changed its cell. -/
structure LineAcc where
  closed : List Nat
  pending : Option Nat
  seen : Nat
  gains : List Nat
  mv : Bool
  deriving DecidableEq, Repr

/-- The tiles placed so far, in order. -/
def LineAcc.tiles (st : LineAcc) : List Nat := st.closed ++ st.pending.toList

/-- The effect of walking one more cell, holding `x`, on the state of the line. -/
def absorb (st : LineAcc) (x : Option Nat) : LineAcc :=
  match x with
  | none => { st with seen := st.seen + 1 }
  | some v =>
    if st.pending = some v then
      { closed := st.closed ++ [v * 2], pending := none, seen := st.seen + 1,
        gains := st.gains ++ [v * 2], mv := true }
    else
      { closed := st.tiles, pending := some v, seen := st.seen + 1,
        gains := st.gains, mv := st.mv || decide (st.tiles.length ≠ st.seen) }

/-- The state of a line of values `vals` after its first `i` cells were walked. -/
def lineAfter (vals : List (Option Nat)) (i : Nat) : LineAcc :=
  (vals.take i).foldl absorb ⟨[], none, 0, [], false⟩

/-- The direction vector that `getVector` returns for a direction. -/
def Direction.vector : Direction → Cell
  | Direction.up => ⟨-1, 0⟩
  | Direction.down => ⟨1, 0⟩
  | Direction.left => ⟨0, -1⟩
  | Direction.right => ⟨0, 1⟩

/-- The cell object of a position `(row, col)`. -/
def cellOf (p : Nat × Nat) : Cell := ⟨(p.1 : Int), (p.2 : Int)⟩

/-- The content of the `i`-th cell of line `l` of a grid. -/
def tileAt (d : Direction) (n : Nat) (grid : Grid) (l i : Nat) : Option Tile :=
  gridAt grid (lineCoord d n l i).1 (lineCoord d n l i).2

/-- The values of line `l` of a grid, in sweep order. -/
def lineValues (d : Direction) (n : Nat) (grid : Grid) (l : Nat) : List (Option Nat) :=
  (List.range n).map fun i => (tileAt d n grid l i).map Tile.value

/-- The relation between line `l` of the grid `cur`, reached when `move` has walked the
first `i` cells of the line, and the same line of the grid `orig` the walk started from. -/
structure LineInv (d : Direction) (n : Nat) (orig cur : Grid) (l i : Nat) : Prop where
  placed : ∀ j, j < (lineAfter (lineValues d n orig l) i).tiles.length →
    (tileAt d n cur l j).map Tile.value = (lineAfter (lineValues d n orig l) i).tiles[j]?
  isClosed : (lineAfter (lineValues d n orig l) i).pending = none →
    ∀ t, tileAt d n cur l ((lineAfter (lineValues d n orig l) i).tiles.length - 1) = some t →
      1 ≤ (lineAfter (lineValues d n orig l) i).tiles.length → t.merged = true
  isOpen : ∀ v, (lineAfter (lineValues d n orig l) i).pending = some v →
    ∃ t, tileAt d n cur l ((lineAfter (lineValues d n orig l) i).tiles.length - 1) = some t ∧
      t.merged = false
  gap : ∀ j, (lineAfter (lineValues d n orig l) i).tiles.length ≤ j → j < i →
    tileAt d n cur l j = none
  rest : ∀ j, i ≤ j → j < n → tileAt d n cur l j = tileAt d n orig l j

/-- The relation between the variables of `move` and the game `g0` the loops started from,
when the first `prog l` cells of every line `l` have been walked. -/
structure SlideInv (d : Direction) (g0 : Game2048) (prog : Nat → Nat)
    (acc : Game2048.MoveAcc) : Prop where
  wf : GridWF g0.size acc.game.grid
  lines : ∀ l, l < g0.size → LineInv d g0.size g0.grid acc.game.grid l (prog l)
  bound : ∀ l, l < g0.size → prog l ≤ g0.size
  gained : acc.gained = Finset.sum (Finset.range g0.size) fun l =>
    (lineAfter (lineValues d g0.size g0.grid l) (prog l)).gains.sum
  score : acc.game.score = g0.score + acc.gained
  won : acc.game.won = true ↔ (g0.won = true ∨ ∃ l, l < g0.size ∧
    ∃ x ∈ (lineAfter (lineValues d g0.size g0.grid l) (prog l)).gains, 2048 ≤ x)
  moved : acc.moved = true ↔ ∃ l, l < g0.size ∧
    (lineAfter (lineValues d g0.size g0.grid l) (prog l)).mv = true
  frame : acc.game.size = g0.size ∧ acc.game.seed = g0.seed ∧ acc.game.rng = g0.rng ∧
    acc.game.over = g0.over ∧ acc.game.cachedValue = g0.cachedValue ∧
    acc.game.counted = g0.counted

/-- What one execution of the body of the inner loop of `move`, at the `i`-th cell of line
`l`, does to the variables `acc` of `move`, giving `acc2`: `gains` are the doubled values it
creates and `b` tells whether it merges or moves a tile. -/
structure CellStep (d : Direction) (orig : Grid) (acc acc2 : Game2048.MoveAcc) (l i : Nat)
    (gains : List Nat) (b : Bool) : Prop where
  wf : GridWF acc.game.size acc2.game.grid
  line : LineInv d acc.game.size orig acc2.game.grid l (i + 1)
  others : ∀ l2 j, l2 ≠ l → j < acc.game.size →
    tileAt d acc.game.size acc2.game.grid l2 j = tileAt d acc.game.size acc.game.grid l2 j
  gainsEq : (lineAfter (lineValues d acc.game.size orig l) (i + 1)).gains =
    (lineAfter (lineValues d acc.game.size orig l) i).gains ++ gains
  mvEq : (lineAfter (lineValues d acc.game.size orig l) (i + 1)).mv =
    ((lineAfter (lineValues d acc.game.size orig l) i).mv || b)
  gained : acc2.gained = acc.gained + gains.sum
  score : acc2.game.score = acc.game.score + gains.sum
  won : acc2.game.won = true ↔ acc.game.won = true ∨ ∃ x ∈ gains, 2048 ≤ x
  moved : acc2.moved = (acc.moved || b)
  frame : acc2.game.size = acc.game.size ∧ acc2.game.seed = acc.game.seed ∧
    acc2.game.rng = acc.game.rng ∧ acc2.game.over = acc.game.over ∧
    acc2.game.cachedValue = acc.game.cachedValue ∧ acc2.game.counted = acc.game.counted

/-- The line and the index on it of the cell that the loops of `move` visit at the `k`-th
iteration of the outer loop and the `j`-th iteration of the inner loop. -/
def sched (d : Direction) (k j : Nat) : Nat × Nat :=
  match d with
  | Direction.up => (j, k)
  | Direction.down => (j, k)
  | Direction.left => (k, j)
  | Direction.right => (k, j)

/-- The number of cells of line `l` that the loops of `move` have walked when the outer
loop is at its `k`-th iteration and the inner loop at its `j`-th. -/
def progress (d : Direction) (n k j : Nat) (l : Nat) : Nat :=
  match d with
  | Direction.up => if l < j then k + 1 else k
  | Direction.down => if l < j then k + 1 else k
  | Direction.left => if l < k then n else if l = k then j else 0
  | Direction.right => if l < k then n else if l = k then j else 0

/-- A 2 × 2 game used to instantiate the theorems: the grid `[[2, 2], [empty, 4]]`. -/
def sampleGame : Game2048 :=
  { size := 2, seed := Seed.num 1, rng := ⟨1⟩,
    grid := [[some ⟨2, 0, 0, false⟩, some ⟨2, 0, 1, false⟩], [none, some ⟨4, 1, 1, false⟩]],
    score := 0, over := false, won := false, cachedValue := none, counted := false }

/-- No cell of the `n × n` board is empty. -/
def NoEmptyCell (n : Nat) (grid : Grid) : Prop :=
  ∀ r c, r < n → c < n → gridAt grid r c ≠ none

/-- The 4-neighbour relation of the square board: the cells differ by one step up, down,
left or right. -/
def Adjacent4 (r c r2 c2 : Nat) : Prop :=
  (r = r2 ∧ (c + 1 = c2 ∨ c2 + 1 = c)) ∨ (c = c2 ∧ (r + 1 = r2 ∨ r2 + 1 = r))

/-- No two adjacent cells of the `n × n` board hold tiles of equal value. -/
def NoAdjacentEqual (n : Nat) (grid : Grid) : Prop :=
  ∀ r c r2 c2, r < n → c < n → r2 < n → c2 < n → Adjacent4 r c r2 c2 →
    ∀ t t2, gridAt grid r c = some t → gridAt grid r2 c2 = some t2 → t.value ≠ t2.value

/-- The tile values of a grid, row by row. -/
def tileValues (grid : Grid) : List Nat := (gridValues grid).flatMap compact

/-- The multiset holding the value of a cell, empty for an empty cell. -/
def cellMultiset (x : Option Nat) : Multiset Nat := (x.toList : Multiset Nat)

/-- The doubled values that a move creates on the lines `lines` of a hexagonal grid. -/
def hexGains (lines : List (List HexKey)) (grid : HexGrid) : List Nat :=
  lines.flatMap fun line => mergeGains (compact (line.map fun key => mapGet grid key))

/-- The grid has exactly one entry for every cell of the geometry, in the order of
`coordKeys` (as `reset` and `loadSnapshot` build it). -/
def HexWF (geo : Geometry) (g : HexGame) : Prop :=
  g.grid.map Prod.fst = geo.coordKeys

instance (geo : Geometry) (g : HexGame) : Decidable (HexWF geo g) := by
  unfold HexWF; exact inferInstance

/-- The tile values of a hexagonal grid, in the order of its entries. -/
def hexTileValues (grid : HexGrid) : List Nat := grid.filterMap fun entry => entry.2

/-- The entry of `definitions` for a direction. -/
def HexDirection.lineDef : HexDirection → LineDef
  | HexDirection.e => ⟨Axis.r, fun a b => b.q - a.q⟩
  | HexDirection.w => ⟨Axis.r, fun a b => a.q - b.q⟩
  | HexDirection.ne => ⟨Axis.s, fun a b => b.q - a.q⟩
  | HexDirection.sw => ⟨Axis.s, fun a b => a.q - b.q⟩
  | HexDirection.nw => ⟨Axis.q, fun a b => a.r - b.r⟩
  | HexDirection.se => ⟨Axis.q, fun a b => b.r - a.r⟩

/-- The line algorithm changes the values that a hexagonal grid holds on a line. -/
def lineChanged (grid : HexGrid) (line : List HexKey) : Bool :=
  decide (slideLine line.length (line.map fun key => mapGet grid key) ≠
    line.map fun key => mapGet grid key)

/-- The game of `HexGame.move` after a move that moved a tile, right before the end-of-game
test: the score added, the tile spawned, the move counted. -/
def hexSpawned (geo : Geometry) (acc : HexAcc) (d : HexDraw) : HexGame :=
  { (HexGame.addRandomTile geo { acc.game with score := acc.game.score + acc.gained } d).2 with
    moveCount :=
      (HexGame.addRandomTile geo { acc.game with score := acc.game.score + acc.gained } d).2.moveCount
        + 1 }

/-- The cached next value of a hexagonal game is absent, 2 or 4. -/
def HexCachedOk (g : HexGame) : Prop :=
  g.cachedValue = none ∨ g.cachedValue = some 2 ∨ g.cachedValue = some 4

/-- Every tile of the hexagonal grid holds a positive value (the data model has tiles of
value at least 2; `loadSnapshot` stores the number 0 as an empty cell). -/
def HexPositive (grid : HexGrid) : Prop :=
  ∀ k v, mapGet grid k = some v → v ≠ 0

/-- The 6-neighbour relation of the axial coordinates: `b` is `a` moved by one of the six
`neighbourDirs`. -/
def HexAdjacent (a b : Hex) : Prop :=
  ∃ dir ∈ neighbourDirs, b = ⟨a.q + dir.q, a.r + dir.r⟩

/-- No cell of the geometry is empty. -/
def HexNoEmptyCell (geo : Geometry) (grid : HexGrid) : Prop :=
  ∀ cell ∈ geo.coords, mapGet grid (keyOf cell) ≠ none

/-- No two adjacent cells of the geometry hold tiles of equal value. -/
def HexNoAdjacentEqual (geo : Geometry) (grid : HexGrid) : Prop :=
  ∀ a ∈ geo.coords, ∀ b ∈ geo.coords, HexAdjacent a b →
    ∀ v, mapGet grid (keyOf a) = some v → mapGet grid (keyOf b) ≠ some v

/-- A radius-1 hexagonal game used to instantiate the theorems: the row `r = 0` holds
`2, 2, empty` from `q = -1` to `q = 1`, the other four cells hold 8, 16, 32, 64. -/
def sampleHex : HexGame :=
  { grid := [((0, -1), some 8), ((1, -1), some 16), ((-1, 0), some 2), ((0, 0), some 2),
             ((1, 0), none), ((-1, 1), some 32), ((0, 1), some 64)],
    score := 0, over := false, won := false, cachedValue := none, counted := false,
    moveCount := 0 }

/-- A draw used to instantiate the theorems: the value 2, the first empty cell. -/
def sampleDraw : HexDraw :=
  { small := true, pick := fun _ => 0, pick_lt := fun _ h => h }

/-- The results and games of a sequence of moves, one after the other, from game `g`: the
list of what each call of `move` returns together with the game after it (`none` when a
call runs out of fuel). -/
def Game2048.playMoves : Game2048 → List String → List (Option (MoveResult × Game2048))
  | _, [] => []
  | g, direction :: rest =>
    match g.move direction with
    | none => [none]
    | some res => some res :: playMoves res.2 rest

/-! ## Snapshots of the square game -/

/-- The object that `snapshot()` returns and `loadSnapshot` reads.  A property that the
object lacks (or holds as `undefined`) is `none`; the grid is an array of rows of numbers,
0 for an empty cell, and a row or a cell beyond the end of its array reads `undefined`. -/
structure Snapshot where
  size : Nat
  seed : Seed
  rngSeed : Option Int
  cachedValue : Option Nat
  score : Option Nat
  grid : Option (List (List Nat))
  over : Option Bool
  won : Option Bool
  counted : Option Bool
  deriving DecidableEq, Repr

/-- The method `snapshot()`. -/
def Game2048.snapshot (g : Game2048) : Snapshot :=
  { size := g.size, seed := g.seed, rngSeed := some g.rng.seed, cachedValue := g.cachedValue,
    score := some g.score,
    grid := some (g.grid.map fun cells => cells.map fun t =>
      match t with
      | some tile => tile.value
      | none => 0),
    over := some g.over, won := some g.won, counted := some g.counted }

/-- The read `snapshot.grid[r][c]` of `loadSnapshot`: `none` when it throws a `TypeError`
(the grid, or its row `r`, is `undefined`), `some none` when it gives `undefined`. -/
def Snapshot.cell (s : Snapshot) (r c : Nat) : Option (Option Nat) :=
  match s.grid with
  | none => none
  | some cells =>
    match cells[r]? with
    | none => none
    | some entries => some entries[c]?

/-- The fields of a game after `loadSnapshot`: `score`, `over` and `won` are whatever the
snapshot held, `undefined` (`none`) included. -/
structure LoadedGame where
  size : Nat
  seed : Seed
  rng : SeededRandom
  grid : Grid
  score : Option Nat
  over : Option Bool
  won : Option Bool
  cachedValue : Option Nat
  counted : Bool
  deriving DecidableEq, Repr

/-- The body of the inner loop of `loadSnapshot` at the cell `(r, c)`: `none` when the read
of the snapshot throws. -/
def Snapshot.loadCell (s : Snapshot) (grid : Grid) (r c : Nat) : Option Grid :=
  (s.cell r c).map fun val =>
    match val with
    | some v => if v ≠ 0 then gridSet grid r c (some ⟨v, (r : Int), (c : Int), false⟩) else grid
    | none => grid

/-- The method `loadSnapshot(snapshot)`: the fields of the game after the call, or `none`
when the call throws.  Every field of the receiver is assigned before it is read, so the
receiver is not an argument. -/
def Game2048.loadSnapshot (s : Snapshot) : Option LoadedGame :=
  let rng : SeededRandom :=
    match s.rngSeed with
    | some v => SeededRandom.new (Seed.num v)
    | none => SeededRandom.new s.seed
  let grid0 : Grid := List.replicate s.size (List.replicate s.size none)
  ((List.range s.size).foldlM (fun grid r =>
      (List.range s.size).foldlM (fun grid c => s.loadCell grid r c) grid) grid0).map
    fun grid =>
      { size := s.size, seed := s.seed, rng := rng, grid := grid, score := s.score,
        over := s.over, won := s.won, cachedValue := s.cachedValue,
        counted := s.counted.getD false }

/-- The game that the fields of a loaded game make up, when `score`, `over` and `won` are
defined. -/
def LoadedGame.toGame (l : LoadedGame) : Option Game2048 :=
  match l.score, l.over, l.won with
  | some score, some over, some won =>
    some { size := l.size, seed := l.seed, rng := l.rng, grid := l.grid, score := score,
           over := over, won := won, cachedValue := l.cachedValue, counted := l.counted }
  | _, _, _ => none

/-- Every tile of the grid records the cell it sits in and holds a non-zero value. -/
def TilesOk (grid : Grid) : Prop :=
  ∀ r c t, gridAt grid r c = some t → t.row = (r : Int) ∧ t.col = (c : Int) ∧ t.value ≠ 0

/-- The games reachable from the constructor: by moves, by `peekNextValue()` (the page
calls it after every move to show the next tile) and by the assignment
`game.counted = true` of `handleMove`. -/
inductive Game2048.Reachable : Game2048 → Prop
  | construct (size : Nat) (seed : Option Seed) (drawn : List Nat) :
      Reachable (Game2048.new size seed drawn)
  | move (g : Game2048) (direction : String) (res : MoveResult × Game2048) :
      Reachable g → g.move direction = some res → Reachable res.2
  | peek (g : Game2048) : Reachable g → Reachable g.peekNextValue.2
  | count (g : Game2048) : Reachable g → Reachable { g with counted := true }

/-- What a move shows of a game: the returned object and the values of the grid. -/
def Game2048.observe (x : Option (MoveResult × Game2048)) :
    Option (MoveResult × List (List (Option Nat))) :=
  x.map fun res => (res.1, gridValues res.2.grid)

/-- The invariant of the reachable games: an `n × n` grid whose tiles record their cell and
hold non-zero values, and a cached next value that is absent, 2 or 4. -/
def Game2048.Inv (g : Game2048) : Prop :=
  GridWF g.size g.grid ∧ TilesOk g.grid ∧ Game2048.CachedOk g

/-! ## The page of the square game: history and statistics -/

/-- The object `stats` of `main.js`. -/
structure Stats where
  gamesPlayed : Nat
  bestScore : Nat
  bestTile : Nat
  streak : Nat
  maxStreak : Nat
  deriving DecidableEq, Repr

/-- The module variables `game`, `historyStack` and `stats` of `main.js`, and the setting
`settings.assist`; the page itself (DOM, sounds, storage) is left out. -/
structure App where
  game : Game2048
  historyStack : List Snapshot
  stats : Stats
  assist : Bool
  deriving DecidableEq, Repr

/-- The function `currentMaxTile()`. -/
def currentMaxTile (g : Game2048) : Nat :=
  (List.range g.size).foldl (fun best r =>
    (List.range g.size).foldl (fun best c =>
      match gridAt g.grid r c with
      | some tile => max best tile.value
      | none => best) best) 0

/-- The two statements `historyStack.push(before); if (historyStack.length > 5)
historyStack.shift();` of `handleMove`. -/
def pushHistory (history : List Snapshot) (before : Snapshot) : List Snapshot :=
  if 5 < (history ++ [before]).length then (history ++ [before]).tail else history ++ [before]

/-- The function `updateNextTile()`: with `settings.assist` it calls `peekNextValue()`. -/
def App.updateNextTile (app : App) : App :=
  if app.assist then { app with game := app.game.peekNextValue.2 } else app

/-- The function `updateScoreboard()`. -/
def App.updateScoreboard (app : App) : App :=
  { app with stats := { app.stats with bestScore := max app.stats.bestScore app.game.score } }

/-- The block `if (result.won && !game.counted) { ... }` of `handleMove`. -/
def App.countWon (app : App) (result : MoveResult) (maxTile : Nat) : App :=
  if result.won = some true ∧ app.game.counted = false then
    { app with
        game := { app.game with counted := true },
        stats := { app.stats with
                     gamesPlayed := app.stats.gamesPlayed + 1,
                     streak := app.stats.streak + 1,
                     maxStreak := max app.stats.maxStreak (app.stats.streak + 1),
                     bestTile := max app.stats.bestTile maxTile } }
  else app

/-- The block `if (result.over && !game.counted) { ... }` of `handleMove`. -/
def App.countOver (app : App) (result : MoveResult) : App :=
  if result.over = some true ∧ app.game.counted = false then
    { app with
        game := { app.game with counted := true },
        stats := { app.stats with gamesPlayed := app.stats.gamesPlayed + 1, streak := 0 } }
  else app

/-- The function `handleMove(dir)`; `none` when `move` ran out of fuel. -/
def App.handleMove (app : App) (dir : String) : Option App :=
  let before := app.game.snapshot
  (app.game.move dir).map fun res =>
    if res.1.moved = false then { app with game := res.2 }
    else
      let app1 : App := { app with game := res.2, historyStack := pushHistory app.historyStack before }
      let maxTile := currentMaxTile app1.game
      let app2 : App :=
        { app1 with stats := { app1.stats with bestTile := max app1.stats.bestTile maxTile } }
      let app3 := app2.updateScoreboard.updateNextTile
      (app3.countWon res.1 maxTile).countOver res.1

/-- The function `undoMove()`; `none` when `loadSnapshot` throws or leaves a field
undefined (the snapshots of the history come from `snapshot()`, which defines them
all). -/
def App.undoMove (app : App) : Option App :=
  match app.historyStack.getLast? with
  | none => some app
  | some prev =>
    ((Game2048.loadSnapshot prev).bind LoadedGame.toGame).map fun g =>
      ({ app with game := g, historyStack := app.historyStack.dropLast } : App).updateScoreboard.updateNextTile

/-- A sequence of calls of `handleMove`. -/
def App.handleMoves : App → List String → Option App
  | app, [] => some app
  | app, dir :: rest =>
    match app.handleMove dir with
    | none => none
    | some app2 => handleMoves app2 rest

/-- The snapshots taken right before the calls of `handleMove`, in a sequence of calls,
whose move returned `moved = true`, in the order of the calls. -/
def App.movingSnapshots : App → List String → List Snapshot
  | _, [] => []
  | app, dir :: rest =>
    match app.game.move dir, app.handleMove dir with
    | some res, some app2 =>
      (if res.1.moved then [app.game.snapshot] else []) ++ movingSnapshots app2 rest
    | _, _ => []

/-- The last `n` entries of a list. -/
def lastN {α : Type} (n : Nat) (xs : List α) : List α := xs.drop (xs.length - n)

/-- A page used to instantiate the theorems: a 4 × 4 game whose first row holds two tiles of
value 1024 side by side, no history, no game counted yet. -/
def winningApp : App :=
  { game :=
      { size := 4, seed := Seed.str [97], rng := ⟨1⟩,
        grid := [[some ⟨1024, 0, 0, false⟩, some ⟨1024, 0, 1, false⟩, none, none],
                 [none, none, none, none], [none, none, none, none],
                 [none, none, none, some ⟨2, 3, 3, false⟩]],
        score := 20000, over := false, won := false, cachedValue := none, counted := false },
    historyStack := [],
    stats := ⟨0, 0, 0, 0, 0⟩,
    assist := true }

/-- A page used to instantiate the theorems: a new 2 × 2 game with the seed 7, no
history. -/
def sampleApp : App :=
  { game := Game2048.new 2 (some (Seed.num 7)) [], historyStack := [],
    stats := ⟨0, 0, 0, 0, 0⟩, assist := true }

/-! ## The falling-piece game of `tetris.js`

The module variables `grid`, `stats`, `current`, `next`, `score`, `linesCleared`, `paused`
and `over` are the fields of one record; the page (DOM, timer, storage) is left out.  The
two calls of `Math.random()` in `createPiece` are an input of the functions that reach
it. -/

namespace Tetris

/-- The constant `rows`. -/
def rows : Nat := 16

/-- The constant `cols`. -/
def cols : Nat := 10

/-- The call `Math.min(...xs)` on a non-empty array. -/
def listMin : List Int → Int
  | [] => 0
  | a :: rest => rest.foldl min a

/-- The call `Math.max(...xs)` on a non-empty array. -/
def listMax : List Int → Int
  | [] => 0
  | a :: rest => rest.foldl max a

/-- The function `rotateCells(cells)`; a cell is the pair `[x, y]`. -/
def rotateCells (cells : List (Int × Int)) : List (Int × Int) :=
  let rotated := cells.map fun p => (p.2, -p.1)
  let minX := listMin (rotated.map fun p => p.1)
  let minY := listMin (rotated.map fun p => p.2)
  rotated.map fun p => (p.1 - minX, p.2 - minY)

/-- The function `buildRotations(cells)`: the loop `for (let i = 1; i < 4; i += 1)`
unrolled. -/
def buildRotations (cells : List (Int × Int)) : List (List (Int × Int)) :=
  let r0 := cells
  let r1 := rotateCells r0
  let r2 := rotateCells r1
  let r3 := rotateCells r2
  [r0, r1, r2, r3]

/-- An entry of `shapes`. -/
structure Shape where
  name : String
  cells : List (Int × Int)
  rotations : List (List (Int × Int))
  deriving DecidableEq, Repr

/-- The constant `shapes`. -/
def shapes : List Shape :=
  [("I", [(0, 1), (1, 1), (2, 1), (3, 1)]),
   ("J", [(0, 0), (0, 1), (1, 1), (2, 1)]),
   ("L", [(2, 0), (0, 1), (1, 1), (2, 1)]),
   ("O", [(1, 0), (2, 0), (1, 1), (2, 1)]),
   ("S", [(1, 0), (2, 0), (0, 1), (1, 1)]),
   ("T", [(1, 0), (0, 1), (1, 1), (2, 1)]),
   ("Z", [(0, 0), (1, 0), (1, 1), (2, 1)])].map
    fun (entry : String × List (Int × Int)) =>
      ({ name := entry.1, cells := entry.2, rotations := buildRotations entry.2 } : Shape)

/-- A piece: the object that `createPiece` returns. -/
structure Piece where
  shapeIndex : Nat
  rotation : Nat
  row : Int
  col : Int
  value : Nat
  deriving DecidableEq, Repr

/-- A cell `{ r, c }` of a piece on the board. -/
structure Pos where
  r : Int
  c : Int
  deriving DecidableEq, Repr

/-- The lookup `shapes[shapeIndex].rotations[rotation]`.  Outside `shapes` or outside the
four rotations the code throws; the embedding reads no cells there, and the theorems are
about pieces with `shapeIndex < 7` and rotations below 4. -/
def shapeCells (shapeIndex rotation : Nat) : List (Int × Int) :=
  match shapes[shapeIndex]? with
  | some shape => (shape.rotations[rotation]?).getD []
  | none => []

/-- The function `pieceCells(piece, rotation)`. -/
def pieceCells (piece : Piece) (rotation : Nat) : List Pos :=
  (shapeCells piece.shapeIndex rotation).map fun p =>
    ({ r := piece.row + p.2, c := piece.col + p.1 } : Pos)

/-- The function `pieceWidth(piece, rotation)`. -/
def pieceWidth (piece : Piece) (rotation : Nat) : Int :=
  listMax ((shapeCells piece.shapeIndex rotation).map fun p => p.1) + 1

/-- The field `grid`: 16 rows of 10 cells, each `null` (`none`) or a number. -/
abbrev Board := List (List (Option Nat))

/-- The read `grid[r][c]` (a missing entry reads as empty). -/
def cellAt (grid : Board) (r c : Nat) : Option Nat :=
  match grid[r]? with
  | some cells => (cells[c]?).join
  | none => none

/-- The write `grid[r][c] = x`. -/
def cellSet (grid : Board) (r c : Nat) (x : Option Nat) : Board :=
  match grid[r]? with
  | some cells => grid.set r (cells.set c x)
  | none => grid

/-- The function `createEmptyGrid()`. -/
def createEmptyGrid : Board := List.replicate rows (List.replicate cols none)

/-- The function `canPlace(piece, rowOffset, colOffset, rotation)` on the grid `grid`. -/
def canPlace (grid : Board) (piece : Piece) (rowOffset colOffset : Int) (rotation : Nat) :
    Bool :=
  let testPiece : Piece :=
    { piece with row := piece.row + rowOffset, col := piece.col + colOffset }
  (pieceCells testPiece rotation).all fun cell =>
    decide (0 ≤ cell.r) && decide (cell.r < (rows : Int)) && decide (0 ≤ cell.c) &&
      decide (cell.c < (cols : Int)) && falsy (cellAt grid cell.r.toNat cell.c.toNat)

end Tetris

namespace Tetris

/-- The object `stats` of `tetris.js`. -/
structure Stats where
  gamesPlayed : Nat
  bestScore : Nat
  bestTile : Nat
  deriving DecidableEq, Repr

/-- The module variables of `tetris.js` that make up the game. -/
structure Game where
  grid : Board
  stats : Stats
  current : Option Piece
  next : Option Piece
  score : Nat
  linesCleared : Nat
  paused : Bool
  over : Bool
  deriving DecidableEq, Repr

/-- What one call of `createPiece` draws: `Math.floor(Math.random() * shapes.length)`, an
index of `shapes`, and whether `Math.random() < 0.9`. -/
structure PieceDraw where
  shape : Nat
  small : Bool
  shape_lt : shape < 7

/-- What one call of `spawnPiece` draws: the piece of `next || createPiece()`, used when
`next` is `null`, and the piece of `next = createPiece()`. -/
structure SpawnDraw where
  fallback : PieceDraw
  upcoming : PieceDraw

/-- The function `createPiece()`. -/
def createPiece (d : PieceDraw) : Piece :=
  { shapeIndex := d.shape, rotation := 0, row := 0, col := 0,
    value := if d.small then 2 else 4 }

/-- The function `handleGameOver()`. -/
def handleGameOver (s : Game) : Game :=
  { s with over := true, stats := { s.stats with gamesPlayed := s.stats.gamesPlayed + 1 } }

/-- The function `spawnPiece()`. -/
def spawnPiece (s : Game) (d : SpawnDraw) : Game :=
  let current0 : Piece :=
    match s.next with
    | some piece => piece
    | none => createPiece d.fallback
  let current1 : Piece := { current0 with rotation := 0, row := 0 }
  let current2 : Piece :=
    { current1 with col := Int.fdiv ((cols : Int) - pieceWidth current1 current1.rotation) 2 }
  let s1 : Game := { s with current := some current2, next := some (createPiece d.upcoming) }
  if canPlace s1.grid current2 0 0 current2.rotation then s1 else handleGameOver s1

/-- The function `placePiece(piece)` on a grid.  A cell above or left of the well is not
written (the code throws on one above, and sets no array element on one to the left); the
theorems are about pieces inside the well. -/
def placePiece (grid : Board) (piece : Piece) : Board :=
  (pieceCells piece piece.rotation).foldl (fun g cell =>
    if 0 ≤ cell.r ∧ 0 ≤ cell.c then cellSet g cell.r.toNat cell.c.toNat (some piece.value)
    else g) grid

/-- The loop `for (let r = rows - 1; r >= 0; r -= 1)` of `applyMergeAndGravity` that
collects the values of column `c`, bottom row first. -/
def columnValues (grid : Board) (c : Nat) : List Nat :=
  (List.range rows).reverse.filterMap fun r =>
    match cellAt grid r c with
    | some v => if v = 0 then none else some v
    | none => none

/-- The loop `for (let i = 0; i < values.length; i += 1)` of `applyMergeAndGravity` on the
values from index `i` on: the pair of `merged` and `gained`. -/
def mergeValues : List Nat → List Nat × Nat → List Nat × Nat
  | [], st => st
  | [a], st => (st.1 ++ [a], st.2)
  | a :: b :: rest, st =>
    if a = b then mergeValues rest (st.1 ++ [a * 2], st.2 + a * 2)
    else mergeValues (b :: rest) (st.1 ++ [a], st.2)

/-- The loop `for (let r = rows - 1, idx = 0; r >= 0; r -= 1, idx += 1)` of
`applyMergeAndGravity` that writes column `c` back. -/
def writeColumn (grid : Board) (c : Nat) (merged : List Nat) : Board :=
  (List.range rows).foldl (fun g idx =>
    cellSet g (rows - 1 - idx) c
      (match merged[idx]? with
       | some v => if v = 0 then none else some v
       | none => none)) grid

/-- The function `applyMergeAndGravity()`. -/
def applyMergeAndGravity (s : Game) : Game :=
  let res := (List.range cols).foldl (fun (acc : Board × Nat) c =>
    let merged := mergeValues (columnValues acc.1 c) ([], acc.2)
    (writeColumn acc.1 c merged.1, merged.2)) (s.grid, 0)
  { s with grid := res.1, score := s.score + res.2 }

/-- The loop `for (let r = rows - 1; r >= 0; r -= 1)` of `clearLines`, run for at most
`fuel` iterations; the second argument is the number of rows still to test, `r + 1` at
the head of an iteration, 0 at loop exit.  The result is the grid and `cleared` at loop
exit; `none` when the fuel runs out first, or when the grid has no row `r` (the code
throws). -/
def clearLoop : Nat → Nat → Board → Nat → Option (Board × Nat)
  | 0, _, _, _ => none
  | _ + 1, 0, grid, cleared => some (grid, cleared)
  | fuel + 1, r + 1, grid, cleared =>
    match grid[r]? with
    | none => none
    | some cells =>
      if cells.all (fun value => !falsy value) then
        clearLoop fuel (r + 1) (List.replicate cols none :: grid.eraseIdx r) (cleared + 1)
      else clearLoop fuel r grid cleared

/-- The function `clearLines()`. -/
def clearLines (s : Game) : Option Game :=
  (clearLoop (2 * rows + 1) rows s.grid 0).map fun res =>
    if res.2 ≠ 0 then
      { s with grid := res.1, linesCleared := s.linesCleared + res.2,
               score := s.score + res.2 * 100 }
    else { s with grid := res.1 }

/-- The function `currentMaxTile()`. -/
def currentMaxTile (grid : Board) : Nat :=
  (List.range rows).foldl (fun best r =>
    (List.range cols).foldl (fun best c =>
      match cellAt grid r c with
      | some v => max best v
      | none => best) best) 0

/-- The function `updateBestStats()`. -/
def updateBestStats (s : Game) : Game :=
  { s with stats := { s.stats with bestScore := max s.stats.bestScore s.score,
                                   bestTile := max s.stats.bestTile (currentMaxTile s.grid) } }

/-- The function `lockPiece()`; `none` when `clearLines` does not return. -/
def lockPiece (s : Game) (d : SpawnDraw) : Option Game :=
  match s.current with
  | none => some s
  | some piece =>
    let s1 : Game := { s with grid := placePiece s.grid piece }
    (clearLines (applyMergeAndGravity s1)).map fun s3 => spawnPiece (updateBestStats s3) d

/-- The function `movePiece(rowOffset, colOffset)`. -/
def movePiece (s : Game) (rowOffset colOffset : Int) (d : SpawnDraw) : Option Game :=
  match s.current with
  | none => some s
  | some piece =>
    if s.over || s.paused then some s
    else if canPlace s.grid piece rowOffset colOffset piece.rotation then
      some { s with current := some { piece with row := piece.row + rowOffset,
                                                 col := piece.col + colOffset } }
    else if rowOffset = 1 ∧ colOffset = 0 then lockPiece s d
    else some s

/-- The function `rotatePiece()`. -/
def rotatePiece (s : Game) : Game :=
  match s.current with
  | none => s
  | some piece =>
    if s.over || s.paused then s
    else
      let nextRotation := (piece.rotation + 1) % 4
      if canPlace s.grid piece 0 0 nextRotation then
        { s with current := some { piece with rotation := nextRotation } }
      else
        match ([-1, 1, -2, 2] : List Int).find? fun offset =>
            canPlace s.grid piece 0 offset nextRotation with
        | some offset =>
          { s with current := some { piece with rotation := nextRotation,
                                                col := piece.col + offset } }
        | none => s

/-- The loop `while (canPlace(current, 1, 0)) current.row += 1` of `hardDrop`, run for at
most `fuel` iterations: the piece at loop exit, or `none` when the fuel runs out first. -/
def dropLoop (grid : Board) : Nat → Piece → Option Piece
  | 0, _ => none
  | fuel + 1, piece =>
    if canPlace grid piece 1 0 piece.rotation then
      dropLoop grid fuel { piece with row := piece.row + 1 }
    else some piece

/-- The function `hardDrop()`; `none` when one of its loops does not return. -/
def hardDrop (s : Game) (d : SpawnDraw) : Option Game :=
  match s.current with
  | none => some s
  | some piece =>
    if s.over || s.paused then some s
    else
      (dropLoop s.grid (rows + 1) piece).bind fun dropped =>
        lockPiece { s with current := some dropped } d

/-- The function `tick()`. -/
def tick (s : Game) (d : SpawnDraw) : Option Game :=
  if s.paused || s.over then some s else movePiece s 1 0 d

/-- The function `togglePause()`. -/
def togglePause (s : Game) : Game :=
  if s.over then s else { s with paused := !s.paused }

/-- The function `resetGame()`. -/
def resetGame (s : Game) (first : PieceDraw) (d : SpawnDraw) : Game :=
  spawnPiece
    { s with grid := createEmptyGrid, score := 0, linesCleared := 0, paused := false,
             over := false, next := some (createPiece first) } d

/-- The calls `movePiece(1, 0)` made `n` times in a row. -/
def moveDownTimes : Nat → Game → SpawnDraw → Option Game
  | 0, s, _ => some s
  | n + 1, s, d => (moveDownTimes n s d).bind fun s2 => movePiece s2 1 0 d

end Tetris

namespace Tetris

/-- Every cell of `cells` is inside the 16 × 10 well and empty on the grid (holds `null`;
the code also reads a stored 0 as empty). -/
def Fits (grid : Board) (cells : List Pos) : Prop :=
  ∀ cell ∈ cells, 0 ≤ cell.r ∧ cell.r < 16 ∧ 0 ≤ cell.c ∧ cell.c < 10 ∧
    falsy (cellAt grid cell.r.toNat cell.c.toNat) = true

instance (grid : Board) (cells : List Pos) : Decidable (Fits grid cells) := by
  unfold Fits; exact inferInstance

/-- A grid of 16 rows of 10 cells. -/
def BoardWF (grid : Board) : Prop :=
  grid.length = rows ∧ ∀ cells ∈ grid, cells.length = cols

instance (grid : Board) : Decidable (BoardWF grid) := by
  unfold BoardWF; exact inferInstance

/-- A game used to instantiate the theorems: an empty well but for a tile 2 in the bottom
left corner, an `O` piece of value 2 at row 0, column 3, a `T` piece next. -/
def sampleGame : Game :=
  { grid := cellSet createEmptyGrid 15 0 (some 2),
    stats := ⟨0, 0, 0⟩,
    current := some ⟨3, 0, 0, 3, 2⟩,
    next := some ⟨5, 0, 0, 0, 4⟩,
    score := 0, linesCleared := 0, paused := false, over := false }

/-- A draw used to instantiate the theorems: an `I` piece of value 2, twice. -/
def sampleDraw : SpawnDraw :=
  { fallback := ⟨0, true, by decide⟩, upcoming := ⟨0, true, by decide⟩ }

end Tetris

namespace Tetris

/-- The test `grid[r].every((value) => value)` of `clearLines` on a row. -/
def rowFull (cells : List (Option Nat)) : Bool := cells.all fun value => !falsy value

end Tetris

namespace Tetris

/-- The value `merged[idx] || null` that `applyMergeAndGravity` writes back. -/
def mergedCell (merged : List Nat) (idx : Nat) : Option Nat :=
  match merged[idx]? with
  | some v => if v = 0 then none else some v
  | none => none

end Tetris

/-- A game of size `n` right after `reset()`: two cells at different positions hold a tile
of value 2 or 4 each, every other cell is empty, the score is 0 and the game is neither
over nor won. -/
def Game2048.Fresh (n : Nat) (g : Game2048) : Prop :=
  g.size = n ∧ GridWF n g.grid ∧
  (∃ r1 c1 r2 c2 v1 v2 : Nat, r1 < n ∧ c1 < n ∧ r2 < n ∧ c2 < n ∧ (r1, c1) ≠ (r2, c2) ∧
    (v1 = 2 ∨ v1 = 4) ∧ (v2 = 2 ∨ v2 = 4) ∧
    ∀ r c, (gridAt g.grid r c).map Tile.value =
      if (r, c) = (r1, c1) then some v1 else if (r, c) = (r2, c2) then some v2 else none) ∧
  g.score = 0 ∧ g.over = false ∧ g.won = false

namespace Tetris

/-- The games reachable from `resetGame()`, called on any game, by calls of `movePiece`,
`rotatePiece`, `hardDrop`, `tick` and `togglePause` that return. -/
inductive Reachable : Game → Prop
  | reset (s : Game) (first : PieceDraw) (d : SpawnDraw) : Reachable (resetGame s first d)
  | move (s s2 : Game) (rowOffset colOffset : Int) (d : SpawnDraw) :
      Reachable s → movePiece s rowOffset colOffset d = some s2 → Reachable s2
  | rotate (s : Game) : Reachable s → Reachable (rotatePiece s)
  | drop (s s2 : Game) (d : SpawnDraw) : Reachable s → hardDrop s d = some s2 → Reachable s2
  | tick (s s2 : Game) (d : SpawnDraw) : Reachable s → tick s d = some s2 → Reachable s2
  | pause (s : Game) : Reachable s → Reachable (togglePause s)

/-- No cell of the grid holds the number 0: a cell that the code reads as empty holds
`null`. -/
def NoZero (grid : Board) : Prop := ∀ cells ∈ grid, ∀ x ∈ cells, x ≠ some 0

/-- The invariant of the falling piece: the grid has 16 rows of 10 cells, none of them
holding 0, the next piece and the current piece are pieces of `shapes`, the rotation of the
current piece is one of the four, and while the game is not over the current piece lies
inside the well on empty cells. -/
def GameInv (s : Game) : Prop :=
  (BoardWF s.grid ∧ NoZero s.grid) ∧ (∃ q, s.next = some q ∧ q.shapeIndex < 7) ∧
  ∃ p, s.current = some p ∧ p.shapeIndex < 7 ∧ p.rotation < 4 ∧
    (s.over = false → Fits s.grid (pieceCells p p.rotation))

end Tetris

namespace Tetris

/-- A draw of `createPiece` used to instantiate the theorems: a `T` piece of value 2. -/
def sampleFirst : PieceDraw := ⟨5, true, by decide⟩

/-- A reachable game used to instantiate the theorems: `resetGame()` and then one call of
`rotatePiece()`. -/
def sampleRotated : Game := rotatePiece (resetGame sampleGame sampleFirst sampleDraw)

end Tetris

/-- The number by which the comparator of a direction orders the cells of a line: the
comparator of `d` is `pos a - pos b`. -/
def HexDirection.pos : HexDirection → Hex → Int
  | HexDirection.e, cell => -cell.q
  | HexDirection.w, cell => cell.q
  | HexDirection.ne, cell => -cell.q
  | HexDirection.sw, cell => cell.q
  | HexDirection.nw, cell => cell.r
  | HexDirection.se, cell => -cell.r

/-- The entry of `neighbourDirs` that leads from a cell to the next cell of its line in the
order of the direction. -/
def HexDirection.step : HexDirection → Hex
  | HexDirection.e => ⟨-1, 0⟩
  | HexDirection.w => ⟨1, 0⟩
  | HexDirection.ne => ⟨-1, 1⟩
  | HexDirection.sw => ⟨1, -1⟩
  | HexDirection.nw => ⟨0, 1⟩
  | HexDirection.se => ⟨0, -1⟩

/-- A 2 × 2 game used to instantiate the theorems: a full board without two adjacent equal
tiles. -/
def stuckGame : Game2048 :=
  { size := 2, seed := Seed.num 1, rng := ⟨1⟩,
    grid := [[some ⟨2, 0, 0, false⟩, some ⟨4, 0, 1, false⟩],
             [some ⟨4, 1, 0, false⟩, some ⟨2, 1, 1, false⟩]],
    score := 0, over := false, won := false, cachedValue := none, counted := false }

/-- A radius-1 hexagonal game used to instantiate the theorems: a full board of seven
different values. -/
def stuckHex : HexGame :=
  { grid := [((0, -1), some 2), ((1, -1), some 4), ((-1, 0), some 8), ((0, 0), some 16),
             ((1, 0), some 32), ((-1, 1), some 64), ((0, 1), some 128)],
    score := 0, over := false, won := false, cachedValue := none, counted := false,
    moveCount := 0 }

/-! # Theorems -/

/-! ### Lemmas on the 32-bit operators -/

theorem toUint32_lt (x : Int) : toUint32 x < 4294967296 := by
  unfold toUint32; omega

theorem toUint32_natCast (n : Nat) : toUint32 (n : Int) = n % 4294967296 := by
  unfold toUint32; omega

theorem toUint32_of_lt {n : Nat} (h : n < 4294967296) : toUint32 (n : Int) = n := by
  unfold toUint32; omega

theorem toUint32_toInt32 (x : Int) : toUint32 (toInt32 x) = toUint32 x := by
  unfold toInt32 toUint32; split <;> omega

theorem toUint32_add (a b : Int) :
    toUint32 (a + b) = (toUint32 a + toUint32 b) % 4294967296 := by
  unfold toUint32; omega

theorem xor_lt_u32 {a b : Nat} (ha : a < 4294967296) (hb : b < 4294967296) :
    a ^^^ b < 4294967296 :=
  Nat.xor_lt_two_pow (n := 32) ha hb

theorem or_lt_u32 {a b : Nat} (ha : a < 4294967296) (hb : b < 4294967296) :
    a ||| b < 4294967296 :=
  Nat.or_lt_two_pow (n := 32) ha hb

theorem toUint32_jsXor (a b : Int) : toUint32 (jsXor a b) = toUint32 a ^^^ toUint32 b := by
  unfold jsXor
  rw [toUint32_toInt32, toUint32_of_lt (xor_lt_u32 (toUint32_lt a) (toUint32_lt b))]

theorem toUint32_jsOr (a b : Int) : toUint32 (jsOr a b) = toUint32 a ||| toUint32 b := by
  unfold jsOr
  rw [toUint32_toInt32, toUint32_of_lt (or_lt_u32 (toUint32_lt a) (toUint32_lt b))]

theorem shiftRight_lt_u32 {a : Nat} (k : Nat) (ha : a < 4294967296) : a >>> k < 4294967296 := by
  rw [Nat.shiftRight_eq_div_pow]
  exact lt_of_le_of_lt (Nat.div_le_self _ _) ha

theorem toUint32_jsShrU (a : Int) (k : Nat) : toUint32 (jsShrU a k) = toUint32 a >>> k := by
  unfold jsShrU
  exact toUint32_of_lt (shiftRight_lt_u32 k (toUint32_lt a))

theorem toUint32_imul (a b : Int) :
    toUint32 (imul a b) = (toUint32 a * toUint32 b) % 4294967296 := by
  unfold imul
  rw [toUint32_toInt32, toUint32_natCast]

/-! ## `hashSeed` and `SeededRandom.next` -/

theorem toUint32_one : toUint32 1 = 1 := by decide
theorem toUint32_61 : toUint32 61 = 61 := by decide

theorem hashSeed_fold (str : List Nat) (h : ∀ c ∈ str, c < 65536) (h0 : Int) :
    toUint32 (str.foldl (fun (h : Int) (c : Nat) => imul (jsXor h (c : Int)) 16777619) h0) =
      str.foldl (fun h c => ((h ^^^ c) * 16777619) % 4294967296) (toUint32 h0) := by
  induction str generalizing h0 with
  | nil => rfl
  | cons c cs ih =>
    have hc : c < 4294967296 := by
      have := h c (List.mem_cons_self c cs); omega
    have hcs : ∀ d ∈ cs, d < 65536 := fun d hd => h d (List.mem_cons_of_mem c hd)
    rw [List.foldl_cons, List.foldl_cons, ih hcs, toUint32_imul, toUint32_jsXor,
      toUint32_of_lt hc]
    rfl

theorem fnv1a_fold_lt (str : List Nat) (h0 : Nat) (hh : h0 < 4294967296) :
    str.foldl (fun h c => ((h ^^^ c) * 16777619) % 4294967296) h0 < 4294967296 := by
  induction str generalizing h0 with
  | nil => exact hh
  | cons c cs ih => exact ih _ (Nat.mod_lt _ (by decide))

/-- C8: for every string of code units (bytes, and more generally UTF-16 code units below
65536), `hashSeed` is the 32-bit FNV-1a hash: from `0x811c9dc5`, for each character in
order `h := ((h xor c) * 16777619) mod 2^32`; the result lies in `[0, 2^32)`, and
`hashSeed` of the empty string is `0x811c9dc5`. -/
theorem hashSeed_eq_fnv1a (str : List Nat) (h : ∀ c ∈ str, c < 65536) :
    hashSeed str = fnv1a str ∧ hashSeed str < 4294967296 ∧ hashSeed [] = 0x811c9dc5 := by
  refine ⟨?_, toUint32_lt _, by decide⟩
  unfold hashSeed fnv1a
  rw [hashSeed_fold str h]
  rfl

theorem hashSeed_eq_fnv1a_witness :
    (∀ c ∈ [100, 97, 105, 108, 121], c < 65536) ∧ hashSeed [100, 97, 105, 108, 121] = 3929933598 := by
  refine ⟨by decide, ?_⟩
  rw [(hashSeed_eq_fnv1a [100, 97, 105, 108, 121] (by decide)).1]
  decide

theorem mod_u32_of_lt {a : Nat} (h : a < 4294967296) : a % 4294967296 = a := Nat.mod_eq_of_lt h

theorem SeededRandom.next_snd_eq (g : SeededRandom) :
    g.next.2 = mulberry32Mix (toUint32 (roundDouble (g.seed + 0x6d2b79f5))) := by
  simp only [SeededRandom.next, mulberry32Mix, toUint32_jsShrU, toUint32_jsXor, toUint32_imul,
    toUint32_jsOr, toUint32_add, toUint32_one, toUint32_61, Nat.shiftRight_zero]
  rw [mod_u32_of_lt (xor_lt_u32 (xor_lt_u32 (Nat.mod_lt _ (by decide)) (Nat.mod_lt _ (by decide)))
    (shiftRight_lt_u32 14 (xor_lt_u32 (Nat.mod_lt _ (by decide)) (Nat.mod_lt _ (by decide)))))]

theorem SeededRandom.next_snd_lt (g : SeededRandom) : g.next.2 < 4294967296 := by
  rw [SeededRandom.next_snd_eq]; unfold mulberry32Mix; exact Nat.mod_lt _ (by decide)

theorem roundDouble_of_le (x : Int) (h : x.natAbs ≤ 9007199254740992) : roundDouble x = x := by
  rcases Nat.lt_or_ge x.natAbs 9007199254740992 with hlt | hge
  · unfold roundDouble
    rw [if_pos hlt]
  · have heq : x.natAbs = 9007199254740992 := by omega
    rcases Int.natAbs_eq x with hx | hx
    · rw [hx, heq]
      decide
    · rw [hx, heq]
      decide

theorem ulpLoop_spec (m : Nat) (fuel : Nat) :
    ∀ u, 0 < u → 4503599627370496 * u ≤ m →
      0 < ulpLoop m fuel u ∧ 4503599627370496 * ulpLoop m fuel u ≤ m := by
  induction fuel with
  | zero =>
    intro u hu h
    exact ⟨hu, h⟩
  | succ fuel ih =>
    intro u hu h
    unfold ulpLoop
    split
    · exact ⟨hu, h⟩
    · exact ih (2 * u) (by omega) (by omega)

/-- A state that is not negative is rounded to a double that is at least the state or at
least `2^52`. -/
theorem roundDouble_ge (x : Int) (hx : 0 ≤ x) : min x 4503599627370496 ≤ roundDouble x := by
  unfold roundDouble
  split
  · exact min_le_left _ _
  · rename_i hge
    obtain ⟨hu, hm⟩ := ulpLoop_spec x.natAbs 1024 1 (by decide) (by omega)
    simp only
    rw [if_neg (by omega)]
    have hq : 4503599627370496 ≤ x.natAbs / ulpLoop x.natAbs 1024 1 := by
      rw [Nat.le_div_iff_mul_le hu]
      exact hm
    have hq1 : x.natAbs / ulpLoop x.natAbs 1024 1 ≤
        (if 2 * (x.natAbs % ulpLoop x.natAbs 1024 1) < ulpLoop x.natAbs 1024 1 then
          x.natAbs / ulpLoop x.natAbs 1024 1
        else if ulpLoop x.natAbs 1024 1 < 2 * (x.natAbs % ulpLoop x.natAbs 1024 1) then
          x.natAbs / ulpLoop x.natAbs 1024 1 + 1
        else if x.natAbs / ulpLoop x.natAbs 1024 1 % 2 = 0 then
          x.natAbs / ulpLoop x.natAbs 1024 1
        else x.natAbs / ulpLoop x.natAbs 1024 1 + 1) := by
      split_ifs <;> omega
    have hprod := Nat.mul_le_mul (hq.trans hq1) hu
    apply le_trans (min_le_right _ _)
    exact_mod_cast (by simpa using hprod)

/-- C7, as the code has it: `SeededRandom.next` stores the double nearest to the state plus
`0x6d2b79f5` and returns `k / 2^32`, where `k` is the unsigned 32-bit mulberry32 mix of the
stored state.  For every integer state `s` with `|s + 0x6d2b79f5| ≤ 2^53` the stored state is
`s + 0x6d2b79f5` itself.  For every state the returned value `v` satisfies `0 ≤ v < 1`. -/
theorem SeededRandom.next_mulberry32 (g : SeededRandom) :
    g.next.1.seed = roundDouble (g.seed + 0x6d2b79f5) ∧
    g.next.2 = mulberry32Mix (toUint32 g.next.1.seed) ∧
    ((g.seed + 0x6d2b79f5).natAbs ≤ 9007199254740992 →
      g.next.1.seed = g.seed + 0x6d2b79f5 ∧
      g.next.2 = mulberry32Mix (toUint32 (g.seed + 0x6d2b79f5))) ∧
    g.nextValue = (mulberry32Mix (toUint32 g.next.1.seed) : ℚ) / 4294967296 ∧
    0 ≤ g.nextValue ∧ g.nextValue < 1 := by
  have h1 : g.next.1.seed = roundDouble (g.seed + 0x6d2b79f5) := rfl
  have h2 := SeededRandom.next_snd_eq g
  have hlt := SeededRandom.next_snd_lt g
  refine ⟨h1, by rw [h1]; exact h2, ?_, ?_, ?_, ?_⟩
  · intro hle
    have hr := roundDouble_of_le _ hle
    refine ⟨by rw [h1, hr], ?_⟩
    rw [h2, hr]
  · unfold SeededRandom.nextValue; rw [h2, h1]
  · unfold SeededRandom.nextValue; positivity
  · unfold SeededRandom.nextValue
    rw [div_lt_one (by norm_num)]
    exact_mod_cast hlt

theorem SeededRandom.next_mulberry32_witness :
    ((3826002220 : Int) + 0x6d2b79f5).natAbs ≤ 9007199254740992 ∧
    (SeededRandom.next ⟨3826002220⟩).1.seed = 3826002220 + 0x6d2b79f5 ∧
    (SeededRandom.next ⟨3826002220⟩).2 = mulberry32Mix (toUint32 (3826002220 + 0x6d2b79f5)) :=
  ⟨by decide, ((SeededRandom.next_mulberry32 ⟨3826002220⟩).2.2.1 (by decide)).1,
    ((SeededRandom.next_mulberry32 ⟨3826002220⟩).2.2.1 (by decide)).2⟩

/-- C7 (counterexample): from the state `2^53` the sum `2^53 + 0x6d2b79f5` is odd and is no
double; `next` stores the even neighbour 9007201086306804, not the state advanced by
`0x6d2b79f5`, and returns the numerator 3850105811, while the mix of the advanced state is
1144304738. -/
theorem SeededRandom.next_not_advanced :
    (SeededRandom.next ⟨9007199254740992⟩).1.seed = 9007201086306804 ∧
    (SeededRandom.next ⟨9007199254740992⟩).1.seed ≠ 9007199254740992 + 0x6d2b79f5 ∧
    (SeededRandom.next ⟨9007199254740992⟩).2 = 3850105811 ∧
    mulberry32Mix (toUint32 (9007199254740992 + 0x6d2b79f5)) = 1144304738 ∧
    (SeededRandom.next ⟨9007199254740992⟩).2 ≠
      mulberry32Mix (toUint32 (9007199254740992 + 0x6d2b79f5)) := by
  decide

/-! ### Reading and writing grid cells -/

theorem gridSet_wf {n : Nat} {grid : Grid} (h : GridWF n grid) (r c : Nat) (x : Option Tile) :
    GridWF n (gridSet grid r c x) := by
  unfold gridSet
  cases hr : grid[r]? with
  | none => exact h
  | some cells =>
    refine ⟨by simpa using h.1, ?_⟩
    intro row hrow
    rcases List.mem_or_eq_of_mem_set hrow with h1 | h1
    · exact h.2 _ h1
    · rw [h1, List.length_set]
      exact h.2 _ (List.getElem?_mem hr)

theorem gridAt_gridSet_wf {n : Nat} {grid : Grid} (h : GridWF n grid) {r c : Nat} (hr : r < n)
    (hc : c < n) (r2 c2 : Nat) (x : Option Tile) :
    gridAt (gridSet grid r c x) r2 c2 = if r2 = r ∧ c2 = c then x else gridAt grid r2 c2 := by
  have hlen : r < grid.length := by rw [h.1]; exact hr
  have hrow : grid[r]? = some grid[r] := List.getElem?_eq_getElem hlen
  have hclen : c < (grid[r]).length := by
    rw [h.2 _ (List.getElem_mem hlen)]; exact hc
  unfold gridSet gridAt
  rw [hrow]
  simp only [List.getElem?_set]
  by_cases h1 : r = r2
  · subst h1
    rw [if_pos rfl, if_pos hlen]
    simp only [List.getElem?_set]
    by_cases h2 : c = c2
    · subst h2
      simp [hclen]
    · have h3 : ¬ c2 = c := fun hh => h2 hh.symm
      simp [h2, h3, hrow]
  · have : ¬ (r2 = r ∧ c2 = c) := fun hh => h1 hh.1.symm
    simp [h1, this]

namespace Game2048

/-! ### `peekNextValue`, `consumeNextValue`, `addRandomTile` -/

theorem next_lt (r : SeededRandom) : r.next.2 < 4294967296 := SeededRandom.next_snd_lt r

theorem random_lt (g : Game2048) : g.random.2 < 4294967296 := next_lt g.rng

theorem pick_lt (k len : Nat) (hk : k < 4294967296) (hlen : 0 < len) :
    k * len / 4294967296 < len := by
  apply Nat.div_lt_of_lt_mul
  exact Nat.mul_lt_mul_of_pos_right hk hlen

theorem peekNextValue_cached (g : Game2048) :
    g.peekNextValue.2.cachedValue = some g.peekNextValue.1 := by
  unfold peekNextValue
  cases h : g.cachedValue <;> simp [h]

theorem peekNextValue_idem (g : Game2048) :
    g.peekNextValue.2.peekNextValue = (g.peekNextValue.1, g.peekNextValue.2) := by
  have h := peekNextValue_cached g
  generalize g.peekNextValue = p at h ⊢
  obtain ⟨v, g1⟩ := p
  simp only at h
  simp [peekNextValue, h]

theorem peekMany_fixed (v : Nat) (g : Game2048) (h : g.peekNextValue = (v, g)) (n : Nat) :
    peekMany n g = (List.replicate n v, g) := by
  induction n with
  | zero => rfl
  | succ n ih => simp [peekMany, h, ih, List.replicate_succ]

theorem consume_peek (g : Game2048) :
    g.peekNextValue.2.consumeNextValue = g.consumeNextValue := by
  obtain ⟨size, seed, rng, grid, score, over, won, cached, counted⟩ := g
  cases cached <;> simp [peekNextValue, consumeNextValue, random]

theorem consume_fst_eq_peek (g : Game2048) :
    g.consumeNextValue.1 = g.peekNextValue.1 := by
  cases h : g.cachedValue <;> simp [peekNextValue, consumeNextValue, h]

theorem consume_cached (g : Game2048) : g.consumeNextValue.2.cachedValue = none := by
  cases h : g.cachedValue <;> simp [consumeNextValue, h, random]

theorem consume_grid (g : Game2048) :
    g.consumeNextValue.2.grid = g.grid ∧ g.consumeNextValue.2.size = g.size := by
  cases h : g.cachedValue <;> simp [consumeNextValue, h, random]

theorem peek_grid (g : Game2048) :
    g.peekNextValue.2.grid = g.grid ∧ g.peekNextValue.2.size = g.size := by
  cases h : g.cachedValue <;> simp [peekNextValue, h, random]

theorem availableCells_congr {g h : Game2048} (h1 : g.grid = h.grid) (h2 : g.size = h.size) :
    g.availableCells = h.availableCells := by
  unfold availableCells; rw [h1, h2]

theorem mem_availableCells {g : Game2048} {cell : Cell} (h : cell ∈ g.availableCells) :
    ∃ r c : Nat, r < g.size ∧ c < g.size ∧ cell = ⟨(r : Int), (c : Int)⟩ ∧
      gridAt g.grid r c = none := by
  unfold availableCells at h
  simp only [List.mem_flatMap, List.mem_map, List.mem_filter, List.mem_range] at h
  obtain ⟨r, hr, c, ⟨hc, hnone⟩, rfl⟩ := h
  exact ⟨r, c, hr, hc, rfl, by simpa using hnone⟩

/-- What `addRandomTile` does on a board with an empty cell: it consumes the next value,
draws once more and writes a fresh tile into the cell drawn. -/
theorem addRandomTile_spec (g : Game2048) (h : g.availableCells ≠ []) :
    ∃ cell, g.availableCells[g.consumeNextValue.2.random.2 * g.availableCells.length / 4294967296]?
        = some cell ∧
      g.addRandomTile = (true,
        g.consumeNextValue.2.random.1.insertTile ⟨g.consumeNextValue.1, cell.row, cell.col, false⟩) := by
  have hlen : 0 < g.availableCells.length := List.length_pos.mpr h
  have hidx := pick_lt _ _ (random_lt g.consumeNextValue.2) hlen
  refine ⟨g.availableCells[g.consumeNextValue.2.random.2 * g.availableCells.length / 4294967296],
    List.getElem?_eq_getElem hidx, ?_⟩
  unfold addRandomTile
  simp only [List.getElem?_eq_getElem hidx]
  rw [if_neg (by omega)]

/-- C10: on a board with an empty cell, `peekNextValue` followed by `addRandomTile` gives
the same grid, generator state and (cleared) cached value as `addRandomTile` alone, and the
tile placed, into a cell that was empty, has the value that `peekNextValue` returned. -/
theorem peek_then_addRandomTile (g : Game2048) (hwf : GridWF g.size g.grid)
    (h : g.availableCells ≠ []) :
    g.peekNextValue.2.addRandomTile = g.addRandomTile ∧
    g.addRandomTile.1 = true ∧
    g.addRandomTile.2.cachedValue = none ∧
    ∃ r c : Nat, r < g.size ∧ c < g.size ∧ gridAt g.grid r c = none ∧
      gridAt g.addRandomTile.2.grid r c = some ⟨g.peekNextValue.1, (r : Int), (c : Int), false⟩ ∧
      ∀ r2 c2 : Nat, (r2, c2) ≠ (r, c) →
        gridAt g.addRandomTile.2.grid r2 c2 = gridAt g.grid r2 c2 := by
  have hav : g.peekNextValue.2.availableCells = g.availableCells :=
    availableCells_congr (peek_grid g).1 (peek_grid g).2
  obtain ⟨cell, hcell, hadd⟩ := addRandomTile_spec g h
  refine ⟨?_, ?_, ?_, ?_⟩
  · obtain ⟨cell2, hcell2, hadd2⟩ := addRandomTile_spec g.peekNextValue.2 (by rw [hav]; exact h)
    rw [hav, consume_peek, hcell] at hcell2
    cases hcell2
    rw [hadd, hadd2, consume_peek]
  · rw [hadd]
  · rw [hadd]
    simp only [insertTile, random]
    exact consume_cached g
  · obtain ⟨r, c, hr, hc, rfl, hnone⟩ := mem_availableCells (List.getElem?_mem hcell)
    refine ⟨r, c, hr, hc, hnone, ?_, ?_⟩
    · rw [hadd]
      simp only [insertTile, random, Int.toNat_ofNat, (consume_grid g).1, consume_fst_eq_peek]
      rw [gridAt_gridSet_wf hwf hr hc]
      simp
    · intro r2 c2 hne
      rw [hadd]
      simp only [insertTile, random, Int.toNat_ofNat, (consume_grid g).1]
      rw [gridAt_gridSet_wf hwf hr hc, if_neg]
      intro hh
      exact hne (by rw [hh.1, hh.2])

end Game2048

namespace Game2048

/-- C9: for every game whose cached value is absent, 2 or 4, `n ≥ 1` calls of
`peekNextValue` in a row return the same value (2 or 4) each time and leave the game in the
state reached after the first call; the generator advances at most once (on the first call,
and only when nothing was cached), a further call changes nothing, and grid and score are
those of the start. -/
theorem peekNextValue_repeat (g : Game2048) (hc : CachedOk g) (n : Nat) (hn : 1 ≤ n) :
    (g.peekNextValue.1 = 2 ∨ g.peekNextValue.1 = 4) ∧
    (peekMany n g).1 = List.replicate n g.peekNextValue.1 ∧
    (peekMany n g).2 = g.peekNextValue.2 ∧
    (g.peekNextValue.2.rng = g.rng ∨
      (g.cachedValue = none ∧ g.peekNextValue.2.rng = g.rng.next.1)) ∧
    (g.cachedValue ≠ none → g.peekNextValue.2 = g) ∧
    g.peekNextValue.2.peekNextValue = (g.peekNextValue.1, g.peekNextValue.2) ∧
    g.peekNextValue.2.grid = g.grid ∧ g.peekNextValue.2.score = g.score := by
  obtain ⟨m, rfl⟩ : ∃ m, n = m + 1 := ⟨n - 1, by omega⟩
  have hfix := peekMany_fixed _ _ (peekNextValue_idem g) m
  refine ⟨?_, ?_, ?_, ?_, ?_, peekNextValue_idem g, ?_, ?_⟩
  · rcases hc with h | h | h <;> simp only [peekNextValue, h]
    · split <;> simp
    · simp
    · simp
  · simp only [peekMany, hfix, List.replicate_succ]
  · simp only [peekMany, hfix]
  · cases h : g.cachedValue
    · right; simp [peekNextValue, h, random]
    · left; simp [peekNextValue, h]
  · intro h
    cases h2 : g.cachedValue
    · exact absurd h2 h
    · simp [peekNextValue, h2]
  · cases h : g.cachedValue <;> simp [peekNextValue, h, random]
  · cases h : g.cachedValue <;> simp [peekNextValue, h, random]

end Game2048

/-! ### The line algorithm, cell by cell -/

theorem mergeRow_cons_cons (a b : Nat) (rest : List Nat) :
    mergeRow (a :: b :: rest) =
      if a = b then (a * 2) :: mergeRow rest else a :: mergeRow (b :: rest) := by
  rw [mergeRow]

theorem mergeGains_cons_cons (a b : Nat) (rest : List Nat) :
    mergeGains (a :: b :: rest) =
      if a = b then (a * 2) :: mergeGains rest else mergeGains (b :: rest) := by
  rw [mergeGains]

theorem compact_cons_none (xs : List (Option Nat)) : compact (none :: xs) = compact xs := by
  simp [compact]

theorem compact_cons_some (v : Nat) (xs : List (Option Nat)) :
    compact (some v :: xs) = v :: compact xs := by
  simp [compact]

theorem compact_map_some (l : List Nat) : compact (l.map some) = l := by
  induction l with
  | nil => rfl
  | cons a l ih => rw [List.map_cons, compact_cons_some, ih]

theorem compact_append (xs ys : List (Option Nat)) :
    compact (xs ++ ys) = compact xs ++ compact ys := by
  simp [compact, List.filterMap_append]

theorem compact_replicate_none (k : Nat) : compact (List.replicate k none) = [] := by
  induction k with
  | zero => rfl
  | succ k ih => rw [List.replicate_succ, compact_cons_none, ih]

theorem length_compact_le (xs : List (Option Nat)) : (compact xs).length ≤ xs.length := by
  unfold compact; exact List.length_filterMap_le _ _

theorem length_mergeRow_add (l : List Nat) :
    (mergeRow l).length + (mergeGains l).length = l.length := by
  induction l using mergeRow.induct with
  | case1 => rfl
  | case2 a => rfl
  | case3 b rest ih =>
    rw [mergeRow_cons_cons, mergeGains_cons_cons, if_pos rfl, if_pos rfl]
    simp only [List.length_cons]; omega
  | case4 a b rest h ih =>
    rw [mergeRow_cons_cons, mergeGains_cons_cons, if_neg h, if_neg h]
    simp only [List.length_cons] at ih ⊢; omega

theorem length_mergeRow_le (l : List Nat) : (mergeRow l).length ≤ l.length := by
  have := length_mergeRow_add l; omega

theorem sum_mergeRow (l : List Nat) : (mergeRow l).sum = l.sum := by
  induction l using mergeRow.induct with
  | case1 => rfl
  | case2 a => rfl
  | case3 b rest ih =>
    rw [mergeRow_cons_cons, if_pos rfl]
    simp only [List.sum_cons, ih]; omega
  | case4 a b rest h ih =>
    rw [mergeRow_cons_cons, if_neg h]
    simp only [List.sum_cons] at ih ⊢; omega

/-- The walk of the remaining cells `xs` continues the merge pass of the specification. -/
theorem foldl_absorb_tiles (xs : List (Option Nat)) (st : LineAcc) :
    (xs.foldl absorb st).tiles = st.closed ++ mergeRow (st.pending.toList ++ compact xs) ∧
    (xs.foldl absorb st).gains = st.gains ++ mergeGains (st.pending.toList ++ compact xs) ∧
    (xs.foldl absorb st).seen = st.seen + xs.length := by
  induction xs generalizing st with
  | nil =>
    cases h : st.pending <;> simp [LineAcc.tiles, h, compact, mergeRow, mergeGains]
  | cons x xs ih =>
    rw [List.foldl_cons]
    cases x with
    | none =>
      have := ih (absorb st none)
      simp only [absorb, compact_cons_none, List.length_cons] at this ⊢
      refine ⟨this.1, this.2.1, ?_⟩
      rw [this.2.2]; omega
    | some v =>
      have := ih (absorb st (some v))
      rw [compact_cons_some]
      by_cases hp : st.pending = some v
      · simp only [absorb, hp, if_true, Option.toList, List.nil_append, List.length_cons]
          at this ⊢
        simp only [List.cons_append, List.nil_append, mergeRow_cons_cons, mergeGains_cons_cons,
          if_true]
        refine ⟨by rw [this.1]; simp, by rw [this.2.1]; simp, by rw [this.2.2]; omega⟩
      · simp only [absorb, hp, if_false, List.length_cons] at this ⊢
        cases hq : st.pending with
        | none =>
          simp only [hq, LineAcc.tiles, Option.toList, List.append_nil, List.nil_append,
            List.cons_append] at this ⊢
          refine ⟨this.1, this.2.1, by rw [this.2.2]; omega⟩
        | some w =>
          have hwv : ¬ w = v := fun e => hp (by rw [hq, e])
          simp only [hq, LineAcc.tiles, Option.toList, List.nil_append,
            List.cons_append, mergeRow_cons_cons, mergeGains_cons_cons, if_neg hwv] at this ⊢
          refine ⟨by rw [this.1]; simp, this.2.1, by rw [this.2.2]; omega⟩

theorem lineAfter_all (vals : List (Option Nat)) {i : Nat} (h : vals.length ≤ i) :
    (lineAfter vals i).tiles = mergeRow (compact vals) ∧
    (lineAfter vals i).gains = mergeGains (compact vals) := by
  unfold lineAfter
  rw [List.take_of_length_le h]
  have := foldl_absorb_tiles vals ⟨[], none, 0, [], false⟩
  simpa using ⟨this.1, this.2.1⟩

theorem lineAfter_succ (vals : List (Option Nat)) {i : Nat} (h : i < vals.length) :
    lineAfter vals (i + 1) = absorb (lineAfter vals i) vals[i] := by
  unfold lineAfter
  rw [List.take_succ, List.foldl_append, List.getElem?_eq_getElem h]
  rfl

theorem lineAfter_seen (vals : List (Option Nat)) {i : Nat} (h : i ≤ vals.length) :
    (lineAfter vals i).seen = i := by
  unfold lineAfter
  have := (foldl_absorb_tiles (vals.take i) ⟨[], none, 0, [], false⟩).2.2
  rw [this, List.length_take]; simp; omega

theorem absorb_slide_tiles (st : LineAcc) {v : Nat} (hp : ¬ st.pending = some v) :
    (absorb st (some v)).tiles = st.tiles ++ [v] := by
  simp [absorb, hp, LineAcc.tiles]

theorem lineAfter_tiles (vals : List (Option Nat)) (i : Nat) :
    (lineAfter vals i).tiles = mergeRow (compact (vals.take i)) ∧
    (lineAfter vals i).gains = mergeGains (compact (vals.take i)) := by
  unfold lineAfter
  have := foldl_absorb_tiles (vals.take i) ⟨[], none, 0, [], false⟩
  simpa using ⟨this.1, this.2.1⟩

theorem lineAfter_tiles_length_le (vals : List (Option Nat)) (i : Nat) :
    (lineAfter vals i).tiles.length ≤ i := by
  rw [(lineAfter_tiles vals i).1]
  calc (mergeRow (compact (vals.take i))).length
      ≤ (compact (vals.take i)).length := length_mergeRow_le _
    _ ≤ (vals.take i).length := length_compact_le _
    _ ≤ i := by rw [List.length_take]; omega

theorem padLine_length {n : Nat} {tiles : List Nat} (h : tiles.length ≤ n) :
    (padLine n tiles).length = n := by
  unfold padLine; simp; omega

theorem padLine_getElem? (n : Nat) (tiles : List Nat) (j : Nat) :
    (padLine n tiles)[j]? =
      if j < tiles.length then (tiles[j]?).map some else if j < n then some none else none := by
  unfold padLine
  by_cases h : j < tiles.length
  · rw [if_pos h, List.getElem?_append_left (by simpa using h), List.getElem?_map]
  · rw [if_neg h, List.getElem?_append_right (by simpa using h)]
    simp only [List.length_map, List.getElem?_replicate]
    by_cases h2 : j < n
    · rw [if_pos h2, if_pos (by omega)]
    · rw [if_neg h2, if_neg (by omega)]

theorem compact_padLine (n : Nat) (tiles : List Nat) : compact (padLine n tiles) = tiles := by
  unfold padLine
  rw [compact_append, compact_map_some, compact_replicate_none, List.append_nil]

theorem padLine_snoc_none {i : Nat} {tiles : List Nat} (h : tiles.length ≤ i) :
    padLine i tiles ++ [none] = padLine (i + 1) tiles := by
  unfold padLine
  rw [List.append_assoc, show i + 1 - tiles.length = (i - tiles.length) + 1 by omega,
    List.replicate_succ']

theorem padLine_snoc_some {i : Nat} {tiles : List Nat} (h : tiles.length = i) (v : Nat) :
    padLine i tiles ++ [some v] = padLine (i + 1) (tiles ++ [v]) := by
  unfold padLine
  simp [h]

/-- While no tile has merged or changed its cell, the cells walked are the tiles placed,
followed by empties. -/
theorem lineAfter_mv_false (vals : List (Option Nat)) (i : Nat) (hi : i ≤ vals.length)
    (h : (lineAfter vals i).mv = false) :
    vals.take i = padLine i (lineAfter vals i).tiles := by
  induction i with
  | zero => simp [lineAfter, LineAcc.tiles, padLine]
  | succ i ih =>
    have hlt : i < vals.length := by omega
    have hlen := lineAfter_tiles_length_le vals i
    rw [lineAfter_succ vals hlt] at h ⊢
    rw [List.take_succ, List.getElem?_eq_getElem hlt]
    cases hx : vals[i] with
    | none =>
      rw [hx] at h
      simp only [absorb] at h
      rw [ih (by omega) h]
      simp only [absorb, Option.toList, LineAcc.tiles] at hlen ⊢
      exact padLine_snoc_none hlen
    | some v =>
      rw [hx] at h
      by_cases hp : (lineAfter vals i).pending = some v
      · simp [absorb, hp] at h
      · simp only [absorb, hp, if_false, Bool.or_eq_false_iff, decide_eq_false_iff_not,
          ne_eq, not_not] at h
        rw [ih (by omega) h.1]
        have hs := lineAfter_seen vals (show i ≤ vals.length by omega)
        rw [absorb_slide_tiles _ hp]
        exact padLine_snoc_some (by rw [h.2, hs]) v

/-- Once a tile has merged or changed its cell, a doubled value was created or an empty
cell precedes a tile among the cells walked. -/
theorem lineAfter_mv_true (vals : List (Option Nat)) (i : Nat) (hi : i ≤ vals.length)
    (h : (lineAfter vals i).mv = true) :
    (lineAfter vals i).gains ≠ [] ∨
      ∃ j1 j2 : Nat, j1 < j2 ∧ j2 < i ∧ vals[j1]? = some none ∧ ∃ v, vals[j2]? = some (some v) := by
  induction i with
  | zero => simp [lineAfter] at h
  | succ i ih =>
    have hlt : i < vals.length := by omega
    have hlen := lineAfter_tiles_length_le vals i
    have hs := lineAfter_seen vals (show i ≤ vals.length by omega)
    rw [lineAfter_succ vals hlt] at h ⊢
    have lift : ((lineAfter vals i).gains ≠ [] ∨
        ∃ j1 j2 : Nat, j1 < j2 ∧ j2 < i ∧ vals[j1]? = some none ∧
          ∃ v, vals[j2]? = some (some v)) →
        ((lineAfter vals i).gains ≠ [] ∨
        ∃ j1 j2 : Nat, j1 < j2 ∧ j2 < i + 1 ∧ vals[j1]? = some none ∧
          ∃ v, vals[j2]? = some (some v)) := by
      rintro (h1 | ⟨j1, j2, h1, h2, h3⟩)
      · exact Or.inl h1
      · exact Or.inr ⟨j1, j2, h1, by omega, h3⟩
    cases hx : vals[i] with
    | none =>
      rw [hx] at h
      simp only [absorb] at h ⊢
      exact lift (ih (by omega) h)
    | some v =>
      rw [hx] at h
      by_cases hp : (lineAfter vals i).pending = some v
      · left; simp [absorb, hp]
      · simp only [absorb, hp, if_false] at h ⊢
        by_cases hm : (lineAfter vals i).mv = true
        · exact lift (ih (by omega) hm)
        · have hm2 : (lineAfter vals i).mv = false := by simpa using hm
          rw [hm2] at h
          simp only [Bool.false_or, decide_eq_true_eq, ne_eq] at h
          have hpad := lineAfter_mv_false vals i (by omega) hm2
          right
          refine ⟨(lineAfter vals i).tiles.length, i, by omega, by omega, ?_,
            v, by rw [List.getElem?_eq_getElem hlt, hx]⟩
          have hlt2 : (lineAfter vals i).tiles.length < i := by omega
          have := congrArg (fun l => l[(lineAfter vals i).tiles.length]?) hpad
          simp only [padLine_getElem?, lt_irrefl, if_false, hlt2, if_true] at this
          rw [← this, List.getElem?_take_of_lt hlt2]

/-- A line of values stays as it is under the line algorithm exactly when no tile merged
or changed its cell while it was walked. -/
theorem lineAfter_mv_iff (vals : List (Option Nat)) :
    (lineAfter vals vals.length).mv = true ↔ slideLine vals.length vals ≠ vals := by
  have hall := lineAfter_all vals (le_refl vals.length)
  constructor
  · intro h heq
    have hc : compact vals = mergeRow (compact vals) := by
      conv_lhs => rw [← heq]
      unfold slideLine
      rw [compact_padLine]
    rcases lineAfter_mv_true vals vals.length (le_refl _) h with h1 | ⟨j1, j2, h12, h2, h3, v, h4⟩
    · rw [hall.2] at h1
      have := length_mergeRow_add (compact vals)
      rw [← hc] at this
      have : (mergeGains (compact vals)).length = 0 := by omega
      exact h1 (List.length_eq_zero.mp this)
    · rw [← heq] at h3 h4
      unfold slideLine at h3 h4
      rw [padLine_getElem?] at h3 h4
      by_cases hj2 : j2 < (mergeRow (compact vals)).length
      · rw [if_pos (by omega), List.getElem?_eq_getElem (by omega)] at h3
        simp at h3
      · rw [if_neg hj2] at h4
        split at h4 <;> simp at h4
  · intro h
    by_contra hm
    have hm2 : (lineAfter vals vals.length).mv = false := by simpa using hm
    have := lineAfter_mv_false vals vals.length (le_refl _) hm2
    rw [List.take_length, hall.1] at this
    exact h this.symm

/-! ### Lines of the square board -/

theorem getVector_name (d : Direction) : Game2048.getVector d.name = Lookup.own d.vector := by
  cases d <;> decide

theorem lineCoord_lt (d : Direction) {n l i : Nat} (hl : l < n) (hi : i < n) :
    (lineCoord d n l i).1 < n ∧ (lineCoord d n l i).2 < n := by
  cases d <;> simp only [lineCoord] <;> omega

theorem lineCoord_inj (d : Direction) {n l i l2 i2 : Nat} (hi : i < n) (hi2 : i2 < n)
    (h : lineCoord d n l i = lineCoord d n l2 i2) : l = l2 ∧ i = i2 := by
  cases d <;> simp only [lineCoord, Prod.mk.injEq] at h <;> omega

theorem lineCoord_lineIndex (d : Direction) {n row col : Nat} (hr : row < n) (hc : col < n) :
    lineCoord d n (lineIndex d n row col).1 (lineIndex d n row col).2 = (row, col) ∧
    (lineIndex d n row col).1 < n ∧ (lineIndex d n row col).2 < n := by
  cases d <;> simp [lineCoord, lineIndex] <;> omega

theorem lineCoord_step (d : Direction) {n l i : Nat} (hi : i < n) (h1 : 1 ≤ i) :
    (⟨(cellOf (lineCoord d n l i)).row + d.vector.row,
      (cellOf (lineCoord d n l i)).col + d.vector.col⟩ : Cell) =
      cellOf (lineCoord d n l (i - 1)) := by
  cases d <;> simp only [lineCoord, cellOf, Direction.vector, Cell.mk.injEq] <;> omega

theorem withinBounds_cellOf (g : Game2048) (p : Nat × Nat) :
    g.withinBounds (cellOf p) = (decide (p.1 < g.size) && decide (p.2 < g.size)) := by
  simp only [Game2048.withinBounds, cellOf]
  by_cases h1 : p.1 < g.size <;> by_cases h2 : p.2 < g.size <;> simp [h1, h2]

theorem lineCoord_edge (d : Direction) (g : Game2048) {l : Nat} (hn : 0 < g.size) :
    g.withinBounds (⟨(cellOf (lineCoord d g.size l 0)).row + d.vector.row,
      (cellOf (lineCoord d g.size l 0)).col + d.vector.col⟩ : Cell) = false := by
  rw [Bool.eq_false_iff]
  intro h
  simp only [Game2048.withinBounds, Bool.and_eq_true, decide_eq_true_eq] at h
  cases d <;> simp only [lineCoord, cellOf, Direction.vector] at h <;> omega

theorem cellContent_cellOf (g : Game2048) (d : Direction) {l i : Nat} (hl : l < g.size)
    (hi : i < g.size) :
    g.withinBounds (cellOf (lineCoord d g.size l i)) = true ∧
    g.cellContent (cellOf (lineCoord d g.size l i)) = tileAt d g.size g.grid l i := by
  have hb := lineCoord_lt d hl hi
  have hw : g.withinBounds (cellOf (lineCoord d g.size l i)) = true := by
    rw [withinBounds_cellOf]; simp [hb.1, hb.2]
  refine ⟨hw, ?_⟩
  unfold Game2048.cellContent
  rw [if_pos hw]
  simp [cellOf, tileAt]

theorem findFarthestLoop_succ (g : Game2048) (v : Cell) (fuel : Nat) (cell : Cell) :
    g.findFarthestLoop v (fuel + 1) cell =
      if (g.withinBounds ⟨cell.row + v.row, cell.col + v.col⟩ &&
          (g.cellContent ⟨cell.row + v.row, cell.col + v.col⟩).isNone) = true then
        g.findFarthestLoop v fuel ⟨cell.row + v.row, cell.col + v.col⟩
      else some (cell, ⟨cell.row + v.row, cell.col + v.col⟩) := rfl

/-- The loop of `findFarthest`, started at the `i`-th cell of a line whose cells `m .. i-1`
are empty and whose cell `m - 1`, if there is one, is occupied, stops with `previous` at
cell `m`; `i - m + 1` iterations are enough. -/
theorem findFarthestLoop_line (g : Game2048) (d : Direction) {l m : Nat} (hl : l < g.size)
    (hocc : 1 ≤ m → tileAt d g.size g.grid l (m - 1) ≠ none) (fuel i : Nat)
    (hm : m ≤ i) (hi : i < g.size) (hfuel : i - m + 1 ≤ fuel)
    (hgap : ∀ j, m ≤ j → j < i → tileAt d g.size g.grid l j = none) :
    g.findFarthestLoop d.vector fuel (cellOf (lineCoord d g.size l i)) =
      some (cellOf (lineCoord d g.size l m),
        ⟨(cellOf (lineCoord d g.size l m)).row + d.vector.row,
         (cellOf (lineCoord d g.size l m)).col + d.vector.col⟩) := by
  induction fuel generalizing i with
  | zero => omega
  | succ fuel ih =>
    rw [findFarthestLoop_succ]
    by_cases hmi : m = i
    · subst hmi
      by_cases h0 : m = 0
      · subst h0
        simp only [lineCoord_edge d g (by omega), Bool.false_and]
        rfl
      · rw [lineCoord_step d hi (by omega)]
        have hc := cellContent_cellOf g d hl (show m - 1 < g.size by omega)
        have hne := hocc (by omega)
        rw [hc.1, hc.2]
        cases hx : tileAt d g.size g.grid l (m - 1) with
        | none => exact absurd hx hne
        | some t => simp
    · have hi1 : 1 ≤ i := by omega
      rw [lineCoord_step d hi hi1]
      have hc := cellContent_cellOf g d hl (show i - 1 < g.size by omega)
      rw [hc.1, hc.2, hgap (i - 1) (by omega) (by omega)]
      simp only [Option.isNone_none, Bool.and_self, if_true]
      exact ih (i - 1) (by omega) (by omega) (by omega)
        (fun j h1 h2 => hgap j h1 (by omega))

theorem findFarthest_line (g : Game2048) (d : Direction) {l m i : Nat} (hl : l < g.size)
    (hocc : 1 ≤ m → tileAt d g.size g.grid l (m - 1) ≠ none)
    (hm : m ≤ i) (hi : i < g.size)
    (hgap : ∀ j, m ≤ j → j < i → tileAt d g.size g.grid l j = none) :
    g.findFarthest (cellOf (lineCoord d g.size l i)) d.vector =
      some (cellOf (lineCoord d g.size l m),
        if 1 ≤ m then some (cellOf (lineCoord d g.size l (m - 1))) else none) := by
  unfold Game2048.findFarthest
  rw [findFarthestLoop_line g d hl hocc g.size i hm hi (by omega) hgap]
  simp only [Option.map_some']
  by_cases h1 : 1 ≤ m
  · rw [lineCoord_step d (by omega) h1, (cellContent_cellOf g d hl (by omega)).1]
    simp [h1]
  · have h0 : m = 0 := by omega
    subst h0
    rw [lineCoord_edge d g (by omega)]
    simp

/-! ### One step of the walk of `move` along a line -/

theorem lineValues_length (d : Direction) (n : Nat) (grid : Grid) (l : Nat) :
    (lineValues d n grid l).length = n := by
  simp [lineValues]

theorem lineValues_getElem (d : Direction) (n : Nat) (grid : Grid) (l : Nat) {i : Nat}
    (hi : i < (lineValues d n grid l).length) :
    (lineValues d n grid l)[i] = (tileAt d n grid l i).map Tile.value := by
  simp [lineValues]

theorem tileAt_gridSet (d : Direction) {n : Nat} {grid : Grid} (hwf : GridWF n grid)
    {l0 i0 : Nat} (hl0 : l0 < n) (hi0 : i0 < n) (x : Option Tile) (l j : Nat) (hj : j < n) :
    tileAt d n (gridSet grid (lineCoord d n l0 i0).1 (lineCoord d n l0 i0).2 x) l j =
      if l = l0 ∧ j = i0 then x else tileAt d n grid l j := by
  have hb := lineCoord_lt d hl0 hi0
  unfold tileAt
  rw [gridAt_gridSet_wf hwf hb.1 hb.2]
  by_cases h : l = l0 ∧ j = i0
  · rw [if_pos h, if_pos (by rw [h.1, h.2]; exact ⟨rfl, rfl⟩)]
  · rw [if_neg h, if_neg]
    intro hh
    apply h
    exact lineCoord_inj d hj hi0 (Prod.ext hh.1 hh.2)

theorem absorb_none (st : LineAcc) :
    (absorb st none).tiles = st.tiles ∧ (absorb st none).pending = st.pending ∧
    (absorb st none).gains = st.gains ∧ (absorb st none).mv = st.mv := by
  simp [absorb, LineAcc.tiles]

theorem absorb_merge (st : LineAcc) {v : Nat} (hp : st.pending = some v) :
    (absorb st (some v)).tiles = st.closed ++ [v * 2] ∧ (absorb st (some v)).pending = none ∧
    (absorb st (some v)).gains = st.gains ++ [v * 2] ∧ (absorb st (some v)).mv = true ∧
    st.tiles = st.closed ++ [v] := by
  simp [absorb, LineAcc.tiles, hp]

theorem absorb_slide (st : LineAcc) {v : Nat} (hp : ¬ st.pending = some v) :
    (absorb st (some v)).tiles = st.tiles ++ [v] ∧ (absorb st (some v)).pending = some v ∧
    (absorb st (some v)).gains = st.gains ∧
    (absorb st (some v)).mv = (st.mv || decide (st.tiles.length ≠ st.seen)) := by
  simp [absorb, LineAcc.tiles, hp]

theorem LineInv.step_none {d : Direction} {n : Nat} {orig cur : Grid} {l i : Nat}
    (h : LineInv d n orig cur l i) (hi : i < n) (hx : tileAt d n orig l i = none) :
    LineInv d n orig cur l (i + 1) := by
  have hlen : i < (lineValues d n orig l).length := by rw [lineValues_length]; exact hi
  have hs : lineAfter (lineValues d n orig l) (i + 1) =
      absorb (lineAfter (lineValues d n orig l) i) none := by
    rw [lineAfter_succ _ hlen, lineValues_getElem, hx]; rfl
  have ha := absorb_none (lineAfter (lineValues d n orig l) i)
  constructor
  · intro j hj
    rw [hs, ha.1] at hj ⊢
    exact h.placed j hj
  · rw [hs, ha.1, ha.2.1]
    exact h.isClosed
  · rw [hs, ha.1, ha.2.1]
    exact h.isOpen
  · intro j h1 h2
    rw [hs, ha.1] at h1
    by_cases hji : j = i
    · subst hji
      rw [h.rest j (le_refl _) hi, hx]
    · exact h.gap j h1 (by omega)
  · intro j h1 h2
    exact h.rest j (by omega) h2

theorem LineInv.step_merge {d : Direction} {n : Nat} {orig cur cur2 : Grid} {l i : Nat}
    (h : LineInv d n orig cur l i) (merged : Tile) (hi : i < n) {tile : Tile}
    (hx : tileAt d n orig l i = some tile)
    (hp : (lineAfter (lineValues d n orig l) i).pending = some tile.value)
    (hval : merged.value = tile.value * 2) (hmerged : merged.merged = true)
    (hcur : ∀ j, j < n → tileAt d n cur2 l j =
      if j = (lineAfter (lineValues d n orig l) i).tiles.length - 1 then some merged
      else if j = i then none else tileAt d n cur l j) :
    LineInv d n orig cur2 l (i + 1) := by
  have hlen : i < (lineValues d n orig l).length := by rw [lineValues_length]; exact hi
  have hs : lineAfter (lineValues d n orig l) (i + 1) =
      absorb (lineAfter (lineValues d n orig l) i) (some tile.value) := by
    rw [lineAfter_succ _ hlen, lineValues_getElem, hx]; rfl
  have ha := absorb_merge (lineAfter (lineValues d n orig l) i) hp
  have hm := lineAfter_tiles_length_le (lineValues d n orig l) i
  have hmlen : (lineAfter (lineValues d n orig l) i).tiles.length =
      (lineAfter (lineValues d n orig l) i).closed.length + 1 := by
    rw [ha.2.2.2.2]; simp
  have hlen2 : (lineAfter (lineValues d n orig l) (i + 1)).tiles.length =
      (lineAfter (lineValues d n orig l) i).tiles.length := by
    rw [hs, ha.1, hmlen]; simp
  constructor
  · intro j hj
    rw [hlen2] at hj
    rw [hcur j (by omega), hs, ha.1]
    by_cases hj2 : j = (lineAfter (lineValues d n orig l) i).tiles.length - 1
    · rw [if_pos hj2, hj2, hmlen]
      simp [hval]
    · rw [if_neg hj2, if_neg (by omega), h.placed j hj, ha.2.2.2.2,
        List.getElem?_append_left (by omega), List.getElem?_append_left (by omega)]
  · intro _ t ht _
    rw [hlen2, hcur _ (by omega), if_pos rfl] at ht
    cases ht
    exact hmerged
  · intro v hv
    rw [hs, ha.2.1] at hv
    cases hv
  · intro j h1 h2
    rw [hlen2] at h1
    rw [hcur j (by omega), if_neg (by omega)]
    by_cases hji : j = i
    · rw [if_pos hji]
    · rw [if_neg hji]
      exact h.gap j h1 (by omega)
  · intro j h1 h2
    rw [hcur j h2, if_neg (by omega), if_neg (by omega)]
    exact h.rest j (by omega) h2

theorem LineInv.step_slide {d : Direction} {n : Nat} {orig cur cur2 : Grid} {l i : Nat}
    (h : LineInv d n orig cur l i) (tile1 : Tile) (hi : i < n) {tile : Tile}
    (hx : tileAt d n orig l i = some tile)
    (hp : ¬ (lineAfter (lineValues d n orig l) i).pending = some tile.value)
    (hval : tile1.value = tile.value) (hmerged : tile1.merged = false)
    (hcur : ∀ j, j < n → tileAt d n cur2 l j =
      if j = (lineAfter (lineValues d n orig l) i).tiles.length then some tile1
      else if j = i then none else tileAt d n cur l j) :
    LineInv d n orig cur2 l (i + 1) := by
  have hlen : i < (lineValues d n orig l).length := by rw [lineValues_length]; exact hi
  have hs : lineAfter (lineValues d n orig l) (i + 1) =
      absorb (lineAfter (lineValues d n orig l) i) (some tile.value) := by
    rw [lineAfter_succ _ hlen, lineValues_getElem, hx]; rfl
  have ha := absorb_slide (lineAfter (lineValues d n orig l) i) hp
  have hm := lineAfter_tiles_length_le (lineValues d n orig l) i
  have hlen2 : (lineAfter (lineValues d n orig l) (i + 1)).tiles.length =
      (lineAfter (lineValues d n orig l) i).tiles.length + 1 := by
    rw [hs, ha.1]; simp
  constructor
  · intro j hj
    rw [hlen2] at hj
    rw [hcur j (by omega), hs, ha.1]
    by_cases hj2 : j = (lineAfter (lineValues d n orig l) i).tiles.length
    · rw [if_pos hj2, hj2]
      simp [hval]
    · rw [if_neg hj2, if_neg (by omega), h.placed j (by omega),
        List.getElem?_append_left (by omega)]
  · intro hn
    rw [hs, ha.2.1] at hn
    cases hn
  · intro v _
    refine ⟨tile1, ?_, hmerged⟩
    rw [hlen2, hcur _ (by omega), if_pos (by omega)]
  · intro j h1 h2
    rw [hlen2] at h1
    rw [hcur j (by omega), if_neg (by omega)]
    by_cases hji : j = i
    · rw [if_pos hji]
    · rw [if_neg hji]
      exact h.gap j (by omega) (by omega)
  · intro j h1 h2
    rw [hcur j h2, if_neg (by omega), if_neg (by omega)]
    exact h.rest j (by omega) h2

theorem LineInv.congr {d : Direction} {n : Nat} {orig cur cur2 : Grid} {l i : Nat}
    (h : LineInv d n orig cur l i) (hi : i ≤ n)
    (hcur : ∀ j, j < n → tileAt d n cur2 l j = tileAt d n cur l j) :
    LineInv d n orig cur2 l i := by
  have hm := lineAfter_tiles_length_le (lineValues d n orig l) i
  constructor
  · intro j hj
    rw [hcur j (by omega)]
    exact h.placed j hj
  · intro hn t ht h1
    rw [hcur _ (by omega)] at ht
    exact h.isClosed hn t ht h1
  · intro v hv
    obtain ⟨t, ht, htm⟩ := h.isOpen v hv
    have h1 : 1 ≤ (lineAfter (lineValues d n orig l) i).tiles.length := by
      simp [LineAcc.tiles, hv]
    exact ⟨t, by rw [hcur _ (by omega)]; exact ht, htm⟩
  · intro j h1 h2
    rw [hcur j (by omega)]
    exact h.gap j h1 h2
  · intro j h1 h2
    rw [hcur j h2]
    exact h.rest j h1 h2

theorem tiles_getElem?_last_of_pending {st : LineAcc} {v : Nat} (hp : st.pending = some v) :
    st.tiles[st.tiles.length - 1]? = some v ∧ 1 ≤ st.tiles.length := by
  simp [LineAcc.tiles, hp]

theorem tiles_length_of_pending_none {st : LineAcc} (hp : st.pending = none) :
    st.tiles = st.closed := by
  simp [LineAcc.tiles, hp]

/-- The body of the inner loop of `move`, at the `i`-th cell of a line of which the first
`i` cells have been walked: it succeeds, re-establishes the relation of the line for `i + 1`
cells, leaves the other lines alone and updates `gained`, `score`, `won` and `moved` by what
the step of the line algorithm creates. -/
theorem moveCell_line (d : Direction) (orig : Grid) (acc : Game2048.MoveAcc) {l i : Nat}
    (hl : l < acc.game.size) (hi : i < acc.game.size)
    (hwf : GridWF acc.game.size acc.game.grid)
    (horig : ∀ j t, tileAt d acc.game.size orig l j = some t → t.merged = false)
    (hinv : LineInv d acc.game.size orig acc.game.grid l i) :
    ∃ (acc2 : Game2048.MoveAcc) (δ : List Nat) (b : Bool),
      Game2048.moveCell d.vector acc (lineCoord d acc.game.size l i).1
        (lineCoord d acc.game.size l i).2 = some acc2 ∧
      CellStep d orig acc acc2 l i δ b := by
  have hlen : i < (lineValues d acc.game.size orig l).length := by
    rw [lineValues_length]; exact hi
  have hgrid : gridAt acc.game.grid (lineCoord d acc.game.size l i).1
      (lineCoord d acc.game.size l i).2 = tileAt d acc.game.size orig l i :=
    hinv.rest i (le_refl _) hi
  have hb := lineCoord_lt d hl hi
  cases hx : tileAt d acc.game.size orig l i with
  | none =>
    refine ⟨acc, [], false, ?_, ⟨hwf, hinv.step_none hi hx, fun _ _ _ _ => rfl, ?_, ?_,
      by simp, by simp, by simp, by simp, by simp⟩⟩
    · simp only [Game2048.moveCell, hgrid, hx]
    · rw [lineAfter_succ _ hlen, lineValues_getElem, hx]
      simp [(absorb_none _).2.2.1]
    · rw [lineAfter_succ _ hlen, lineValues_getElem, hx]
      simp [(absorb_none _).2.2.2]
  | some tile =>
    rw [hx] at hgrid
    have htm : tile.merged = false := horig i tile hx
    have hs : lineAfter (lineValues d acc.game.size orig l) (i + 1) =
        absorb (lineAfter (lineValues d acc.game.size orig l) i) (some tile.value) := by
      rw [lineAfter_succ _ hlen, lineValues_getElem, hx]; rfl
    have hm := lineAfter_tiles_length_le (lineValues d acc.game.size orig l) i
    have hseen := lineAfter_seen (lineValues d acc.game.size orig l)
      (show i ≤ (lineValues d acc.game.size orig l).length by omega)
    have hocc : 1 ≤ (lineAfter (lineValues d acc.game.size orig l) i).tiles.length →
        tileAt d acc.game.size acc.game.grid l ((lineAfter (lineValues d acc.game.size orig l) i).tiles.length - 1) ≠ none := by
      intro h1 hnone
      have := hinv.placed ((lineAfter (lineValues d acc.game.size orig l) i).tiles.length - 1) (by omega)
      rw [hnone, List.getElem?_eq_getElem (by omega)] at this
      simp at this
    have hfind := findFarthest_line acc.game d hl hocc hm hi hinv.gap
    have hcell : (⟨((lineCoord d acc.game.size l i).1 : Int),
        ((lineCoord d acc.game.size l i).2 : Int)⟩ : Cell) =
        cellOf (lineCoord d acc.game.size l i) := rfl
    -- the two outcomes of the step
    have slideCase : ¬ (lineAfter (lineValues d acc.game.size orig l) i).pending = some tile.value →
        Game2048.moveCell d.vector acc (lineCoord d acc.game.size l i).1
          (lineCoord d acc.game.size l i).2 =
          some (Game2048.moveCellSlide acc tile (cellOf (lineCoord d acc.game.size l (lineAfter (lineValues d acc.game.size orig l) i).tiles.length))
            (lineCoord d acc.game.size l i).1 (lineCoord d acc.game.size l i).2) →
        ∃ (acc2 : Game2048.MoveAcc) (δ : List Nat) (b : Bool),
          Game2048.moveCell d.vector acc (lineCoord d acc.game.size l i).1
            (lineCoord d acc.game.size l i).2 = some acc2 ∧
          CellStep d orig acc acc2 l i δ b := by
      intro hp hmove
      have ha := absorb_slide (lineAfter (lineValues d acc.game.size orig l) i) hp
      have hbm := lineCoord_lt d hl (show (lineAfter (lineValues d acc.game.size orig l) i).tiles.length < acc.game.size by omega)
      by_cases hmi : (lineAfter (lineValues d acc.game.size orig l) i).tiles.length = i
      · -- the tile stays where it is
        have hsame : Game2048.moveCellSlide acc tile
            (cellOf (lineCoord d acc.game.size l (lineAfter (lineValues d acc.game.size orig l) i).tiles.length))
            (lineCoord d acc.game.size l i).1 (lineCoord d acc.game.size l i).2 = acc := by
          unfold Game2048.moveCellSlide
          rw [hmi]
          simp [cellOf]
        rw [hsame] at hmove
        refine ⟨acc, [], false, hmove, ⟨hwf, ?_, fun _ _ _ _ => rfl, ?_, ?_,
          by simp, by simp, by simp, by simp, by simp⟩⟩
        · refine hinv.step_slide tile hi hx hp rfl htm ?_
          intro j hj
          by_cases hji : j = i
          · rw [if_pos (by omega), hji]
            exact hgrid
          · rw [if_neg (by omega), if_neg hji]
        · rw [hs, ha.2.2.1]; simp
        · rw [hs, ha.2.2.2, hseen, hmi]; simp
      · -- the tile goes to cell `m`
        have hcond : (cellOf (lineCoord d acc.game.size l (lineAfter (lineValues d acc.game.size orig l) i).tiles.length)).row ≠
              ((lineCoord d acc.game.size l i).1 : Int) ∨
            (cellOf (lineCoord d acc.game.size l (lineAfter (lineValues d acc.game.size orig l) i).tiles.length)).col ≠
              ((lineCoord d acc.game.size l i).2 : Int) := by
          by_contra hcon
          push_neg at hcon
          simp only [cellOf, Nat.cast_inj] at hcon
          exact hmi (lineCoord_inj d (by omega) hi (Prod.ext hcon.1 hcon.2)).2
        have hwf1 := gridSet_wf hwf (lineCoord d acc.game.size l i).1
          (lineCoord d acc.game.size l i).2 none
        refine ⟨_, [], true, hmove, ⟨?_, ?_, ?_, ?_, ?_, ?_, ?_, ?_, ?_, ?_⟩⟩
        · unfold Game2048.moveCellSlide
          rw [if_pos hcond]
          exact gridSet_wf hwf1 _ _ _
        · refine hinv.step_slide { tile with
              row := (cellOf (lineCoord d acc.game.size l (lineAfter (lineValues d acc.game.size orig l) i).tiles.length)).row,
              col := (cellOf (lineCoord d acc.game.size l (lineAfter (lineValues d acc.game.size orig l) i).tiles.length)).col }
            hi hx hp rfl htm ?_
          intro j hj
          unfold Game2048.moveCellSlide
          rw [if_pos hcond]
          simp only [cellOf, Int.toNat_ofNat]
          rw [tileAt_gridSet d hwf1 hl (by omega) _ l j hj,
            tileAt_gridSet d hwf hl hi _ l j hj]
          simp
        · intro l2 j hl2 hj
          unfold Game2048.moveCellSlide
          rw [if_pos hcond]
          simp only [cellOf, Int.toNat_ofNat]
          rw [tileAt_gridSet d hwf1 hl (by omega) _ l2 j hj,
            tileAt_gridSet d hwf hl hi _ l2 j hj]
          simp [hl2]
        · rw [hs, ha.2.2.1]; simp
        · rw [hs, ha.2.2.2, hseen]; simp [hmi]
        all_goals
          unfold Game2048.moveCellSlide
          rw [if_pos hcond]
          simp
    by_cases h1 : 1 ≤ (lineAfter (lineValues d acc.game.size orig l) i).tiles.length
    · rw [if_pos h1] at hfind
      have hc := cellContent_cellOf acc.game d hl (show (lineAfter (lineValues d acc.game.size orig l) i).tiles.length - 1 < acc.game.size by omega)
      cases hnt : tileAt d acc.game.size acc.game.grid l ((lineAfter (lineValues d acc.game.size orig l) i).tiles.length - 1) with
      | none => exact absurd hnt (hocc h1)
      | some nt =>
        have hntv : some nt.value = (lineAfter (lineValues d acc.game.size orig l) i).tiles[(lineAfter (lineValues d acc.game.size orig l) i).tiles.length - 1]? := by
          have := hinv.placed ((lineAfter (lineValues d acc.game.size orig l) i).tiles.length - 1) (by omega)
          rw [hnt] at this
          exact this
        have hiff : (nt.value = tile.value ∧ nt.merged = false) ↔ (lineAfter (lineValues d acc.game.size orig l) i).pending = some tile.value := by
          constructor
          · rintro ⟨hv, hmg⟩
            cases hpd : (lineAfter (lineValues d acc.game.size orig l) i).pending with
            | none =>
              have := hinv.isClosed hpd nt hnt h1
              rw [hmg] at this; cases this
            | some w =>
              rw [(tiles_getElem?_last_of_pending hpd).1] at hntv
              cases hntv
              rw [hv]
          · intro hpd
            obtain ⟨t, ht, htmg⟩ := hinv.isOpen _ hpd
            rw [hnt] at ht
            cases ht
            rw [(tiles_getElem?_last_of_pending hpd).1] at hntv
            exact ⟨Option.some.inj hntv, htmg⟩
        by_cases hp : (lineAfter (lineValues d acc.game.size orig l) i).pending = some tile.value
        · -- the tile merges into the tile at cell `m - 1`
          have hmove : Game2048.moveCell d.vector acc (lineCoord d acc.game.size l i).1
              (lineCoord d acc.game.size l i).2 =
              some (Game2048.moveCellMerge acc tile
                (cellOf (lineCoord d acc.game.size l ((lineAfter (lineValues d acc.game.size orig l) i).tiles.length - 1)))
                (lineCoord d acc.game.size l i).1 (lineCoord d acc.game.size l i).2) := by
            simp only [Game2048.moveCell, hgrid, hcell, hfind, Option.bind, hc.2, hnt]
            rw [if_pos (hiff.mpr hp)]
          have ha := absorb_merge (lineAfter (lineValues d acc.game.size orig l) i) hp
          have hwf1 := gridSet_wf hwf (lineCoord d acc.game.size l i).1
            (lineCoord d acc.game.size l i).2 none
          refine ⟨_, [tile.value * 2], true, hmove, ⟨?_, ?_, ?_, ?_, ?_, ?_, ?_, ?_, ?_, ?_⟩⟩
          · unfold Game2048.moveCellMerge
            exact gridSet_wf hwf1 _ _ _
          · refine hinv.step_merge ⟨tile.value * 2,
                (cellOf (lineCoord d acc.game.size l ((lineAfter (lineValues d acc.game.size orig l) i).tiles.length - 1))).row,
                (cellOf (lineCoord d acc.game.size l ((lineAfter (lineValues d acc.game.size orig l) i).tiles.length - 1))).col, true⟩
              hi hx hp rfl rfl ?_
            intro j hj
            unfold Game2048.moveCellMerge
            simp only [cellOf, Int.toNat_ofNat]
            rw [tileAt_gridSet d hwf1 hl (by omega) _ l j hj,
              tileAt_gridSet d hwf hl hi _ l j hj]
            simp
          · intro l2 j hl2 hj
            unfold Game2048.moveCellMerge
            simp only [cellOf, Int.toNat_ofNat]
            rw [tileAt_gridSet d hwf1 hl (by omega) _ l2 j hj,
              tileAt_gridSet d hwf hl hi _ l2 j hj]
            simp [hl2]
          · rw [hs, ha.2.2.1]
          · rw [hs, ha.2.2.2.1]; simp
          · unfold Game2048.moveCellMerge; simp
          · unfold Game2048.moveCellMerge; simp
          · unfold Game2048.moveCellMerge
            by_cases hw : 2048 ≤ tile.value * 2 <;> simp [hw]
          · unfold Game2048.moveCellMerge; simp
          · unfold Game2048.moveCellMerge; simp
        · apply slideCase hp
          simp only [Game2048.moveCell, hgrid, hcell, hfind, Option.bind, hc.2, hnt]
          rw [if_neg (fun hh => hp (hiff.mp hh))]
    · rw [if_neg h1] at hfind
      have hp : ¬ (lineAfter (lineValues d acc.game.size orig l) i).pending = some tile.value := by
        intro hpd
        exact h1 (tiles_getElem?_last_of_pending hpd).2
      apply slideCase hp
      simp only [Game2048.moveCell, hgrid, hcell, hfind, Option.bind]

/-! ### The two nested loops of `move` -/

theorem sum_range_update (n : Nat) (f f2 : Nat → Nat) {l : Nat} (hl : l < n) (x : Nat)
    (h1 : f2 l = f l + x) (h2 : ∀ l2, l2 < n → l2 ≠ l → f2 l2 = f l2) :
    Finset.sum (Finset.range n) f2 = Finset.sum (Finset.range n) f + x := by
  have hmem : l ∈ Finset.range n := Finset.mem_range.mpr hl
  rw [← Finset.add_sum_erase _ f hmem, ← Finset.add_sum_erase _ f2 hmem, h1]
  have : Finset.sum ((Finset.range n).erase l) f2 = Finset.sum ((Finset.range n).erase l) f := by
    apply Finset.sum_congr rfl
    intro l2 hl2
    rw [Finset.mem_erase, Finset.mem_range] at hl2
    exact h2 l2 hl2.2 hl2.1
  rw [this, Nat.add_right_comm]

theorem SlideInv.step {d : Direction} {g0 : Game2048} {prog : Nat → Nat}
    {acc : Game2048.MoveAcc} (h : SlideInv d g0 prog acc) (prog2 : Nat → Nat)
    (horig : ∀ r c t, gridAt g0.grid r c = some t → t.merged = false)
    {l i : Nat} (hl : l < g0.size) (hi : i < g0.size) (hp : prog l = i)
    (hp2 : prog2 l = i + 1) (hother : ∀ l2, l2 < g0.size → l2 ≠ l → prog2 l2 = prog l2) :
    ∃ acc2, Game2048.moveCell d.vector acc (lineCoord d g0.size l i).1
        (lineCoord d g0.size l i).2 = some acc2 ∧ SlideInv d g0 prog2 acc2 := by
  have hsz : acc.game.size = g0.size := h.frame.1
  have hline := h.lines l hl
  rw [hp] at hline
  obtain ⟨acc2, δ, b, hmove, hstep⟩ := moveCell_line d g0.grid acc (l := l) (i := i)
    (by rw [hsz]; exact hl) (by rw [hsz]; exact hi) (by rw [hsz]; exact h.wf)
    (fun j t ht => horig _ _ t ht) (by rw [hsz]; exact hline)
  rw [hsz] at hmove
  have hwf2 := hstep.wf
  have hline2 := hstep.line
  have hothers := hstep.others
  have hgains := hstep.gainsEq
  have hmv := hstep.mvEq
  rw [hsz] at hwf2 hline2 hothers hgains hmv
  refine ⟨acc2, hmove, ⟨hwf2, ?_, ?_, ?_, ?_, ?_, ?_, ?_⟩⟩
  · intro l2 hl2
    by_cases hll : l2 = l
    · subst hll
      rw [hp2]; exact hline2
    · rw [hother l2 hl2 hll]
      exact (h.lines l2 hl2).congr (h.bound l2 hl2) (fun j hj => hothers l2 j hll hj)
  · intro l2 hl2
    by_cases hll : l2 = l
    · subst hll
      rw [hp2]; omega
    · rw [hother l2 hl2 hll]
      exact h.bound l2 hl2
  · rw [hstep.gained, h.gained]
    symm
    apply sum_range_update g0.size _ _ hl
    · simp only [hp2, hp, hgains, List.sum_append]
    · intro l2 hl2 hll
      simp only [hother l2 hl2 hll]
  · rw [hstep.score, hstep.gained, h.score]; omega
  · rw [hstep.won, h.won]
    constructor
    · rintro ((hw | ⟨l2, hl2, x, hx, hx2⟩) | ⟨x, hx, hx2⟩)
      · exact Or.inl hw
      · right
        by_cases hll : l2 = l
        · subst hll
          refine ⟨l2, hl2, x, ?_, hx2⟩
          rw [hp2, hgains, ← hp]
          exact List.mem_append_left _ hx
        · exact ⟨l2, hl2, x, by rw [hother l2 hl2 hll]; exact hx, hx2⟩
      · right
        refine ⟨l, hl, x, ?_, hx2⟩
        rw [hp2, hgains]
        exact List.mem_append_right _ hx
    · rintro (hw | ⟨l2, hl2, x, hx, hx2⟩)
      · exact Or.inl (Or.inl hw)
      · by_cases hll : l2 = l
        · subst hll
          rw [hp2, hgains, List.mem_append] at hx
          rcases hx with hx | hx
          · exact Or.inl (Or.inr ⟨l2, hl2, x, by rw [hp]; exact hx, hx2⟩)
          · exact Or.inr ⟨x, hx, hx2⟩
        · rw [hother l2 hl2 hll] at hx
          exact Or.inl (Or.inr ⟨l2, hl2, x, hx, hx2⟩)
  · rw [hstep.moved, Bool.or_eq_true, h.moved]
    constructor
    · rintro (⟨l2, hl2, hm⟩ | hb)
      · by_cases hll : l2 = l
        · subst hll
          refine ⟨l2, hl2, ?_⟩
          rw [hp2, hmv, ← hp, hm]; rfl
        · exact ⟨l2, hl2, by rw [hother l2 hl2 hll]; exact hm⟩
      · refine ⟨l, hl, ?_⟩
        rw [hp2, hmv, hb]; simp
    · rintro ⟨l2, hl2, hm⟩
      by_cases hll : l2 = l
      · subst hll
        rw [hp2, hmv, Bool.or_eq_true] at hm
        rcases hm with hm | hm
        · exact Or.inl ⟨l2, hl2, by rw [hp]; exact hm⟩
        · exact Or.inr hm
      · rw [hother l2 hl2 hll] at hm
        exact Or.inl ⟨l2, hl2, hm⟩
  · obtain ⟨f1, f2, f3, f4, f5, f6⟩ := hstep.frame
    obtain ⟨e1, e2, e3, e4, e5, e6⟩ := h.frame
    exact ⟨f1.trans e1, f2.trans e2, f3.trans e3, f4.trans e4, f5.trans e5, f6.trans e6⟩

theorem foldlM_option_inv {α β : Type} (xs : List β) (F : α → β → Option α)
    (P : Nat → α → Prop) (a0 : α) (h0 : P 0 a0)
    (hstep : ∀ k (hk : k < xs.length) a, P k a → ∃ a2, F a (xs.get ⟨k, hk⟩) = some a2 ∧ P (k + 1) a2) :
    ∃ a2, xs.foldlM F a0 = some a2 ∧ P xs.length a2 := by
  induction xs generalizing P a0 with
  | nil => exact ⟨a0, rfl, h0⟩
  | cons x xs ih =>
    obtain ⟨a1, hF, hP⟩ := hstep 0 (by simp) a0 h0
    simp only [List.get_eq_getElem, List.getElem_cons_zero] at hF
    obtain ⟨a2, hfold, hP2⟩ := ih (fun k a => P (k + 1) a) a1 hP (by
      intro k hk a ha
      have := hstep (k + 1) (by simpa using hk) a ha
      simpa using this)
    refine ⟨a2, ?_, hP2⟩
    rw [List.foldlM_cons, hF]
    exact hfold

theorem gridAt_map (grid : Grid) (f : Tile → Tile) (r c : Nat) :
    gridAt (grid.map fun cells => cells.map fun t => t.map f) r c = (gridAt grid r c).map f := by
  unfold gridAt
  rw [List.getElem?_map]
  cases h : grid[r]? with
  | none => rfl
  | some cells =>
    simp only [Option.map_some', List.getElem?_map]
    cases h2 : cells[c]? with
    | none => rfl
    | some x => cases x <;> rfl

theorem GridWF_map {n : Nat} {grid : Grid} (h : GridWF n grid) (f : Tile → Tile) :
    GridWF n (grid.map fun cells => cells.map fun t => t.map f) := by
  refine ⟨by simpa using h.1, ?_⟩
  intro cells hc
  rw [List.mem_map] at hc
  obtain ⟨c0, hc0, rfl⟩ := hc
  simpa using h.2 c0 hc0

theorem prepareTiles_merged (g : Game2048) (r c : Nat) (t : Tile)
    (h : gridAt g.prepareTiles.grid r c = some t) : t.merged = false := by
  unfold Game2048.prepareTiles at h
  simp only [gridAt_map] at h
  cases hx : gridAt g.grid r c with
  | none => rw [hx] at h; cases h
  | some t0 => rw [hx] at h; cases h; rfl

theorem gridValues_prepareTiles (g : Game2048) :
    gridValues g.prepareTiles.grid = gridValues g.grid := by
  unfold gridValues Game2048.prepareTiles
  simp only [List.map_map]
  apply List.map_congr_left
  intro cells _
  simp only [Function.comp, List.map_map]
  apply List.map_congr_left
  intro t _
  cases t <;> rfl

theorem traversals_spec (g : Game2048) (d : Direction) :
    (g.buildTraversals d.vector).1.length = g.size ∧
    (g.buildTraversals d.vector).2.length = g.size ∧
    ∀ k j (hk : k < (g.buildTraversals d.vector).1.length)
      (hj : j < (g.buildTraversals d.vector).2.length),
      ((g.buildTraversals d.vector).1.get ⟨k, hk⟩, (g.buildTraversals d.vector).2.get ⟨j, hj⟩) =
        lineCoord d g.size (sched d k j).1 (sched d k j).2 := by
  cases d <;>
    simp [Game2048.buildTraversals, Direction.vector, lineCoord, sched, List.getElem_reverse]

theorem progress_zero (d : Direction) (n l : Nat) : progress d n 0 0 l = 0 := by
  cases d <;> simp [progress]

theorem progress_sched (d : Direction) {n k j : Nat} (hk : k < n) (hj : j < n) :
    (sched d k j).1 < n ∧ (sched d k j).2 < n ∧
    progress d n k j (sched d k j).1 = (sched d k j).2 ∧
    progress d n k (j + 1) (sched d k j).1 = (sched d k j).2 + 1 ∧
    ∀ l2, l2 ≠ (sched d k j).1 → progress d n k (j + 1) l2 = progress d n k j l2 := by
  cases d <;> simp only [sched, progress] <;>
    refine ⟨by omega, by omega, by simp, by simp, ?_⟩ <;>
    intro l2 hl2 <;> split_ifs <;> omega

theorem progress_next (d : Direction) {n k l : Nat} (hl : l < n) :
    progress d n k n l = progress d n (k + 1) 0 l := by
  cases d <;> simp only [progress] <;> split_ifs <;> omega

theorem progress_last (d : Direction) {n l : Nat} (hl : l < n) : progress d n n 0 l = n := by
  cases d <;> simp only [progress] <;> split_ifs <;> omega

theorem SlideInv.init (d : Direction) (g0 : Game2048) (hwf : GridWF g0.size g0.grid) :
    SlideInv d g0 (fun _ => 0) ⟨g0, false, 0⟩ := by
  refine ⟨hwf, ?_, fun _ _ => Nat.zero_le _, ?_, by simp, ?_, ?_, ⟨rfl, rfl, rfl, rfl, rfl, rfl⟩⟩
  · intro l _
    constructor
    · intro j hj; simp [lineAfter, LineAcc.tiles] at hj
    · intro _ t _ h1; simp [lineAfter, LineAcc.tiles] at h1
    · intro v hv; simp [lineAfter] at hv
    · intro j _ hj; omega
    · intro j _ _; rfl
  · simp [lineAfter]
  · simp [lineAfter]
  · simp [lineAfter]

/-- The loops of `move` never run out of fuel, and when they end every line has been walked
whole. -/
theorem slide_inv (g : Game2048) (d : Direction) (hwf : GridWF g.size g.grid) :
    ∃ acc prog, g.slide d.vector = some acc ∧ SlideInv d g.prepareTiles prog acc ∧
      ∀ l, l < g.size → prog l = g.size := by
  have hsz : g.prepareTiles.size = g.size := rfl
  have hwf1 : GridWF g.prepareTiles.size g.prepareTiles.grid := GridWF_map hwf _
  have horig := prepareTiles_merged g
  obtain ⟨hrl, hcl, hget⟩ := traversals_spec g.prepareTiles d
  have houter := foldlM_option_inv (g.prepareTiles.buildTraversals d.vector).1
    (fun acc row => (g.prepareTiles.buildTraversals d.vector).2.foldlM
      (fun acc col => Game2048.moveCell d.vector acc row col) acc)
    (fun k acc => ∃ prog, (∀ l, l < g.size → prog l = progress d g.size k 0 l) ∧
      SlideInv d g.prepareTiles prog acc)
    ⟨g.prepareTiles, false, 0⟩
    ⟨fun _ => 0, fun l _ => (progress_zero d g.size l).symm, SlideInv.init d _ hwf1⟩
    (by
      intro k hk acc ⟨prog, hprog, hinv⟩
      have hkn : k < g.size := by rw [← hsz, ← hrl]; exact hk
      have hinner := foldlM_option_inv (g.prepareTiles.buildTraversals d.vector).2
        (fun acc col => Game2048.moveCell d.vector acc
          ((g.prepareTiles.buildTraversals d.vector).1.get ⟨k, hk⟩) col)
        (fun j acc => ∃ prog, (∀ l, l < g.size → prog l = progress d g.size k j l) ∧
          SlideInv d g.prepareTiles prog acc)
        acc ⟨prog, hprog, hinv⟩
        (by
          intro j hj acc1 ⟨prog1, hprog1, hinv1⟩
          have hjn : j < g.size := by rw [← hsz, ← hcl]; exact hj
          obtain ⟨hs1, hs2, hs3, hs4, hs5⟩ := progress_sched d hkn hjn
          have hcoord := hget k j hk hj
          rw [Prod.ext_iff] at hcoord
          simp only at hcoord
          rw [hcoord.1, hcoord.2]
          obtain ⟨acc2, hmove, hinv2⟩ := hinv1.step
            (progress d g.size k (j + 1)) horig (l := (sched d k j).1)
            (i := (sched d k j).2) hs1 hs2
            (by rw [hprog1 _ hs1]; exact hs3) hs4
            (fun l2 hl2 hne => by rw [hprog1 l2 hl2]; exact hs5 l2 hne)
          exact ⟨acc2, hmove, _, fun _ _ => rfl, hinv2⟩)
      obtain ⟨acc2, hfold, prog2, hprog2, hinv2⟩ := hinner
      refine ⟨acc2, hfold, prog2, ?_, hinv2⟩
      intro l hl
      rw [hprog2 l hl, hcl, hsz]
      exact progress_next d hl)
  obtain ⟨acc, hfold, prog, hprog, hinv⟩ := houter
  refine ⟨acc, prog, hfold, hinv, ?_⟩
  intro l hl
  rw [hprog l hl, hrl, hsz]
  exact progress_last d hl

/-! ### The sliding phase of `Game2048.move` is the line algorithm -/

theorem valueAt_gridValues (grid : Grid) (r c : Nat) :
    valueAt (gridValues grid) r c = (gridAt grid r c).map Tile.value := by
  unfold valueAt gridValues gridAt
  rw [List.getElem?_map]
  cases h : grid[r]? with
  | none => rfl
  | some cells =>
    simp only [Option.map_some', List.getElem?_map]
    cases h2 : cells[c]? with
    | none => rfl
    | some x => cases x <;> rfl

theorem gridValues_tabulate {n : Nat} {grid : Grid} (h : GridWF n grid) :
    gridValues grid =
      (List.range n).map fun r => (List.range n).map fun c => (gridAt grid r c).map Tile.value := by
  apply List.ext_getElem
  · simp [gridValues, h.1]
  · intro r h1 h2
    have hr : r < grid.length := by simpa [gridValues] using h1
    have hrow : grid[r]? = some grid[r] := List.getElem?_eq_getElem hr
    have hlen : (grid[r]).length = n := h.2 _ (List.getElem_mem hr)
    simp only [gridValues, List.getElem_map, List.getElem_range]
    apply List.ext_getElem
    · simp [hlen]
    · intro c h3 h4
      have hc : c < (grid[r]).length := by simpa using h3
      simp only [List.getElem_map, List.getElem_range, gridAt, hrow,
        List.getElem?_eq_getElem hc, Option.join]
      rfl

theorem gridValues_eq_iff {n : Nat} {a b : Grid} (ha : GridWF n a) (hb : GridWF n b) :
    gridValues a = gridValues b ↔
      ∀ r c, r < n → c < n → (gridAt a r c).map Tile.value = (gridAt b r c).map Tile.value := by
  constructor
  · intro h r c _ _
    rw [← valueAt_gridValues, ← valueAt_gridValues, h]
  · intro h
    rw [gridValues_tabulate ha, gridValues_tabulate hb]
    apply List.map_congr_left
    intro r hr
    apply List.map_congr_left
    intro c hc
    exact h r c (List.mem_range.mp hr) (List.mem_range.mp hc)

theorem lineValues_eq_readLine (d : Direction) (n : Nat) (grid : Grid) (l : Nat) :
    lineValues d n grid l = readLine d n (gridValues grid) l := by
  unfold lineValues readLine tileAt
  apply List.map_congr_left
  intro i _
  rw [valueAt_gridValues]

theorem lineValues_getElem? (d : Direction) (n : Nat) (grid : Grid) (l : Nat) {i : Nat}
    (hi : i < n) :
    (lineValues d n grid l)[i]? = some ((tileAt d n grid l i).map Tile.value) := by
  rw [List.getElem?_eq_getElem (by rw [lineValues_length]; exact hi), lineValues_getElem]

theorem lineValues_eq_iff (d : Direction) (n : Nat) (a b : Grid) (l : Nat) :
    lineValues d n a l = lineValues d n b l ↔
      ∀ i, i < n → (tileAt d n a l i).map Tile.value = (tileAt d n b l i).map Tile.value := by
  constructor
  · intro h i hi
    have := congrArg (fun x => x[i]?) h
    simp only [lineValues_getElem? d n _ l hi] at this
    exact Option.some.inj this
  · intro h
    unfold lineValues
    apply List.map_congr_left
    intro i hi
    exact h i (List.mem_range.mp hi)

/-- When a line has been walked whole, its values are those the line algorithm gives. -/
theorem LineInv.final {d : Direction} {n : Nat} {orig cur : Grid} {l : Nat}
    (h : LineInv d n orig cur l n) :
    lineValues d n cur l = slideLine n (lineValues d n orig l) := by
  have hall := lineAfter_all (lineValues d n orig l) (i := n) (by rw [lineValues_length])
  have hm := lineAfter_tiles_length_le (lineValues d n orig l) n
  unfold slideLine
  rw [← hall.1]
  apply List.ext_getElem?
  intro j
  rw [padLine_getElem?]
  by_cases hj : j < n
  · rw [lineValues_getElem? d n cur l hj]
    by_cases hj2 : j < (lineAfter (lineValues d n orig l) n).tiles.length
    · rw [if_pos hj2, h.placed j hj2, List.getElem?_eq_getElem hj2]
      rfl
    · rw [if_neg hj2, if_pos hj, h.gap j (by omega) hj]
      rfl
  · rw [if_neg (by omega), if_neg hj, List.getElem?_eq_none]
    rw [lineValues_length]; omega

theorem sum_flatMap_range (n : Nat) (f : Nat → List Nat) :
    ((List.range n).flatMap f).sum = Finset.sum (Finset.range n) fun l => (f l).sum := by
  induction n with
  | zero => simp
  | succ n ih =>
    rw [List.range_succ, List.flatMap_append, List.sum_append, ih, Finset.sum_range_succ]
    simp

/-- The sliding phase of `move` ends and computes the line algorithm. -/
theorem slide_lineAlgorithm (g : Game2048) (d : Direction) (hwf : GridWF g.size g.grid) :
    ∃ acc, g.slide d.vector = some acc ∧
      gridValues acc.game.grid = lineAlgorithm d g.size (gridValues g.grid) ∧
      acc.gained = (lineAlgorithmGains d g.size (gridValues g.grid)).sum ∧
      (acc.moved = true ↔ gridValues acc.game.grid ≠ gridValues g.grid) := by
  obtain ⟨acc, prog, hslide, hinv, hprog⟩ := slide_inv g d hwf
  have hwf1 : GridWF g.size g.prepareTiles.grid := GridWF_map hwf _
  have hwf2 : GridWF g.size acc.game.grid := hinv.wf
  have hlines : ∀ l, l < g.size →
      LineInv d g.size g.prepareTiles.grid acc.game.grid l (prog l) := hinv.lines
  have hgained : acc.gained = Finset.sum (Finset.range g.size) fun l =>
      (lineAfter (lineValues d g.size g.prepareTiles.grid l) (prog l)).gains.sum := hinv.gained
  have hmoved : acc.moved = true ↔ ∃ l, l < g.size ∧
      (lineAfter (lineValues d g.size g.prepareTiles.grid l) (prog l)).mv = true := hinv.moved
  clear hinv
  have hline : ∀ l, l < g.size → lineValues d g.size acc.game.grid l =
      slideLine g.size (readLine d g.size (gridValues g.grid) l) := by
    intro l hl
    have h1 := hlines l hl
    rw [hprog l hl] at h1
    rw [h1.final, lineValues_eq_readLine, gridValues_prepareTiles]
  have hgrid : gridValues acc.game.grid = lineAlgorithm d g.size (gridValues g.grid) := by
    rw [gridValues_tabulate hwf2]
    unfold lineAlgorithm
    apply List.map_congr_left
    intro r hr
    apply List.map_congr_left
    intro c hc
    obtain ⟨h1, h2, h3⟩ := lineCoord_lineIndex d (List.mem_range.mp hr) (List.mem_range.mp hc)
    rw [← hline _ h2, lineValues_getElem? d g.size _ _ h3]
    unfold tileAt
    rw [h1]
    rfl
  refine ⟨acc, hslide, hgrid, ?_, ?_⟩
  · rw [hgained]
    unfold lineAlgorithmGains
    rw [sum_flatMap_range]
    apply Finset.sum_congr rfl
    intro l hl
    rw [hprog l (Finset.mem_range.mp hl),
      (lineAfter_all _ (by rw [lineValues_length])).2,
      lineValues_eq_readLine, gridValues_prepareTiles]
  · rw [hmoved, ← gridValues_prepareTiles g, Ne, gridValues_eq_iff hwf2 hwf1]
    constructor
    · rintro ⟨l, hl, hmv⟩ hall
      rw [hprog l hl] at hmv
      have hlen : (lineValues d g.size g.prepareTiles.grid l).length = g.size :=
        lineValues_length _ _ _ _
      have := (lineAfter_mv_iff (lineValues d g.size g.prepareTiles.grid l)).mp
        (by rw [hlen]; exact hmv)
      rw [hlen] at this
      apply this
      have h1 := hlines l hl
      rw [hprog l hl] at h1
      rw [← h1.final, lineValues_eq_iff]
      intro i hi
      have hb := lineCoord_lt d hl hi
      exact hall _ _ hb.1 hb.2
    · intro hne
      by_contra hno
      apply hne
      intro r c hr hc
      obtain ⟨h1, h2, h3⟩ := lineCoord_lineIndex d hr hc
      have hmv : (lineAfter (lineValues d g.size g.prepareTiles.grid (lineIndex d g.size r c).1)
          g.size).mv = false := by
        by_contra hm
        apply hno
        exact ⟨_, h2, by rw [hprog _ h2]; simpa using hm⟩
      have hlen : (lineValues d g.size g.prepareTiles.grid (lineIndex d g.size r c).1).length
          = g.size := lineValues_length _ _ _ _
      have hsame : slideLine g.size
          (lineValues d g.size g.prepareTiles.grid (lineIndex d g.size r c).1) =
          lineValues d g.size g.prepareTiles.grid (lineIndex d g.size r c).1 := by
        by_contra hdiff
        have := (lineAfter_mv_iff _).mpr (by rw [hlen]; exact hdiff)
        rw [hlen, hmv] at this
        cases this
      have hfin := hlines _ h2
      rw [hprog _ h2] at hfin
      have heq := hfin.final
      rw [hsame, lineValues_eq_iff] at heq
      have := heq _ h3
      unfold tileAt at this
      rw [h1] at this
      exact this

/-- On a game that is not over, `move` in a direction is the sliding phase followed by
`finishMove`. -/
theorem move_eq_of_slide {g : Game2048} {d : Direction} {acc : Game2048.MoveAcc}
    (hover : g.over = false) (hslide : g.slide d.vector = some acc) :
    g.move d.name = some (⟨acc.moved, some acc.gained, some (Game2048.finishMove acc).score,
      some (Game2048.finishMove acc).over, some (Game2048.finishMove acc).won⟩,
      Game2048.finishMove acc) := by
  unfold Game2048.move
  rw [getVector_name]
  simp only [hover, Bool.false_eq_true, if_false, hslide, Option.map_some']

/-- C1: for every `n × n` grid with `over = false` and every direction, the sliding phase
of `Game2048.move` (all of `move` before `if (moved)`) ends, and it produces exactly the grid
of the line algorithm: each row (left, right) or column (up, down), read from the edge the
tiles move toward, is compacted, merged once pairwise from the front and padded with empties
to length `n`; `gained` is the sum of the doubled values, and `moved` is true exactly when
the value of some cell differs from before.  `move` returns these `moved` and `gained`. -/
theorem move_slide_eq_lineAlgorithm (g : Game2048) (d : Direction)
    (hwf : GridWF g.size g.grid) (hover : g.over = false) :
    ∃ acc, g.slide d.vector = some acc ∧
      gridValues acc.game.grid = lineAlgorithm d g.size (gridValues g.grid) ∧
      acc.gained = (lineAlgorithmGains d g.size (gridValues g.grid)).sum ∧
      (acc.moved = true ↔ gridValues acc.game.grid ≠ gridValues g.grid) ∧
      ∃ res, g.move d.name = some res ∧ res.1.moved = acc.moved ∧
        res.1.gained = some acc.gained := by
  obtain ⟨acc, hslide, h1, h2, h3⟩ := slide_lineAlgorithm g d hwf
  exact ⟨acc, hslide, h1, h2, h3, _, move_eq_of_slide hover hslide, rfl, rfl⟩

theorem move_slide_eq_lineAlgorithm_witness :
    GridWF sampleGame.size sampleGame.grid ∧ sampleGame.over = false ∧
    ∃ acc, sampleGame.slide Direction.left.vector = some acc ∧
      gridValues acc.game.grid =
        lineAlgorithm Direction.left sampleGame.size (gridValues sampleGame.grid) ∧
      acc.gained =
        (lineAlgorithmGains Direction.left sampleGame.size (gridValues sampleGame.grid)).sum ∧
      (acc.moved = true ↔ gridValues acc.game.grid ≠ gridValues sampleGame.grid) ∧
      ∃ res, sampleGame.move Direction.left.name = some res ∧ res.1.moved = acc.moved ∧
        res.1.gained = some acc.gained :=
  ⟨by decide, rfl, move_slide_eq_lineAlgorithm sampleGame Direction.left (by decide) rfl⟩

theorem peekNextValue_repeat_witness :
    Game2048.CachedOk sampleGame ∧ 1 ≤ 3 ∧
    (Game2048.peekMany 3 sampleGame).1 = List.replicate 3 sampleGame.peekNextValue.1 :=
  ⟨Or.inl rfl, by decide,
    (Game2048.peekNextValue_repeat sampleGame (Or.inl rfl) 3 (by decide)).2.1⟩

theorem peek_then_addRandomTile_witness :
    GridWF sampleGame.size sampleGame.grid ∧ sampleGame.availableCells ≠ [] ∧
    sampleGame.peekNextValue.2.addRandomTile = sampleGame.addRandomTile :=
  ⟨by decide, by decide,
    (Game2048.peek_then_addRandomTile sampleGame (by decide) (by decide)).1⟩

/-! ### What `Game2048.move` leaves unchanged -/

theorem getVector_cases (s : String) :
    Game2048.getVector s = Lookup.absent ∨ Game2048.getVector s = Lookup.inherited ∨
      ∃ d : Direction, Game2048.getVector s = Lookup.own d.vector := by
  unfold Game2048.getVector
  split_ifs
  · exact Or.inr (Or.inr ⟨Direction.up, rfl⟩)
  · exact Or.inr (Or.inr ⟨Direction.down, rfl⟩)
  · exact Or.inr (Or.inr ⟨Direction.left, rfl⟩)
  · exact Or.inr (Or.inr ⟨Direction.right, rfl⟩)
  · exact Or.inr (Or.inl rfl)
  · exact Or.inl rfl

theorem getVector_own_name {s : String} {d : Direction}
    (h : Game2048.getVector s = Lookup.own d.vector) : s = d.name := by
  unfold Game2048.getVector at h
  split_ifs at h with h1 h2 h3 h4 h5
  · cases d <;> first | exact h1 | (exfalso; revert h; decide)
  · cases d <;> first | exact h2 | (exfalso; revert h; decide)
  · cases d <;> first | exact h3 | (exfalso; revert h; decide)
  · cases d <;> first | exact h4 | (exfalso; revert h; decide)

/-- A call of `move` with a name inherited from `Object.prototype`, on a game that is not
over: `prepareTiles` runs and nothing moves. -/
theorem move_inherited {g : Game2048} {direction : String}
    (hv : Game2048.getVector direction = Lookup.inherited) (hover : g.over = false) :
    g.move direction =
      some (⟨false, some 0, some g.score, some g.over, some g.won⟩, g.prepareTiles) := by
  unfold Game2048.move
  rw [hv]
  simp only [hover, Bool.false_eq_true, if_false]

theorem move_of_over {g : Game2048} (direction : String) (hover : g.over = true) :
    g.move direction = some (⟨false, none, none, none, none⟩, g) := by
  unfold Game2048.move
  split <;> simp only [hover, if_true]

theorem move_absent {g : Game2048} {direction : String}
    (hv : Game2048.getVector direction = Lookup.absent) :
    g.move direction = some (⟨false, none, none, none, none⟩, g) := by
  unfold Game2048.move
  rw [hv]

theorem lineAfter_gains_of_mv_false (vals : List (Option Nat)) (i : Nat) (hi : i ≤ vals.length)
    (h : (lineAfter vals i).mv = false) : (lineAfter vals i).gains = [] := by
  induction i with
  | zero => simp [lineAfter]
  | succ i ih =>
    have hlt : i < vals.length := by omega
    rw [lineAfter_succ vals hlt] at h ⊢
    cases hx : vals[i] with
    | none =>
      rw [hx] at h
      rw [(absorb_none _).2.2.1]
      exact ih (by omega) (by rw [← (absorb_none _).2.2.2]; exact h)
    | some v =>
      rw [hx] at h
      by_cases hp : (lineAfter vals i).pending = some v
      · rw [(absorb_merge _ hp).2.2.2.1] at h; cases h
      · rw [(absorb_slide _ hp).2.2.2, Bool.or_eq_false_iff] at h
        rw [(absorb_slide _ hp).2.2.1]
        exact ih (by omega) h.1

/-- The sliding phase of `move` changes nothing but the grid, the score and the `won` flag;
the score grows by `gained`, and `won` is set exactly when a doubled value reaches 2048. -/
theorem slide_frame (g : Game2048) (d : Direction) (hwf : GridWF g.size g.grid) :
    ∃ acc, g.slide d.vector = some acc ∧ GridWF g.size acc.game.grid ∧
      acc.game.size = g.size ∧ acc.game.seed = g.seed ∧ acc.game.rng = g.rng ∧
      acc.game.over = g.over ∧ acc.game.cachedValue = g.cachedValue ∧
      acc.game.counted = g.counted ∧ acc.game.score = g.score + acc.gained ∧
      (acc.game.won = true ↔ g.won = true ∨
        ∃ x ∈ lineAlgorithmGains d g.size (gridValues g.grid), 2048 ≤ x) ∧
      (acc.moved = false → lineAlgorithmGains d g.size (gridValues g.grid) = []) := by
  obtain ⟨acc, prog, hslide, hinv, hprog⟩ := slide_inv g d hwf
  have hwf2 : GridWF g.size acc.game.grid := hinv.wf
  have hscore : acc.game.score = g.score + acc.gained := hinv.score
  have hwon : acc.game.won = true ↔ (g.won = true ∨ ∃ l, l < g.size ∧
      ∃ x ∈ (lineAfter (lineValues d g.size g.prepareTiles.grid l) (prog l)).gains, 2048 ≤ x) :=
    hinv.won
  have hmoved : acc.moved = true ↔ ∃ l, l < g.size ∧
      (lineAfter (lineValues d g.size g.prepareTiles.grid l) (prog l)).mv = true := hinv.moved
  obtain ⟨f1, f2, f3, f4, f5, f6⟩ := hinv.frame
  have hgains : ∀ l, l < g.size →
      (lineAfter (lineValues d g.size g.prepareTiles.grid l) (prog l)).gains =
        mergeGains (compact (readLine d g.size (gridValues g.grid) l)) := by
    intro l hl
    rw [hprog l hl, (lineAfter_all _ (by rw [lineValues_length])).2,
      lineValues_eq_readLine, gridValues_prepareTiles]
  refine ⟨acc, hslide, hwf2, f1, f2, f3, f4, f5, f6, hscore, ?_, ?_⟩
  · rw [hwon]
    unfold lineAlgorithmGains
    simp only [List.mem_flatMap, List.mem_range]
    constructor
    · rintro (h | ⟨l, hl, x, hx, hx2⟩)
      · exact Or.inl h
      · exact Or.inr ⟨x, ⟨l, hl, by rw [← hgains l hl]; exact hx⟩, hx2⟩
    · rintro (h | ⟨x, ⟨l, hl, hx⟩, hx2⟩)
      · exact Or.inl h
      · exact Or.inr ⟨l, hl, x, by rw [hgains l hl]; exact hx, hx2⟩
  · intro hm
    unfold lineAlgorithmGains
    rw [List.flatMap_eq_nil_iff]
    intro l hl
    rw [List.mem_range] at hl
    rw [← hgains l hl]
    apply lineAfter_gains_of_mv_false _ _ (by rw [lineValues_length]; exact hprog l hl ▸ le_refl _)
    by_contra hne
    have : acc.moved = true := hmoved.mpr ⟨l, hl, by simpa using hne⟩
    rw [hm] at this
    cases this

theorem Game2048.move_eq {g : Game2048} {direction : String} {v : Cell}
    {acc : Game2048.MoveAcc} (hv : Game2048.getVector direction = Lookup.own v)
    (hover : g.over = false) (hslide : g.slide v = some acc) :
    g.move direction = some (⟨acc.moved, some acc.gained, some (Game2048.finishMove acc).score,
      some (Game2048.finishMove acc).over, some (Game2048.finishMove acc).won⟩,
      Game2048.finishMove acc) := by
  unfold Game2048.move
  rw [hv]
  simp only [hover, Bool.false_eq_true, if_false, hslide, Option.map_some']

/-- The square-board half of the no-op property of `move`. -/
theorem Game2048.move_noop (g : Game2048) (direction : String) (hwf : GridWF g.size g.grid) :
    ∃ res, g.move direction = some res ∧
      (g.over = true → res.1.moved = false) ∧
      ((∀ d : Direction, direction ≠ d.name) → res.1.moved = false) ∧
      (res.1.moved = false →
        gridValues res.2.grid = gridValues g.grid ∧ res.2.score = g.score ∧
        res.2.over = g.over ∧ res.2.won = g.won ∧ res.2.cachedValue = g.cachedValue ∧
        res.2.rng = g.rng) := by
  by_cases hover : g.over = true
  · exact ⟨(⟨false, none, none, none, none⟩, g), move_of_over direction hover, fun _ => rfl,
      fun _ => rfl, fun _ => ⟨rfl, rfl, rfl, rfl, rfl, rfl⟩⟩
  rcases getVector_cases direction with hv | hv | ⟨d, hv⟩
  · exact ⟨(⟨false, none, none, none, none⟩, g), move_absent hv, fun _ => rfl, fun _ => rfl,
      fun _ => ⟨rfl, rfl, rfl, rfl, rfl, rfl⟩⟩
  · exact ⟨_, move_inherited hv (by simpa using hover), fun _ => rfl, fun _ => rfl,
      fun _ => ⟨gridValues_prepareTiles g, rfl, rfl, rfl, rfl, rfl⟩⟩
  · by_cases hover : g.over = true
    · refine ⟨(⟨false, none, none, none, none⟩, g), ?_, fun _ => rfl, fun _ => rfl,
        fun _ => ⟨rfl, rfl, rfl, rfl, rfl, rfl⟩⟩
      unfold Game2048.move; rw [hv]; simp [hover]
    · obtain ⟨acc, hslide, hgrid, _, hmv⟩ := slide_lineAlgorithm g d hwf
      obtain ⟨acc2, hslide2, _, _, _, f3, f4, f5, _, hscore, hwon, hg0⟩ := slide_frame g d hwf
      rw [hslide] at hslide2
      cases hslide2
      have hover2 : g.over = false := by simpa using hover
      refine ⟨_, Game2048.move_eq hv hover2 hslide, fun h => absurd h hover, ?_, ?_⟩
      · intro h
        exact absurd (getVector_own_name hv) (h d)
      · intro hm
        have hm2 : acc.moved = false := hm
        have hfin : Game2048.finishMove acc = acc.game := by
          unfold Game2048.finishMove; simp [hm2]
        simp only [hfin]
        have hgains := hg0 hm2
        refine ⟨?_, ?_, f4, ?_, f5, f3⟩
        · by_contra hne
          have := hmv.mpr hne
          rw [hm2] at this; cases this
        · rw [hscore]
          have h2 := (slide_lineAlgorithm g d hwf)
          obtain ⟨acc3, hs3, _, hgained, _⟩ := h2
          rw [hslide] at hs3; cases hs3
          rw [hgained, hgains]; rfl
        · rw [hgains] at hwon
          cases hw : acc.game.won <;> cases hw0 : g.won <;> simp [hw, hw0] at hwon ⊢

/-! ### `Game2048.movesAvailable` -/

theorem availableCells_eq_nil_iff (g : Game2048) :
    g.availableCells = [] ↔ NoEmptyCell g.size g.grid := by
  constructor
  · intro h r c hr hc hnone
    have : (⟨(r : Int), (c : Int)⟩ : Cell) ∈ g.availableCells := by
      unfold Game2048.availableCells
      simp only [List.mem_flatMap, List.mem_map, List.mem_filter, List.mem_range]
      exact ⟨r, hr, c, ⟨hc, by simp [hnone]⟩, rfl⟩
    rw [h] at this
    cases this
  · intro h
    by_contra hne
    obtain ⟨cell, hcell⟩ := List.exists_mem_of_ne_nil _ hne
    obtain ⟨r, c, hr, hc, _, hnone⟩ := Game2048.mem_availableCells hcell
    exact h r c hr hc hnone

theorem cellContent_nat (g : Game2048) (r c : Nat) :
    g.cellContent ⟨(r : Int), (c : Int)⟩ = if r < g.size ∧ c < g.size then gridAt g.grid r c else none := by
  unfold Game2048.cellContent Game2048.withinBounds
  by_cases h1 : r < g.size <;> by_cases h2 : c < g.size <;> simp [h1, h2]

theorem cellContent_down (g : Game2048) (r c : Nat) :
    g.cellContent ⟨(r : Int) + 1, (c : Int)⟩ =
      if r + 1 < g.size ∧ c < g.size then gridAt g.grid (r + 1) c else none := by
  have := cellContent_nat g (r + 1) c
  simpa using this

theorem cellContent_right (g : Game2048) (r c : Nat) :
    g.cellContent ⟨(r : Int), (c : Int) + 1⟩ =
      if r < g.size ∧ c + 1 < g.size then gridAt g.grid r (c + 1) else none := by
  have := cellContent_nat g r (c + 1)
  simpa using this

theorem neighbourTest_iff (g : Game2048) (t : Tile) (r c : Nat) :
    ([({ row := (r : Int) + 1, col := (c : Int) } : Cell),
      ({ row := (r : Int), col := (c : Int) + 1 } : Cell)].any fun n =>
        match g.cellContent n with
        | some other => other.value == t.value
        | none => false) = true ↔
    (∃ t2, r + 1 < g.size ∧ c < g.size ∧ gridAt g.grid (r + 1) c = some t2 ∧ t2.value = t.value) ∨
    (∃ t2, r < g.size ∧ c + 1 < g.size ∧ gridAt g.grid r (c + 1) = some t2 ∧ t2.value = t.value) := by
  simp only [List.any_cons, List.any_nil, Bool.or_false, Bool.or_eq_true, cellContent_down,
    cellContent_right]
  apply or_congr
  · by_cases hb : r + 1 < g.size ∧ c < g.size
    · rw [if_pos hb]
      cases ht2 : gridAt g.grid (r + 1) c with
      | none => simp
      | some t2 => simp [hb.1, hb.2]
    · rw [if_neg hb]
      simp only [Bool.false_eq_true, false_iff, not_exists]
      intro t2 h
      exact hb ⟨h.1, h.2.1⟩
  · by_cases hb : r < g.size ∧ c + 1 < g.size
    · rw [if_pos hb]
      cases ht2 : gridAt g.grid r (c + 1) with
      | none => simp
      | some t2 => simp [hb.1, hb.2]
    · rw [if_neg hb]
      simp only [Bool.false_eq_true, false_iff, not_exists]
      intro t2 h
      exact hb ⟨h.1, h.2.1⟩

theorem pairTest_iff (g : Game2048) (r c : Nat) :
    (match gridAt g.grid r c with
      | none => false
      | some tile =>
        [({ row := (r : Int) + 1, col := (c : Int) } : Cell),
         ({ row := (r : Int), col := (c : Int) + 1 } : Cell)].any fun n =>
          match g.cellContent n with
          | some other => other.value == tile.value
          | none => false) = true ↔
    ∃ t, gridAt g.grid r c = some t ∧
      ((∃ t2, r + 1 < g.size ∧ c < g.size ∧ gridAt g.grid (r + 1) c = some t2 ∧
          t2.value = t.value) ∨
       (∃ t2, r < g.size ∧ c + 1 < g.size ∧ gridAt g.grid r (c + 1) = some t2 ∧
          t2.value = t.value)) := by
  cases ht : gridAt g.grid r c with
  | none => simp
  | some t =>
    simp only [neighbourTest_iff, Option.some.injEq, exists_eq_left']

/-- The test `movesAvailable()` fails exactly on a full board without two adjacent tiles of
equal value. -/
theorem movesAvailable_eq_false_iff (g : Game2048) :
    g.movesAvailable = false ↔ NoEmptyCell g.size g.grid ∧ NoAdjacentEqual g.size g.grid := by
  unfold Game2048.movesAvailable
  by_cases hav : g.availableCells = []
  · have hne : NoEmptyCell g.size g.grid := (availableCells_eq_nil_iff g).mp hav
    simp only [hav, List.length_nil, ne_eq, not_true_eq_false, if_false]
    rw [Bool.eq_false_iff]
    simp only [ne_eq, List.any_eq_true, List.mem_range, pairTest_iff]
    constructor
    · intro hany
      refine ⟨hne, ?_⟩
      intro r c r2 c2 hr hc hr2 hc2 hadj t t2 ht ht2 hval
      apply hany
      rcases hadj with ⟨rfl, (rfl | rfl)⟩ | ⟨rfl, (rfl | rfl)⟩
      · exact ⟨r, hr, c, hc, t, ht, Or.inr ⟨t2, hr, hc2, ht2, hval.symm⟩⟩
      · exact ⟨r, hr, c2, hc2, t2, ht2, Or.inr ⟨t, hr, hc, ht, hval⟩⟩
      · exact ⟨r, hr, c, hc, t, ht, Or.inl ⟨t2, hr2, hc, ht2, hval.symm⟩⟩
      · exact ⟨r2, hr2, c, hc, t2, ht2, Or.inl ⟨t, hr, hc, ht, hval⟩⟩
    · rintro ⟨_, hadj⟩ ⟨r, hr, c, hc, t, ht, (⟨t2, hb1, hb2, ht2, hv⟩ | ⟨t2, hb1, hb2, ht2, hv⟩)⟩
      · exact hadj r c (r + 1) c hr hc hb1 hc (Or.inr ⟨rfl, Or.inl rfl⟩) t t2 ht ht2 hv.symm
      · exact hadj r c r (c + 1) hr hc hr hb2 (Or.inl ⟨rfl, Or.inl rfl⟩) t t2 ht ht2 hv.symm
  · have hlen : g.availableCells.length ≠ 0 := by
      intro h; exact hav (List.length_eq_zero.mp h)
    simp only [hlen, ne_eq, not_false_eq_true, if_true]
    constructor
    · intro h; cases h
    · rintro ⟨hne, _⟩
      exact absurd ((availableCells_eq_nil_iff g).mpr hne) hav

/-- The square-board half of the end-of-game property of `move`. -/
theorem Game2048.move_over_iff (g : Game2048) (direction : String) (hwf : GridWF g.size g.grid)
    (res : MoveResult × Game2048) (hres : g.move direction = some res)
    (hmoved : res.1.moved = true) :
    res.1.over = some res.2.over ∧ res.2.size = g.size ∧
    (res.2.over = true ↔
      NoEmptyCell g.size res.2.grid ∧ NoAdjacentEqual g.size res.2.grid) := by
  rcases getVector_cases direction with hv | hv | ⟨d, hv⟩
  · unfold Game2048.move at hres
    rw [hv] at hres
    cases hres
    cases hmoved
  · unfold Game2048.move at hres
    rw [hv] at hres
    simp only at hres
    split at hres <;> cases hres <;> cases hmoved
  · by_cases hover : g.over = true
    · unfold Game2048.move at hres
      rw [hv] at hres
      simp only [hover, if_true] at hres
      cases hres
      cases hmoved
    · have hover2 : g.over = false := by simpa using hover
      obtain ⟨acc, hslide, _, hsz, _, _, f4, _, _, _, _, _⟩ := slide_frame g d hwf
      rw [Game2048.move_eq hv hover2 hslide] at hres
      cases hres
      have hm : acc.moved = true := hmoved
      have hsz2 : acc.game.addRandomTile.2.size = g.size := by
        rw [← hsz]
        unfold Game2048.addRandomTile
        simp only
        split_ifs
        · rfl
        · split
          · simp only [Game2048.insertTile, Game2048.random]
            exact (Game2048.consume_grid _).2
          · simp only [Game2048.random]
            exact (Game2048.consume_grid _).2
      have hov2 : acc.game.addRandomTile.2.over = false := by
        rw [← hover2, ← f4]
        unfold Game2048.addRandomTile
        simp only
        split_ifs
        · rfl
        · cases hc : acc.game.cachedValue <;>
            split <;> simp [Game2048.insertTile, Game2048.random, Game2048.consumeNextValue, hc]
      refine ⟨rfl, ?_, ?_⟩
      · simp only [Game2048.finishMove, hm, if_true]
        split_ifs <;> exact hsz2
      · simp only [Game2048.finishMove, hm, if_true]
        have hiff := movesAvailable_eq_false_iff acc.game.addRandomTile.2
        rw [hsz2] at hiff
        by_cases hma : acc.game.addRandomTile.2.movesAvailable = true
        · rw [if_pos hma]
          rw [hov2]
          constructor
          · intro h; cases h
          · intro h
            rw [hiff.mpr h] at hma
            cases hma
        · rw [if_neg hma]
          simp only [true_iff]
          exact hiff.mp (by simpa using hma)

/-! ### Conservation of the tiles -/

theorem sum_range_update_add {M : Type} [AddCommMonoid M] (n : Nat) (f f2 : Nat → M) {l : Nat}
    (hl : l < n) (x : M) (h1 : f2 l = f l + x)
    (h2 : ∀ l2, l2 < n → l2 ≠ l → f2 l2 = f l2) :
    Finset.sum (Finset.range n) f2 = Finset.sum (Finset.range n) f + x := by
  have hmem : l ∈ Finset.range n := Finset.mem_range.mpr hl
  rw [← Finset.add_sum_erase _ f hmem, ← Finset.add_sum_erase _ f2 hmem, h1]
  have : Finset.sum ((Finset.range n).erase l) f2 = Finset.sum ((Finset.range n).erase l) f := by
    apply Finset.sum_congr rfl
    intro l2 hl2
    rw [Finset.mem_erase, Finset.mem_range] at hl2
    exact h2 l2 hl2.2 hl2.1
  rw [this, add_right_comm]

theorem coe_flatMap_range (n : Nat) (f : Nat → List Nat) :
    (((List.range n).flatMap f : List Nat) : Multiset Nat) =
      Finset.sum (Finset.range n) fun l => ((f l : List Nat) : Multiset Nat) := by
  induction n with
  | zero => simp
  | succ n ih =>
    rw [List.range_succ, List.flatMap_append, ← Multiset.coe_add, ih, Finset.sum_range_succ]
    simp

theorem coe_compact_map_range (n : Nat) (f : Nat → Option Nat) :
    ((compact ((List.range n).map f) : List Nat) : Multiset Nat) =
      Finset.sum (Finset.range n) fun i => cellMultiset (f i) := by
  induction n with
  | zero => simp [compact]
  | succ n ih =>
    rw [List.range_succ, List.map_append, compact_append, ← Multiset.coe_add, ih,
      Finset.sum_range_succ]
    cases h : f n <;> simp [compact, cellMultiset, h]

theorem coe_tileValues {n : Nat} {grid : Grid} (h : GridWF n grid) :
    ((tileValues grid : List Nat) : Multiset Nat) =
      Finset.sum (Finset.range n) fun r => Finset.sum (Finset.range n) fun c =>
        cellMultiset ((gridAt grid r c).map Tile.value) := by
  unfold tileValues
  rw [gridValues_tabulate h, List.flatMap_map, coe_flatMap_range]
  apply Finset.sum_congr rfl
  intro r _
  exact coe_compact_map_range n _

theorem coe_compact_lineValues (d : Direction) (n : Nat) (grid : Grid) (l : Nat) :
    ((compact (lineValues d n grid l) : List Nat) : Multiset Nat) =
      Finset.sum (Finset.range n) fun i => cellMultiset ((tileAt d n grid l i).map Tile.value) := by
  unfold lineValues
  exact coe_compact_map_range n _

/-- The tiles of a grid are the tiles of its lines, whatever the direction. -/
theorem coe_tileValues_lines (d : Direction) {n : Nat} {grid : Grid} (h : GridWF n grid) :
    ((tileValues grid : List Nat) : Multiset Nat) =
      Finset.sum (Finset.range n) fun l =>
        ((compact (lineValues d n grid l) : List Nat) : Multiset Nat) := by
  rw [coe_tileValues h]
  simp only [coe_compact_lineValues, tileAt]
  cases d
  · -- up
    simp only [lineCoord]
    exact Finset.sum_comm
  · -- down
    simp only [lineCoord]
    rw [Finset.sum_comm]
    apply Finset.sum_congr rfl
    intro l _
    exact (Finset.sum_range_reflect (fun r => cellMultiset ((gridAt grid r l).map Tile.value)) n).symm
  · -- left
    simp only [lineCoord]
  · -- right
    simp only [lineCoord]
    apply Finset.sum_congr rfl
    intro l _
    exact (Finset.sum_range_reflect (fun c => cellMultiset ((gridAt grid l c).map Tile.value)) n).symm

/-- The merge pass replaces, for every doubled value `x` it creates, two tiles `x / 2` by
one tile `x`, and keeps the other tiles. -/
theorem mergeRow_conserves (xs : List Nat) :
    ((mergeRow xs : List Nat) : Multiset Nat) + (((mergeGains xs).map (· / 2) : List Nat) : Multiset Nat)
        + (((mergeGains xs).map (· / 2) : List Nat) : Multiset Nat) =
      (xs : Multiset Nat) + ((mergeGains xs : List Nat) : Multiset Nat) := by
  induction xs using mergeRow.induct with
  | case1 => simp [mergeRow, mergeGains]
  | case2 a => simp [mergeRow, mergeGains]
  | case3 b rest ih =>
    rw [mergeRow_cons_cons, mergeGains_cons_cons, if_pos rfl, if_pos rfl]
    simp only [List.map_cons, Nat.mul_div_cancel _ (show 0 < 2 by decide), ← Multiset.cons_coe,
      ← Multiset.singleton_add] at ih ⊢
    calc ({b * 2} + ↑(mergeRow rest) + ({b} + ↑(List.map (· / 2) (mergeGains rest))) +
          ({b} + ↑(List.map (· / 2) (mergeGains rest))) : Multiset Nat)
        = {b * 2} + {b} + {b} + (↑(mergeRow rest) + ↑(List.map (· / 2) (mergeGains rest)) +
            ↑(List.map (· / 2) (mergeGains rest))) := by abel
      _ = {b * 2} + {b} + {b} + (↑rest + ↑(mergeGains rest)) := by rw [ih]
      _ = {b} + ({b} + ↑rest) + ({b * 2} + ↑(mergeGains rest)) := by abel
  | case4 a b rest hab ih =>
    rw [mergeRow_cons_cons, mergeGains_cons_cons, if_neg hab, if_neg hab]
    simp only [← Multiset.cons_coe, ← Multiset.singleton_add] at ih ⊢
    calc ({a} + ↑(mergeRow (b :: rest)) + ↑(List.map (· / 2) (mergeGains (b :: rest))) +
          ↑(List.map (· / 2) (mergeGains (b :: rest))) : Multiset Nat)
        = {a} + (↑(mergeRow (b :: rest)) + ↑(List.map (· / 2) (mergeGains (b :: rest))) +
          ↑(List.map (· / 2) (mergeGains (b :: rest)))) := by abel
      _ = {a} + (({b} + ↑rest) + ↑(mergeGains (b :: rest))) := by rw [ih]
      _ = {a} + ({b} + ↑rest) + ↑(mergeGains (b :: rest)) := by abel

theorem lineValues_prepareTiles (d : Direction) (g : Game2048) (l : Nat) :
    lineValues d g.size g.prepareTiles.grid l = lineValues d g.size g.grid l := by
  rw [lineValues_eq_readLine, gridValues_prepareTiles, ← lineValues_eq_readLine]

/-- The sliding phase of `move`, line by line. -/
theorem slide_lines (g : Game2048) (d : Direction) (hwf : GridWF g.size g.grid) :
    ∃ acc, g.slide d.vector = some acc ∧ GridWF g.size acc.game.grid ∧
      (∀ l, l < g.size →
        lineValues d g.size acc.game.grid l = slideLine g.size (lineValues d g.size g.grid l)) ∧
      (acc.moved = true ↔ ∃ l, l < g.size ∧
        slideLine g.size (lineValues d g.size g.grid l) ≠ lineValues d g.size g.grid l) := by
  obtain ⟨acc, prog, hslide, hinv, hprog⟩ := slide_inv g d hwf
  have hwf2 : GridWF g.size acc.game.grid := hinv.wf
  have hlines : ∀ l, l < g.size →
      LineInv d g.size g.prepareTiles.grid acc.game.grid l (prog l) := hinv.lines
  have hmoved : acc.moved = true ↔ ∃ l, l < g.size ∧
      (lineAfter (lineValues d g.size g.prepareTiles.grid l) (prog l)).mv = true := hinv.moved
  refine ⟨acc, hslide, hwf2, ?_, ?_⟩
  · intro l hl
    have h1 := hlines l hl
    rw [hprog l hl] at h1
    rw [h1.final, lineValues_prepareTiles]
  · rw [hmoved]
    apply exists_congr
    intro l
    apply and_congr_right
    intro hl
    rw [hprog l hl, lineValues_prepareTiles]
    have hlen : (lineValues d g.size g.grid l).length = g.size := lineValues_length _ _ _ _
    have := lineAfter_mv_iff (lineValues d g.size g.grid l)
    rw [hlen] at this
    exact this

theorem compact_length_eq (vals : List (Option Nat))
    (h : (compact vals).length = vals.length) : vals = (compact vals).map some := by
  induction vals with
  | nil => rfl
  | cons x xs ih =>
    cases x with
    | none =>
      rw [compact_cons_none] at h
      have := length_compact_le xs
      simp only [List.length_cons] at h
      omega
    | some v =>
      rw [compact_cons_some] at h ⊢
      simp only [List.length_cons, Nat.add_right_cancel_iff] at h
      rw [List.map_cons, ← ih h]

theorem mergeRow_eq_self (xs : List Nat) (h : mergeGains xs = []) : mergeRow xs = xs := by
  induction xs using mergeRow.induct with
  | case1 => rfl
  | case2 a => rfl
  | case3 b rest ih =>
    rw [mergeGains_cons_cons, if_pos rfl] at h
    cases h
  | case4 a b rest hab ih =>
    rw [mergeGains_cons_cons, if_neg hab] at h
    rw [mergeRow_cons_cons, if_neg hab, ih h]

/-- A line that the line algorithm changes has an empty cell afterwards. -/
theorem slideLine_has_none (vals : List (Option Nat))
    (h : slideLine vals.length vals ≠ vals) :
    ∃ i, i < vals.length ∧ (slideLine vals.length vals)[i]? = some none := by
  by_contra hno
  apply h
  have hle1 := length_mergeRow_le (compact vals)
  have hle2 := length_compact_le vals
  have hge : vals.length ≤ (mergeRow (compact vals)).length := by
    by_contra hlt
    apply hno
    refine ⟨(mergeRow (compact vals)).length, by omega, ?_⟩
    unfold slideLine
    rw [padLine_getElem?, if_neg (lt_irrefl _), if_pos (by omega)]
  have hadd := length_mergeRow_add (compact vals)
  have hg : mergeGains (compact vals) = [] := List.length_eq_zero.mp (by omega)
  have hc := compact_length_eq vals (by omega)
  unfold slideLine padLine
  rw [mergeRow_eq_self _ hg, show vals.length - (compact vals).length = 0 by omega]
  simp only [List.replicate_zero, List.append_nil]
  exact hc.symm

theorem coe_tileValues_gridSet {n : Nat} {grid : Grid} (hwf : GridWF n grid) {r c : Nat}
    (hr : r < n) (hc : c < n) (hnone : gridAt grid r c = none) (t : Tile) :
    ((tileValues (gridSet grid r c (some t)) : List Nat) : Multiset Nat) =
      ((tileValues grid : List Nat) : Multiset Nat) + {t.value} := by
  rw [coe_tileValues (gridSet_wf hwf r c _), coe_tileValues hwf]
  apply sum_range_update_add n _ _ hr
  · apply sum_range_update_add n _ _ hc
    · rw [gridAt_gridSet_wf hwf hr hc, if_pos ⟨rfl, rfl⟩, hnone]
      simp [cellMultiset]
    · intro c2 _ hne
      rw [gridAt_gridSet_wf hwf hr hc, if_neg (fun h => hne h.2)]
  · intro r2 _ hne
    apply Finset.sum_congr rfl
    intro c2 _
    rw [gridAt_gridSet_wf hwf hr hc, if_neg (fun h => hne h.1)]

/-- The sliding phase of `move` keeps the tiles, but for the merged pairs. -/
theorem slide_conserves (g : Game2048) (d : Direction) (hwf : GridWF g.size g.grid)
    (acc : Game2048.MoveAcc) (hslide : g.slide d.vector = some acc) :
    ((tileValues acc.game.grid : List Nat) : Multiset Nat)
        + (((lineAlgorithmGains d g.size (gridValues g.grid)).map (· / 2) : List Nat) : Multiset Nat)
        + (((lineAlgorithmGains d g.size (gridValues g.grid)).map (· / 2) : List Nat) : Multiset Nat)
      = ((tileValues g.grid : List Nat) : Multiset Nat)
        + ((lineAlgorithmGains d g.size (gridValues g.grid) : List Nat) : Multiset Nat) := by
  obtain ⟨acc2, hs2, hwf2, hlines, _⟩ := slide_lines g d hwf
  rw [hslide] at hs2
  cases hs2
  rw [coe_tileValues_lines d hwf2, coe_tileValues_lines d hwf]
  unfold lineAlgorithmGains
  rw [List.map_flatMap, coe_flatMap_range, coe_flatMap_range,
    ← Finset.sum_add_distrib, ← Finset.sum_add_distrib, ← Finset.sum_add_distrib]
  apply Finset.sum_congr rfl
  intro l hl
  rw [Finset.mem_range] at hl
  rw [hlines l hl]
  unfold slideLine
  rw [compact_padLine, ← lineValues_eq_readLine]
  exact mergeRow_conserves _

theorem consume_value_ok (g : Game2048) (hc : Game2048.CachedOk g) :
    g.consumeNextValue.1 = 2 ∨ g.consumeNextValue.1 = 4 := by
  rcases hc with h | h | h <;> simp only [Game2048.consumeNextValue, h]
  · split <;> simp
  · simp
  · simp

theorem finishMove_grid (acc : Game2048.MoveAcc) (hm : acc.moved = true) :
    (Game2048.finishMove acc).grid = acc.game.addRandomTile.2.grid := by
  simp only [Game2048.finishMove, hm, if_true]
  split_ifs <;> rfl

/-- After a sliding phase that moved a tile the board has an empty cell. -/
theorem slide_moved_available (g : Game2048) (d : Direction) (hwf : GridWF g.size g.grid)
    (acc : Game2048.MoveAcc) (hslide : g.slide d.vector = some acc) (hm : acc.moved = true) :
    acc.game.availableCells ≠ [] := by
  obtain ⟨acc2, hs2, hwf2, hlines, hmv⟩ := slide_lines g d hwf
  rw [hslide] at hs2
  cases hs2
  obtain ⟨acc3, hs3, _, hsz, _⟩ := slide_frame g d hwf
  rw [hslide] at hs3
  cases hs3
  obtain ⟨l, hl, hne⟩ := hmv.mp hm
  have hlen : (lineValues d g.size g.grid l).length = g.size := lineValues_length _ _ _ _
  obtain ⟨i, hi, hnone⟩ := slideLine_has_none (lineValues d g.size g.grid l) (by rw [hlen]; exact hne)
  rw [hlen] at hi hnone
  rw [← hlines l hl, lineValues_getElem? d g.size _ l hi] at hnone
  have htile : tileAt d g.size acc.game.grid l i = none := by
    cases hx : tileAt d g.size acc.game.grid l i with
    | none => rfl
    | some t => rw [hx] at hnone; simp at hnone
  intro hnil
  have hb := lineCoord_lt d hl hi
  have := (availableCells_eq_nil_iff acc.game).mp hnil _ _ (by rw [hsz]; exact hb.1)
    (by rw [hsz]; exact hb.2)
  exact this htile

/-- The square-board half of the conservation property of `move`. -/
theorem Game2048.move_conserves (g : Game2048) (direction : String)
    (hwf : GridWF g.size g.grid) (hc : Game2048.CachedOk g)
    (res : MoveResult × Game2048) (hres : g.move direction = some res)
    (hmoved : res.1.moved = true) :
    ∃ d acc, Game2048.getVector direction = Lookup.own d.vector ∧ g.slide d.vector = some acc ∧
      ∃ r c v, r < g.size ∧ c < g.size ∧ gridAt acc.game.grid r c = none ∧ (v = 2 ∨ v = 4) ∧
        (gridAt res.2.grid r c).map Tile.value = some v ∧
        (∀ r2 c2, (r2, c2) ≠ (r, c) → gridAt res.2.grid r2 c2 = gridAt acc.game.grid r2 c2) ∧
        ((tileValues res.2.grid : List Nat) : Multiset Nat)
            + (((lineAlgorithmGains d g.size (gridValues g.grid)).map (· / 2) : List Nat) :
                Multiset Nat)
            + (((lineAlgorithmGains d g.size (gridValues g.grid)).map (· / 2) : List Nat) :
                Multiset Nat)
          = ((tileValues g.grid : List Nat) : Multiset Nat)
            + ((lineAlgorithmGains d g.size (gridValues g.grid) : List Nat) : Multiset Nat)
            + {v} ∧
        (tileValues res.2.grid).length + (lineAlgorithmGains d g.size (gridValues g.grid)).length
          = (tileValues g.grid).length + 1 := by
  rcases getVector_cases direction with hv | hv | ⟨d, hv⟩
  · unfold Game2048.move at hres
    rw [hv] at hres
    cases hres
    cases hmoved
  · unfold Game2048.move at hres
    rw [hv] at hres
    simp only at hres
    split at hres <;> cases hres <;> cases hmoved
  · by_cases hover : g.over = true
    · unfold Game2048.move at hres
      rw [hv] at hres
      simp only [hover, if_true] at hres
      cases hres
      cases hmoved
    · have hover2 : g.over = false := by simpa using hover
      obtain ⟨acc, hslide, hwf2, hsz, _, _, _, f5, _, _, _, _⟩ := slide_frame g d hwf
      rw [Game2048.move_eq hv hover2 hslide] at hres
      cases hres
      have hm : acc.moved = true := hmoved
      have hav := slide_moved_available g d hwf acc hslide hm
      have hc2 : Game2048.CachedOk acc.game := by
        unfold Game2048.CachedOk; rw [f5]; exact hc
      obtain ⟨cell, hcell, hadd⟩ := Game2048.addRandomTile_spec acc.game hav
      obtain ⟨r, c, hr, hcc, rfl, hnone⟩ := Game2048.mem_availableCells (List.getElem?_mem hcell)
      rw [hsz] at hr hcc
      have hgrid : (Game2048.finishMove acc).grid =
          gridSet acc.game.grid r c (some ⟨acc.game.consumeNextValue.1, (r : Int), (c : Int), false⟩) := by
        rw [finishMove_grid acc hm, hadd]
        simp only [Game2048.insertTile, Game2048.random, Int.toNat_ofNat,
          (Game2048.consume_grid acc.game).1]
      have hcons := slide_conserves g d hwf acc hslide
      have hmulti : ((tileValues (Game2048.finishMove acc).grid : List Nat) : Multiset Nat)
            + (((lineAlgorithmGains d g.size (gridValues g.grid)).map (· / 2) : List Nat) :
                Multiset Nat)
            + (((lineAlgorithmGains d g.size (gridValues g.grid)).map (· / 2) : List Nat) :
                Multiset Nat)
          = ((tileValues g.grid : List Nat) : Multiset Nat)
            + ((lineAlgorithmGains d g.size (gridValues g.grid) : List Nat) : Multiset Nat)
            + {acc.game.consumeNextValue.1} := by
        rw [hgrid, coe_tileValues_gridSet hwf2 hr hcc hnone, ← hcons]
        abel
      refine ⟨d, acc, hv, hslide, r, c, acc.game.consumeNextValue.1, hr, hcc, hnone,
        consume_value_ok acc.game hc2, ?_, ?_, hmulti, ?_⟩
      · show (gridAt (Game2048.finishMove acc).grid r c).map Tile.value = _
        rw [hgrid, gridAt_gridSet_wf hwf2 hr hcc, if_pos ⟨rfl, rfl⟩]
        rfl
      · intro r2 c2 hne
        show gridAt (Game2048.finishMove acc).grid r2 c2 = _
        rw [hgrid, gridAt_gridSet_wf hwf2 hr hcc, if_neg]
        intro hh
        exact hne (by rw [hh.1, hh.2])
      · have := congrArg Multiset.card hmulti
        simp only [Multiset.card_add, Multiset.coe_card, List.length_map,
          Multiset.card_singleton] at this
        show (tileValues (Game2048.finishMove acc).grid).length + _ = _
        omega

/-! ### The map of the hexagonal grid -/

theorem mapHas_iff (grid : HexGrid) (key : HexKey) :
    mapHas grid key = true ↔ key ∈ grid.map Prod.fst := by
  induction grid with
  | nil => simp [mapHas]
  | cons e rest ih =>
    obtain ⟨k, v⟩ := e
    unfold mapHas
    by_cases h : k = key
    · simp [h]
    · simp only [h, if_false, ih, List.map_cons, List.mem_cons]
      constructor
      · intro h1; exact Or.inr h1
      · rintro (h1 | h1)
        · exact absurd h1.symm h
        · exact h1

theorem mapSet_keys (grid : HexGrid) (key : HexKey) (value : Option Nat)
    (h : key ∈ grid.map Prod.fst) : (mapSet grid key value).map Prod.fst = grid.map Prod.fst := by
  induction grid with
  | nil => simp at h
  | cons e rest ih =>
    obtain ⟨k, v⟩ := e
    unfold mapSet
    by_cases hk : k = key
    · simp [hk]
    · simp only [hk, if_false, List.map_cons, List.cons.injEq, true_and]
      apply ih
      simp only [List.map_cons, List.mem_cons] at h
      rcases h with h | h
      · exact absurd h.symm hk
      · exact h

theorem mapGet_mapSet (grid : HexGrid) (key key2 : HexKey) (value : Option Nat) :
    mapGet (mapSet grid key value) key2 = if key2 = key then value else mapGet grid key2 := by
  induction grid with
  | nil =>
    simp only [mapSet, mapGet]
    by_cases h : key2 = key
    · simp [h]
    · simp [h, Ne.symm h]
  | cons e rest ih =>
    obtain ⟨k, v⟩ := e
    unfold mapSet
    by_cases hk : k = key
    · subst hk
      simp only [if_true, mapGet]
      by_cases h : key2 = k
      · simp [h]
      · simp [h, Ne.symm h]
    · simp only [hk, if_false, mapGet, ih]
      by_cases h : k = key2
      · subst h
        simp [hk]
      · simp [h]

theorem mapSet_same (grid : HexGrid) (key : HexKey) (h : key ∈ grid.map Prod.fst) :
    mapSet grid key (mapGet grid key) = grid := by
  induction grid with
  | nil => simp at h
  | cons e rest ih =>
    obtain ⟨k, v⟩ := e
    unfold mapSet mapGet
    by_cases hk : k = key
    · simp [hk]
    · simp only [hk, if_false, List.cons.injEq, true_and]
      apply ih
      simp only [List.map_cons, List.mem_cons] at h
      rcases h with h | h
      · exact absurd h.symm hk
      · exact h

/-! ### The merge loop of `HexGame.move` -/

theorem mergeLoop_spec (compact : List Nat) (fuel i : Nat) (st : MergeAcc)
    (hfuel : compact.length - i ≤ fuel) :
    HexGame.mergeLoop compact fuel i st =
      { merged := st.merged ++ (mergeRow (compact.drop i)).map some,
        gained := st.gained + (mergeGains (compact.drop i)).sum,
        won := st.won || (mergeGains (compact.drop i)).any fun x => decide (2048 ≤ x) } := by
  induction fuel generalizing i st with
  | zero =>
    have : compact.drop i = [] := List.drop_eq_nil_of_le (by omega)
    simp [HexGame.mergeLoop, this, mergeRow, mergeGains]
  | succ fuel ih =>
    unfold HexGame.mergeLoop
    by_cases hi : i < compact.length
    · rw [List.getElem?_eq_getElem hi]
      simp only
      have hdrop : compact.drop i = compact[i] :: compact.drop (i + 1) :=
        List.drop_eq_getElem_cons hi
      by_cases hi2 : i + 1 < compact.length
      · have hdrop2 : compact.drop (i + 1) = compact[i + 1] :: compact.drop (i + 1 + 1) :=
          List.drop_eq_getElem_cons hi2
        rw [List.getElem?_eq_getElem hi2]
        by_cases heq : compact[i + 1] = compact[i]
        · rw [if_pos (by rw [heq])]
          rw [ih (i + 1 + 1) _ (by omega), hdrop, hdrop2, heq, mergeRow_cons_cons,
            mergeGains_cons_cons, if_pos rfl, if_pos rfl]
          simp only [List.map_cons, List.append_assoc, List.singleton_append, List.sum_cons,
            List.any_cons, Nat.add_assoc]
          congr 1
          by_cases hw : 2048 ≤ compact[i] * 2 <;> simp [hw]
        · rw [if_neg (by simpa using heq)]
          rw [ih (i + 1) _ (by omega), hdrop, hdrop2, mergeRow_cons_cons,
            mergeGains_cons_cons, if_neg (Ne.symm heq), if_neg (Ne.symm heq)]
          simp
      · have hnil : compact.drop (i + 1) = [] := List.drop_eq_nil_of_le (by omega)
        rw [List.getElem?_eq_none (by omega)]
        simp only [reduceCtorEq, if_false]
        rw [ih (i + 1) _ (by omega), hdrop, hnil]
        simp [mergeRow, mergeGains]
    · have : compact.drop i = [] := List.drop_eq_nil_of_le (by omega)
      rw [List.getElem?_eq_none (by omega)]
      simp [this, mergeRow, mergeGains]

/-! ### One line of `HexGame.move` -/

theorem writeBack_fold (entries : List (HexKey × Option Nat × Option Nat)) (a : HexAcc) :
    entries.foldl
      (fun a entry =>
        { a with game := { a.game with grid := mapSet a.game.grid entry.1 entry.2.2 },
                 moved := a.moved || decide (entry.2.1 ≠ entry.2.2) }) a =
    { game := { a.game with
                  grid := entries.foldl (fun m entry => mapSet m entry.1 entry.2.2) a.game.grid },
      moved := a.moved || entries.any fun entry => decide (entry.2.1 ≠ entry.2.2),
      gained := a.gained } := by
  induction entries generalizing a with
  | nil => simp
  | cons e es ih =>
    rw [List.foldl_cons, ih]
    simp [Bool.or_assoc]

theorem setAll_other (entries : List (HexKey × Option Nat × Option Nat)) (grid : HexGrid)
    (k : HexKey) (h : k ∉ entries.map Prod.fst) :
    mapGet (entries.foldl (fun m entry => mapSet m entry.1 entry.2.2) grid) k = mapGet grid k := by
  induction entries generalizing grid with
  | nil => rfl
  | cons e es ih =>
    simp only [List.map_cons, List.mem_cons, not_or] at h
    rw [List.foldl_cons, ih _ h.2, mapGet_mapSet, if_neg h.1]

theorem setAll_get (entries : List (HexKey × Option Nat × Option Nat)) (grid : HexGrid)
    (hnd : (entries.map Prod.fst).Nodup) (e : HexKey × Option Nat × Option Nat)
    (he : e ∈ entries) :
    mapGet (entries.foldl (fun m entry => mapSet m entry.1 entry.2.2) grid) e.1 = e.2.2 := by
  induction entries generalizing grid with
  | nil => cases he
  | cons e0 es ih =>
    rw [List.map_cons, List.nodup_cons] at hnd
    rw [List.foldl_cons]
    rcases List.mem_cons.mp he with rfl | h
    · rw [setAll_other _ _ _ hnd.1, mapGet_mapSet, if_pos rfl]
    · exact ih _ hnd.2 h

theorem setAll_keys (entries : List (HexKey × Option Nat × Option Nat)) (grid : HexGrid)
    (h : ∀ k ∈ entries.map Prod.fst, k ∈ grid.map Prod.fst) :
    (entries.foldl (fun m entry => mapSet m entry.1 entry.2.2) grid).map Prod.fst =
      grid.map Prod.fst := by
  induction entries generalizing grid with
  | nil => rfl
  | cons e es ih =>
    have h0 : e.1 ∈ grid.map Prod.fst := h e.1 (by simp)
    have hk := mapSet_keys grid e.1 e.2.2 h0
    rw [List.foldl_cons, ih, hk]
    intro k hkm
    rw [hk]
    exact h k (by simp only [List.map_cons, List.mem_cons]; exact Or.inr hkm)

theorem setAll_same (entries : List (HexKey × Option Nat × Option Nat)) (grid : HexGrid)
    (h : ∀ e ∈ entries, e.1 ∈ grid.map Prod.fst ∧ e.2.2 = mapGet grid e.1) :
    entries.foldl (fun m entry => mapSet m entry.1 entry.2.2) grid = grid := by
  induction entries with
  | nil => rfl
  | cons e es ih =>
    have h0 := h e (by simp)
    rw [List.foldl_cons, h0.2, mapSet_same grid e.1 h0.1]
    exact ih (fun e2 he2 => h e2 (List.mem_cons_of_mem _ he2))

theorem zip3_map_fst (line : List HexKey) (old new : List (Option Nat))
    (h1 : old.length = line.length) (h2 : new.length = line.length) :
    (line.zip (old.zip new)).map Prod.fst = line := by
  apply List.map_fst_zip
  rw [List.length_zip, h1, h2]; simp

theorem zip3_any_ne (line : List HexKey) (old new : List (Option Nat))
    (h1 : old.length = line.length) (h2 : new.length = line.length) :
    ((line.zip (old.zip new)).any fun entry => decide (entry.2.1 ≠ entry.2.2)) =
      decide (new ≠ old) := by
  induction line generalizing old new with
  | nil =>
    have ho : old = [] := List.length_eq_zero.mp h1
    have hn : new = [] := List.length_eq_zero.mp h2
    simp [ho, hn]
  | cons k ks ih =>
    cases old with
    | nil => simp at h1
    | cons o os =>
      cases new with
      | nil => simp at h2
      | cons x xs =>
        simp only [List.length_cons, Nat.add_right_cancel_iff] at h1 h2
        simp only [List.zip_cons_cons, List.any_cons, ih os xs h1 h2]
        by_cases hox : o = x
        · subst hox; simp
        · simp [hox, Ne.symm hox]

theorem zip3_mem (keys : List HexKey) (old new : List (Option Nat))
    (h1 : old.length = keys.length) (h2 : new.length = keys.length) (i : Nat)
    (hi : i < keys.length) :
    (keys[i], old[i], new[i]) ∈ keys.zip (old.zip new) := by
  rw [List.mem_iff_getElem]
  refine ⟨i, by simp [h1, h2, hi], ?_⟩
  simp

/-- The body of `lines.forEach` in `HexGame.move`, on a line without repeated keys whose
keys all have an entry: the line gets the values of the line algorithm, the other cells
keep theirs, and `gained`, `won` and `moved` account for the merges and the change. -/
theorem moveLine_spec (acc : HexAcc) (line : List HexKey) (hnd : line.Nodup)
    (hkeys : ∀ k ∈ line, k ∈ acc.game.grid.map Prod.fst) :
    (HexGame.moveLine acc line).game.grid.map Prod.fst = acc.game.grid.map Prod.fst ∧
    line.map (fun key => mapGet (HexGame.moveLine acc line).game.grid key) =
      slideLine line.length (line.map fun key => mapGet acc.game.grid key) ∧
    (∀ k, k ∉ line → mapGet (HexGame.moveLine acc line).game.grid k = mapGet acc.game.grid k) ∧
    (HexGame.moveLine acc line).gained =
      acc.gained + (mergeGains (compact (line.map fun key => mapGet acc.game.grid key))).sum ∧
    (HexGame.moveLine acc line).game.won =
      (acc.game.won ||
        (mergeGains (compact (line.map fun key => mapGet acc.game.grid key))).any
          fun x => decide (2048 ≤ x)) ∧
    (HexGame.moveLine acc line).moved =
      (acc.moved || decide (slideLine line.length (line.map fun key => mapGet acc.game.grid key) ≠
        line.map fun key => mapGet acc.game.grid key)) ∧
    ((HexGame.moveLine acc line).game.score = acc.game.score ∧
      (HexGame.moveLine acc line).game.over = acc.game.over ∧
      (HexGame.moveLine acc line).game.cachedValue = acc.game.cachedValue ∧
      (HexGame.moveLine acc line).game.counted = acc.game.counted ∧
      (HexGame.moveLine acc line).game.moveCount = acc.game.moveCount) ∧
    (slideLine line.length (line.map fun key => mapGet acc.game.grid key) =
        (line.map fun key => mapGet acc.game.grid key) →
      (HexGame.moveLine acc line).game.grid = acc.game.grid) := by
  have hmerged : ∀ (won : Bool) (gained : Nat),
      (HexGame.mergeLoop (compact (line.map fun key => mapGet acc.game.grid key))
        (compact (line.map fun key => mapGet acc.game.grid key)).length 0 ⟨[], gained, won⟩) =
      { merged := (mergeRow (compact (line.map fun key => mapGet acc.game.grid key))).map some,
        gained := gained +
          (mergeGains (compact (line.map fun key => mapGet acc.game.grid key))).sum,
        won := won || (mergeGains (compact (line.map fun key => mapGet acc.game.grid key))).any
          fun x => decide (2048 ≤ x) } := by
    intro won gained
    rw [mergeLoop_spec _ _ _ _ (by omega)]
    simp
  have hpad : ((mergeRow (compact (line.map fun key => mapGet acc.game.grid key))).map some ++
      List.replicate (line.length -
        ((mergeRow (compact (line.map fun key => mapGet acc.game.grid key))).map some).length)
        none) = slideLine line.length (line.map fun key => mapGet acc.game.grid key) := by
    unfold slideLine padLine
    rw [List.length_map]
  have hlen1 : (line.map fun key => mapGet acc.game.grid key).length = line.length :=
    List.length_map _ _
  have hlen2 : (slideLine line.length (line.map fun key => mapGet acc.game.grid key)).length =
      line.length := by
    unfold slideLine
    apply padLine_length
    calc (mergeRow (compact (line.map fun key => mapGet acc.game.grid key))).length
        ≤ (compact (line.map fun key => mapGet acc.game.grid key)).length := length_mergeRow_le _
      _ ≤ (line.map fun key => mapGet acc.game.grid key).length := length_compact_le _
      _ = line.length := hlen1
  have hunf : HexGame.moveLine acc line =
      { game := { acc.game with
          grid := (line.zip ((line.map fun key => mapGet acc.game.grid key).zip
              (slideLine line.length (line.map fun key => mapGet acc.game.grid key)))).foldl
            (fun m entry => mapSet m entry.1 entry.2.2) acc.game.grid,
          won := acc.game.won ||
            (mergeGains (compact (line.map fun key => mapGet acc.game.grid key))).any
              fun x => decide (2048 ≤ x) },
        moved := acc.moved ||
          decide (slideLine line.length (line.map fun key => mapGet acc.game.grid key) ≠
            line.map fun key => mapGet acc.game.grid key),
        gained := acc.gained +
          (mergeGains (compact (line.map fun key => mapGet acc.game.grid key))).sum } := by
    unfold HexGame.moveLine
    simp only [compact] at hmerged hpad ⊢
    simp only [hmerged, hpad]
    rw [writeBack_fold, zip3_any_ne line _ _ hlen1 hlen2]
  rw [hunf]
  have hfst := zip3_map_fst line _ _ hlen1 hlen2
  refine ⟨?_, ?_, ?_, rfl, rfl, rfl, ⟨rfl, rfl, rfl, rfl, rfl⟩, ?_⟩
  · simp only
    apply setAll_keys
    rw [hfst]
    exact hkeys
  · simp only
    apply List.ext_getElem
    · rw [List.length_map, hlen2]
    · intro i h1 h2
      have hi : i < line.length := by simpa using h1
      rw [List.getElem_map]
      have hmem := zip3_mem line _ _ hlen1 hlen2 i hi
      have := setAll_get _ acc.game.grid (by rw [hfst]; exact hnd) _ hmem
      simpa using this
  · intro k hk
    simp only
    apply setAll_other
    rw [hfst]
    exact hk
  · intro hsame
    simp only
    rw [setAll_same]
    intro e he
    have h1 : e.1 ∈ line := by
      rw [← hfst]
      exact List.mem_map_of_mem _ he
    refine ⟨hkeys _ h1, ?_⟩
    rw [hsame] at he
    obtain ⟨i, hi, hget⟩ := List.mem_iff_getElem.mp he
    rw [← hget]
    simp

/-! ### The geometry of the hexagonal board -/

theorem lines_name (size : Int) (d : HexDirection) :
    (rebuildGeometry size).lines d.name = Lookup.own (buildLineList (buildCoords size) d.lineDef) := by
  cases d <;> rfl

theorem groupPush_perm (gs : List (Int × List Hex)) (v : Int) (c : Hex) :
    ((groupPush gs v c).map Prod.snd).flatten.Perm (c :: (gs.map Prod.snd).flatten) := by
  induction gs with
  | nil => simp [groupPush]
  | cons e rest ih =>
    obtain ⟨k, m⟩ := e
    unfold groupPush
    by_cases hk : k = v
    · simp only [hk, if_true, List.map_cons, List.flatten_cons, List.append_assoc,
        List.singleton_append]
      exact List.perm_middle
    · simp only [hk, if_false, List.map_cons, List.flatten_cons]
      exact (List.Perm.append_left m ih).trans List.perm_middle

theorem groups_perm (ax : Hex → Int) (cells : List Hex) (gs : List (Int × List Hex)) :
    ((cells.foldl (fun groups cell => groupPush groups (ax cell) cell) gs).map
      Prod.snd).flatten.Perm ((gs.map Prod.snd).flatten ++ cells) := by
  induction cells generalizing gs with
  | nil => simp
  | cons c cs ih =>
    rw [List.foldl_cons]
    refine (ih _).trans ?_
    refine ((groupPush_perm gs (ax c) c).append_right cs).trans ?_
    simp only [List.cons_append]
    exact List.perm_middle.symm

theorem flatten_map_perm {α β : Type} (gs : List α) (f g : α → List β)
    (h : ∀ a, (f a).Perm (g a)) : (gs.map f).flatten.Perm (gs.map g).flatten := by
  induction gs with
  | nil => simp
  | cons a rest ih =>
    simp only [List.map_cons, List.flatten_cons]
    exact (h a).append ih

/-- The lines of a direction hold every cell exactly once. -/
theorem buildLineList_perm (cells : List Hex) (ld : LineDef) :
    (buildLineList cells ld).flatten.Perm (cells.map keyOf) := by
  unfold buildLineList
  have h1 := groups_perm (axisValue ld.axis) cells []
  simp only [List.map_nil, List.flatten_nil, List.nil_append] at h1
  have h2 := h1.map keyOf
  refine List.Perm.trans ?_ h2
  rw [List.map_flatten, List.map_map]
  apply flatten_map_perm
  intro e
  exact (List.perm_insertionSort _ _).map keyOf

theorem keyOf_injective : Function.Injective keyOf := by
  intro a b h
  cases a; cases b
  simp only [keyOf, Prod.mk.injEq] at h
  simp [h.1, h.2]

theorem intRange_nodup (lo hi : Int) : (intRange lo hi).Nodup := by
  unfold intRange
  apply List.Nodup.map _ (List.nodup_range _)
  intro a b h
  simpa using h

theorem buildCoords_nodup (size : Int) : (buildCoords size).Nodup := by
  unfold buildCoords
  rw [List.nodup_flatMap]
  constructor
  · intro r _
    apply List.Nodup.map _ (intRange_nodup _ _)
    intro a b h
    simpa using h
  · apply List.Pairwise.imp_of_mem _ (intRange_nodup _ _)
    intro r1 r2 _ _ hne
    simp only [Function.onFun]
    rw [List.disjoint_left]
    intro c h1 h2
    rw [List.mem_map] at h1 h2
    obtain ⟨q1, _, rfl⟩ := h1
    obtain ⟨q2, _, h3⟩ := h2
    simp only [Hex.mk.injEq] at h3
    exact hne h3.2.symm

theorem coordKeys_nodup (size : Int) : (rebuildGeometry size).coordKeys.Nodup :=
  List.Nodup.map keyOf_injective (buildCoords_nodup size)

theorem lines_flatten_perm (size : Int) (d : HexDirection) :
    (buildLineList (buildCoords size) d.lineDef).flatten.Perm (rebuildGeometry size).coordKeys :=
  buildLineList_perm _ _

/-! ### The sliding phase of `HexGame.move` -/

theorem hexGains_congr (lines : List (List HexKey)) (grid grid2 : HexGrid)
    (h : ∀ k, k ∈ lines.flatten → mapGet grid2 k = mapGet grid k) :
    hexGains lines grid2 = hexGains lines grid := by
  unfold hexGains
  apply List.flatMap_congr
  intro line hline
  congr 2
  apply List.map_congr_left
  intro k hk
  exact h k (List.mem_flatten.mpr ⟨line, hline, hk⟩)

theorem lineChanged_congr (line : List HexKey) (grid grid2 : HexGrid)
    (h : ∀ k, k ∈ line → mapGet grid2 k = mapGet grid k) :
    lineChanged grid2 line = lineChanged grid line := by
  unfold lineChanged
  have : (line.map fun key => mapGet grid2 key) = line.map fun key => mapGet grid key :=
    List.map_congr_left h
  rw [this]

theorem any_congr_mem {α : Type} (l : List α) (p q : α → Bool) (h : ∀ x ∈ l, p x = q x) :
    l.any p = l.any q := by
  induction l with
  | nil => rfl
  | cons a rest ih =>
    rw [List.any_cons, List.any_cons, h a (List.mem_cons_self _ _),
      ih (fun x hx => h x (List.mem_cons_of_mem _ hx))]

/-- The loop `lines.forEach` of `HexGame.move`, over lines that share no key and whose keys
all have an entry, started from any values of its variables. -/
theorem foldl_moveLine_spec (lines : List (List HexKey)) (acc : HexAcc)
    (hnd : lines.flatten.Nodup) (hkeys : ∀ k ∈ lines.flatten, k ∈ acc.game.grid.map Prod.fst) :
    (lines.foldl HexGame.moveLine acc).game.grid.map Prod.fst = acc.game.grid.map Prod.fst ∧
    (∀ line ∈ lines,
      line.map (fun key => mapGet (lines.foldl HexGame.moveLine acc).game.grid key) =
        slideLine line.length (line.map fun key => mapGet acc.game.grid key)) ∧
    (∀ k, k ∉ lines.flatten →
      mapGet (lines.foldl HexGame.moveLine acc).game.grid k = mapGet acc.game.grid k) ∧
    (lines.foldl HexGame.moveLine acc).gained = acc.gained + (hexGains lines acc.game.grid).sum ∧
    (lines.foldl HexGame.moveLine acc).game.won =
      (acc.game.won || (hexGains lines acc.game.grid).any fun x => decide (2048 ≤ x)) ∧
    (lines.foldl HexGame.moveLine acc).moved =
      (acc.moved || lines.any fun line => lineChanged acc.game.grid line) ∧
    ((lines.foldl HexGame.moveLine acc).game.score = acc.game.score ∧
      (lines.foldl HexGame.moveLine acc).game.over = acc.game.over ∧
      (lines.foldl HexGame.moveLine acc).game.cachedValue = acc.game.cachedValue ∧
      (lines.foldl HexGame.moveLine acc).game.counted = acc.game.counted ∧
      (lines.foldl HexGame.moveLine acc).game.moveCount = acc.game.moveCount) ∧
    ((lines.any fun line => lineChanged acc.game.grid line) = false →
      (lines.foldl HexGame.moveLine acc).game.grid = acc.game.grid) := by
  induction lines generalizing acc with
  | nil => simp [hexGains]
  | cons l0 ls ih =>
    rw [List.flatten_cons, List.nodup_append] at hnd
    obtain ⟨hnd0, hnds, hdisj⟩ := hnd
    have hk0 : ∀ k ∈ l0, k ∈ acc.game.grid.map Prod.fst := fun k hk =>
      hkeys k (by rw [List.flatten_cons]; exact List.mem_append_left _ hk)
    obtain ⟨m1, m2, m3, m4, m5, m6, m7, m8⟩ := moveLine_spec acc l0 hnd0 hk0
    have hks : ∀ k ∈ ls.flatten, k ∈ (HexGame.moveLine acc l0).game.grid.map Prod.fst := by
      intro k hk
      rw [m1]
      exact hkeys k (by rw [List.flatten_cons]; exact List.mem_append_right _ hk)
    obtain ⟨i1, i2, i3, i4, i5, i6, i7, i8⟩ := ih (HexGame.moveLine acc l0) hnds hks
    have hsame : ∀ k, k ∈ ls.flatten →
        mapGet (HexGame.moveLine acc l0).game.grid k = mapGet acc.game.grid k := by
      intro k hk
      apply m3
      intro hk0'
      exact List.disjoint_left.mp hdisj hk0' hk
    have hg := hexGains_congr ls acc.game.grid (HexGame.moveLine acc l0).game.grid hsame
    have hany : (ls.any fun line => lineChanged (HexGame.moveLine acc l0).game.grid line) =
        ls.any fun line => lineChanged acc.game.grid line := by
      apply any_congr_mem
      intro line hline
      apply lineChanged_congr
      intro k hk
      exact hsame k (List.mem_flatten.mpr ⟨line, hline, hk⟩)
    have hgains : hexGains (l0 :: ls) acc.game.grid =
        mergeGains (compact (l0.map fun key => mapGet acc.game.grid key)) ++
          hexGains ls acc.game.grid := by
      simp [hexGains]
    rw [List.foldl_cons]
    refine ⟨i1.trans m1, ?_, ?_, ?_, ?_, ?_, ?_, ?_⟩
    · intro line hline
      rcases List.mem_cons.mp hline with rfl | hline
      · rw [← m2]
        apply List.map_congr_left
        intro k hk
        apply i3
        intro hk2
        exact List.disjoint_left.mp hdisj hk hk2
      · rw [i2 line hline]
        congr 1
        apply List.map_congr_left
        intro k hk
        exact hsame k (List.mem_flatten.mpr ⟨line, hline, hk⟩)
    · intro k hk
      rw [List.flatten_cons, List.mem_append, not_or] at hk
      rw [i3 k hk.2, m3 k hk.1]
    · rw [i4, m4, hg, hgains, List.sum_append, Nat.add_assoc]
    · rw [i5, m5, hg, hgains, List.any_append, Bool.or_assoc]
    · rw [i6, m6, hany, List.any_cons, Bool.or_assoc]
      rfl
    · exact ⟨i7.1.trans m7.1, i7.2.1.trans m7.2.1, i7.2.2.1.trans m7.2.2.1,
        i7.2.2.2.1.trans m7.2.2.2.1, i7.2.2.2.2.trans m7.2.2.2.2⟩
    · intro hno
      rw [List.any_cons, Bool.or_eq_false_iff] at hno
      rw [i8 (by rw [hany]; exact hno.2)]
      apply m8
      have := hno.1
      unfold lineChanged at this
      simpa using this

theorem lines_cases (size : Int) (s : String) :
    (rebuildGeometry size).lines s = Lookup.absent ∨
      (rebuildGeometry size).lines s = Lookup.inherited ∨
      ∃ d : HexDirection, (rebuildGeometry size).lines s =
        Lookup.own (buildLineList (buildCoords size) d.lineDef) := by
  unfold Geometry.lines rebuildGeometry buildLines definitions
  simp only [List.map_cons, List.map_nil, List.find?_cons, List.find?_nil]
  by_cases h1 : ("e" == s) = true
  · right; right; exact ⟨HexDirection.e, by simp [h1, HexDirection.lineDef]⟩
  by_cases h2 : ("w" == s) = true
  · right; right; exact ⟨HexDirection.w, by simp [h1, h2, HexDirection.lineDef]⟩
  by_cases h3 : ("ne" == s) = true
  · right; right; exact ⟨HexDirection.ne, by simp [h1, h2, h3, HexDirection.lineDef]⟩
  by_cases h4 : ("sw" == s) = true
  · right; right; exact ⟨HexDirection.sw, by simp [h1, h2, h3, h4, HexDirection.lineDef]⟩
  by_cases h5 : ("nw" == s) = true
  · right; right; exact ⟨HexDirection.nw, by simp [h1, h2, h3, h4, h5, HexDirection.lineDef]⟩
  by_cases h6 : ("se" == s) = true
  · right; right; exact ⟨HexDirection.se, by simp [h1, h2, h3, h4, h5, h6, HexDirection.lineDef]⟩
  simp only [h1, h2, h3, h4, h5, h6]
  by_cases hi : s ∈ objectPrototypeNames
  · right; left
    rw [if_pos hi]
  · left
    rw [if_neg hi]

/-- An own entry of `linesByDir` is the entry of one of the six directions. -/
theorem lines_own_name (size : Int) (s : String) (lines : List (List HexKey))
    (h : (rebuildGeometry size).lines s = Lookup.own lines) : ∃ d : HexDirection, s = d.name := by
  unfold Geometry.lines rebuildGeometry buildLines definitions at h
  simp only [List.map_cons, List.map_nil, List.find?_cons, List.find?_nil] at h
  by_cases h1 : ("e" == s) = true
  · exact ⟨HexDirection.e, (beq_iff_eq.mp h1).symm⟩
  by_cases h2 : ("w" == s) = true
  · exact ⟨HexDirection.w, (beq_iff_eq.mp h2).symm⟩
  by_cases h3 : ("ne" == s) = true
  · exact ⟨HexDirection.ne, (beq_iff_eq.mp h3).symm⟩
  by_cases h4 : ("sw" == s) = true
  · exact ⟨HexDirection.sw, (beq_iff_eq.mp h4).symm⟩
  by_cases h5 : ("nw" == s) = true
  · exact ⟨HexDirection.nw, (beq_iff_eq.mp h5).symm⟩
  by_cases h6 : ("se" == s) = true
  · exact ⟨HexDirection.se, (beq_iff_eq.mp h6).symm⟩
  exfalso
  simp only [h1, h2, h3, h4, h5, h6] at h
  split at h <;> cases h

/-- The sliding phase of `HexGame.move` on a grid that has an entry for every cell. -/
theorem hexSlide_spec (size : Int) (g : HexGame) (d : HexDirection)
    (hwf : HexWF (rebuildGeometry size) g) :
    (g.slide (buildLineList (buildCoords size) d.lineDef)).game.grid.map Prod.fst =
      g.grid.map Prod.fst ∧
    (∀ line ∈ buildLineList (buildCoords size) d.lineDef,
      line.map (fun key =>
          mapGet (g.slide (buildLineList (buildCoords size) d.lineDef)).game.grid key) =
        slideLine line.length (line.map fun key => mapGet g.grid key)) ∧
    (g.slide (buildLineList (buildCoords size) d.lineDef)).gained =
      (hexGains (buildLineList (buildCoords size) d.lineDef) g.grid).sum ∧
    (g.slide (buildLineList (buildCoords size) d.lineDef)).game.won =
      (g.won || (hexGains (buildLineList (buildCoords size) d.lineDef) g.grid).any
        fun x => decide (2048 ≤ x)) ∧
    (g.slide (buildLineList (buildCoords size) d.lineDef)).moved =
      ((buildLineList (buildCoords size) d.lineDef).any fun line => lineChanged g.grid line) ∧
    ((g.slide (buildLineList (buildCoords size) d.lineDef)).game.score = g.score ∧
      (g.slide (buildLineList (buildCoords size) d.lineDef)).game.over = g.over ∧
      (g.slide (buildLineList (buildCoords size) d.lineDef)).game.cachedValue = g.cachedValue ∧
      (g.slide (buildLineList (buildCoords size) d.lineDef)).game.counted = g.counted ∧
      (g.slide (buildLineList (buildCoords size) d.lineDef)).game.moveCount = g.moveCount) ∧
    (((buildLineList (buildCoords size) d.lineDef).any fun line => lineChanged g.grid line) = false →
      (g.slide (buildLineList (buildCoords size) d.lineDef)).game.grid = g.grid) := by
  have hperm := lines_flatten_perm size d
  have hnd : (buildLineList (buildCoords size) d.lineDef).flatten.Nodup :=
    hperm.nodup_iff.mpr (coordKeys_nodup size)
  have hkeys : ∀ k ∈ (buildLineList (buildCoords size) d.lineDef).flatten,
      k ∈ g.grid.map Prod.fst := by
    intro k hk
    rw [hwf]
    exact hperm.subset hk
  obtain ⟨h1, h2, _, h4, h5, h6, h7, h8⟩ :=
    foldl_moveLine_spec (buildLineList (buildCoords size) d.lineDef) ⟨g, false, 0⟩ hnd hkeys
  refine ⟨h1, h2, ?_, h5, ?_, h7, h8⟩
  · unfold HexGame.slide; rw [h4]; simp
  · unfold HexGame.slide; rw [h6]; simp

theorem hexAddRandomTile_frame (geo : Geometry) (g : HexGame) (draw : HexDraw) :
    (g.addRandomTile geo draw).2.won = g.won ∧ (g.addRandomTile geo draw).2.score = g.score ∧
    (g.addRandomTile geo draw).2.over = g.over ∧
    (g.addRandomTile geo draw).2.counted = g.counted ∧
    (g.addRandomTile geo draw).2.moveCount = g.moveCount := by
  unfold HexGame.addRandomTile
  simp only
  split_ifs
  · exact ⟨rfl, rfl, rfl, rfl, rfl⟩
  · cases hc : g.cachedValue <;> split <;> simp [HexGame.consumeNextValue, hc]

theorem hexFinishMove_moved (geo : Geometry) (acc : HexAcc) (draw : HexDraw)
    (hm : acc.moved = true) :
    HexGame.finishMove geo acc draw =
      if HexGame.movesAvailable geo (hexSpawned geo acc draw) = true then hexSpawned geo acc draw
      else { hexSpawned geo acc draw with over := true } := by
  unfold HexGame.finishMove hexSpawned
  simp only [hm, if_true]

theorem hexFinishMove_still (geo : Geometry) (acc : HexAcc) (draw : HexDraw)
    (hm : acc.moved = false) : HexGame.finishMove geo acc draw = acc.game := by
  unfold HexGame.finishMove
  simp [hm]

theorem hexFinishMove_won (geo : Geometry) (acc : HexAcc) (draw : HexDraw) :
    (HexGame.finishMove geo acc draw).won = acc.game.won := by
  cases hm : acc.moved
  · rw [hexFinishMove_still geo acc draw hm]
  · rw [hexFinishMove_moved geo acc draw hm]
    have h := (hexAddRandomTile_frame geo
      { acc.game with score := acc.game.score + acc.gained } draw).1
    split_ifs
    · exact h
    · exact h

theorem hexMove_eq (size : Int) (g : HexGame) (d : HexDirection) (draw : HexDraw)
    (hover : g.over = false) :
    HexGame.moveOwn (rebuildGeometry size) g d.name draw =
      (⟨(g.slide (buildLineList (buildCoords size) d.lineDef)).moved,
        some (g.slide (buildLineList (buildCoords size) d.lineDef)).gained,
        some (HexGame.finishMove (rebuildGeometry size)
          (g.slide (buildLineList (buildCoords size) d.lineDef)) draw).score,
        some (HexGame.finishMove (rebuildGeometry size)
          (g.slide (buildLineList (buildCoords size) d.lineDef)) draw).over,
        some (HexGame.finishMove (rebuildGeometry size)
          (g.slide (buildLineList (buildCoords size) d.lineDef)) draw).won⟩,
       HexGame.finishMove (rebuildGeometry size)
          (g.slide (buildLineList (buildCoords size) d.lineDef)) draw) := by
  unfold HexGame.moveOwn
  rw [lines_name]
  simp [hover]

/-- One of the six directions: `move` returns, and returns what `moveOwn` describes. -/
theorem hexMove_returns (size : Int) (g : HexGame) (d : HexDirection) (draw : HexDraw) :
    HexGame.move (rebuildGeometry size) g d.name draw =
      some (HexGame.moveOwn (rebuildGeometry size) g d.name draw) := by
  unfold HexGame.move HexGame.moveOwn
  rw [lines_name]
  split <;> rfl

/-- A call of `move` that returns: what it returns is what `moveOwn` describes. -/
theorem hexMove_eq_moveOwn {geo : Geometry} {g : HexGame} {direction : String} {draw : HexDraw}
    {res : MoveResult × HexGame} (h : HexGame.move geo g direction draw = some res) :
    res = HexGame.moveOwn geo g direction draw := by
  unfold HexGame.move at h
  unfold HexGame.moveOwn
  split
  · rename_i hover
    rw [if_pos hover] at h
    exact (Option.some.inj h).symm
  · rename_i hover
    rw [if_neg hover] at h
    cases hl : geo.lines direction with
    | absent =>
      rw [hl] at h
      exact (Option.some.inj h).symm
    | inherited =>
      rw [hl] at h
      cases h
    | own lines =>
      rw [hl] at h
      exact (Option.some.inj h).symm

/-- The call `move(direction)` throws exactly when the game is not over and `direction` names
a property inherited from `Object.prototype`. -/
theorem hexMove_throws_iff (geo : Geometry) (g : HexGame) (direction : String)
    (draw : HexDraw) :
    HexGame.move geo g direction draw = none ↔
      g.over = false ∧ geo.lines direction = Lookup.inherited := by
  unfold HexGame.move
  cases hover : g.over
  · simp only [Bool.false_eq_true, if_false, true_and]
    cases hl : geo.lines direction <;> simp
  · simp

theorem hexMove_some_of_moved {geo : Geometry} {g : HexGame} {direction : String}
    {draw : HexDraw}
    (hmoved : (HexGame.move geo g direction draw).map (fun res => res.1.moved) = some true) :
    HexGame.move geo g direction draw = some (HexGame.moveOwn geo g direction draw) ∧
      (HexGame.moveOwn geo g direction draw).1.moved = true := by
  cases hmove : HexGame.move geo g direction draw with
  | none => rw [hmove] at hmoved; cases hmoved
  | some res =>
    rw [hmove] at hmoved
    have := hexMove_eq_moveOwn hmove
    subst this
    exact ⟨rfl, by simpa using hmoved⟩

/-- C2: for every radius, every grid of `HexGame` (an entry for every cell) with
`over = false` and every direction, `HexGame.move` rewrites, before the spawn, each line of
`linesByDir[direction]` to its non-empty values in line order, each adjacent equal pair
merged once from the front, padded with empties to the length of the line (so `[2,2,2]`
becomes `[4,2,empty]` and `[2,2,2,2]` becomes `[4,4,empty,empty]`); `gained` is the sum of
all doubled values over all lines, and `won` is set when a doubled value is at least 2048. -/
theorem HexGame.move_rewrites_lines (R : Nat) (g : HexGame) (d : HexDirection) (draw : HexDraw)
    (hwf : HexWF (rebuildGeometry (R : Int)) g) (hover : g.over = false) :
    ∃ lines, (rebuildGeometry (R : Int)).lines d.name = Lookup.own lines ∧
      (∀ line ∈ lines,
        line.map (fun key => mapGet (g.slide lines).game.grid key) =
          slideLine line.length (line.map fun key => mapGet g.grid key)) ∧
      (g.slide lines).gained = (hexGains lines g.grid).sum ∧
      ((g.slide lines).game.won = true ↔
        g.won = true ∨ ∃ x ∈ hexGains lines g.grid, 2048 ≤ x) ∧
      (∃ res, HexGame.move (rebuildGeometry (R : Int)) g d.name draw = some res ∧
        res.1.gained = some (g.slide lines).gained ∧
        res.2 = HexGame.finishMove (rebuildGeometry (R : Int)) (g.slide lines) draw) ∧
      (HexGame.finishMove (rebuildGeometry (R : Int)) (g.slide lines) draw).won =
        (g.slide lines).game.won ∧
      slideLine 3 [some 2, some 2, some 2] = [some 4, some 2, none] ∧
      slideLine 4 [some 2, some 2, some 2, some 2] = [some 4, some 4, none, none] := by
  obtain ⟨_, h2, h3, h4, _, _, _⟩ := hexSlide_spec (R : Int) g d hwf
  refine ⟨_, lines_name (R : Int) d, h2, h3, ?_, ?_, ?_, by decide, by decide⟩
  · rw [h4]
    simp
  · refine ⟨_, hexMove_returns (R : Int) g d draw, ?_, ?_⟩
    · rw [hexMove_eq (R : Int) g d draw hover]
    · rw [hexMove_eq (R : Int) g d draw hover]
  · exact hexFinishMove_won _ _ _

/-! ### What `HexGame.move` leaves unchanged -/

theorem gains_nil_of_slideLine_eq (vals : List (Option Nat))
    (h : slideLine vals.length vals = vals) : mergeGains (compact vals) = [] := by
  have hc : compact vals = mergeRow (compact vals) := by
    conv_lhs => rw [← h]
    unfold slideLine
    rw [compact_padLine]
  have := length_mergeRow_add (compact vals)
  rw [← hc] at this
  exact List.length_eq_zero.mp (by omega)

theorem hexGains_nil_of_unchanged (lines : List (List HexKey)) (grid : HexGrid)
    (h : (lines.any fun line => lineChanged grid line) = false) : hexGains lines grid = [] := by
  unfold hexGains
  rw [List.flatMap_eq_nil_iff]
  intro line hline
  rw [List.any_eq_false] at h
  have h1 := h line hline
  unfold lineChanged at h1
  have h2 : slideLine line.length (line.map fun key => mapGet grid key) =
      line.map fun key => mapGet grid key := by simpa using h1
  apply gains_nil_of_slideLine_eq
  rw [List.length_map]
  exact h2

theorem hexMove_eq_of_lines (geo : Geometry) (g : HexGame) (s : String) (draw : HexDraw)
    (lines : List (List HexKey)) (hover : g.over = false) (hl : geo.lines s = Lookup.own lines) :
    HexGame.moveOwn geo g s draw =
      (⟨(g.slide lines).moved, some (g.slide lines).gained,
        some (HexGame.finishMove geo (g.slide lines) draw).score,
        some (HexGame.finishMove geo (g.slide lines) draw).over,
        some (HexGame.finishMove geo (g.slide lines) draw).won⟩,
       HexGame.finishMove geo (g.slide lines) draw) := by
  unfold HexGame.moveOwn
  rw [hl]
  simp [hover]

/-- The hexagonal half of the no-op property of `move`. -/
theorem hexMove_noop (size : Int) (g : HexGame) (direction : String) (draw : HexDraw)
    (hwf : HexWF (rebuildGeometry size) g) :
    (g.over = true → (HexGame.moveOwn (rebuildGeometry size) g direction draw).1.moved = false) ∧
    ((∀ lines, (rebuildGeometry size).lines direction ≠ Lookup.own lines) →
      (HexGame.moveOwn (rebuildGeometry size) g direction draw).1.moved = false) ∧
    ((HexGame.moveOwn (rebuildGeometry size) g direction draw).1.moved = false →
      (HexGame.moveOwn (rebuildGeometry size) g direction draw).2 = g) := by
  by_cases hover : g.over = true
  · have : HexGame.moveOwn (rebuildGeometry size) g direction draw =
        (⟨false, none, none, none, none⟩, g) := by
      unfold HexGame.moveOwn; simp [hover]
    rw [this]
    exact ⟨fun _ => rfl, fun _ => rfl, fun _ => rfl⟩
  · have hover2 : g.over = false := by simpa using hover
    rcases lines_cases size direction with hl | hl | ⟨d, hl⟩
    · have : HexGame.moveOwn (rebuildGeometry size) g direction draw =
          (⟨false, none, none, none, none⟩, g) := by
        unfold HexGame.moveOwn; simp [hover2, hl]
      rw [this]
      exact ⟨fun _ => rfl, fun _ => rfl, fun _ => rfl⟩
    · have : HexGame.moveOwn (rebuildGeometry size) g direction draw =
          (⟨false, none, none, none, none⟩, g) := by
        unfold HexGame.moveOwn; simp [hover2, hl]
      rw [this]
      exact ⟨fun _ => rfl, fun _ => rfl, fun _ => rfl⟩
    · rw [hexMove_eq_of_lines _ g direction draw _ hover2 hl]
      refine ⟨fun h => absurd h hover, (fun h => absurd hl (h _)), ?_⟩
      intro hm
      have hm2 : (g.slide (buildLineList (buildCoords size) d.lineDef)).moved = false := hm
      obtain ⟨_, _, _, h4, h5, ⟨f1, f2, f3, f4, f5⟩, h7⟩ := hexSlide_spec size g d hwf
      rw [h5] at hm2
      have hgrid := h7 hm2
      rw [hexGains_nil_of_unchanged _ _ hm2] at h4
      have hwon : (g.slide (buildLineList (buildCoords size) d.lineDef)).game.won = g.won := by
        rw [h4]; simp
      show HexGame.finishMove _ _ _ = g
      rw [hexFinishMove_still _ _ _ hm]
      generalize (g.slide (buildLineList (buildCoords size) d.lineDef)).game = g2 at *
      cases g2
      cases g
      simp only at hgrid hwon f1 f2 f3 f4 f5
      simp [hgrid, hwon, f1, f2, f3, f4, f5]

/-! ### Spawn and end-of-game test of `HexGame.move` -/

theorem hexConsume_frame (g : HexGame) (small : Bool) :
    (g.consumeNextValue small).2.grid = g.grid ∧ (g.consumeNextValue small).2.over = g.over := by
  cases hc : g.cachedValue <;> simp [HexGame.consumeNextValue, hc]

theorem hexConsume_value (g : HexGame) (small : Bool) (hc : HexCachedOk g) :
    (g.consumeNextValue small).1 = 2 ∨ (g.consumeNextValue small).1 = 4 := by
  rcases hc with h | h | h <;> simp only [HexGame.consumeNextValue, h]
  · cases small <;> simp
  · simp
  · simp

theorem hexAvailable_congr (geo : Geometry) (g h : HexGame) (e : g.grid = h.grid) :
    g.availableCells geo = h.availableCells geo := by
  unfold HexGame.availableCells; rw [e]

/-- What `addRandomTile` does on a hexagonal board with an available cell. -/
theorem hexAddRandomTile_spec (geo : Geometry) (g : HexGame) (draw : HexDraw)
    (hav : g.availableCells geo ≠ []) :
    ∃ key, key ∈ g.availableCells geo ∧
      (g.addRandomTile geo draw).2.grid =
        mapSet g.grid key (some (g.consumeNextValue draw.small).1) := by
  have hlen : 0 < (g.availableCells geo).length := List.length_pos.mpr hav
  have hidx := draw.pick_lt _ hlen
  refine ⟨(g.availableCells geo)[draw.pick (g.availableCells geo).length],
    List.getElem_mem _, ?_⟩
  unfold HexGame.addRandomTile
  simp only [List.getElem?_eq_getElem hidx]
  rw [if_neg (by omega)]
  simp only [(hexConsume_frame g draw.small).1]

theorem mem_hexAvailable {geo : Geometry} {g : HexGame} {key : HexKey}
    (h : key ∈ g.availableCells geo) : key ∈ geo.coordKeys ∧ falsy (mapGet g.grid key) = true := by
  unfold HexGame.availableCells at h
  rw [List.mem_filter] at h
  exact h

theorem falsy_iff_none {grid : HexGrid} (hpos : HexPositive grid) (key : HexKey) :
    falsy (mapGet grid key) = true ↔ mapGet grid key = none := by
  cases h : mapGet grid key with
  | none => simp [falsy]
  | some v =>
    have := hpos key v h
    simp [falsy, this]

theorem mem_coordKeys_iff (size : Int) (cell : Hex) :
    keyOf cell ∈ (rebuildGeometry size).coordKeys ↔ cell ∈ (rebuildGeometry size).coords := by
  unfold rebuildGeometry
  simp only
  rw [List.mem_map]
  constructor
  · rintro ⟨c, hc, he⟩
    rw [← keyOf_injective he]
    exact hc
  · intro h
    exact ⟨cell, h, rfl⟩

theorem hexAvailable_nil_iff (size : Int) (g : HexGame) (hpos : HexPositive g.grid) :
    g.availableCells (rebuildGeometry size) = [] ↔ HexNoEmptyCell (rebuildGeometry size) g.grid := by
  unfold HexGame.availableCells HexNoEmptyCell
  rw [List.filter_eq_nil_iff]
  constructor
  · intro h cell hcell hnone
    exact h (keyOf cell) ((mem_coordKeys_iff size cell).mpr hcell)
      ((falsy_iff_none hpos _).mpr hnone)
  · intro h key hkey hf
    have hk : key ∈ (rebuildGeometry size).coordKeys := hkey
    simp only [rebuildGeometry, List.mem_map] at hk
    obtain ⟨cell, hcell, rfl⟩ := hk
    exact h cell hcell ((falsy_iff_none hpos _).mp hf)

/-- The test `movesAvailable()` of the hexagonal board fails exactly on a full board without
two adjacent tiles of equal value. -/
theorem hexMovesAvailable_eq_false_iff (size : Int) (g : HexGame)
    (hwf : HexWF (rebuildGeometry size) g) (hpos : HexPositive g.grid) :
    g.movesAvailable (rebuildGeometry size) = false ↔
      HexNoEmptyCell (rebuildGeometry size) g.grid ∧
      HexNoAdjacentEqual (rebuildGeometry size) g.grid := by
  unfold HexGame.movesAvailable
  by_cases hav : g.availableCells (rebuildGeometry size) = []
  · have hne : HexNoEmptyCell (rebuildGeometry size) g.grid :=
      (hexAvailable_nil_iff size g hpos).mp hav
    simp only [hav, List.length_nil, ne_eq, not_true_eq_false, if_false]
    rw [List.any_eq_false]
    constructor
    · intro hany
      refine ⟨hne, ?_⟩
      intro a ha b hb ⟨dir, hdir, hbe⟩ v hva hvb
      apply hany a ha
      have hfa : falsy (mapGet g.grid (keyOf a)) = false := by
        rw [Bool.eq_false_iff, ne_eq, falsy_iff_none hpos, hva]; simp
      rw [hfa]
      simp only [Bool.false_eq_true, if_false, List.any_eq_true]
      refine ⟨dir, hdir, ?_⟩
      rw [← hbe]
      have hhas : mapHas g.grid (keyOf b) = true := by
        rw [mapHas_iff, hwf, mem_coordKeys_iff]; exact hb
      rw [hhas, if_pos rfl, hva, hvb]
      simp
    · rintro ⟨_, hadj⟩ a ha
      by_cases hfa : falsy (mapGet g.grid (keyOf a)) = true
      · simp [hfa]
      · have hfa2 : falsy (mapGet g.grid (keyOf a)) = false := by simpa using hfa
        rw [hfa2]
        simp only [Bool.false_eq_true, if_false, List.any_eq_true, not_exists, not_and]
        intro dir hdir
        by_cases hhas : mapHas g.grid (keyOf ⟨a.q + dir.q, a.r + dir.r⟩) = true
        · rw [if_pos hhas]
          have hb : (⟨a.q + dir.q, a.r + dir.r⟩ : Hex) ∈ (rebuildGeometry size).coords := by
            rw [mapHas_iff, hwf, mem_coordKeys_iff] at hhas; exact hhas
          cases hva : mapGet g.grid (keyOf a) with
          | none => exact absurd hva (hne a ha)
          | some v =>
            have := hadj a ha _ hb ⟨dir, hdir, rfl⟩ v hva
            simpa using this
        · rw [if_neg hhas]
          simp
  · have hlen : (g.availableCells (rebuildGeometry size)).length ≠ 0 := by
      intro h; exact hav (List.length_eq_zero.mp h)
    simp only [hlen, ne_eq, not_false_eq_true, if_true]
    constructor
    · intro h; cases h
    · rintro ⟨hne, _⟩
      exact absurd ((hexAvailable_nil_iff size g hpos).mpr hne) hav

/-! ### Tiles of the hexagonal grid -/

theorem mergeRow_mem (xs : List Nat) (x : Nat) (h : x ∈ mergeRow xs) :
    x ∈ xs ∨ ∃ a ∈ xs, x = a * 2 := by
  induction xs using mergeRow.induct with
  | case1 => simp [mergeRow] at h
  | case2 a => exact Or.inl h
  | case3 b rest ih =>
    rw [mergeRow_cons_cons, if_pos rfl, List.mem_cons] at h
    rcases h with h | h
    · exact Or.inr ⟨b, by simp, h⟩
    · rcases ih h with h1 | ⟨a, ha, hx⟩
      · exact Or.inl (by simp [h1])
      · exact Or.inr ⟨a, by simp [ha], hx⟩
  | case4 a b rest hab ih =>
    rw [mergeRow_cons_cons, if_neg hab, List.mem_cons] at h
    rcases h with h | h
    · exact Or.inl (by simp [h])
    · rcases ih h with h1 | ⟨c, hc, hx⟩
      · exact Or.inl (List.mem_cons_of_mem _ h1)
      · exact Or.inr ⟨c, List.mem_cons_of_mem _ hc, hx⟩

theorem mem_slideLine (n : Nat) (vals : List (Option Nat)) (v : Nat)
    (h : some v ∈ slideLine n vals) : v ∈ mergeRow (compact vals) := by
  unfold slideLine padLine at h
  rw [List.mem_append] at h
  rcases h with h | h
  · rw [List.mem_map] at h
    obtain ⟨a, ha, he⟩ := h
    cases he
    exact ha
  · rw [List.mem_replicate] at h
    cases h.2

theorem mem_compact (vals : List (Option Nat)) (v : Nat) : v ∈ compact vals ↔ some v ∈ vals := by
  unfold compact
  simp [List.mem_filterMap]

/-- The sliding phase of `HexGame.move` keeps every tile positive. -/
theorem hexSlide_positive (size : Int) (g : HexGame) (d : HexDirection)
    (hwf : HexWF (rebuildGeometry size) g) (hpos : HexPositive g.grid) :
    HexPositive (g.slide (buildLineList (buildCoords size) d.lineDef)).game.grid := by
  have hperm := lines_flatten_perm size d
  have hnd : (buildLineList (buildCoords size) d.lineDef).flatten.Nodup :=
    hperm.nodup_iff.mpr (coordKeys_nodup size)
  have hkeys : ∀ k ∈ (buildLineList (buildCoords size) d.lineDef).flatten,
      k ∈ g.grid.map Prod.fst := by
    intro k hk
    rw [hwf]
    exact hperm.subset hk
  obtain ⟨_, h2, h3, _⟩ :=
    foldl_moveLine_spec (buildLineList (buildCoords size) d.lineDef) ⟨g, false, 0⟩ hnd hkeys
  intro k v hv
  by_cases hk : k ∈ (buildLineList (buildCoords size) d.lineDef).flatten
  · obtain ⟨line, hline, hkl⟩ := List.mem_flatten.mp hk
    have hmem : some v ∈ line.map fun key =>
        mapGet (g.slide (buildLineList (buildCoords size) d.lineDef)).game.grid key := by
      rw [← hv]
      exact List.mem_map_of_mem _ hkl
    have hmem2 : some v ∈ slideLine line.length (line.map fun key => mapGet g.grid key) := by
      rw [← h2 line hline]
      exact hmem
    rcases mergeRow_mem _ _ (mem_slideLine _ _ _ hmem2) with h | ⟨a, ha, hx⟩
    · rw [mem_compact, List.mem_map] at h
      obtain ⟨k2, _, hk2⟩ := h
      exact hpos k2 v hk2
    · rw [mem_compact, List.mem_map] at ha
      obtain ⟨k2, _, hk2⟩ := ha
      have := hpos k2 a hk2
      omega
  · have := h3 k hk
    have hv2 : mapGet g.grid k = some v := by rw [← this]; exact hv
    exact hpos k v hv2

theorem hexTileValues_eq (grid : HexGrid) (hnd : (grid.map Prod.fst).Nodup) :
    hexTileValues grid = compact ((grid.map Prod.fst).map fun key => mapGet grid key) := by
  induction grid with
  | nil => rfl
  | cons e rest ih =>
    obtain ⟨k, v⟩ := e
    rw [List.map_cons, List.nodup_cons] at hnd
    have hrest : ((rest.map Prod.fst).map fun key => mapGet ((k, v) :: rest) key) =
        (rest.map Prod.fst).map fun key => mapGet rest key := by
      apply List.map_congr_left
      intro k2 hk2
      have hne : k ≠ k2 := fun h => hnd.1 (h ▸ hk2)
      simp [mapGet, hne]
    simp only [List.map_cons, hrest]
    have hk : mapGet ((k, v) :: rest) k = v := by simp [mapGet]
    rw [hk]
    unfold hexTileValues at ih ⊢
    cases v with
    | none => rw [compact_cons_none, ← ih hnd.2]; simp
    | some x => rw [compact_cons_some, ← ih hnd.2]; simp

theorem compact_map_flatten (lines : List (List HexKey)) (grid : HexGrid) :
    compact (lines.flatten.map fun key => mapGet grid key) =
      lines.flatMap fun line => compact (line.map fun key => mapGet grid key) := by
  induction lines with
  | nil => rfl
  | cons l0 rest ih =>
    rw [List.flatten_cons, List.map_append, compact_append, ih, List.flatMap_cons]

/-- The tiles of a hexagonal grid are the tiles of its lines, whatever the direction. -/
theorem coe_hexTileValues_lines (size : Int) (d : HexDirection) (grid : HexGrid)
    (hkeys : grid.map Prod.fst = (rebuildGeometry size).coordKeys) :
    ((hexTileValues grid : List Nat) : Multiset Nat) =
      (((buildLineList (buildCoords size) d.lineDef).flatMap fun line =>
        compact (line.map fun key => mapGet grid key) : List Nat) : Multiset Nat) := by
  rw [hexTileValues_eq grid (by rw [hkeys]; exact coordKeys_nodup size), hkeys,
    ← compact_map_flatten, Multiset.coe_eq_coe]
  unfold compact
  exact ((lines_flatten_perm size d).symm.map _).filterMap _

theorem flatMap_conserves (lines : List (List HexKey)) (grid : HexGrid) :
    ((lines.flatMap (fun line => mergeRow (compact (line.map fun key => mapGet grid key))) :
        List Nat) : Multiset Nat)
      + (((hexGains lines grid).map (· / 2) : List Nat) : Multiset Nat)
      + (((hexGains lines grid).map (· / 2) : List Nat) : Multiset Nat)
    = ((lines.flatMap (fun line => compact (line.map fun key => mapGet grid key)) : List Nat) :
        Multiset Nat)
      + ((hexGains lines grid : List Nat) : Multiset Nat) := by
  induction lines with
  | nil => simp [hexGains]
  | cons l0 rest ih =>
    have hg : hexGains (l0 :: rest) grid =
        mergeGains (compact (l0.map fun key => mapGet grid key)) ++ hexGains rest grid := by
      simp [hexGains]
    rw [hg, List.flatMap_cons, List.flatMap_cons, List.map_append]
    simp only [← Multiset.coe_add]
    have h0 := mergeRow_conserves (compact (l0.map fun key => mapGet grid key))
    calc _ = ((mergeRow (compact (l0.map fun key => mapGet grid key)) : List Nat) : Multiset Nat)
            + (((mergeGains (compact (l0.map fun key => mapGet grid key))).map (· / 2) : List Nat) :
                Multiset Nat)
            + (((mergeGains (compact (l0.map fun key => mapGet grid key))).map (· / 2) : List Nat) :
                Multiset Nat)
            + (((rest.flatMap (fun line => mergeRow (compact (line.map fun key => mapGet grid key))) :
                List Nat) : Multiset Nat)
              + (((hexGains rest grid).map (· / 2) : List Nat) : Multiset Nat)
              + (((hexGains rest grid).map (· / 2) : List Nat) : Multiset Nat)) := by abel
      _ = _ := by rw [h0, ih]; abel

theorem coe_hexTileValues_mapSet (grid : HexGrid) (key : HexKey) (v : Nat)
    (hkey : key ∈ grid.map Prod.fst) (hnone : mapGet grid key = none) :
    ((hexTileValues (mapSet grid key (some v)) : List Nat) : Multiset Nat) =
      ((hexTileValues grid : List Nat) : Multiset Nat) + {v} := by
  induction grid with
  | nil => simp at hkey
  | cons e rest ih =>
    obtain ⟨k, x⟩ := e
    unfold mapSet
    by_cases hk : k = key
    · subst hk
      have hx : x = none := by simpa [mapGet] using hnone
      subst hx
      simp only [if_true, hexTileValues, List.filterMap_cons]
      rw [← Multiset.cons_coe, ← Multiset.singleton_add, add_comm]
    · have hkey2 : key ∈ rest.map Prod.fst := by
        simp only [List.map_cons, List.mem_cons] at hkey
        rcases hkey with h | h
        · exact absurd h.symm hk
        · exact h
      have hnone2 : mapGet rest key = none := by simpa [mapGet, hk] using hnone
      have := ih hkey2 hnone2
      simp only [hk, if_false]
      unfold hexTileValues at this ⊢
      cases x with
      | none => simpa using this
      | some y =>
        simp only [List.filterMap_cons, ← Multiset.cons_coe, this]
        rw [← Multiset.singleton_add, ← Multiset.singleton_add, add_assoc]

/-- After a sliding phase of `HexGame.move` that moved a tile the board has an empty cell. -/
theorem hexSlide_moved_available (size : Int) (g : HexGame) (d : HexDirection)
    (hwf : HexWF (rebuildGeometry size) g)
    (hm : (g.slide (buildLineList (buildCoords size) d.lineDef)).moved = true) :
    ∃ key, key ∈ (rebuildGeometry size).coordKeys ∧
      mapGet (g.slide (buildLineList (buildCoords size) d.lineDef)).game.grid key = none := by
  obtain ⟨_, h2, _, _, h5, _, _⟩ := hexSlide_spec size g d hwf
  rw [h5, List.any_eq_true] at hm
  obtain ⟨line, hline, hch⟩ := hm
  unfold lineChanged at hch
  have hne : slideLine line.length (line.map fun key => mapGet g.grid key) ≠
      line.map fun key => mapGet g.grid key := by simpa using hch
  have hlen : (line.map fun key => mapGet g.grid key).length = line.length := List.length_map _ _
  obtain ⟨i, hi, hnone⟩ := slideLine_has_none (line.map fun key => mapGet g.grid key)
    (by rw [hlen]; exact hne)
  rw [hlen] at hi hnone
  rw [← h2 line hline, List.getElem?_map, List.getElem?_eq_getElem hi] at hnone
  refine ⟨line.get ⟨i, hi⟩, ?_, ?_⟩
  · apply (lines_flatten_perm size d).subset
    exact List.mem_flatten.mpr ⟨line, hline, List.getElem_mem _⟩
  · simpa using hnone

/-- A call of `HexGame.move` that moves a tile: the direction is one of the six, a tile of
value 2 or 4 is spawned into a cell that the sliding phase left empty, and the game is over
exactly when `movesAvailable()` fails on the board so reached. -/
theorem hexMove_moved_spec (size : Int) (g : HexGame) (direction : String) (draw : HexDraw)
    (hwf : HexWF (rebuildGeometry size) g) (hpos : HexPositive g.grid) (hc : HexCachedOk g)
    (hm : (HexGame.moveOwn (rebuildGeometry size) g direction draw).1.moved = true) :
    ∃ d : HexDirection,
      (rebuildGeometry size).lines direction =
        Lookup.own (buildLineList (buildCoords size) d.lineDef) ∧
      g.over = false ∧
      ∃ key v, key ∈ (rebuildGeometry size).coordKeys ∧
        mapGet (g.slide (buildLineList (buildCoords size) d.lineDef)).game.grid key = none ∧
        (v = 2 ∨ v = 4) ∧
        (HexGame.moveOwn (rebuildGeometry size) g direction draw).2.grid =
          mapSet (g.slide (buildLineList (buildCoords size) d.lineDef)).game.grid key (some v) ∧
        (HexGame.moveOwn (rebuildGeometry size) g direction draw).1.over =
          some (HexGame.moveOwn (rebuildGeometry size) g direction draw).2.over ∧
        ((HexGame.moveOwn (rebuildGeometry size) g direction draw).2.over = true ↔
          HexGame.movesAvailable (rebuildGeometry size)
            (HexGame.moveOwn (rebuildGeometry size) g direction draw).2 = false) ∧
        HexWF (rebuildGeometry size) (HexGame.moveOwn (rebuildGeometry size) g direction draw).2 ∧
        HexPositive (HexGame.moveOwn (rebuildGeometry size) g direction draw).2.grid := by
  have hnoop := hexMove_noop size g direction draw hwf
  have hover : g.over = false := by
    by_contra h
    have := hnoop.1 (by simpa using h)
    rw [hm] at this; cases this
  rcases lines_cases size direction with hl | hl | ⟨d, hl⟩
  · have := hnoop.2.1 (fun lines h => by rw [hl] at h; cases h)
    rw [hm] at this; cases this
  · have := hnoop.2.1 (fun lines h => by rw [hl] at h; cases h)
    rw [hm] at this; cases this
  · refine ⟨d, hl, hover, ?_⟩
    rw [hexMove_eq_of_lines _ g direction draw _ hover hl] at hm ⊢
    have hm2 : (g.slide (buildLineList (buildCoords size) d.lineDef)).moved = true := hm
    obtain ⟨h1, _, _, _, _, ⟨_, f2, f3, _, _⟩, _⟩ := hexSlide_spec size g d hwf
    have hpos2 := hexSlide_positive size g d hwf hpos
    obtain ⟨key0, hkey0, hnone0⟩ := hexSlide_moved_available size g d hwf hm2
    generalize g.slide (buildLineList (buildCoords size) d.lineDef) = acc at *
    have hav : ({ acc.game with score := acc.game.score + acc.gained } : HexGame).availableCells
        (rebuildGeometry size) ≠ [] := by
      intro hnil
      have : key0 ∈ ({ acc.game with score := acc.game.score + acc.gained } : HexGame).availableCells
          (rebuildGeometry size) := by
        unfold HexGame.availableCells
        rw [List.mem_filter]
        exact ⟨hkey0, by simp [hnone0, falsy]⟩
      rw [hnil] at this
      cases this
    obtain ⟨key, hkey, hgrid⟩ := hexAddRandomTile_spec (rebuildGeometry size)
      { acc.game with score := acc.game.score + acc.gained } draw hav
    have hk := mem_hexAvailable hkey
    have hnone : mapGet acc.game.grid key = none := (falsy_iff_none hpos2 key).mp hk.2
    have hval := hexConsume_value
      ({ acc.game with score := acc.game.score + acc.gained } : HexGame) draw.small
      (by unfold HexCachedOk; simp only; rw [f3]; exact hc)
    have hsgrid : (hexSpawned (rebuildGeometry size) acc draw).grid =
        mapSet acc.game.grid key (some (HexGame.consumeNextValue
          { acc.game with score := acc.game.score + acc.gained } draw.small).1) := hgrid
    have hsover : (hexSpawned (rebuildGeometry size) acc draw).over = false := by
      have := (hexAddRandomTile_frame (rebuildGeometry size)
        { acc.game with score := acc.game.score + acc.gained } draw).2.2.1
      simp only [hexSpawned]
      rw [this]
      simp only
      rw [f2, hover]
    have hfin := hexFinishMove_moved (rebuildGeometry size) acc draw hm2
    have hfgrid : (HexGame.finishMove (rebuildGeometry size) acc draw).grid =
        (hexSpawned (rebuildGeometry size) acc draw).grid := by
      rw [hfin]; split_ifs <;> rfl
    have hmv : HexGame.movesAvailable (rebuildGeometry size)
        (HexGame.finishMove (rebuildGeometry size) acc draw) =
        HexGame.movesAvailable (rebuildGeometry size) (hexSpawned (rebuildGeometry size) acc draw) := by
      unfold HexGame.movesAvailable HexGame.availableCells
      rw [hfgrid]
    refine ⟨key, _, hk.1, hnone, hval, ?_, rfl, ?_, ?_, ?_⟩
    · show (HexGame.finishMove (rebuildGeometry size) acc draw).grid = _
      rw [hfgrid, hsgrid]
    · show (HexGame.finishMove (rebuildGeometry size) acc draw).over = true ↔
        HexGame.movesAvailable (rebuildGeometry size)
          (HexGame.finishMove (rebuildGeometry size) acc draw) = false
      rw [hmv, hfin]
      by_cases hma : HexGame.movesAvailable (rebuildGeometry size)
          (hexSpawned (rebuildGeometry size) acc draw) = true
      · rw [if_pos hma, hsover, hma]
        simp
      · rw [if_neg hma]
        simp only [true_iff]
        simpa using hma
    · show (HexGame.finishMove (rebuildGeometry size) acc draw).grid.map Prod.fst = _
      rw [hfgrid, hsgrid, mapSet_keys _ _ _ (by rw [h1, hwf]; exact hk.1), h1]
      exact hwf
    · show HexPositive (HexGame.finishMove (rebuildGeometry size) acc draw).grid
      rw [hfgrid, hsgrid]
      intro k v hv
      rw [mapGet_mapSet] at hv
      by_cases hkk : k = key
      · rw [if_pos hkk] at hv
        cases hv
        rcases hval with h | h <;> omega
      · rw [if_neg hkk] at hv
        exact hpos2 k v hv

/-- The hexagonal half of the conservation property of `move`. -/
theorem hexMove_conserves (size : Int) (g : HexGame) (direction : String) (draw : HexDraw)
    (hwf : HexWF (rebuildGeometry size) g) (hpos : HexPositive g.grid) (hc : HexCachedOk g)
    (hm : (HexGame.moveOwn (rebuildGeometry size) g direction draw).1.moved = true) :
    ∃ lines, (rebuildGeometry size).lines direction = Lookup.own lines ∧
      ∃ key v, key ∈ (rebuildGeometry size).coordKeys ∧
        mapGet (g.slide lines).game.grid key = none ∧ (v = 2 ∨ v = 4) ∧
        (HexGame.moveOwn (rebuildGeometry size) g direction draw).2.grid =
          mapSet (g.slide lines).game.grid key (some v) ∧
        ((hexTileValues (HexGame.moveOwn (rebuildGeometry size) g direction draw).2.grid : List Nat) :
            Multiset Nat)
            + (((hexGains lines g.grid).map (· / 2) : List Nat) : Multiset Nat)
            + (((hexGains lines g.grid).map (· / 2) : List Nat) : Multiset Nat)
          = ((hexTileValues g.grid : List Nat) : Multiset Nat)
            + ((hexGains lines g.grid : List Nat) : Multiset Nat) + {v} ∧
        (hexTileValues (HexGame.moveOwn (rebuildGeometry size) g direction draw).2.grid).length
            + (hexGains lines g.grid).length
          = (hexTileValues g.grid).length + 1 := by
  obtain ⟨d, hl, _, key, v, hkey, hnone, hv, hgrid, _, _, _, _⟩ :=
    hexMove_moved_spec size g direction draw hwf hpos hc hm
  obtain ⟨h1, h2, _, _, _, _, _⟩ := hexSlide_spec size g d hwf
  have hkeys2 : (g.slide (buildLineList (buildCoords size) d.lineDef)).game.grid.map Prod.fst =
      (rebuildGeometry size).coordKeys := h1.trans hwf
  have hmulti : ((hexTileValues (HexGame.moveOwn (rebuildGeometry size) g direction draw).2.grid :
        List Nat) : Multiset Nat)
        + (((hexGains (buildLineList (buildCoords size) d.lineDef) g.grid).map (· / 2) : List Nat) :
            Multiset Nat)
        + (((hexGains (buildLineList (buildCoords size) d.lineDef) g.grid).map (· / 2) : List Nat) :
            Multiset Nat)
      = ((hexTileValues g.grid : List Nat) : Multiset Nat)
        + ((hexGains (buildLineList (buildCoords size) d.lineDef) g.grid : List Nat) :
            Multiset Nat) + {v} := by
    rw [hgrid, coe_hexTileValues_mapSet _ key v (by rw [hkeys2]; exact hkey) hnone,
      coe_hexTileValues_lines size d _ hkeys2, coe_hexTileValues_lines size d _ hwf]
    have hcongr : ((buildLineList (buildCoords size) d.lineDef).flatMap fun line =>
          compact (line.map fun key =>
            mapGet (g.slide (buildLineList (buildCoords size) d.lineDef)).game.grid key)) =
        (buildLineList (buildCoords size) d.lineDef).flatMap fun line =>
          mergeRow (compact (line.map fun key => mapGet g.grid key)) := by
      apply List.flatMap_congr
      intro line hline
      rw [h2 line hline]
      unfold slideLine
      rw [compact_padLine]
    rw [hcongr, ← flatMap_conserves]
    abel
  refine ⟨_, hl, key, v, hkey, hnone, hv, hgrid, hmulti, ?_⟩
  have := congrArg Multiset.card hmulti
  simp only [Multiset.card_add, Multiset.coe_card, List.length_map,
    Multiset.card_singleton] at this
  omega

/-- The hexagonal half of the end-of-game property of `move`. -/
theorem hexMove_over_iff (size : Int) (g : HexGame) (direction : String) (draw : HexDraw)
    (hwf : HexWF (rebuildGeometry size) g) (hpos : HexPositive g.grid) (hc : HexCachedOk g)
    (hm : (HexGame.moveOwn (rebuildGeometry size) g direction draw).1.moved = true) :
    (HexGame.moveOwn (rebuildGeometry size) g direction draw).1.over =
      some (HexGame.moveOwn (rebuildGeometry size) g direction draw).2.over ∧
    ((HexGame.moveOwn (rebuildGeometry size) g direction draw).2.over = true ↔
      HexNoEmptyCell (rebuildGeometry size)
        (HexGame.moveOwn (rebuildGeometry size) g direction draw).2.grid ∧
      HexNoAdjacentEqual (rebuildGeometry size)
        (HexGame.moveOwn (rebuildGeometry size) g direction draw).2.grid) := by
  obtain ⟨d, _, _, key, v, _, _, _, _, hres, hover, hwf2, hpos2⟩ :=
    hexMove_moved_spec size g direction draw hwf hpos hc hm
  refine ⟨hres, ?_⟩
  rw [hover]
  exact hexMovesAvailable_eq_false_iff size _ hwf2 hpos2

/-! ### The contract of a move, for both boards -/

theorem move_some_of_moved {g : Game2048} {direction : String}
    (hmoved : (g.move direction).map (fun res => res.1.moved) = some true) :
    ∃ res, g.move direction = some res ∧ res.1.moved = true := by
  cases hmove : g.move direction with
  | none => rw [hmove] at hmoved; cases hmoved
  | some res =>
    rw [hmove] at hmoved
    exact ⟨res, rfl, by simpa using hmoved⟩

/-- C3: for `Game2048.move` (on an `n × n` grid) and for `HexGame.move` (on a grid with an
entry for every cell), whenever the call returns a result with `moved = false`, the state
after the call is the state before it: for `Game2048` the grid values, score, `over`, `won`,
`cachedValue` and the state of the generator, for `HexGame` every field of the game.
`Game2048.move` returns for every string, with `moved = false` when the game is over and
when the string is none of the four directions.  `HexGame.move` returns `moved = false`
when the game is over and when `linesByDir` has no property of that name; it returns for
each of the six directions; and it throws, returning no result, exactly when the game is
not over and the string names a property inherited from `Object.prototype`. -/
theorem move_not_moved_unchanged (g : Game2048) (direction : String)
    (hwf : GridWF g.size g.grid)
    (radius : Int) (h : HexGame) (hexDirection : String) (draw : HexDraw)
    (hhex : HexWF (rebuildGeometry radius) h) :
    (∃ res, g.move direction = some res ∧
      (g.over = true → res.1.moved = false) ∧
      ((∀ d : Direction, direction ≠ d.name) → res.1.moved = false) ∧
      (res.1.moved = false →
        gridValues res.2.grid = gridValues g.grid ∧ res.2.score = g.score ∧
        res.2.over = g.over ∧ res.2.won = g.won ∧ res.2.cachedValue = g.cachedValue ∧
        res.2.rng = g.rng)) ∧
    ((∀ res, HexGame.move (rebuildGeometry radius) h hexDirection draw = some res →
        res.1.moved = false → res.2 = h) ∧
      (h.over = true →
        ∃ res, HexGame.move (rebuildGeometry radius) h hexDirection draw = some res ∧
          res.1.moved = false) ∧
      ((rebuildGeometry radius).lines hexDirection = Lookup.absent →
        ∃ res, HexGame.move (rebuildGeometry radius) h hexDirection draw = some res ∧
          res.1.moved = false) ∧
      (∀ d : HexDirection,
        ∃ res, HexGame.move (rebuildGeometry radius) h d.name draw = some res) ∧
      (HexGame.move (rebuildGeometry radius) h hexDirection draw = none ↔
        h.over = false ∧ (rebuildGeometry radius).lines hexDirection = Lookup.inherited)) := by
  constructor
  · exact Game2048.move_noop g direction hwf
  · have hnoop := hexMove_noop radius h hexDirection draw hhex
    refine ⟨?_, ?_, ?_, fun d => ⟨_, hexMove_returns radius h d draw⟩,
      hexMove_throws_iff _ h hexDirection draw⟩
    · intro res hres hm
      have := hexMove_eq_moveOwn hres
      subst this
      exact hnoop.2.2 hm
    · intro hover
      refine ⟨(⟨false, none, none, none, none⟩, h), ?_, rfl⟩
      unfold HexGame.move
      rw [if_pos hover]
    · intro hl
      cases hover : h.over
      · refine ⟨(⟨false, none, none, none, none⟩, h), ?_, rfl⟩
        unfold HexGame.move
        rw [hover, hl]
        rfl
      · refine ⟨(⟨false, none, none, none, none⟩, h), ?_, rfl⟩
        unfold HexGame.move
        rw [if_pos hover]

/-- C4: for `Game2048.move` and `HexGame.move`, a call that returns `moved = true` puts one
tile of value 2 or 4 into a cell that the sliding phase left empty (such a cell exists) and
leaves the other cells as the sliding phase left them; the multiset of tile values after the
move, with the two halves of every doubled value added, is the multiset before the move
with every doubled value and the spawned value added (each merged pair `v, v` became one
`2v`), and the number of tiles after the move plus the number of merges is the number before
plus one. -/
theorem move_spawns_one_tile (g : Game2048) (direction : String)
    (hwf : GridWF g.size g.grid) (hc : Game2048.CachedOk g)
    (hmoved : (g.move direction).map (fun res => res.1.moved) = some true)
    (radius : Int) (h : HexGame) (hexDirection : String) (draw : HexDraw)
    (hhex : HexWF (rebuildGeometry radius) h) (hpos : HexPositive h.grid)
    (hhc : HexCachedOk h)
    (hm : (HexGame.move (rebuildGeometry radius) h hexDirection draw).map
      (fun res => res.1.moved) = some true) :
    (∃ res, g.move direction = some res ∧
      ∃ d acc, Game2048.getVector direction = Lookup.own d.vector ∧ g.slide d.vector = some acc ∧
      ∃ r c v, r < g.size ∧ c < g.size ∧ gridAt acc.game.grid r c = none ∧ (v = 2 ∨ v = 4) ∧
        (gridAt res.2.grid r c).map Tile.value = some v ∧
        (∀ r2 c2, (r2, c2) ≠ (r, c) → gridAt res.2.grid r2 c2 = gridAt acc.game.grid r2 c2) ∧
        ((tileValues res.2.grid : List Nat) : Multiset Nat)
            + (((lineAlgorithmGains d g.size (gridValues g.grid)).map (· / 2) : List Nat) :
                Multiset Nat)
            + (((lineAlgorithmGains d g.size (gridValues g.grid)).map (· / 2) : List Nat) :
                Multiset Nat)
          = ((tileValues g.grid : List Nat) : Multiset Nat)
            + ((lineAlgorithmGains d g.size (gridValues g.grid) : List Nat) : Multiset Nat)
            + {v} ∧
        (tileValues res.2.grid).length + (lineAlgorithmGains d g.size (gridValues g.grid)).length
          = (tileValues g.grid).length + 1) ∧
    (∃ hres, HexGame.move (rebuildGeometry radius) h hexDirection draw = some hres ∧
      ∃ lines, (rebuildGeometry radius).lines hexDirection = Lookup.own lines ∧
      ∃ key v, key ∈ (rebuildGeometry radius).coordKeys ∧
        mapGet (h.slide lines).game.grid key = none ∧ (v = 2 ∨ v = 4) ∧
        hres.2.grid = mapSet (h.slide lines).game.grid key (some v) ∧
        ((hexTileValues hres.2.grid : List Nat) : Multiset Nat)
            + (((hexGains lines h.grid).map (· / 2) : List Nat) : Multiset Nat)
            + (((hexGains lines h.grid).map (· / 2) : List Nat) : Multiset Nat)
          = ((hexTileValues h.grid : List Nat) : Multiset Nat)
            + ((hexGains lines h.grid : List Nat) : Multiset Nat) + {v} ∧
        (hexTileValues hres.2.grid).length + (hexGains lines h.grid).length
          = (hexTileValues h.grid).length + 1) := by
  obtain ⟨res, hres, hmv⟩ := move_some_of_moved hmoved
  obtain ⟨hret, hm2⟩ := hexMove_some_of_moved hm
  constructor
  · exact ⟨res, hres, Game2048.move_conserves g direction hwf hc res hres hmv⟩
  · exact ⟨_, hret, hexMove_conserves radius h hexDirection draw hhex hpos hhc hm2⟩

/-- C5: after a call of `Game2048.move` or `HexGame.move` that returns `moved = true`, the
`over` flag of the result is the `over` flag of the game, and it is true exactly when the
grid reached has no empty cell and no two adjacent cells holding equal values, for the
4-neighbour relation of the square board and the 6-neighbour relation of the axial
coordinates. -/
theorem move_over_iff_stuck (g : Game2048) (direction : String)
    (hwf : GridWF g.size g.grid)
    (hmoved : (g.move direction).map (fun res => res.1.moved) = some true)
    (radius : Int) (h : HexGame) (hexDirection : String) (draw : HexDraw)
    (hhex : HexWF (rebuildGeometry radius) h) (hpos : HexPositive h.grid)
    (hhc : HexCachedOk h)
    (hm : (HexGame.move (rebuildGeometry radius) h hexDirection draw).map
      (fun res => res.1.moved) = some true) :
    (∃ res, g.move direction = some res ∧ res.1.over = some res.2.over ∧
      res.2.size = g.size ∧
      (res.2.over = true ↔
        NoEmptyCell g.size res.2.grid ∧ NoAdjacentEqual g.size res.2.grid)) ∧
    (∃ hres, HexGame.move (rebuildGeometry radius) h hexDirection draw = some hres ∧
      hres.1.over = some hres.2.over ∧
      (hres.2.over = true ↔
        HexNoEmptyCell (rebuildGeometry radius) hres.2.grid ∧
        HexNoAdjacentEqual (rebuildGeometry radius) hres.2.grid)) := by
  obtain ⟨res, hres, hmv⟩ := move_some_of_moved hmoved
  obtain ⟨hret, hm2⟩ := hexMove_some_of_moved hm
  constructor
  · exact ⟨res, hres, Game2048.move_over_iff g direction hwf res hres hmv⟩
  · exact ⟨_, hret, hexMove_over_iff radius h hexDirection draw hhex hpos hhc hm2⟩

/-! ### The theorems at the sample games -/

theorem hexPositive_of_all (grid : HexGrid) (h : ∀ entry ∈ grid, entry.2 ≠ some 0) :
    HexPositive grid := by
  intro k v hv hzero
  induction grid with
  | nil => simp [mapGet] at hv
  | cons entry rest ih =>
    obtain ⟨k2, v2⟩ := entry
    unfold mapGet at hv
    split_ifs at hv with hk
    · exact h (k2, v2) (List.mem_cons_self _ _) (by rw [← hzero]; exact hv)
    · exact ih (fun e he => h e (List.mem_cons_of_mem _ he)) hv

theorem move_rewrites_lines_witness :
    HexWF (rebuildGeometry ((1 : Nat) : Int)) sampleHex ∧ sampleHex.over = false ∧
    ∃ lines, (rebuildGeometry ((1 : Nat) : Int)).lines HexDirection.w.name = Lookup.own lines ∧
      (∀ line ∈ lines,
        line.map (fun key => mapGet (sampleHex.slide lines).game.grid key) =
          slideLine line.length (line.map fun key => mapGet sampleHex.grid key)) ∧
      (sampleHex.slide lines).gained = (hexGains lines sampleHex.grid).sum ∧
      ((sampleHex.slide lines).game.won = true ↔
        sampleHex.won = true ∨ ∃ x ∈ hexGains lines sampleHex.grid, 2048 ≤ x) ∧
      (∃ res, HexGame.move (rebuildGeometry ((1 : Nat) : Int)) sampleHex HexDirection.w.name
          sampleDraw = some res ∧
        res.1.gained = some (sampleHex.slide lines).gained ∧
        res.2 = HexGame.finishMove (rebuildGeometry ((1 : Nat) : Int)) (sampleHex.slide lines)
          sampleDraw) ∧
      (HexGame.finishMove (rebuildGeometry ((1 : Nat) : Int)) (sampleHex.slide lines)
          sampleDraw).won = (sampleHex.slide lines).game.won ∧
      slideLine 3 [some 2, some 2, some 2] = [some 4, some 2, none] ∧
      slideLine 4 [some 2, some 2, some 2, some 2] = [some 4, some 4, none, none] :=
  ⟨by decide, rfl,
    HexGame.move_rewrites_lines 1 sampleHex HexDirection.w sampleDraw (by decide) rfl⟩

theorem move_not_moved_unchanged_witness :
    GridWF sampleGame.size sampleGame.grid ∧ HexWF (rebuildGeometry 1) sampleHex ∧
    (sampleGame.move "up").map (fun res => res.1.moved) = some false ∧
    (HexGame.move (rebuildGeometry 1) sampleHex "nw" sampleDraw).map (fun res => res.1.moved) =
      some false ∧
    (sampleGame.move "constructor").map (fun res => res.1) =
      some ⟨false, some 0, some 0, some false, some false⟩ ∧
    HexGame.move (rebuildGeometry 1) sampleHex "constructor" sampleDraw = none ∧
    (∀ res, HexGame.move (rebuildGeometry 1) sampleHex "nw" sampleDraw = some res →
      res.1.moved = false → res.2 = sampleHex) ∧
    (∃ res, sampleGame.move "up" = some res ∧
      (res.1.moved = false →
        gridValues res.2.grid = gridValues sampleGame.grid ∧ res.2.score = sampleGame.score ∧
        res.2.over = sampleGame.over ∧ res.2.won = sampleGame.won ∧
        res.2.cachedValue = sampleGame.cachedValue ∧ res.2.rng = sampleGame.rng)) :=
  ⟨by decide, by decide, by decide, by decide, by decide, by decide,
    (move_not_moved_unchanged sampleGame "up" (by decide) 1 sampleHex "nw" sampleDraw
      (by decide)).2.1,
    (move_not_moved_unchanged sampleGame "up" (by decide) 1 sampleHex "nw" sampleDraw
      (by decide)).1.elim fun res hres => ⟨res, hres.1, hres.2.2.2⟩⟩

theorem move_spawns_one_tile_witness :
    GridWF sampleGame.size sampleGame.grid ∧ Game2048.CachedOk sampleGame ∧
    (sampleGame.move "left").map (fun res => res.1.moved) = some true ∧
    HexWF (rebuildGeometry 1) sampleHex ∧ HexPositive sampleHex.grid ∧
    HexCachedOk sampleHex ∧
    (HexGame.move (rebuildGeometry 1) sampleHex "w" sampleDraw).map (fun res => res.1.moved) =
      some true ∧
    ∃ hres, HexGame.move (rebuildGeometry 1) sampleHex "w" sampleDraw = some hres ∧
      ∃ lines, (rebuildGeometry 1).lines "w" = Lookup.own lines ∧
      ∃ key v, key ∈ (rebuildGeometry 1).coordKeys ∧
        mapGet (sampleHex.slide lines).game.grid key = none ∧ (v = 2 ∨ v = 4) ∧
        hres.2.grid = mapSet (sampleHex.slide lines).game.grid key (some v) ∧
        ((hexTileValues hres.2.grid : List Nat) : Multiset Nat)
            + (((hexGains lines sampleHex.grid).map (· / 2) : List Nat) : Multiset Nat)
            + (((hexGains lines sampleHex.grid).map (· / 2) : List Nat) : Multiset Nat)
          = ((hexTileValues sampleHex.grid : List Nat) : Multiset Nat)
            + ((hexGains lines sampleHex.grid : List Nat) : Multiset Nat) + {v} ∧
        (hexTileValues hres.2.grid).length + (hexGains lines sampleHex.grid).length
          = (hexTileValues sampleHex.grid).length + 1 :=
  ⟨by decide, Or.inl rfl, by decide, by decide, hexPositive_of_all _ (by decide), Or.inl rfl,
    by decide,
    (move_spawns_one_tile sampleGame "left" (by decide) (Or.inl rfl) (by decide)
      1 sampleHex "w" sampleDraw (by decide) (hexPositive_of_all _ (by decide)) (Or.inl rfl)
      (by decide)).2⟩

theorem move_over_iff_stuck_witness :
    GridWF sampleGame.size sampleGame.grid ∧
    (sampleGame.move "left").map (fun res => res.1.moved) = some true ∧
    HexWF (rebuildGeometry 1) sampleHex ∧ HexPositive sampleHex.grid ∧
    HexCachedOk sampleHex ∧
    (HexGame.move (rebuildGeometry 1) sampleHex "w" sampleDraw).map (fun res => res.1.moved) =
      some true ∧
    (∃ res, sampleGame.move "left" = some res ∧ res.1.over = some res.2.over ∧
      res.2.size = sampleGame.size ∧
      (res.2.over = true ↔
        NoEmptyCell sampleGame.size res.2.grid ∧ NoAdjacentEqual sampleGame.size res.2.grid)) ∧
    (∃ hres, HexGame.move (rebuildGeometry 1) sampleHex "w" sampleDraw = some hres ∧
      hres.1.over = some hres.2.over ∧
      (hres.2.over = true ↔
        HexNoEmptyCell (rebuildGeometry 1) hres.2.grid ∧
        HexNoAdjacentEqual (rebuildGeometry 1) hres.2.grid)) :=
  ⟨by decide, by decide, by decide, hexPositive_of_all _ (by decide), Or.inl rfl, by decide,
    move_over_iff_stuck sampleGame "left" (by decide) (by decide)
      1 sampleHex "w" sampleDraw (by decide) (hexPositive_of_all _ (by decide)) (Or.inl rfl)
      (by decide)⟩

/-! ### Determinism of a seeded game -/

theorem Game2048.consume_seed (g : Game2048) : g.consumeNextValue.2.seed = g.seed := by
  unfold Game2048.consumeNextValue
  cases g.cachedValue <;> rfl

theorem Game2048.addRandomTile_seed (g : Game2048) : g.addRandomTile.2.seed = g.seed := by
  unfold Game2048.addRandomTile
  simp only
  split_ifs
  · rfl
  · split
    · exact Game2048.consume_seed g
    · exact Game2048.consume_seed g

set_option maxRecDepth 100000 in
/-- C6 (counterexample): with the integer seed 0, or with the empty string as seed, the
constructor falls through `seed || randomSeed()`: two games of size 4 built with that seed
hold different grids when `randomSeed()` returns "k3j9x0qa" for one and "z81mnb4p" for the
other. -/
theorem new_falsy_seed_differs :
    gridValues (Game2048.new 4 (some (Seed.num 0))
        [107, 51, 106, 57, 120, 48, 113, 97]).grid ≠
      gridValues (Game2048.new 4 (some (Seed.num 0))
        [122, 56, 49, 109, 110, 98, 52, 112]).grid ∧
    gridValues (Game2048.new 4 (some (Seed.str []))
        [107, 51, 106, 57, 120, 48, 113, 97]).grid ≠
      gridValues (Game2048.new 4 (some (Seed.str []))
        [122, 56, 49, 109, 110, 98, 52, 112]).grid := by
  decide

/-- C6 (amended): for every board size and every seed that is a non-empty string or a
non-zero integer, two games constructed with that size and seed are the same game whatever
`randomSeed()` would have returned, built on the seed supplied, and a sequence of move
directions gives the same results and the same games (grid, score, `over`, `won`) after
every move. -/
theorem new_seeded_deterministic (size : Nat) (seed : Seed)
    (htruthy : Game2048.seedTruthy (some seed) = true)
    (drawn1 drawn2 : List Nat) (directions : List String) :
    Game2048.new size (some seed) drawn1 = Game2048.new size (some seed) drawn2 ∧
    (Game2048.new size (some seed) drawn1).seed = seed ∧
    (Game2048.new size (some seed) drawn1).playMoves directions =
      (Game2048.new size (some seed) drawn2).playMoves directions := by
  have hnew : ∀ drawn, Game2048.new size (some seed) drawn =
      Game2048.reset
        { size := size, seed := seed, rng := SeededRandom.new seed, grid := [], score := 0,
          over := false, won := false, cachedValue := none, counted := false } := by
    intro drawn
    unfold Game2048.new
    simp only [htruthy, if_true]
  refine ⟨by rw [hnew drawn1, hnew drawn2], ?_, by rw [hnew drawn1, hnew drawn2]⟩
  rw [hnew drawn1]
  unfold Game2048.reset
  simp only
  rw [Game2048.addRandomTile_seed, Game2048.addRandomTile_seed]

theorem new_seeded_deterministic_witness :
    Game2048.seedTruthy (some (Seed.num 7)) = true ∧
    (Game2048.new 4 (some (Seed.num 7)) [107, 51]).playMoves ["left", "up", "left"] =
      (Game2048.new 4 (some (Seed.num 7)) [122, 56]).playMoves ["left", "up", "left"] :=
  ⟨rfl, (new_seeded_deterministic 4 (Seed.num 7) rfl [107, 51] [122, 56]
    ["left", "up", "left"]).2.2⟩

/-! ### Snapshots: `loadSnapshot` after `snapshot` -/

theorem grid_tabulate {n : Nat} {grid : Grid} (h : GridWF n grid) :
    grid = (List.range n).map fun r => (List.range n).map fun c => gridAt grid r c := by
  apply List.ext_getElem
  · simp [h.1]
  · intro r h1 h2
    have hrow : grid[r]? = some grid[r] := List.getElem?_eq_getElem h1
    have hlen : (grid[r]).length = n := h.2 _ (List.getElem_mem h1)
    simp only [List.getElem_map, List.getElem_range]
    apply List.ext_getElem
    · simp [hlen]
    · intro c h3 h4
      simp only [List.getElem_map, List.getElem_range, gridAt, hrow]
      rw [List.getElem?_eq_getElem h3]
      rfl

theorem grid_ext {n : Nat} {a b : Grid} (ha : GridWF n a) (hb : GridWF n b)
    (h : ∀ r c, r < n → c < n → gridAt a r c = gridAt b r c) : a = b := by
  rw [grid_tabulate ha, grid_tabulate hb]
  apply List.map_congr_left
  intro r hr
  apply List.map_congr_left
  intro c hc
  exact h r c (List.mem_range.mp hr) (List.mem_range.mp hc)

theorem gridWF_replicate (n : Nat) :
    GridWF n (List.replicate n (List.replicate n (none : Option Tile))) := by
  refine ⟨by simp, ?_⟩
  intro cells hcells
  rw [List.eq_of_mem_replicate hcells]
  simp

theorem gridAt_replicate (n r c : Nat) :
    gridAt (List.replicate n (List.replicate n (none : Option Tile))) r c = none := by
  unfold gridAt
  cases h : (List.replicate n (List.replicate n (none : Option Tile)))[r]? with
  | none => rfl
  | some cells =>
    have hmem := List.getElem?_mem h
    rw [List.eq_of_mem_replicate hmem]
    show ((List.replicate n (none : Option Tile))[c]?).join = none
    cases h2 : (List.replicate n (none : Option Tile))[c]? with
    | none => rfl
    | some x =>
      have := List.eq_of_mem_replicate (List.getElem?_mem h2)
      rw [this]
      rfl

theorem snapshot_cell (g : Game2048) (hwf : GridWF g.size g.grid) {r c : Nat}
    (hr : r < g.size) (hc : c < g.size) :
    g.snapshot.cell r c =
      some (some (match gridAt g.grid r c with
        | some tile => tile.value
        | none => 0)) := by
  have h1 : r < g.grid.length := by rw [hwf.1]; exact hr
  have hlen : (g.grid[r]).length = g.size := hwf.2 _ (List.getElem_mem h1)
  have h3 : c < (g.grid[r]).length := by rw [hlen]; exact hc
  simp only [Snapshot.cell, Game2048.snapshot, gridAt, List.getElem?_map,
    List.getElem?_eq_getElem h1, List.getElem?_eq_getElem h3, Option.map_some',
    Option.join]
  rfl

theorem loadCell_snapshot (g : Game2048) (hwf : GridWF g.size g.grid) (hok : TilesOk g.grid)
    {k j : Nat} (hk : k < g.size) (hj : j < g.size) (G : Grid) (hG : GridWF g.size G)
    (hQ : ∀ r c, r < g.size → c < g.size →
      gridAt G r c = if r < k ∨ (r = k ∧ c < j) then gridAt g.prepareTiles.grid r c else none) :
    ∃ G2, g.snapshot.loadCell G k j = some G2 ∧ GridWF g.size G2 ∧
      ∀ r c, r < g.size → c < g.size →
        gridAt G2 r c =
          if r < k ∨ (r = k ∧ c < j + 1) then gridAt g.prepareTiles.grid r c else none := by
  have htarget : ∀ r c, gridAt g.prepareTiles.grid r c =
      (gridAt g.grid r c).map fun tile => { tile with merged := false } := by
    intro r c
    exact gridAt_map g.grid _ r c
  unfold Snapshot.loadCell
  rw [snapshot_cell g hwf hk hj]
  cases hx : gridAt g.grid k j with
  | none =>
    refine ⟨G, by simp, hG, ?_⟩
    intro r c hr hc
    rw [hQ r c hr hc]
    by_cases h1 : r = k ∧ c = j
    · obtain ⟨rfl, rfl⟩ := h1
      simp [htarget, hx]
    · have : (r < k ∨ (r = k ∧ c < j + 1)) ↔ (r < k ∨ (r = k ∧ c < j)) := by
        constructor
        · rintro (h | ⟨h2, h3⟩)
          · exact Or.inl h
          · exact Or.inr ⟨h2, by
              rcases Nat.lt_succ_iff_lt_or_eq.mp h3 with h4 | h4
              · exact h4
              · exact absurd ⟨h2, h4⟩ h1⟩
        · rintro (h | ⟨h2, h3⟩)
          · exact Or.inl h
          · exact Or.inr ⟨h2, by omega⟩
      simp only [this]
  | some t =>
    obtain ⟨h1, h2, h3⟩ := hok k j t hx
    refine ⟨gridSet G k j (some ⟨t.value, (k : Int), (j : Int), false⟩), by simp [h3],
      gridSet_wf hG _ _ _, ?_⟩
    intro r c hr hc
    rw [gridAt_gridSet_wf hG hk hj]
    by_cases h4 : r = k ∧ c = j
    · obtain ⟨rfl, rfl⟩ := h4
      simp only [and_self, if_true, htarget, hx, Option.map_some', lt_add_one, or_true]
      rw [← h1, ← h2]
    · rw [if_neg h4, hQ r c hr hc]
      have : (r < k ∨ (r = k ∧ c < j + 1)) ↔ (r < k ∨ (r = k ∧ c < j)) := by
        constructor
        · rintro (h | ⟨h5, h6⟩)
          · exact Or.inl h
          · exact Or.inr ⟨h5, by
              rcases Nat.lt_succ_iff_lt_or_eq.mp h6 with h7 | h7
              · exact h7
              · exact absurd ⟨h5, h7⟩ h4⟩
        · rintro (h | ⟨h5, h6⟩)
          · exact Or.inl h
          · exact Or.inr ⟨h5, by omega⟩
      simp only [this]

theorem loadCells_snapshot (g : Game2048) (hwf : GridWF g.size g.grid) (hok : TilesOk g.grid) :
    (List.range g.size).foldlM (fun grid r =>
        (List.range g.size).foldlM (fun grid c => g.snapshot.loadCell grid r c) grid)
      (List.replicate g.size (List.replicate g.size none)) = some g.prepareTiles.grid := by
  obtain ⟨G, hG, hwfG, hP⟩ := foldlM_option_inv (List.range g.size)
    (fun grid r => (List.range g.size).foldlM (fun grid c => g.snapshot.loadCell grid r c) grid)
    (fun k G => GridWF g.size G ∧ ∀ r c, r < g.size → c < g.size →
      gridAt G r c = if r < k then gridAt g.prepareTiles.grid r c else none)
    (List.replicate g.size (List.replicate g.size none))
    ⟨gridWF_replicate _, fun r c _ _ => by simp [gridAt_replicate]⟩
    (by
      intro k hk a ⟨hwfa, hPa⟩
      have hk2 : k < g.size := by simpa using hk
      simp only [List.get_eq_getElem, List.getElem_range]
      obtain ⟨G2, hG2, hwf2, hQ2⟩ := foldlM_option_inv (List.range g.size)
        (fun grid c => g.snapshot.loadCell grid k c)
        (fun j G => GridWF g.size G ∧ ∀ r c, r < g.size → c < g.size →
          gridAt G r c =
            if r < k ∨ (r = k ∧ c < j) then gridAt g.prepareTiles.grid r c else none)
        a ⟨hwfa, fun r c hr hc => by rw [hPa r c hr hc]; simp⟩
        (by
          intro j hj b ⟨hwfb, hQb⟩
          have hj2 : j < g.size := by simpa using hj
          simp only [List.get_eq_getElem, List.getElem_range]
          exact loadCell_snapshot g hwf hok hk2 hj2 b hwfb hQb)
      refine ⟨G2, hG2, hwf2, ?_⟩
      intro r c hr hc
      rw [hQ2 r c hr hc]
      simp only [List.length_range]
      have : (r < k ∨ (r = k ∧ c < g.size)) ↔ r < k + 1 := by
        constructor
        · rintro (h | ⟨h, _⟩) <;> omega
        · intro h
          rcases Nat.lt_succ_iff_lt_or_eq.mp h with h2 | h2
          · exact Or.inl h2
          · exact Or.inr ⟨h2, hc⟩
      simp only [this])
  rw [hG]
  congr 1
  have hwfT : GridWF g.size g.prepareTiles.grid := GridWF_map hwf _
  apply grid_ext hwfG hwfT
  intro r c hr hc
  rw [hP r c hr hc]
  simp [hr]

theorem loadSnapshot_snapshot (g : Game2048) (hwf : GridWF g.size g.grid)
    (hok : TilesOk g.grid) :
    Game2048.loadSnapshot g.snapshot =
      some { size := g.size, seed := g.seed, rng := g.rng, grid := g.prepareTiles.grid,
             score := some g.score, over := some g.over, won := some g.won,
             cachedValue := g.cachedValue, counted := g.counted } := by
  unfold Game2048.loadSnapshot
  have := loadCells_snapshot g hwf hok
  simp only [Game2048.snapshot] at this ⊢
  rw [this]
  rfl

/-! ### Tiles record their cell: an invariant of the reachable games -/

theorem gridAt_gridSet_cases (grid : Grid) (r c r2 c2 : Nat) (x : Option Tile) :
    gridAt (gridSet grid r c x) r2 c2 = gridAt grid r2 c2 ∨
      (r2 = r ∧ c2 = c ∧ gridAt (gridSet grid r c x) r2 c2 = x) := by
  unfold gridSet
  cases hrow : grid[r]? with
  | none => exact Or.inl rfl
  | some cells =>
    simp only
    unfold gridAt
    simp only [List.getElem?_set]
    by_cases hr : r = r2
    · subst hr
      have hlt : r < grid.length := by
        by_contra h
        rw [List.getElem?_eq_none (by omega)] at hrow
        cases hrow
      simp only [if_true, hlt, hrow]
      by_cases hc : c = c2
      · subst hc
        by_cases hlc : c < cells.length
        · right
          simp [hlc]
        · left
          simp [hlc, List.getElem?_set, List.getElem?_eq_none (Nat.le_of_not_lt hlc)]
      · left
        simp [hc, List.getElem?_set]
    · left
      simp [hr]

theorem tilesOk_gridSet_none {grid : Grid} (h : TilesOk grid) (r c : Nat) :
    TilesOk (gridSet grid r c none) := by
  intro r2 c2 t ht
  rcases gridAt_gridSet_cases grid r c r2 c2 none with h1 | ⟨_, _, h1⟩
  · rw [h1] at ht
    exact h r2 c2 t ht
  · rw [h1] at ht
    cases ht

theorem tilesOk_gridSet_some {grid : Grid} (h : TilesOk grid) (r c : Nat) (tile : Tile)
    (hrow : tile.row = (r : Int)) (hcol : tile.col = (c : Int)) (hval : tile.value ≠ 0) :
    TilesOk (gridSet grid r c (some tile)) := by
  intro r2 c2 t ht
  rcases gridAt_gridSet_cases grid r c r2 c2 (some tile) with h1 | ⟨h2, h3, h1⟩
  · rw [h1] at ht
    exact h r2 c2 t ht
  · rw [h1] at ht
    cases ht
    subst h2 h3
    exact ⟨hrow, hcol, hval⟩

theorem tilesOk_prepareTiles {g : Game2048} (h : TilesOk g.grid) :
    TilesOk g.prepareTiles.grid := by
  intro r c t ht
  have := gridAt_map g.grid (fun tile => { tile with merged := false }) r c
  rw [show g.prepareTiles.grid = g.grid.map fun cells => cells.map fun t =>
    t.map fun tile => { tile with merged := false } from rfl] at ht
  rw [this] at ht
  cases hx : gridAt g.grid r c with
  | none => rw [hx] at ht; cases ht
  | some t0 =>
    rw [hx] at ht
    cases ht
    exact h r c t0 hx

theorem withinBounds_nonneg {g : Game2048} {cell : Cell} (h : g.withinBounds cell = true) :
    0 ≤ cell.row ∧ 0 ≤ cell.col := by
  unfold Game2048.withinBounds at h
  simp only [Bool.and_eq_true, decide_eq_true_eq] at h
  exact ⟨h.1.1.1, h.1.2⟩

theorem findFarthestLoop_nonneg (g : Game2048) (vector : Cell) (fuel : Nat) (cell : Cell)
    (hcell : 0 ≤ cell.row ∧ 0 ≤ cell.col) (p : Cell × Cell)
    (h : g.findFarthestLoop vector fuel cell = some p) : 0 ≤ p.1.row ∧ 0 ≤ p.1.col := by
  induction fuel generalizing cell with
  | zero => simp [Game2048.findFarthestLoop] at h
  | succ fuel ih =>
    rw [findFarthestLoop_succ] at h
    split_ifs at h with hb
    · apply ih _ _ h
      simp only [Bool.and_eq_true] at hb
      exact withinBounds_nonneg hb.1
    · cases h
      exact hcell

theorem findFarthest_nonneg (g : Game2048) (vector : Cell) (row col : Nat)
    (farthest : Cell) (nextCell : Option Cell)
    (h : g.findFarthest ⟨(row : Int), (col : Int)⟩ vector = some (farthest, nextCell)) :
    (0 ≤ farthest.row ∧ 0 ≤ farthest.col) ∧
      ∀ nc, nextCell = some nc → 0 ≤ nc.row ∧ 0 ≤ nc.col := by
  unfold Game2048.findFarthest at h
  cases hl : g.findFarthestLoop vector g.size ⟨(row : Int), (col : Int)⟩ with
  | none => rw [hl] at h; cases h
  | some p =>
    rw [hl] at h
    simp only [Option.map_some', Option.some.injEq, Prod.mk.injEq] at h
    obtain ⟨h1, h2⟩ := h
    refine ⟨?_, ?_⟩
    · rw [← h1]
      exact findFarthestLoop_nonneg g vector g.size _ ⟨by simp, by simp⟩ p hl
    · intro nc hnc
      rw [hnc] at h2
      split_ifs at h2 with hb
      cases h2
      exact withinBounds_nonneg hb

theorem foldlM_option_preserve {α β : Type} (xs : List β) (F : α → β → Option α)
    (P : α → Prop) (hstep : ∀ a x a2, P a → F a x = some a2 → P a2) (a0 a2 : α) (h0 : P a0)
    (h : xs.foldlM F a0 = some a2) : P a2 := by
  induction xs generalizing a0 with
  | nil =>
    simp only [List.foldlM_nil] at h
    cases h
    exact h0
  | cons x xs ih =>
    rw [List.foldlM_cons] at h
    cases hx : F a0 x with
    | none => rw [hx] at h; cases h
    | some a1 =>
      rw [hx] at h
      exact ih a1 (hstep a0 x a1 h0 hx) h

theorem moveCellSlide_tilesOk (acc : Game2048.MoveAcc) (tile : Tile) (farthest : Cell)
    (row col : Nat) (hok : TilesOk acc.game.grid) (hval : tile.value ≠ 0)
    (hf : 0 ≤ farthest.row ∧ 0 ≤ farthest.col) :
    TilesOk (Game2048.moveCellSlide acc tile farthest row col).game.grid := by
  unfold Game2048.moveCellSlide
  split_ifs
  · apply tilesOk_gridSet_some (tilesOk_gridSet_none hok row col)
    · simp [Int.toNat_of_nonneg hf.1]
    · simp [Int.toNat_of_nonneg hf.2]
    · exact hval
  · exact hok

theorem moveCellMerge_tilesOk (acc : Game2048.MoveAcc) (tile : Tile) (nc : Cell)
    (row col : Nat) (hok : TilesOk acc.game.grid) (hval : tile.value ≠ 0)
    (hn : 0 ≤ nc.row ∧ 0 ≤ nc.col) :
    TilesOk (Game2048.moveCellMerge acc tile nc row col).game.grid := by
  unfold Game2048.moveCellMerge
  apply tilesOk_gridSet_some (tilesOk_gridSet_none hok row col)
  · simp [Int.toNat_of_nonneg hn.1]
  · simp [Int.toNat_of_nonneg hn.2]
  · simpa using hval

theorem moveCell_tilesOk (vector : Cell) (acc acc2 : Game2048.MoveAcc) (row col : Nat)
    (hok : TilesOk acc.game.grid) (h : Game2048.moveCell vector acc row col = some acc2) :
    TilesOk acc2.game.grid := by
  unfold Game2048.moveCell at h
  cases ht : gridAt acc.game.grid row col with
  | none =>
    rw [ht] at h
    cases h
    exact hok
  | some tile =>
    rw [ht] at h
    have hval := (hok row col tile ht).2.2
    cases hff : acc.game.findFarthest ⟨(row : Int), (col : Int)⟩ vector with
    | none => rw [hff] at h; cases h
    | some p =>
      obtain ⟨farthest, nextCell⟩ := p
      rw [hff] at h
      obtain ⟨hf, hn⟩ := findFarthest_nonneg acc.game vector row col farthest nextCell hff
      simp only at h
      split at h
      · rename_i _ _ nc next _
        split_ifs at h
        · cases h
          exact moveCellMerge_tilesOk acc tile nc row col hok hval (hn nc rfl)
        · cases h
          exact moveCellSlide_tilesOk acc tile farthest row col hok hval hf
      · cases h
        exact moveCellSlide_tilesOk acc tile farthest row col hok hval hf

theorem slide_tilesOk (g : Game2048) (vector : Cell) (acc : Game2048.MoveAcc)
    (hok : TilesOk g.grid) (h : g.slide vector = some acc) : TilesOk acc.game.grid := by
  unfold Game2048.slide at h
  refine foldlM_option_preserve _ _ (fun a => TilesOk a.game.grid) ?_ _ _
    (tilesOk_prepareTiles hok) h
  intro a row a2 ha h2
  refine foldlM_option_preserve _ _ (fun a => TilesOk a.game.grid) ?_ _ _ ha h2
  intro b col b2 hb h3
  exact moveCell_tilesOk vector b b2 row col hb h3

theorem addRandomTile_inv (g : Game2048) (h : g.Inv) : g.addRandomTile.2.Inv := by
  obtain ⟨hwf, hok, hc⟩ := h
  by_cases hav : g.availableCells = []
  · have : g.addRandomTile = (false, g) := by
      unfold Game2048.addRandomTile
      simp [hav]
    rw [this]
    exact ⟨hwf, hok, hc⟩
  · obtain ⟨cell, hcell, heq⟩ := Game2048.addRandomTile_spec g hav
    obtain ⟨r, c, _, _, hrc, _⟩ := Game2048.mem_availableCells (List.getElem?_mem hcell)
    rw [heq]
    have hgrid : g.consumeNextValue.2.random.1.grid = g.grid := (Game2048.consume_grid g).1
    have hsize : g.consumeNextValue.2.random.1.size = g.size := (Game2048.consume_grid g).2
    have hv := consume_value_ok g hc
    refine ⟨?_, ?_, ?_⟩
    · show GridWF g.consumeNextValue.2.random.1.size (gridSet g.consumeNextValue.2.random.1.grid _ _ _)
      rw [hsize, hgrid]
      exact gridSet_wf hwf _ _ _
    · show TilesOk (gridSet g.consumeNextValue.2.random.1.grid _ _ _)
      rw [hgrid, hrc]
      apply tilesOk_gridSet_some hok
      · simp
      · simp
      · show g.consumeNextValue.1 ≠ 0
        rcases hv with h | h <;> omega
    · left
      exact Game2048.consume_cached g

theorem move_inv (g : Game2048) (direction : String) (res : MoveResult × Game2048)
    (h : g.Inv) (hres : g.move direction = some res) : res.2.Inv := by
  rcases getVector_cases direction with hv | hv | ⟨d, hv⟩
  · unfold Game2048.move at hres
    rw [hv] at hres
    cases hres
    exact h
  · unfold Game2048.move at hres
    rw [hv] at hres
    simp only at hres
    split at hres
    · cases hres
      exact h
    · cases hres
      exact ⟨GridWF_map h.1 _, tilesOk_prepareTiles h.2.1, h.2.2⟩
  · by_cases hover : g.over = true
    · unfold Game2048.move at hres
      rw [hv] at hres
      simp only [hover, if_true] at hres
      cases hres
      exact h
    · have hover2 : g.over = false := by simpa using hover
      obtain ⟨hwf, hok, hc⟩ := h
      obtain ⟨acc, hslide, hwf2, hsz, _, _, _, hcv, _⟩ := slide_frame g d hwf
      rw [Game2048.move_eq hv hover2 hslide] at hres
      cases hres
      have hacc : acc.game.Inv := by
        refine ⟨by rw [hsz]; exact hwf2, slide_tilesOk g _ acc hok hslide, ?_⟩
        unfold Game2048.CachedOk
        rw [hcv]
        exact hc
      show (Game2048.finishMove acc).Inv
      unfold Game2048.finishMove
      by_cases hm : acc.moved = true
      · rw [if_pos hm]
        have hsp := addRandomTile_inv _ hacc
        simp only
        split_ifs
        · exact hsp
        · exact hsp
      · rw [if_neg hm]
        exact hacc

theorem new_inv (size : Nat) (seed : Option Seed) (drawn : List Nat) :
    (Game2048.new size seed drawn).Inv := by
  unfold Game2048.new Game2048.reset
  apply addRandomTile_inv
  apply addRandomTile_inv
  refine ⟨gridWF_replicate _, ?_, Or.inl rfl⟩
  intro r c t ht
  simp only [Game2048.empty] at ht
  rw [gridAt_replicate] at ht
  cases ht

theorem peek_inv (g : Game2048) (h : g.Inv) : g.peekNextValue.2.Inv := by
  obtain ⟨hwf, hok, hc⟩ := h
  refine ⟨?_, ?_, ?_⟩
  · rw [(Game2048.peek_grid g).1, (Game2048.peek_grid g).2]
    exact hwf
  · rw [(Game2048.peek_grid g).1]
    exact hok
  · unfold Game2048.CachedOk
    rw [Game2048.peekNextValue_cached]
    unfold Game2048.peekNextValue
    rcases hc with h | h | h
    · rw [h]
      simp only
      split_ifs
      · exact Or.inr (Or.inl rfl)
      · exact Or.inr (Or.inr rfl)
    · rw [h]
      exact Or.inr (Or.inl rfl)
    · rw [h]
      exact Or.inr (Or.inr rfl)

theorem reachable_inv (g : Game2048) (h : g.Reachable) : g.Inv := by
  induction h with
  | construct size seed drawn => exact new_inv size seed drawn
  | move g direction res _ hres ih => exact move_inv g direction res ih hres
  | peek g _ ih => exact peek_inv g ih
  | count g _ ih => exact ih

/-! ### Moves after a snapshot round trip -/

theorem prepareTiles_idem (g : Game2048) : g.prepareTiles.prepareTiles = g.prepareTiles := by
  unfold Game2048.prepareTiles
  simp only [List.map_map]
  congr 1
  apply List.map_congr_left
  intro cells _
  simp only [Function.comp, List.map_map]
  apply List.map_congr_left
  intro t _
  cases t <;> rfl

theorem slide_congr {g1 g2 : Game2048} (h : g1.prepareTiles = g2.prepareTiles) (v : Cell) :
    g1.slide v = g2.slide v := by
  unfold Game2048.slide
  simp only
  rw [h]

theorem move_congr {g1 g2 : Game2048} (h : g1.prepareTiles = g2.prepareTiles)
    (direction : String) :
    (g1.move direction).map (fun x => (x.1, x.2.prepareTiles)) =
      (g2.move direction).map (fun x => (x.1, x.2.prepareTiles)) := by
  have hover : g1.prepareTiles.over = g2.prepareTiles.over := congrArg Game2048.over h
  replace hover : g1.over = g2.over := hover
  unfold Game2048.move
  cases hv : Game2048.getVector direction with
  | absent => simp [h]
  | inherited =>
    simp only
    rw [hover]
    split_ifs
    · simp [h]
    · have hs : g1.prepareTiles.score = g2.prepareTiles.score := congrArg Game2048.score h
      have hw : g1.prepareTiles.won = g2.prepareTiles.won := congrArg Game2048.won h
      replace hs : g1.score = g2.score := hs
      replace hw : g1.won = g2.won := hw
      simp only [Option.map_some', hs, hw, hover, prepareTiles_idem, h]
  | own v =>
    simp only
    rw [slide_congr h v, hover]
    split_ifs
    · simp [h]
    · rfl

theorem playMoves_congr (directions : List String) (g1 g2 : Game2048)
    (h : g1.prepareTiles = g2.prepareTiles) :
    (g1.playMoves directions).map (Option.map fun x => (x.1, x.2.prepareTiles)) =
      (g2.playMoves directions).map (Option.map fun x => (x.1, x.2.prepareTiles)) := by
  induction directions generalizing g1 g2 with
  | nil => rfl
  | cons d rest ih =>
    have hm := move_congr h d
    unfold Game2048.playMoves
    cases h1 : g1.move d with
    | none =>
      rw [h1] at hm
      cases h2 : g2.move d with
      | none => rfl
      | some res2 => rw [h2] at hm; cases hm
    | some res1 =>
      rw [h1] at hm
      cases h2 : g2.move d with
      | none => rw [h2] at hm; cases hm
      | some res2 =>
        rw [h2] at hm
        simp only [Option.map_some', Option.some.injEq, Prod.mk.injEq] at hm
        simp only [List.map_cons, Option.map_some', hm.1, hm.2, ih res1.2 res2.2 hm.2]

theorem observe_eq (x : Option (MoveResult × Game2048)) :
    Game2048.observe x =
      (x.map fun y => (y.1, y.2.prepareTiles)).map fun y => (y.1, gridValues y.2.grid) := by
  cases x with
  | none => rfl
  | some res =>
    simp only [Game2048.observe, Option.map_some', gridValues_prepareTiles]

theorem playMoves_observe (directions : List String) (g1 g2 : Game2048)
    (h : g1.prepareTiles = g2.prepareTiles) :
    (g1.playMoves directions).map Game2048.observe =
      (g2.playMoves directions).map Game2048.observe := by
  have := congrArg (List.map (Option.map fun (y : MoveResult × Game2048) =>
    (y.1, gridValues y.2.grid))) (playMoves_congr directions g1 g2 h)
  simp only [List.map_map] at this
  have hfun : Game2048.observe =
      (Option.map fun (y : MoveResult × Game2048) => (y.1, gridValues y.2.grid)) ∘
        (Option.map fun x => (x.1, x.2.prepareTiles)) := by
    funext x
    exact observe_eq x
  rw [hfun]
  exact this

theorem playMoves_total (directions : List String) (g : Game2048) (h : g.Inv) :
    ∀ x ∈ g.playMoves directions, x ≠ none := by
  induction directions generalizing g with
  | nil => intro x hx; cases hx
  | cons d rest ih =>
    obtain ⟨res, hres, _⟩ := Game2048.move_noop g d h.1
    unfold Game2048.playMoves
    rw [hres]
    intro x hx
    rcases List.mem_cons.mp hx with h1 | h1
    · rw [h1]; simp
    · exact ih res.2 (move_inv g d res h hres) x h1

/-- C11: for every game `S` reachable from the constructor, `loadSnapshot(S.snapshot())`
returns without throwing and leaves a game with the size, seed, generator state,
`cachedValue`, score, `over`, `won`, `counted` and grid values of `S`; every sequence of
moves then returns the same results and reaches the same grid values on both games, and
every one of these moves returns. -/
theorem snapshot_roundtrip (S : Game2048) (h : S.Reachable) :
    ∃ loaded G, Game2048.loadSnapshot S.snapshot = some loaded ∧ loaded.toGame = some G ∧
      G.size = S.size ∧ G.seed = S.seed ∧ G.rng = S.rng ∧ G.cachedValue = S.cachedValue ∧
      G.score = S.score ∧ G.over = S.over ∧ G.won = S.won ∧ G.counted = S.counted ∧
      gridValues G.grid = gridValues S.grid ∧
      ∀ directions : List String,
        (G.playMoves directions).map Game2048.observe =
          (S.playMoves directions).map Game2048.observe ∧
        (∀ x ∈ G.playMoves directions, x ≠ none) ∧
        ∀ x ∈ S.playMoves directions, x ≠ none := by
  have hinv := reachable_inv S h
  have hload := loadSnapshot_snapshot S hinv.1 hinv.2.1
  have hprep : S.prepareTiles.prepareTiles = S.prepareTiles := prepareTiles_idem S
  have hinv2 : S.prepareTiles.Inv :=
    ⟨GridWF_map hinv.1 _, tilesOk_prepareTiles hinv.2.1, hinv.2.2⟩
  refine ⟨_, S.prepareTiles, hload, rfl, rfl, rfl, rfl, rfl, rfl, rfl, rfl, rfl,
    gridValues_prepareTiles S, ?_⟩
  intro directions
  exact ⟨playMoves_observe directions _ _ hprep, playMoves_total directions _ hinv2,
    playMoves_total directions _ hinv⟩

theorem snapshot_roundtrip_witness :
    (Game2048.new 2 (some (Seed.num 7)) []).Reachable ∧
    ∃ loaded G,
      Game2048.loadSnapshot (Game2048.new 2 (some (Seed.num 7)) []).snapshot = some loaded ∧
      loaded.toGame = some G ∧
      gridValues G.grid = gridValues (Game2048.new 2 (some (Seed.num 7)) []).grid ∧
      (G.playMoves ["left", "up"]).map Game2048.observe =
        ((Game2048.new 2 (some (Seed.num 7)) []).playMoves ["left", "up"]).map
          Game2048.observe :=
  ⟨Game2048.Reachable.construct 2 (some (Seed.num 7)) [],
    (snapshot_roundtrip (Game2048.new 2 (some (Seed.num 7)) [])
      (Game2048.Reachable.construct 2 (some (Seed.num 7)) [])).elim fun loaded hl =>
        hl.elim fun G hG =>
          ⟨loaded, G, hG.1, hG.2.1, hG.2.2.2.2.2.2.2.2.2.2.1,
            (hG.2.2.2.2.2.2.2.2.2.2.2 ["left", "up"]).1⟩⟩

/-- C12 (failing input): `loadSnapshot` throws on a snapshot of size 2 that has no grid and
on one whose grid has a single row; on a snapshot whose rows are short and that has no
`score`, `over` and `won` it loads the missing cells as empty and leaves the three fields
undefined (not 0 and `false`). -/
theorem loadSnapshot_malformed :
    Game2048.loadSnapshot
      { size := 2, seed := Seed.str [97], rngSeed := some 1, cachedValue := none,
        score := some 0, grid := none, over := some false, won := some false,
        counted := some false } = none ∧
    Game2048.loadSnapshot
      { size := 2, seed := Seed.str [97], rngSeed := some 1, cachedValue := none,
        score := some 0, grid := some [[2, 0]], over := some false, won := some false,
        counted := some false } = none ∧
    (Game2048.loadSnapshot
      { size := 2, seed := Seed.str [97], rngSeed := some 1, cachedValue := none,
        score := none, grid := some [[2], []], over := none, won := none,
        counted := none }).map (fun l => (gridValues l.grid, l.score, l.over, l.won, l.counted))
      = some ([[some 2, none], [none, none]], none, none, none, false) := by
  decide

/-! ### The cells of the hexagonal board -/

theorem mem_intRange (lo hi x : Int) : x ∈ intRange lo hi ↔ lo ≤ x ∧ x ≤ hi := by
  unfold intRange
  simp only [List.mem_map, List.mem_range]
  constructor
  · rintro ⟨k, hk, rfl⟩
    omega
  · intro h
    exact ⟨(x - lo).toNat, by omega, by omega⟩

theorem length_intRange (lo hi : Int) : (intRange lo hi).length = (hi + 1 - lo).toNat := by
  simp [intRange]

theorem mem_buildCoords (size : Int) (cell : Hex) :
    cell ∈ buildCoords size ↔
      (-size ≤ cell.q ∧ cell.q ≤ size) ∧ (-size ≤ cell.r ∧ cell.r ≤ size) ∧
        (-size ≤ cell.q + cell.r ∧ cell.q + cell.r ≤ size) := by
  unfold buildCoords
  simp only [List.mem_flatMap, List.mem_map, mem_intRange]
  constructor
  · rintro ⟨r, hr, q, hq, rfl⟩
    simp only
    omega
  · intro h
    exact ⟨cell.r, by omega, cell.q, by omega, rfl⟩

theorem sum_map_range_succ (f : Nat → Nat) (n : Nat) :
    ((List.range (n + 1)).map f).sum = ((List.range n).map f).sum + f n := by
  rw [List.range_succ, List.map_append, List.sum_append]
  simp

theorem sum_rising (R m : Nat) :
    2 * ((List.range m).map fun k => R + k + 1).sum = 2 * m * (R + 1) + m * (m - 1) := by
  induction m with
  | zero => simp
  | succ m ih =>
    rw [sum_map_range_succ, Nat.mul_add, ih]
    cases m with
    | zero => simp
    | succ j =>
      simp only [Nat.add_sub_cancel]
      ring

theorem sum_falling (R m : Nat) (hm : m ≤ R) :
    2 * ((List.range m).map fun k => 2 * R - k).sum + m * (m - 1) = 4 * R * m := by
  induction m with
  | zero => simp
  | succ m ih =>
    rw [sum_map_range_succ, Nat.mul_add]
    have := ih (by omega)
    cases m with
    | zero => simp; omega
    | succ j =>
      simp only [Nat.add_sub_cancel] at this ⊢
      have h2 : 2 * (2 * R - (j + 1)) + 2 * (j + 1) = 4 * R := by omega
      nlinarith

theorem length_buildCoords_row (R k : Nat) (hk : k < 2 * R + 1) :
    (intRange (max (-(R : Int)) (-(-(R : Int) + (k : Int)) - (R : Int)))
      (min (R : Int) (-(-(R : Int) + (k : Int)) + (R : Int)))).length =
      if k ≤ R then R + k + 1 else 3 * R + 1 - k := by
  rw [length_intRange]
  split_ifs with h <;> omega

theorem length_buildCoords (R : Nat) :
    (buildCoords (R : Int)).length = 3 * R ^ 2 + 3 * R + 1 := by
  have hrows : (buildCoords (R : Int)).length =
      ((List.range (2 * R + 1)).map fun k => if k ≤ R then R + k + 1 else 3 * R + 1 - k).sum := by
    unfold buildCoords
    simp only [List.flatMap, List.length_flatten, List.map_map]
    have hr : intRange (-(R : Int)) (R : Int) =
        (List.range (2 * R + 1)).map fun (k : Nat) => -(R : Int) + (k : Int) := by
      unfold intRange
      congr 2
      omega
    rw [hr, List.map_map]
    congr 1
    apply List.map_congr_left
    intro k hk
    simp only [Function.comp, List.length_map]
    exact length_buildCoords_row R k (List.mem_range.mp hk)
  have hsplit : List.range (2 * R + 1) = List.range (R + 1) ++ (List.range R).map (R + 1 + ·) := by
    rw [← List.range_add]
    congr 1
    omega
  have h1 : ((List.range (R + 1)).map fun k => if k ≤ R then R + k + 1 else 3 * R + 1 - k) =
      (List.range (R + 1)).map fun k => R + k + 1 := by
    apply List.map_congr_left
    intro k hk
    have := List.mem_range.mp hk
    rw [if_pos (by omega)]
  have h2 : (((List.range R).map (R + 1 + ·)).map fun k =>
      if k ≤ R then R + k + 1 else 3 * R + 1 - k) = (List.range R).map fun k => 2 * R - k := by
    rw [List.map_map]
    apply List.map_congr_left
    intro k hk
    have := List.mem_range.mp hk
    simp only [Function.comp]
    rw [if_neg (by omega)]
    omega
  rw [hrows, hsplit, List.map_append, List.sum_append, h1, h2]
  have s1 := sum_rising R (R + 1)
  have s2 := sum_falling R R (le_refl R)
  simp only [Nat.add_sub_cancel] at s1
  have s3 : R * (R - 1) + R = R * R := by
    cases R with
    | zero => rfl
    | succ j => simp only [Nat.add_sub_cancel]; ring
  nlinarith

/-- C13: for every radius `R ≥ 0`, `buildCoords(R)` holds exactly the axial cells `(q, r)`
with `|q| ≤ R`, `|r| ≤ R` and `|q + r| ≤ R`, each once, so it has `3R² + 3R + 1` entries
(19 for `R = 2`). -/
theorem buildCoords_cells (R : Nat) :
    (∀ cell : Hex, cell ∈ buildCoords (R : Int) ↔
      |cell.q| ≤ (R : Int) ∧ |cell.r| ≤ (R : Int) ∧ |cell.q + cell.r| ≤ (R : Int)) ∧
    (buildCoords (R : Int)).Nodup ∧
    (∀ cell ∈ buildCoords (R : Int), (buildCoords (R : Int)).count cell = 1) ∧
    (buildCoords (R : Int)).length = 3 * R ^ 2 + 3 * R + 1 ∧
    (buildCoords 2).length = 19 := by
  refine ⟨?_, buildCoords_nodup _, ?_, length_buildCoords R, by decide⟩
  · intro cell
    rw [mem_buildCoords, abs_le, abs_le, abs_le]
  · intro cell hcell
    exact List.count_eq_one_of_mem (buildCoords_nodup _) hcell

/-! ### The lines of the hexagonal board -/

theorem groupPush_nonempty (gs : List (Int × List Hex)) (v : Int) (c : Hex)
    (h : ∀ e ∈ gs, e.2 ≠ []) : ∀ e ∈ groupPush gs v c, e.2 ≠ [] := by
  induction gs with
  | nil =>
    intro e he
    simp only [groupPush, List.mem_singleton] at he
    rw [he]
    simp
  | cons g rest ih =>
    obtain ⟨k, members⟩ := g
    intro e he
    unfold groupPush at he
    split_ifs at he
    · rcases List.mem_cons.mp he with h1 | h1
      · rw [h1]
        simp
      · exact h e (List.mem_cons_of_mem _ h1)
    · rcases List.mem_cons.mp he with h1 | h1
      · rw [h1]
        exact h (k, members) (List.mem_cons_self _ _)
      · exact ih (fun e2 he2 => h e2 (List.mem_cons_of_mem _ he2)) e h1

theorem groups_nonempty (ax : Hex → Int) (cells : List Hex) (gs : List (Int × List Hex))
    (h : ∀ e ∈ gs, e.2 ≠ []) :
    ∀ e ∈ cells.foldl (fun groups cell => groupPush groups (ax cell) cell) gs, e.2 ≠ [] := by
  induction cells generalizing gs with
  | nil => exact h
  | cons c rest ih =>
    rw [List.foldl_cons]
    exact ih _ (groupPush_nonempty gs (ax c) c h)

theorem buildLineList_nonempty (cells : List Hex) (ld : LineDef) :
    ∀ keys ∈ buildLineList cells ld, keys ≠ [] := by
  intro keys hkeys
  unfold buildLineList at hkeys
  rw [List.mem_map] at hkeys
  obtain ⟨e, he, rfl⟩ := hkeys
  have := groups_nonempty (axisValue ld.axis) cells [] (fun _ h => by cases h) e he
  intro hnil
  apply this
  have hlen := congrArg List.length hnil
  simp only [List.length_map, List.length_insertionSort, List.length_nil] at hlen
  exact List.length_eq_zero.mp hlen

/-- C14: for every radius `R ≥ 0` and each of the six directions, the lines that
`buildLines(buildCoords(R))` holds for the direction are non-empty and pairwise disjoint,
hold no key twice and only keys of cells of `buildCoords(R)`, every cell of
`buildCoords(R)` lies on exactly one of them, and their lengths sum to `3R² + 3R + 1`. -/
theorem buildLines_partition (R : Nat) (d : HexDirection) :
    ∃ lines, (rebuildGeometry (R : Int)).lines d.name = Lookup.own lines ∧
      (buildLines (buildCoords (R : Int))).lookup d.name = some lines ∧
      (∀ keys ∈ lines, keys ≠ []) ∧
      lines.Pairwise List.Disjoint ∧
      (∀ keys ∈ lines, keys.Nodup) ∧
      (∀ keys ∈ lines, ∀ key ∈ keys, ∃ cell ∈ buildCoords (R : Int), keyOf cell = key) ∧
      (∀ cell ∈ buildCoords (R : Int), ∃! keys, keys ∈ lines ∧ keyOf cell ∈ keys) ∧
      (lines.map List.length).sum = 3 * R ^ 2 + 3 * R + 1 := by
  have hperm := lines_flatten_perm (R : Int) d
  have hnd : (buildLineList (buildCoords (R : Int)) d.lineDef).flatten.Nodup :=
    hperm.nodup_iff.mpr (coordKeys_nodup _)
  rw [List.nodup_flatten] at hnd
  refine ⟨_, lines_name (R : Int) d, ?_, buildLineList_nonempty _ _, hnd.2, hnd.1, ?_, ?_, ?_⟩
  · cases d <;> rfl
  · intro keys hkeys key hkey
    have : key ∈ (rebuildGeometry (R : Int)).coordKeys :=
      hperm.subset (List.mem_flatten.mpr ⟨keys, hkeys, hkey⟩)
    obtain ⟨cell, hcell, rfl⟩ := List.mem_map.mp this
    exact ⟨cell, hcell, rfl⟩
  · intro cell hcell
    have hmem : keyOf cell ∈ (buildLineList (buildCoords (R : Int)) d.lineDef).flatten :=
      hperm.symm.subset (List.mem_map_of_mem _ hcell)
    obtain ⟨keys, hkeys, hk⟩ := List.mem_flatten.mp hmem
    refine ⟨keys, ⟨hkeys, hk⟩, ?_⟩
    rintro keys2 ⟨hkeys2, hk2⟩
    by_contra hne
    have hdis := hnd.2.forall (fun _ _ h => h.symm) hkeys2 hkeys hne
    exact List.disjoint_left.mp hdis hk2 hk
  · rw [← List.length_flatten, hperm.length_eq]
    show ((buildCoords (R : Int)).map keyOf).length = _
    rw [List.length_map, length_buildCoords]

/-! ### The state of the generator -/

set_option maxRecDepth 100000 in
/-- C15 (failing input): `next` adds `0x6d2b79f5` to the stored state and never reduces it.
From the state 4294967295 one call stores 6126533108; from every state `s ≥ 0` three calls
store a state of at least `2^32`; the game `new Game2048(4, "a")` hands `snapshot()` the
state 11152265472 right after its construction. -/
theorem next_seed_leaves_32_bits :
    (SeededRandom.next ⟨4294967295⟩).1.seed = 6126533108 ∧
    (∀ s : Int, 0 ≤ s →
      4294967296 ≤ (SeededRandom.next (SeededRandom.next (SeededRandom.next ⟨s⟩).1).1).1.seed) ∧
    (SeededRandom.new (Seed.str [97])).seed = 3826002220 ∧
    (Game2048.new 4 (some (Seed.str [97])) []).snapshot.rngSeed = some 11152265472 := by
  refine ⟨by decide, ?_, by decide, by decide⟩
  intro s hs
  have h1 := roundDouble_ge (s + 0x6d2b79f5) (by omega)
  have e1 : (SeededRandom.next ⟨s⟩).1.seed = roundDouble (s + 0x6d2b79f5) := rfl
  have h2 := roundDouble_ge ((SeededRandom.next ⟨s⟩).1.seed + 0x6d2b79f5) (by omega)
  have e2 : (SeededRandom.next (SeededRandom.next ⟨s⟩).1).1.seed =
      roundDouble ((SeededRandom.next ⟨s⟩).1.seed + 0x6d2b79f5) := rfl
  have h3 := roundDouble_ge ((SeededRandom.next (SeededRandom.next ⟨s⟩).1).1.seed + 0x6d2b79f5)
    (by omega)
  have e3 : (SeededRandom.next (SeededRandom.next (SeededRandom.next ⟨s⟩).1).1).1.seed =
      roundDouble ((SeededRandom.next (SeededRandom.next ⟨s⟩).1).1.seed + 0x6d2b79f5) := rfl
  omega

/-! ### The history of the square game -/

theorem pushHistory_lastN (H : List Snapshot) (x : Snapshot) :
    pushHistory (lastN 5 H) x = lastN 5 (H ++ [x]) := by
  unfold pushHistory lastN
  by_cases h : 5 ≤ H.length
  · have hlen : 5 < (List.drop (H.length - 5) H ++ [x]).length := by
      simp only [List.length_append, List.length_drop, List.length_singleton]
      omega
    rw [if_pos hlen]
    have hne : List.drop (H.length - 5) H ≠ [] := by
      intro hnil
      have := congrArg List.length hnil
      simp only [List.length_drop, List.length_nil] at this
      omega
    rw [List.tail_append_of_ne_nil hne, List.tail_drop]
    simp only [List.length_append, List.length_singleton]
    rw [List.drop_append_of_le_length (by omega)]
    congr 2
    omega
  · have hlen : ¬ 5 < (List.drop (H.length - 5) H ++ [x]).length := by
      simp only [List.length_append, List.length_drop, List.length_singleton]
      omega
    rw [if_neg hlen]
    have h0 : H.length - 5 = 0 := by omega
    have h1 : (H ++ [x]).length - 5 = 0 := by
      simp only [List.length_append, List.length_singleton]
      omega
    rw [h0, h1]
    rfl

theorem length_lastN {α : Type} (n : Nat) (xs : List α) : (lastN n xs).length ≤ n := by
  unfold lastN
  rw [List.length_drop]
  omega

theorem countOver_frame (app : App) (result : MoveResult) :
    (app.countOver result).historyStack = app.historyStack ∧
    (app.countOver result).game.Inv = app.game.Inv := by
  unfold App.countOver
  split_ifs
  · exact ⟨rfl, rfl⟩
  · exact ⟨rfl, rfl⟩

theorem countWon_frame (app : App) (result : MoveResult) (maxTile : Nat) :
    (app.countWon result maxTile).historyStack = app.historyStack ∧
    (app.countWon result maxTile).game.Inv = app.game.Inv := by
  unfold App.countWon
  split_ifs
  · exact ⟨rfl, rfl⟩
  · exact ⟨rfl, rfl⟩

theorem updateNextTile_frame (app : App) (h : app.game.Inv) :
    app.updateNextTile.historyStack = app.historyStack ∧ app.updateNextTile.game.Inv := by
  unfold App.updateNextTile
  split_ifs
  · exact ⟨rfl, peek_inv _ h⟩
  · exact ⟨rfl, h⟩

/-- One call of `handleMove` on a well-formed game: it returns, a move with
`moved = false` leaves the history and the statistics as they were, a move with
`moved = true` pushes the snapshot taken before the move. -/
theorem handleMove_step (app : App) (dir : String) (hinv : app.game.Inv) :
    ∃ res app2, app.game.move dir = some res ∧ app.handleMove dir = some app2 ∧
      app2.game.Inv ∧
      (res.1.moved = false →
        app2.historyStack = app.historyStack ∧ app2.stats = app.stats) ∧
      (res.1.moved = true →
        app2.historyStack = pushHistory app.historyStack app.game.snapshot) := by
  obtain ⟨res, hres, _⟩ := Game2048.move_noop app.game dir hinv.1
  have hinv2 := move_inv app.game dir res hinv hres
  unfold App.handleMove
  rw [hres]
  simp only [Option.map_some']
  by_cases hm : res.1.moved = false
  · rw [if_pos hm]
    exact ⟨res, _, rfl, rfl, hinv2, fun _ => ⟨rfl, rfl⟩, fun h => by rw [hm] at h; cases h⟩
  · rw [if_neg hm]
    refine ⟨res, _, rfl, rfl, ?_, fun h => absurd h hm, fun _ => ?_⟩
    · rw [(countOver_frame _ _).2, (countWon_frame _ _ _).2]
      exact (updateNextTile_frame _ hinv2).2
    · rw [(countOver_frame _ _).1, (countWon_frame _ _ _).1]
      exact (updateNextTile_frame _ hinv2).1

theorem handleMoves_history (dirs : List String) (app : App) (H : List Snapshot)
    (hinv : app.game.Inv) (hH : app.historyStack = lastN 5 H) :
    ∃ app2, app.handleMoves dirs = some app2 ∧ app2.game.Inv ∧
      app2.historyStack = lastN 5 (H ++ app.movingSnapshots dirs) := by
  induction dirs generalizing app H with
  | nil => exact ⟨app, rfl, hinv, by simp [App.movingSnapshots, hH]⟩
  | cons dir rest ih =>
    obtain ⟨res, app2, hres, happ2, hinv2, hstill, hmoved⟩ := handleMove_step app dir hinv
    unfold App.handleMoves App.movingSnapshots
    rw [hres, happ2]
    simp only
    by_cases hm : res.1.moved = true
    · rw [if_pos hm]
      have h2 : app2.historyStack = lastN 5 (H ++ [app.game.snapshot]) := by
        rw [hmoved hm, hH, pushHistory_lastN]
      obtain ⟨app3, happ3, hinv3, hhist⟩ := ih app2 (H ++ [app.game.snapshot]) hinv2 h2
      exact ⟨app3, happ3, hinv3, by rw [hhist, List.append_assoc]⟩
    · rw [if_neg hm]
      have h2 : app2.historyStack = lastN 5 H := by
        rw [(hstill (by simpa using hm)).1, hH]
      obtain ⟨app3, happ3, hinv3, hhist⟩ := ih app2 H hinv2 h2
      exact ⟨app3, happ3, hinv3, by rw [hhist]; simp⟩

/-- C16: every sequence of calls of `handleMove` on a page of the square game whose history
is empty (and whose game is well formed, as every reachable game is) returns, and leaves a
history of at most 5 snapshots: the snapshots taken right before the calls whose move
returned `moved = true`, the last 5 of them at most, oldest first.  The next call, if its
move returns `moved = false`, leaves the history unchanged; if its move returns
`moved = true`, it appends the snapshot taken before the move and, when the length then
exceeds 5, removes the oldest entry. -/
theorem handleMove_history_bounded (app : App) (dirs : List String) (hinv : app.game.Inv)
    (hempty : app.historyStack = []) :
    ∃ app2, app.handleMoves dirs = some app2 ∧ app2.historyStack.length ≤ 5 ∧
      app2.historyStack = lastN 5 (app.movingSnapshots dirs) ∧
      ∀ dir, ∃ res app3, app2.game.move dir = some res ∧ app2.handleMove dir = some app3 ∧
        (res.1.moved = false → app3.historyStack = app2.historyStack) ∧
        (res.1.moved = true →
          app3.historyStack =
            if 5 < (app2.historyStack ++ [app2.game.snapshot]).length then
              (app2.historyStack ++ [app2.game.snapshot]).tail
            else app2.historyStack ++ [app2.game.snapshot]) := by
  obtain ⟨app2, happ2, hinv2, hhist⟩ := handleMoves_history dirs app [] hinv
    (by rw [hempty]; rfl)
  rw [List.nil_append] at hhist
  refine ⟨app2, happ2, ?_, hhist, ?_⟩
  · rw [hhist]
    exact length_lastN 5 _
  · intro dir
    obtain ⟨res, app3, hres, happ3, _, hstill, hmoved⟩ := handleMove_step app2 dir hinv2
    exact ⟨res, app3, hres, happ3, fun h => (hstill h).1, fun h => hmoved h⟩

theorem handleMove_history_bounded_witness :
    sampleApp.game.Inv ∧ sampleApp.historyStack = [] ∧
    ∃ app2,
      sampleApp.handleMoves ["left", "up", "right", "down", "left", "up", "right"] =
        some app2 ∧
      app2.historyStack.length ≤ 5 :=
  ⟨new_inv 2 (some (Seed.num 7)) [], rfl,
    (handleMove_history_bounded sampleApp
      ["left", "up", "right", "down", "left", "up", "right"]
      (new_inv 2 (some (Seed.num 7)) []) rfl).elim
      fun app2 h => ⟨app2, h.1, h.2.1⟩⟩

set_option maxRecDepth 100000 in
set_option maxHeartbeats 4000000 in
/-- C17 (failing input): on a page whose game holds two tiles 1024 side by side, the move
to the left wins and counts the game; `undoMove` then restores `counted = false` from the
snapshot taken before the move, and the same move counts the same game a second time. -/
theorem undo_counts_game_twice :
    winningApp.stats.gamesPlayed = 0 ∧
    (winningApp.handleMove "left").map (fun a => (a.stats.gamesPlayed, a.game.counted)) =
      some (1, true) ∧
    ((winningApp.handleMove "left").bind App.undoMove).map
      (fun a => (a.stats.gamesPlayed, a.game.counted)) = some (1, false) ∧
    (((winningApp.handleMove "left").bind App.undoMove).bind fun a =>
      a.handleMove "left").map (fun a => (a.stats.gamesPlayed, a.game.counted)) =
      some (2, true) := by
  decide

namespace Tetris

/-! ### The falling piece: `canPlace`, `rotatePiece`, `movePiece` -/

theorem canPlace_iff (grid : Board) (piece : Piece) (rowOffset colOffset : Int)
    (rotation : Nat) :
    canPlace grid piece rowOffset colOffset rotation = true ↔
      Fits grid (pieceCells { piece with row := piece.row + rowOffset,
                                         col := piece.col + colOffset } rotation) := by
  unfold canPlace Fits
  simp only [List.all_eq_true, Bool.and_eq_true, decide_eq_true_eq, rows, cols]
  constructor
  · intro h cell hcell
    have := h cell hcell
    exact ⟨this.1.1.1.1, by exact_mod_cast this.1.1.1.2, this.1.1.2,
      by exact_mod_cast this.1.2, this.2⟩
  · intro h cell hcell
    have := h cell hcell
    exact ⟨⟨⟨⟨this.1, by exact_mod_cast this.2.1⟩, this.2.2.1⟩,
      by exact_mod_cast this.2.2.2.1⟩, this.2.2.2.2⟩

theorem shapeCells_length {shapeIndex rotation : Nat} (hs : shapeIndex < 7)
    (hr : rotation < 4) : (shapeCells shapeIndex rotation).length = 4 := by
  interval_cases shapeIndex <;> interval_cases rotation <;> decide

theorem pieceCells_length (piece : Piece) {rotation : Nat} (hs : piece.shapeIndex < 7)
    (hr : rotation < 4) : (pieceCells piece rotation).length = 4 := by
  unfold pieceCells
  rw [List.length_map, shapeCells_length hs hr]

end Tetris

namespace Tetris

/-- C18: on a game that is neither paused nor over, `rotatePiece` targets the rotation
`(rotation + 1) mod 4` and tries the column offsets 0, -1, +1, -2, +2 in this order: at
the first offset at which every cell of the piece in the target rotation (four cells) is
inside the well and empty it sets the rotation to the target and adds the offset to the
column; when no offset fits, the piece is unchanged.  In every case the row, shape and
value of the piece, the grid, the score, the next piece and the other fields of the game
are unchanged. -/
theorem rotatePiece_kicks (s : Game) (p : Piece) (hcur : s.current = some p)
    (hpaused : s.paused = false) (hover : s.over = false) (hshape : p.shapeIndex < 7) :
    (∀ offset : Int,
      ([0, -1, 1, -2, 2] : List Int).find? (fun off =>
        decide (Fits s.grid
          (pieceCells { p with col := p.col + off } ((p.rotation + 1) % 4)))) = some offset →
      rotatePiece s =
        { s with current := some { p with rotation := (p.rotation + 1) % 4,
                                          col := p.col + offset } }) ∧
    (([0, -1, 1, -2, 2] : List Int).find? (fun off =>
        decide (Fits s.grid
          (pieceCells { p with col := p.col + off } ((p.rotation + 1) % 4)))) = none →
      rotatePiece s = s) ∧
    (∀ off : Int,
      (pieceCells { p with col := p.col + off } ((p.rotation + 1) % 4)).length = 4) ∧
    (rotatePiece s).grid = s.grid ∧ (rotatePiece s).score = s.score ∧
    (rotatePiece s).next = s.next ∧ (rotatePiece s).linesCleared = s.linesCleared ∧
    (rotatePiece s).stats = s.stats ∧ (rotatePiece s).paused = s.paused ∧
    (rotatePiece s).over = s.over ∧
    ∃ q, (rotatePiece s).current = some q ∧ q.row = p.row ∧
      q.shapeIndex = p.shapeIndex ∧ q.value = p.value := by
  have hfit : ∀ off : Int,
      decide (Fits s.grid (pieceCells { p with col := p.col + off } ((p.rotation + 1) % 4))) =
        canPlace s.grid p 0 off ((p.rotation + 1) % 4) := by
    intro off
    rw [Bool.eq_iff_iff, decide_eq_true_eq, canPlace_iff]
    simp only [add_zero]
  have hrot : rotatePiece s =
      match ([0, -1, 1, -2, 2] : List Int).find? (fun off =>
        canPlace s.grid p 0 off ((p.rotation + 1) % 4)) with
      | some offset =>
        { s with current := some { p with rotation := (p.rotation + 1) % 4,
                                          col := p.col + offset } }
      | none => s := by
    unfold rotatePiece
    rw [hcur]
    simp only [hover, hpaused, Bool.or_self, Bool.false_eq_true, if_false]
    by_cases h0 : canPlace s.grid p 0 0 ((p.rotation + 1) % 4) = true
    · rw [if_pos h0]
      simp only [List.find?_cons, h0, add_zero]
    · rw [if_neg h0]
      have h1 : canPlace s.grid p 0 0 ((p.rotation + 1) % 4) = false := by simpa using h0
      conv_rhs => rw [List.find?_cons, h1]
  simp only [hfit]
  refine ⟨?_, ?_, ?_, ?_⟩
  · intro offset hfind
    rw [hrot, hfind]
  · intro hfind
    rw [hrot, hfind]
  · intro off
    exact pieceCells_length _ hshape (Nat.mod_lt _ (by decide))
  · rw [hrot]
    cases ([0, -1, 1, -2, 2] : List Int).find? (fun off =>
        canPlace s.grid p 0 off ((p.rotation + 1) % 4)) with
    | none => exact ⟨rfl, rfl, rfl, rfl, rfl, rfl, rfl, p, hcur, rfl, rfl, rfl⟩
    | some offset => exact ⟨rfl, rfl, rfl, rfl, rfl, rfl, rfl, _, rfl, rfl, rfl, rfl⟩

theorem rotatePiece_kicks_witness :
    sampleGame.current = some ⟨3, 0, 0, 3, 2⟩ ∧ sampleGame.paused = false ∧
    sampleGame.over = false ∧ (3 : Nat) < 7 ∧
    (rotatePiece sampleGame).grid = sampleGame.grid ∧
    (rotatePiece sampleGame).score = sampleGame.score :=
  ⟨rfl, rfl, rfl, by decide,
    (rotatePiece_kicks sampleGame ⟨3, 0, 0, 3, 2⟩ rfl rfl rfl (by decide)).2.2.2.1,
    (rotatePiece_kicks sampleGame ⟨3, 0, 0, 3, 2⟩ rfl rfl rfl (by decide)).2.2.2.2.1⟩

end Tetris

namespace Tetris

/-! ### `lockPiece` returns -/

theorem clearLoop_succ_succ (fuel r : Nat) (grid : Board) (cleared : Nat) :
    clearLoop (fuel + 1) (r + 1) grid cleared =
      match grid[r]? with
      | none => none
      | some cells =>
        if rowFull cells then
          clearLoop fuel (r + 1) (List.replicate cols none :: grid.eraseIdx r) (cleared + 1)
        else clearLoop fuel r grid cleared := rfl

theorem clearLoop_total (fuel : Nat) : ∀ (r : Nat) (grid : Board) (cleared : Nat),
    r ≤ grid.length → r + (grid.take r).countP rowFull < fuel →
    ∃ res, clearLoop fuel r grid cleared = some res := by
  induction fuel with
  | zero => intro r grid cleared _ h; omega
  | succ fuel ih =>
    intro r grid cleared hr hfuel
    cases r with
    | zero => exact ⟨_, rfl⟩
    | succ r =>
      have hlt : r < grid.length := hr
      rw [clearLoop_succ_succ, List.getElem?_eq_getElem hlt]
      have htake : grid.take (r + 1) = grid.take r ++ [grid[r]] := by
        rw [List.take_succ, List.getElem?_eq_getElem hlt]
        rfl
      rw [htake, List.countP_append] at hfuel
      simp only
      by_cases hfull : rowFull grid[r] = true
      · rw [if_pos hfull]
        apply ih
        · rw [List.length_cons, List.length_eraseIdx_of_lt hlt]
          omega
        · have h1 : (grid.eraseIdx r).take r = grid.take r := by
            rw [List.eraseIdx_eq_take_drop_succ]
            exact List.take_left' (List.length_take_of_le (Nat.le_of_lt hlt))
          have h2 : rowFull (List.replicate cols (none : Option Nat)) = false := by decide
          rw [List.take_succ_cons, h1, List.countP_cons_of_neg _ _ (by rw [h2]; decide)]
          rw [List.countP_cons_of_pos _ _ hfull, List.countP_nil] at hfuel
          omega
      · rw [if_neg hfull]
        apply ih
        · omega
        · rw [List.countP_cons_of_neg _ _ hfull, List.countP_nil] at hfuel
          omega

theorem cellSet_length (grid : Board) (r c : Nat) (x : Option Nat) :
    (cellSet grid r c x).length = grid.length := by
  unfold cellSet
  cases grid[r]? <;> simp

theorem placePiece_length (grid : Board) (piece : Piece) :
    (placePiece grid piece).length = grid.length := by
  unfold placePiece
  generalize pieceCells piece piece.rotation = cells
  induction cells generalizing grid with
  | nil => rfl
  | cons cell rest ih =>
    rw [List.foldl_cons, ih]
    split_ifs
    · exact cellSet_length _ _ _ _
    · rfl

theorem writeColumn_length (grid : Board) (c : Nat) (merged : List Nat) :
    (writeColumn grid c merged).length = grid.length := by
  unfold writeColumn
  generalize List.range rows = idxs
  induction idxs generalizing grid with
  | nil => rfl
  | cons idx rest ih => rw [List.foldl_cons, ih, cellSet_length]

theorem applyMergeAndGravity_length (s : Game) :
    (applyMergeAndGravity s).grid.length = s.grid.length := by
  unfold applyMergeAndGravity
  simp only
  generalize List.range cols = cs
  generalize (0 : Nat) = gained
  generalize s.grid = grid
  induction cs generalizing grid gained with
  | nil => rfl
  | cons c rest ih => rw [List.foldl_cons, ih, writeColumn_length]

theorem clearLines_total (s : Game) (h : s.grid.length = rows) :
    ∃ s2, clearLines s = some s2 := by
  obtain ⟨res, hres⟩ := clearLoop_total (2 * rows + 1) rows s.grid 0 (by rw [h])
    (by
      have := List.countP_le_length rowFull (l := s.grid.take rows)
      rw [List.length_take] at this
      have h2 : min rows s.grid.length ≤ rows := Nat.min_le_left _ _
      omega)
  unfold clearLines
  rw [hres]
  exact ⟨_, rfl⟩

theorem lockPiece_total (s : Game) (d : SpawnDraw) (h : s.grid.length = rows) :
    ∃ s2, lockPiece s d = some s2 := by
  unfold lockPiece
  split
  · exact ⟨s, rfl⟩
  · rename_i piece _
    obtain ⟨s3, hs3⟩ := clearLines_total
      (applyMergeAndGravity { s with grid := placePiece s.grid piece })
      (by rw [applyMergeAndGravity_length]; simp only; rw [placePiece_length, h])
    simp only
    rw [hs3]
    exact ⟨_, rfl⟩

end Tetris

namespace Tetris

theorem lockPiece_eq (s : Game) (p : Piece) (d : SpawnDraw) (hcur : s.current = some p)
    (hwf : s.grid.length = rows) :
    ∃ s3, clearLines (applyMergeAndGravity { s with grid := placePiece s.grid p }) = some s3 ∧
      lockPiece s d = some (spawnPiece (updateBestStats s3) d) := by
  obtain ⟨s3, hs3⟩ := clearLines_total
    (applyMergeAndGravity { s with grid := placePiece s.grid p })
    (by rw [applyMergeAndGravity_length]; simp only; rw [placePiece_length, hwf])
  refine ⟨s3, hs3, ?_⟩
  unfold lockPiece
  split
  · rename_i hnone
    rw [hcur] at hnone
    cases hnone
  · rename_i piece hc
    rw [hcur] at hc
    cases hc
    simp only
    rw [hs3]
    rfl

/-- C19: on a game that is neither paused nor over, `movePiece(dRow, dCol)` moves the
current piece by the offset when every cell of the moved piece (four cells) is inside the
well and empty, and leaves the rest of the game as it was; when the moved piece does not
fit and the offset is `(1, 0)` the call is `lockPiece()`, which stamps the piece where it
is, merges, clears lines and spawns, and returns; when the moved piece does not fit and the
offset is another one, the game is unchanged. -/
theorem movePiece_shift_or_lock (s : Game) (p : Piece) (hcur : s.current = some p)
    (hpaused : s.paused = false) (hover : s.over = false) (hwf : BoardWF s.grid)
    (hshape : p.shapeIndex < 7) (hrot : p.rotation < 4) (dRow dCol : Int) (d : SpawnDraw) :
    (pieceCells { p with row := p.row + dRow, col := p.col + dCol } p.rotation).length = 4 ∧
    (Fits s.grid (pieceCells { p with row := p.row + dRow, col := p.col + dCol } p.rotation) →
      movePiece s dRow dCol d =
        some { s with current := some { p with row := p.row + dRow, col := p.col + dCol } }) ∧
    (¬ Fits s.grid (pieceCells { p with row := p.row + dRow, col := p.col + dCol } p.rotation) →
      dRow = 1 ∧ dCol = 0 →
      movePiece s dRow dCol d = lockPiece s d ∧
      ∃ s3, clearLines (applyMergeAndGravity { s with grid := placePiece s.grid p }) = some s3 ∧
        movePiece s dRow dCol d = some (spawnPiece (updateBestStats s3) d)) ∧
    (¬ Fits s.grid (pieceCells { p with row := p.row + dRow, col := p.col + dCol } p.rotation) →
      ¬ (dRow = 1 ∧ dCol = 0) → movePiece s dRow dCol d = some s) := by
  have hmove : movePiece s dRow dCol d =
      if canPlace s.grid p dRow dCol p.rotation then
        some { s with current := some { p with row := p.row + dRow, col := p.col + dCol } }
      else if dRow = 1 ∧ dCol = 0 then lockPiece s d
      else some s := by
    unfold movePiece
    rw [hcur]
    simp only [hover, hpaused, Bool.or_self, Bool.false_eq_true, if_false]
  refine ⟨pieceCells_length _ hshape hrot, ?_, ?_, ?_⟩
  · intro hfit
    rw [hmove, if_pos ((canPlace_iff _ _ _ _ _).mpr hfit)]
  · intro hfit hoff
    have hno : ¬ canPlace s.grid p dRow dCol p.rotation = true :=
      fun h => hfit ((canPlace_iff _ _ _ _ _).mp h)
    have h1 : movePiece s dRow dCol d = lockPiece s d := by
      rw [hmove, if_neg hno, if_pos hoff]
    obtain ⟨s3, hs3, hlock⟩ := lockPiece_eq s p d hcur hwf.1
    exact ⟨h1, s3, hs3, by rw [h1, hlock]⟩
  · intro hfit hoff
    have hno : ¬ canPlace s.grid p dRow dCol p.rotation = true :=
      fun h => hfit ((canPlace_iff _ _ _ _ _).mp h)
    rw [hmove, if_neg hno, if_neg hoff]

theorem movePiece_shift_or_lock_witness :
    sampleGame.current = some ⟨3, 0, 0, 3, 2⟩ ∧ sampleGame.paused = false ∧
    sampleGame.over = false ∧ BoardWF sampleGame.grid ∧ (3 : Nat) < 7 ∧ (0 : Nat) < 4 ∧
    Fits sampleGame.grid (pieceCells ⟨3, 0, 0 + 1, 3 + 0, 2⟩ 0) ∧
    movePiece sampleGame 1 0 sampleDraw =
      some { sampleGame with current := some ⟨3, 0, 0 + 1, 3 + 0, 2⟩ } :=
  ⟨rfl, rfl, rfl, by decide, by decide, by decide, by decide,
    (movePiece_shift_or_lock sampleGame ⟨3, 0, 0, 3, 2⟩ rfl rfl rfl (by decide) (by decide)
      (by decide) 1 0 sampleDraw).2.1 (by decide)⟩

end Tetris

namespace Tetris

/-! ### `hardDrop` -/

theorem canPlace_shift (grid : Board) (p : Piece) (a b c : Int) (rotation : Nat) :
    canPlace grid { p with row := p.row + a } b c rotation =
      canPlace grid p (a + b) c rotation := by
  unfold canPlace pieceCells
  simp only [add_assoc]

theorem canPlace_row_lt {shapeIndex rotation : Nat} (hs : shapeIndex < 7) (hr : rotation < 4) :
    ∃ y0 : Int, ∀ (grid : Board) (q : Piece) (ro co : Int), q.shapeIndex = shapeIndex →
      canPlace grid q ro co rotation = true →
      0 ≤ q.row + ro + y0 ∧ q.row + ro + y0 < 16 := by
  have hlen := shapeCells_length hs hr
  cases hcells : shapeCells shapeIndex rotation with
  | nil => rw [hcells] at hlen; cases hlen
  | cons c0 rest =>
    refine ⟨c0.2, ?_⟩
    intro grid q ro co hq hplace
    rw [canPlace_iff] at hplace
    have := hplace ⟨q.row + ro + c0.2, q.col + co + c0.1⟩ (by
      unfold pieceCells
      simp only
      rw [hq, hcells]
      exact List.mem_cons_self _ _)
    exact ⟨this.1, this.2.1⟩

theorem canPlace_down_iff (grid : Board) (p : Piece) (a : Int) :
    canPlace grid p a 0 p.rotation = true ↔
      Fits grid (pieceCells { p with row := p.row + a } p.rotation) := by
  rw [canPlace_iff]
  simp only [add_zero]

theorem dropLoop_succ (grid : Board) (fuel : Nat) (piece : Piece) :
    dropLoop grid (fuel + 1) piece =
      if canPlace grid piece 1 0 piece.rotation then
        dropLoop grid fuel { piece with row := piece.row + 1 }
      else some piece := rfl

theorem dropLoop_spec (grid : Board) (shapeIndex rotation : Nat) (y0 : Int)
    (hy : ∀ (q : Piece) (ro co : Int), q.shapeIndex = shapeIndex →
      canPlace grid q ro co rotation = true → q.row + ro + y0 < 16) (fuel : Nat) :
    ∀ p : Piece, p.shapeIndex = shapeIndex → p.rotation = rotation →
      canPlace grid p 0 0 rotation = true → 16 - (p.row + y0) < (fuel : Int) →
      ∃ k : Nat, dropLoop grid fuel p = some { p with row := p.row + (k : Int) } ∧
        (∀ j : Nat, j < k → canPlace grid p ((j : Int) + 1) 0 rotation = true) ∧
        canPlace grid p ((k : Int) + 1) 0 rotation = false := by
  induction fuel with
  | zero =>
    intro p hs _ hlegal hfuel
    have := hy p 0 0 hs hlegal
    simp only [Nat.cast_zero] at hfuel
    omega
  | succ fuel ih =>
    intro p hs hr hlegal hfuel
    rw [dropLoop_succ]
    by_cases h1 : canPlace grid p 1 0 rotation = true
    · rw [if_pos (by rw [hr]; exact h1)]
      have hlt := hy p 1 0 hs h1
      obtain ⟨k, hk, hall, hlast⟩ := ih { p with row := p.row + 1 } hs hr
        (by rw [canPlace_shift]; simpa using h1)
        (by
          simp only
          push_cast at hfuel
          omega)
      refine ⟨k + 1, ?_, ?_, ?_⟩
      · rw [hk]
        simp only [Piece.mk.injEq, Option.some.injEq, true_and, and_true]
        push_cast
        ring
      · intro j hj
        cases j with
        | zero => simpa using h1
        | succ j =>
          have := hall j (by omega)
          rw [canPlace_shift] at this
          rw [← this]
          congr 1
          push_cast
          ring
      · rw [canPlace_shift] at hlast
        rw [← hlast]
        congr 1
        push_cast
        ring
    · rw [if_neg (by rw [hr]; exact h1)]
      refine ⟨0, by simp, fun j hj => by omega, by simpa using h1⟩

theorem moveDownTimes_shift (s : Game) (p : Piece) (d : SpawnDraw) (hcur : s.current = some p)
    (hpaused : s.paused = false) (hover : s.over = false) (k : Nat)
    (hall : ∀ j : Nat, j < k → canPlace s.grid p ((j : Int) + 1) 0 p.rotation = true) :
    moveDownTimes k s d = some { s with current := some { p with row := p.row + (k : Int) } } := by
  induction k with
  | zero =>
    show some s = _
    congr 1
    cases s
    simp only at hcur
    subst hcur
    simp
  | succ k ih =>
    have hk := ih (fun j hj => hall j (by omega))
    have hplace := hall k (by omega)
    show (moveDownTimes k s d).bind (fun s2 => movePiece s2 1 0 d) = _
    rw [hk, Option.some_bind]
    unfold movePiece
    simp only [hover, hpaused, Bool.or_self, Bool.false_eq_true, if_false]
    rw [canPlace_shift, if_pos hplace]
    simp only [add_zero, Option.some.injEq, Game.mk.injEq, Piece.mk.injEq, true_and, and_true]
    push_cast
    ring

theorem moveDownTimes_lock (s : Game) (p : Piece) (d : SpawnDraw) (hcur : s.current = some p)
    (hpaused : s.paused = false) (hover : s.over = false) (k : Nat)
    (hall : ∀ j : Nat, j < k → canPlace s.grid p ((j : Int) + 1) 0 p.rotation = true)
    (hlast : canPlace s.grid p ((k : Int) + 1) 0 p.rotation = false) :
    moveDownTimes (k + 1) s d =
      lockPiece { s with current := some { p with row := p.row + (k : Int) } } d := by
  show (moveDownTimes k s d).bind (fun s2 => movePiece s2 1 0 d) = _
  rw [moveDownTimes_shift s p d hcur hpaused hover k hall, Option.some_bind]
  unfold movePiece
  simp only [hover, hpaused, Bool.or_self, Bool.false_eq_true, if_false]
  rw [canPlace_shift, hlast]
  simp

theorem hardDrop_eq (s : Game) (p : Piece) (d : SpawnDraw) (hcur : s.current = some p)
    (hpaused : s.paused = false) (hover : s.over = false) (dropped : Piece)
    (hdrop : dropLoop s.grid (rows + 1) p = some dropped) :
    hardDrop s d = lockPiece { s with current := some dropped } d := by
  unfold hardDrop
  split
  · rename_i hnone
    rw [hcur] at hnone
    cases hnone
  · rename_i piece hc
    rw [hcur] at hc
    cases hc
    simp only [hover, hpaused, Bool.or_self, Bool.false_eq_true, if_false]
    rw [hdrop, Option.some_bind]

/-- C20: on a game that is neither paused nor over, whose grid has 16 rows of 10 cells and
whose current piece is legally placed, `hardDrop` returns: there is a `k ≥ 0` such that the
piece fits after each of the first `k` one-row shifts down and not after the shift
`k + 1`, and `hardDrop` leaves the game that `lockPiece` leaves with the piece at
`row + k`, rotation and column unchanged.  Of the calls `movePiece(1, 0)` made in a row,
the first `k` only move the piece down and the call `k + 1` locks it, leaving the same
game (grid, score, `linesCleared` and every other field). -/
theorem hardDrop_locks_lowest (s : Game) (p : Piece) (hcur : s.current = some p)
    (hpaused : s.paused = false) (hover : s.over = false) (hwf : BoardWF s.grid)
    (hshape : p.shapeIndex < 7) (hrot : p.rotation < 4)
    (hlegal : Fits s.grid (pieceCells p p.rotation)) (d : SpawnDraw) :
    ∃ (k : Nat) (s2 : Game),
      (∀ j : Nat, j ≤ k →
        Fits s.grid (pieceCells { p with row := p.row + (j : Int) } p.rotation)) ∧
      ¬ Fits s.grid (pieceCells { p with row := p.row + ((k : Int) + 1) } p.rotation) ∧
      hardDrop s d = some s2 ∧
      lockPiece { s with current := some { p with row := p.row + (k : Int) } } d = some s2 ∧
      (∀ j : Nat, j ≤ k →
        moveDownTimes j s d =
          some { s with current := some { p with row := p.row + (j : Int) } }) ∧
      moveDownTimes (k + 1) s d = some s2 := by
  obtain ⟨y0, hy⟩ := canPlace_row_lt hshape hrot
  have hlegal2 : canPlace s.grid p 0 0 p.rotation = true := by
    rw [canPlace_down_iff]
    simp only [add_zero]
    exact hlegal
  have hb := hy s.grid p 0 0 rfl hlegal2
  obtain ⟨k, hk, hall, hlast⟩ := dropLoop_spec s.grid p.shapeIndex p.rotation y0
    (fun q ro co hq hplace => (hy s.grid q ro co hq hplace).2) (rows + 1) p rfl rfl hlegal2
    (by simp only [rows]; push_cast; omega)
  obtain ⟨s2, hs2⟩ := lockPiece_total
    { s with current := some { p with row := p.row + (k : Int) } } d hwf.1
  have hshift : ∀ j : Nat, j ≤ k →
      moveDownTimes j s d =
        some { s with current := some { p with row := p.row + (j : Int) } } := by
    intro j hj
    exact moveDownTimes_shift s p d hcur hpaused hover j (fun i hi => hall i (by omega))
  refine ⟨k, s2, ?_, ?_, ?_, hs2, hshift, ?_⟩
  · intro j hj
    cases j with
    | zero =>
      simp only [Nat.cast_zero, add_zero]
      exact hlegal
    | succ j =>
      have := (canPlace_down_iff s.grid p _).mp (hall j (by omega))
      push_cast
      exact this
  · intro hfit
    have := (canPlace_down_iff s.grid p _).mpr hfit
    rw [hlast] at this
    cases this
  · rw [hardDrop_eq s p d hcur hpaused hover _ hk, hs2]
  · rw [moveDownTimes_lock s p d hcur hpaused hover k hall hlast, hs2]

theorem hardDrop_locks_lowest_witness :
    sampleGame.current = some ⟨3, 0, 0, 3, 2⟩ ∧ sampleGame.paused = false ∧
    sampleGame.over = false ∧ BoardWF sampleGame.grid ∧ (3 : Nat) < 7 ∧ (0 : Nat) < 4 ∧
    Fits sampleGame.grid (pieceCells ⟨3, 0, 0, 3, 2⟩ 0) ∧
    ∃ (k : Nat) (s2 : Game), hardDrop sampleGame sampleDraw = some s2 ∧
      moveDownTimes (k + 1) sampleGame sampleDraw = some s2 :=
  ⟨rfl, rfl, rfl, by decide, by decide, by decide, by decide,
    (hardDrop_locks_lowest sampleGame ⟨3, 0, 0, 3, 2⟩ rfl rfl rfl (by decide) (by decide)
      (by decide) (by decide) sampleDraw).elim fun k h =>
        h.elim fun s2 h2 => ⟨k, s2, h2.2.2.1, h2.2.2.2.2.2⟩⟩

end Tetris

namespace Tetris

/-! ### `applyMergeAndGravity` -/

theorem cellSet_wf {grid : Board} (h : BoardWF grid) (r c : Nat) (x : Option Nat) :
    BoardWF (cellSet grid r c x) := by
  unfold cellSet
  cases hr : grid[r]? with
  | none => exact h
  | some cells =>
    refine ⟨by simpa using h.1, ?_⟩
    intro row hrow
    rcases List.mem_or_eq_of_mem_set hrow with h1 | h1
    · exact h.2 _ h1
    · rw [h1, List.length_set]
      exact h.2 _ (List.getElem?_mem hr)

theorem cellAt_cellSet {grid : Board} (h : BoardWF grid) {r c : Nat} (hr : r < rows)
    (hc : c < cols) (r2 c2 : Nat) (x : Option Nat) :
    cellAt (cellSet grid r c x) r2 c2 = if r2 = r ∧ c2 = c then x else cellAt grid r2 c2 := by
  have hlen : r < grid.length := by rw [h.1]; exact hr
  have hrow : grid[r]? = some grid[r] := List.getElem?_eq_getElem hlen
  have hclen : c < (grid[r]).length := by
    rw [h.2 _ (List.getElem_mem hlen)]; exact hc
  unfold cellSet cellAt
  rw [hrow]
  simp only [List.getElem?_set]
  by_cases h1 : r = r2
  · subst h1
    rw [if_pos rfl, if_pos hlen]
    simp only [List.getElem?_set]
    by_cases h2 : c = c2
    · subst h2
      simp [hclen]
    · have h3 : ¬ c2 = c := fun hh => h2 hh.symm
      simp [h2, h3, hrow]
  · have : ¬ (r2 = r ∧ c2 = c) := fun hh => h1 hh.1.symm
    simp [h1, this]

theorem mergeValues_eq (l : List Nat) (st : List Nat × Nat) :
    mergeValues l st = (st.1 ++ mergeRow l, st.2 + (mergeGains l).sum) := by
  induction l using mergeRow.induct generalizing st with
  | case1 => simp [mergeValues, mergeRow, mergeGains]
  | case2 a => simp [mergeValues, mergeRow, mergeGains]
  | case3 b rest ih =>
    rw [mergeValues, if_pos rfl, ih, mergeRow_cons_cons, mergeGains_cons_cons, if_pos rfl,
      if_pos rfl]
    simp [Nat.add_assoc]
  | case4 a b rest hab ih =>
    rw [mergeValues, if_neg hab, ih, mergeRow_cons_cons, mergeGains_cons_cons, if_neg hab,
      if_neg hab]
    simp

theorem writeColumn_eq (grid : Board) (c : Nat) (merged : List Nat) :
    writeColumn grid c merged =
      (List.range rows).foldl (fun g idx => cellSet g (rows - 1 - idx) c (mergedCell merged idx))
        grid := rfl

theorem writeColumn_fold (c : Nat) (hc : c < cols) (merged : List Nat) (grid : Board)
    (hwf : BoardWF grid) (k : Nat) (hk : k ≤ rows) :
    BoardWF ((List.range k).foldl
      (fun g idx => cellSet g (rows - 1 - idx) c (mergedCell merged idx)) grid) ∧
    ∀ r2 c2, r2 < rows →
      cellAt ((List.range k).foldl
        (fun g idx => cellSet g (rows - 1 - idx) c (mergedCell merged idx)) grid) r2 c2 =
        if c2 = c ∧ rows - 1 - r2 < k then mergedCell merged (rows - 1 - r2)
        else cellAt grid r2 c2 := by
  induction k with
  | zero =>
    refine ⟨hwf, ?_⟩
    intro r2 c2 _
    simp
  | succ k ih =>
    obtain ⟨hwf2, hcells⟩ := ih (by omega)
    rw [List.range_succ, List.foldl_append, List.foldl_cons, List.foldl_nil]
    refine ⟨cellSet_wf hwf2 _ _ _, ?_⟩
    intro r2 c2 hr2
    have hr : rows - 1 - k < rows := by simp only [rows] at *; omega
    rw [cellAt_cellSet hwf2 hr hc, hcells r2 c2 hr2]
    simp only [rows] at *
    by_cases h1 : r2 = 16 - 1 - k ∧ c2 = c
    · obtain ⟨h2, h3⟩ := h1
      have h4 : 16 - 1 - r2 = k := by omega
      rw [if_pos ⟨h2, h3⟩, if_pos ⟨h3, by omega⟩, h4]
    · rw [if_neg h1]
      by_cases h5 : c2 = c
      · have h6 : ¬ r2 = 16 - 1 - k := fun hh => h1 ⟨hh, h5⟩
        have h7 : (16 - 1 - r2 < k + 1) ↔ (16 - 1 - r2 < k) := by omega
        simp only [h5, true_and, h7]
      · simp only [h5, false_and]

theorem writeColumn_spec (grid : Board) (hwf : BoardWF grid) (c : Nat) (hc : c < cols)
    (merged : List Nat) :
    BoardWF (writeColumn grid c merged) ∧
    ∀ r2 c2, r2 < rows →
      cellAt (writeColumn grid c merged) r2 c2 =
        if c2 = c then mergedCell merged (rows - 1 - r2) else cellAt grid r2 c2 := by
  obtain ⟨h1, h2⟩ := writeColumn_fold c hc merged grid hwf rows (le_refl _)
  rw [writeColumn_eq]
  refine ⟨h1, ?_⟩
  intro r2 c2 hr2
  rw [h2 r2 c2 hr2]
  have : rows - 1 - r2 < rows := by simp only [rows] at *; omega
  simp only [this, and_true]

end Tetris

namespace Tetris

theorem filterMap_getElem?_range (l : List Nat) (n : Nat) (h : l.length ≤ n) :
    (List.range n).filterMap (fun idx => l[idx]?) = l := by
  induction n generalizing l with
  | zero =>
    have : l = [] := List.length_eq_zero.mp (by omega)
    rw [this]
    rfl
  | succ n ih =>
    rw [List.range_succ, List.filterMap_append]
    by_cases hlen : l.length ≤ n
    · rw [ih l hlen]
      simp [List.getElem?_eq_none hlen]
    · have hl : l.length = n + 1 := by omega
      have hne : l ≠ [] := by
        intro hnil
        rw [hnil] at hl
        cases hl
      have hsplit := List.dropLast_append_getLast hne
      have hdl : l.dropLast.length = n := by rw [List.length_dropLast, hl]; rfl
      have h1 : (List.range n).filterMap (fun idx => l[idx]?) = l.dropLast := by
        rw [← ih l.dropLast (by omega)]
        apply List.filterMap_congr
        intro idx hidx
        have hi := List.mem_range.mp hidx
        conv_lhs => rw [← hsplit]
        rw [List.getElem?_append_left (by omega)]
      have h2 : l[n]? = some (l.getLast hne) := by
        conv_lhs => rw [← hsplit]
        rw [List.getElem?_append_right (by omega), hdl]
        simp
      rw [h1]
      simp only [List.filterMap_cons, h2, List.filterMap_nil]
      exact hsplit

theorem mergedCell_eq (merged : List Nat) (h : ∀ x ∈ merged, x ≠ 0) (idx : Nat) :
    mergedCell merged idx = merged[idx]? := by
  unfold mergedCell
  cases hx : merged[idx]? with
  | none => rfl
  | some v =>
    have := h v (List.getElem?_mem hx)
    simp [this]

theorem columnValues_eq (grid : Board) (c : Nat) :
    columnValues grid c =
      (List.range rows).filterMap fun idx =>
        match cellAt grid (rows - 1 - idx) c with
        | some v => if v = 0 then none else some v
        | none => none := by
  unfold columnValues
  have : (List.range rows).reverse = (List.range rows).map fun idx => rows - 1 - idx := by
    decide
  rw [this, List.filterMap_map]
  rfl

theorem columnValues_ne_zero (grid : Board) (c : Nat) : ∀ x ∈ columnValues grid c, x ≠ 0 := by
  intro x hx
  unfold columnValues at hx
  rw [List.mem_filterMap] at hx
  obtain ⟨r, _, hr⟩ := hx
  cases hcell : cellAt grid r c with
  | none => rw [hcell] at hr; cases hr
  | some v =>
    rw [hcell] at hr
    simp only at hr
    split_ifs at hr with h0
    cases hr
    exact h0

theorem mergeRow_ne_zero (xs : List Nat) (h : ∀ x ∈ xs, x ≠ 0) : ∀ x ∈ mergeRow xs, x ≠ 0 := by
  intro x hx
  rcases mergeRow_mem xs x hx with h1 | ⟨a, ha, rfl⟩
  · exact h x h1
  · have := h a ha
    omega

theorem columnValues_congr (g1 g2 : Board) (c : Nat)
    (h : ∀ r, r < rows → cellAt g1 r c = cellAt g2 r c) :
    columnValues g1 c = columnValues g2 c := by
  unfold columnValues
  apply List.filterMap_congr
  intro r hr
  rw [h r (by simpa using hr)]

theorem columnValues_written (grid : Board) (c : Nat) (merged : List Nat)
    (hne : ∀ x ∈ merged, x ≠ 0) (hlen : merged.length ≤ rows)
    (h : ∀ r, r < rows → cellAt grid r c = mergedCell merged (rows - 1 - r)) :
    columnValues grid c = merged := by
  rw [columnValues_eq]
  conv_rhs => rw [← filterMap_getElem?_range merged rows hlen]
  apply List.filterMap_congr
  intro idx hidx
  have hi := List.mem_range.mp hidx
  have h1 : rows - 1 - idx < rows := by simp only [rows] at *; omega
  have h2 : rows - 1 - (rows - 1 - idx) = idx := by simp only [rows] at *; omega
  rw [h (rows - 1 - idx) h1, h2, mergedCell_eq merged hne]
  cases hx : merged[idx]? with
  | none => rfl
  | some v =>
    have := hne v (List.getElem?_mem hx)
    simp [this]

end Tetris

namespace Tetris

theorem gravity_fold (grid : Board) (hwf : BoardWF grid) (k : Nat) (hk : k ≤ cols) :
    BoardWF ((List.range k).foldl (fun (acc : Board × Nat) c =>
        (writeColumn acc.1 c (mergeValues (columnValues acc.1 c) ([], acc.2)).1,
          (mergeValues (columnValues acc.1 c) ([], acc.2)).2)) (grid, 0)).1 ∧
    (∀ r c, r < rows →
      cellAt ((List.range k).foldl (fun (acc : Board × Nat) c =>
        (writeColumn acc.1 c (mergeValues (columnValues acc.1 c) ([], acc.2)).1,
          (mergeValues (columnValues acc.1 c) ([], acc.2)).2)) (grid, 0)).1 r c =
        if c < k then mergedCell (mergeRow (columnValues grid c)) (rows - 1 - r)
        else cellAt grid r c) ∧
    ((List.range k).foldl (fun (acc : Board × Nat) c =>
        (writeColumn acc.1 c (mergeValues (columnValues acc.1 c) ([], acc.2)).1,
          (mergeValues (columnValues acc.1 c) ([], acc.2)).2)) (grid, 0)).2 =
      ((List.range k).map fun c => (mergeGains (columnValues grid c)).sum).sum := by
  induction k with
  | zero => exact ⟨hwf, fun r c _ => by simp, rfl⟩
  | succ k ih =>
    obtain ⟨hwf2, hcells, hgain⟩ := ih (by omega)
    rw [List.range_succ, List.foldl_append, List.foldl_cons, List.foldl_nil]
    generalize (List.range k).foldl (fun (acc : Board × Nat) c =>
        (writeColumn acc.1 c (mergeValues (columnValues acc.1 c) ([], acc.2)).1,
          (mergeValues (columnValues acc.1 c) ([], acc.2)).2)) (grid, 0) = acc at *
    have hcol : columnValues acc.1 k = columnValues grid k := by
      apply columnValues_congr
      intro r hr
      rw [hcells r k hr, if_neg (lt_irrefl k)]
    have hkc : k < cols := by omega
    obtain ⟨hwf3, hw⟩ := writeColumn_spec acc.1 hwf2 k hkc
      (mergeValues (columnValues acc.1 k) ([], acc.2)).1
    simp only
    refine ⟨hwf3, ?_, ?_⟩
    · intro r c hr
      rw [hw r c hr, hcells r c hr, mergeValues_eq, hcol]
      simp only [List.nil_append]
      by_cases h1 : c = k
      · rw [if_pos h1, h1, if_pos (Nat.lt_succ_self k)]
      · rw [if_neg h1]
        have : c < k + 1 ↔ c < k := by omega
        simp only [this]
    · rw [mergeValues_eq, hcol, hgain, List.map_append, List.sum_append]
      simp

theorem gravity_column (grid : Board) (c : Nat) (idx : Nat) (hidx : idx < rows) :
    mergedCell (mergeRow (columnValues grid c)) (rows - 1 - (rows - 1 - idx)) =
      (mergeRow (columnValues grid c))[idx]? := by
  have h2 : rows - 1 - (rows - 1 - idx) = idx := by simp only [rows] at *; omega
  rw [h2, mergedCell_eq _ (mergeRow_ne_zero _ (columnValues_ne_zero grid c))]

theorem length_columnValues_le (grid : Board) (c : Nat) :
    (columnValues grid c).length ≤ rows := by
  unfold columnValues
  have := List.length_filterMap_le (fun r =>
    match cellAt grid r c with
    | some v => if v = 0 then none else some v
    | none => none) (List.range rows).reverse
  simpa using this

theorem applyMergeAndGravity_eq (s : Game) :
    applyMergeAndGravity s =
      { s with
          grid := ((List.range cols).foldl (fun (acc : Board × Nat) c =>
            (writeColumn acc.1 c (mergeValues (columnValues acc.1 c) ([], acc.2)).1,
              (mergeValues (columnValues acc.1 c) ([], acc.2)).2)) (s.grid, 0)).1,
          score := s.score + ((List.range cols).foldl (fun (acc : Board × Nat) c =>
            (writeColumn acc.1 c (mergeValues (columnValues acc.1 c) ([], acc.2)).1,
              (mergeValues (columnValues acc.1 c) ([], acc.2)).2)) (s.grid, 0)).2 } := by
  unfold applyMergeAndGravity
  rfl

theorem applyMergeAndGravity_spec (s : Game) (hwf : BoardWF s.grid) :
    BoardWF (applyMergeAndGravity s).grid ∧
    (∀ r c, r < rows → c < cols →
      cellAt (applyMergeAndGravity s).grid r c =
        mergedCell (mergeRow (columnValues s.grid c)) (rows - 1 - r)) ∧
    (∀ c, c < cols →
      columnValues (applyMergeAndGravity s).grid c = mergeRow (columnValues s.grid c)) ∧
    (applyMergeAndGravity s).score =
      s.score + ((List.range cols).map fun c => (mergeGains (columnValues s.grid c)).sum).sum := by
  obtain ⟨h1, h2, h3⟩ := gravity_fold s.grid hwf cols (le_refl _)
  rw [applyMergeAndGravity_eq]
  simp only
  have hcells : ∀ r c, r < rows → c < cols →
      cellAt ((List.range cols).foldl (fun (acc : Board × Nat) c =>
            (writeColumn acc.1 c (mergeValues (columnValues acc.1 c) ([], acc.2)).1,
              (mergeValues (columnValues acc.1 c) ([], acc.2)).2)) (s.grid, 0)).1 r c =
        mergedCell (mergeRow (columnValues s.grid c)) (rows - 1 - r) := by
    intro r c hr hc
    have := h2 r c hr
    rw [if_pos hc] at this
    exact this
  refine ⟨h1, hcells, ?_, ?_⟩
  · intro c hc
    apply columnValues_written _ _ _ (mergeRow_ne_zero _ (columnValues_ne_zero s.grid c))
      ((length_mergeRow_le _).trans (length_columnValues_le _ _))
    intro r hr
    exact hcells r c hr hc
  · rw [h3]

end Tetris

namespace Tetris

/-- C21: on a grid of 16 rows of 10 cells `applyMergeAndGravity` turns every column into a
function of that column alone: the non-empty values of the column, read from the bottom
row upward, with each adjacent equal pair merged once from the bottom into one doubled
value, are written back from the bottom row upward and every cell above them is empty.
The score grows by the sum of the doubled values over the columns, the sum of the values
of each column is unchanged, and nothing but the grid and the score changes. -/
theorem applyMergeAndGravity_columns (s : Game) (hwf : BoardWF s.grid) :
    BoardWF (applyMergeAndGravity s).grid ∧
    (∀ c, c < cols → ∀ idx, idx < rows →
      cellAt (applyMergeAndGravity s).grid (rows - 1 - idx) c =
        (mergeRow (columnValues s.grid c))[idx]?) ∧
    (∀ c, c < cols →
      columnValues (applyMergeAndGravity s).grid c = mergeRow (columnValues s.grid c)) ∧
    (∀ c, columnValues s.grid c =
      (List.range rows).filterMap fun idx =>
        match cellAt s.grid (rows - 1 - idx) c with
        | some v => if v = 0 then none else some v
        | none => none) ∧
    (applyMergeAndGravity s).score =
      s.score +
        ((List.range cols).map fun c => (mergeGains (columnValues s.grid c)).sum).sum ∧
    (∀ c, c < cols →
      (columnValues (applyMergeAndGravity s).grid c).sum = (columnValues s.grid c).sum) ∧
    (∀ t : Game, BoardWF t.grid → ∀ c, c < cols →
      (∀ r, r < rows → cellAt t.grid r c = cellAt s.grid r c) →
      ∀ r, r < rows →
        cellAt (applyMergeAndGravity t).grid r c = cellAt (applyMergeAndGravity s).grid r c) ∧
    (applyMergeAndGravity s).stats = s.stats ∧
    (applyMergeAndGravity s).current = s.current ∧
    (applyMergeAndGravity s).next = s.next ∧
    (applyMergeAndGravity s).linesCleared = s.linesCleared ∧
    (applyMergeAndGravity s).paused = s.paused ∧
    (applyMergeAndGravity s).over = s.over := by
  obtain ⟨h1, h2, h3, h4⟩ := applyMergeAndGravity_spec s hwf
  refine ⟨h1, ?_, h3, fun c => columnValues_eq s.grid c, h4, ?_, ?_, ?_⟩
  · intro c hc idx hidx
    have hr : rows - 1 - idx < rows := by simp only [rows] at *; omega
    rw [h2 _ c hr hc, gravity_column s.grid c idx hidx]
  · intro c hc
    rw [h3 c hc, sum_mergeRow]
  · intro t ht c hc hsame r hr
    obtain ⟨_, t2, _, _⟩ := applyMergeAndGravity_spec t ht
    rw [t2 r c hr hc, h2 r c hr hc, columnValues_congr t.grid s.grid c hsame]
  · rw [applyMergeAndGravity_eq]
    exact ⟨rfl, rfl, rfl, rfl, rfl, rfl⟩

theorem applyMergeAndGravity_columns_witness :
    BoardWF sampleGame.grid ∧
    (applyMergeAndGravity sampleGame).score =
      sampleGame.score +
        ((List.range cols).map fun c => (mergeGains (columnValues sampleGame.grid c)).sum).sum :=
  ⟨by decide, (applyMergeAndGravity_columns sampleGame (by decide)).2.2.2.2.1⟩

end Tetris

namespace Tetris

/-! ### `clearLines` -/

theorem rowFull_empty : rowFull (List.replicate cols (none : Option Nat)) = false := by decide

theorem clearLoop_spec (fuel : Nat) : ∀ (r : Nat) (grid : Board) (cleared : Nat),
    r ≤ grid.length → r + (grid.take r).countP rowFull < fuel →
    clearLoop fuel r grid cleared =
      some (List.replicate ((grid.take r).countP rowFull) (List.replicate cols none) ++
          (grid.take r).filter (fun cells => !rowFull cells) ++ grid.drop r,
        cleared + (grid.take r).countP rowFull) := by
  induction fuel with
  | zero => intro r grid cleared _ h; omega
  | succ fuel ih =>
    intro r grid cleared hr hfuel
    cases r with
    | zero => simp [clearLoop]
    | succ r =>
      have hlt : r < grid.length := hr
      rw [clearLoop_succ_succ, List.getElem?_eq_getElem hlt]
      have htake : grid.take (r + 1) = grid.take r ++ [grid[r]] := by
        rw [List.take_succ, List.getElem?_eq_getElem hlt]
        rfl
      have hdrop : grid.drop r = grid[r] :: grid.drop (r + 1) := by
        rw [List.drop_eq_getElem_cons hlt]
      rw [htake, List.countP_append] at hfuel
      rw [htake, List.countP_append, List.filter_append]
      simp only
      by_cases hfull : rowFull grid[r] = true
      · rw [if_pos hfull]
        have h1 : (grid.eraseIdx r).take r = grid.take r := by
          rw [List.eraseIdx_eq_take_drop_succ]
          exact List.take_left' (List.length_take_of_le (Nat.le_of_lt hlt))
        have h3 : (grid.eraseIdx r).drop r = grid.drop (r + 1) := by
          rw [List.eraseIdx_eq_take_drop_succ]
          exact List.drop_left' (List.length_take_of_le (Nat.le_of_lt hlt))
        have hcnt : (List.take (r + 1) (List.replicate cols none :: grid.eraseIdx r)).countP
            rowFull = (grid.take r).countP rowFull := by
          rw [List.take_succ_cons, h1, List.countP_cons_of_neg _ _ (by rw [rowFull_empty]; decide)]
        rw [List.countP_cons_of_pos _ _ hfull, List.countP_nil] at hfuel
        rw [ih (r + 1) _ (cleared + 1)
          (by rw [List.length_cons, List.length_eraseIdx_of_lt hlt]; omega)
          (by rw [hcnt]; omega), hcnt]
        rw [List.take_succ_cons, h1, List.drop_succ_cons, h3,
          List.countP_cons_of_pos _ _ hfull, List.countP_nil]
        have hf1 : List.filter (fun cells => !rowFull cells)
            (List.replicate cols (none : Option Nat) :: grid.take r) =
            List.replicate cols none :: (grid.take r).filter (fun cells => !rowFull cells) := by
          rw [List.filter_cons_of_pos (by rw [rowFull_empty]; rfl)]
        have hf2 : List.filter (fun cells => !rowFull cells) [grid[r]] = [] := by
          rw [List.filter_cons_of_neg (by rw [hfull]; decide), List.filter_nil]
        rw [hf1, hf2, List.replicate_succ']
        simp only [List.append_assoc, List.singleton_append, List.append_nil, Nat.add_assoc,
          Nat.add_comm 1]
      · rw [if_neg hfull]
        rw [List.countP_cons_of_neg _ _ hfull, List.countP_nil] at hfuel
        rw [ih r grid cleared (by omega) (by omega), hdrop]
        have hf2 : List.filter (fun cells => !rowFull cells) [grid[r]] = [grid[r]] := by
          rw [List.filter_cons_of_pos (by simpa using hfull), List.filter_nil]
        rw [hf2, List.countP_cons_of_neg _ _ hfull, List.countP_nil]
        simp only [List.append_assoc, List.singleton_append, Nat.add_zero]

end Tetris

namespace Tetris

theorem clearLines_spec (s : Game) (hwf : BoardWF s.grid) :
    clearLines s =
      some { s with
        grid := List.replicate (s.grid.countP rowFull) (List.replicate cols none) ++
          s.grid.filter (fun cells => !rowFull cells),
        linesCleared := s.linesCleared + s.grid.countP rowFull,
        score := s.score + s.grid.countP rowFull * 100 } := by
  have htake : s.grid.take rows = s.grid := by
    rw [← hwf.1]
    exact List.take_length _
  have hdrop : s.grid.drop rows = [] := by
    rw [← hwf.1]
    exact List.drop_length _
  have hcnt := List.countP_le_length rowFull (l := s.grid)
  have hloop := clearLoop_spec (2 * rows + 1) rows s.grid 0 (by rw [hwf.1])
    (by rw [htake, hwf.1] at *; omega)
  rw [htake, hdrop, List.append_nil, Nat.zero_add] at hloop
  unfold clearLines
  rw [hloop]
  simp only [Option.map_some']
  by_cases hk : s.grid.countP rowFull = 0
  · rw [if_neg (by simpa using hk), hk]
    rfl
  · rw [if_pos hk]

theorem filter_length_add_countP (grid : Board) :
    (grid.filter (fun cells => !rowFull cells)).length + grid.countP rowFull = grid.length := by
  induction grid with
  | nil => rfl
  | cons row rest ih =>
    by_cases h : rowFull row = true
    · rw [List.filter_cons_of_neg (by rw [h]; decide), List.countP_cons_of_pos _ _ h,
        List.length_cons]
      omega
    · rw [List.filter_cons_of_pos (by simpa using h), List.countP_cons_of_neg _ _ h,
        List.length_cons, List.length_cons]
      omega

theorem clearLines_wf (s : Game) (hwf : BoardWF s.grid) :
    BoardWF (List.replicate (s.grid.countP rowFull) (List.replicate cols none) ++
      s.grid.filter (fun cells => !rowFull cells)) ∧
    ∀ cells ∈ List.replicate (s.grid.countP rowFull) (List.replicate cols none) ++
      s.grid.filter (fun cells => !rowFull cells), rowFull cells = false := by
  constructor
  · constructor
    · rw [List.length_append, List.length_replicate, Nat.add_comm, filter_length_add_countP,
        hwf.1]
    · intro cells hcells
      rcases List.mem_append.mp hcells with h | h
      · rw [List.eq_of_mem_replicate h, List.length_replicate]
      · exact hwf.2 _ (List.mem_filter.mp h).1
  · intro cells hcells
    rcases List.mem_append.mp hcells with h | h
    · rw [List.eq_of_mem_replicate h]
      exact rowFull_empty
    · simpa using (List.mem_filter.mp h).2

theorem filter_only_last_full (grid : Board) (hlen : grid.length = rows)
    (hone : grid.countP rowFull = 1) (hlast : (grid[rows - 1]?).map rowFull = some true) :
    grid.filter (fun cells => !rowFull cells) = grid.take (rows - 1) := by
  have hlt : rows - 1 < grid.length := by rw [hlen]; decide
  have hsplit : grid = grid.take (rows - 1) ++ [grid[rows - 1]] := by
    conv_lhs => rw [← List.take_append_drop (rows - 1) grid]
    congr 1
    rw [List.drop_eq_getElem_cons hlt]
    congr 1
    apply List.drop_eq_nil_of_le
    rw [hlen]
    decide
  rw [List.getElem?_eq_getElem hlt] at hlast
  have hfull : rowFull grid[rows - 1] = true := by simpa using hlast
  have hcnt : (grid.take (rows - 1)).countP rowFull = 0 := by
    have h := hone
    rw [hsplit, List.countP_append, List.countP_cons_of_pos _ _ hfull, List.countP_nil] at h
    omega
  conv_lhs => rw [hsplit]
  rw [List.filter_append, List.filter_cons_of_neg (by rw [hfull]; decide), List.filter_nil,
    List.append_nil, List.filter_eq_self]
  intro cells hcells
  have := (List.countP_eq_zero.mp hcnt) cells hcells
  simpa using this

end Tetris

namespace Tetris

/-- C22: on a grid of 16 rows of 10 cells with `k` full rows (rows without an empty cell)
`clearLines` returns a grid of 16 rows of 10 cells: `k` empty rows on top, then the rows of
the input that are not full, in their order from top to bottom; no row of the result is
full, `linesCleared` grows by `k` and the score by `100 * k`, and nothing else changes.
When the bottom row is the only full row, row 0 of the result is empty, row `i + 1` is the
old row `i` for `i < 15`, and `linesCleared` grows by 1. -/
theorem clearLines_removes_full_rows (s : Game) (hwf : BoardWF s.grid) :
    ∃ s2, clearLines s = some s2 ∧
      s2.grid = List.replicate (s.grid.countP rowFull) (List.replicate cols none) ++
        s.grid.filter (fun cells => !rowFull cells) ∧
      (s.grid.filter (fun cells => !rowFull cells)).length = rows - s.grid.countP rowFull ∧
      BoardWF s2.grid ∧
      (∀ cells ∈ s2.grid, rowFull cells = false) ∧
      s2.linesCleared = s.linesCleared + s.grid.countP rowFull ∧
      s2.score = s.score + 100 * s.grid.countP rowFull ∧
      s2.stats = s.stats ∧ s2.current = s.current ∧ s2.next = s.next ∧
      s2.paused = s.paused ∧ s2.over = s.over ∧
      (s.grid.countP rowFull = 1 → (s.grid[rows - 1]?).map rowFull = some true →
        s2.grid[0]? = some (List.replicate cols none) ∧
        (∀ i, i < rows - 1 → s2.grid[i + 1]? = s.grid[i]?) ∧
        s2.linesCleared = s.linesCleared + 1) := by
  obtain ⟨hwf2, hnofull⟩ := clearLines_wf s hwf
  have hlen := filter_length_add_countP s.grid
  refine ⟨_, clearLines_spec s hwf, rfl, by rw [← hwf.1]; omega, hwf2, hnofull, rfl,
    by simp only; omega, rfl, rfl, rfl, rfl, rfl, ?_⟩
  intro hone hlast
  simp only
  rw [hone, filter_only_last_full s.grid hwf.1 hone hlast, List.replicate_one,
    List.singleton_append]
  refine ⟨by simp, ?_, rfl⟩
  intro i hi
  rw [List.getElem?_cons_succ, List.getElem?_take_of_lt hi]

theorem clearLines_removes_full_rows_witness :
    BoardWF sampleGame.grid ∧
    ∃ s2, clearLines sampleGame = some s2 ∧ BoardWF s2.grid ∧
      s2.linesCleared = sampleGame.linesCleared + sampleGame.grid.countP rowFull :=
  ⟨by decide, (clearLines_removes_full_rows sampleGame (by decide)).elim fun s2 h =>
    ⟨s2, h.1, h.2.2.2.1, h.2.2.2.2.2.1⟩⟩

end Tetris

namespace Tetris

/-! ### `placePiece`, `spawnPiece`, `lockPiece` -/

theorem placeCells_spec (value : Nat) (cells : List Pos) :
    ∀ grid : Board, BoardWF grid →
    (∀ cell ∈ cells, 0 ≤ cell.r ∧ cell.r < 16 ∧ 0 ≤ cell.c ∧ cell.c < 10) →
    BoardWF (cells.foldl (fun g cell =>
      if 0 ≤ cell.r ∧ 0 ≤ cell.c then cellSet g cell.r.toNat cell.c.toNat (some value)
      else g) grid) ∧
    ∀ r2 c2 : Nat,
      cellAt (cells.foldl (fun g cell =>
        if 0 ≤ cell.r ∧ 0 ≤ cell.c then cellSet g cell.r.toNat cell.c.toNat (some value)
        else g) grid) r2 c2 =
        if (⟨(r2 : Int), (c2 : Int)⟩ : Pos) ∈ cells then some value else cellAt grid r2 c2 := by
  induction cells with
  | nil => intro grid hwf _; exact ⟨hwf, fun r2 c2 => by simp⟩
  | cons cell rest ih =>
    intro grid hwf hin
    obtain ⟨h1, h2, h3, h4⟩ := hin cell (List.mem_cons_self _ _)
    rw [List.foldl_cons, if_pos ⟨h1, h3⟩]
    obtain ⟨hwf2, hcells⟩ := ih (cellSet grid cell.r.toNat cell.c.toNat (some value))
      (cellSet_wf hwf _ _ _) (fun c hc => hin c (List.mem_cons_of_mem _ hc))
    refine ⟨hwf2, ?_⟩
    intro r2 c2
    rw [hcells r2 c2, cellAt_cellSet hwf (by simp only [rows]; omega) (by simp only [cols]; omega)]
    by_cases hmem : (⟨(r2 : Int), (c2 : Int)⟩ : Pos) ∈ rest
    · rw [if_pos hmem, if_pos (List.mem_cons_of_mem _ hmem)]
    · rw [if_neg hmem]
      by_cases heq : r2 = cell.r.toNat ∧ c2 = cell.c.toNat
      · have : (⟨(r2 : Int), (c2 : Int)⟩ : Pos) = cell := by
          obtain ⟨rfl, rfl⟩ := heq
          cases cell
          simp only [Pos.mk.injEq] at *
          omega
        rw [if_pos heq, if_pos (by rw [this]; exact List.mem_cons_self _ _)]
      · rw [if_neg heq, if_neg]
        intro hmem2
        rcases List.mem_cons.mp hmem2 with h5 | h5
        · apply heq
          rw [← h5]
          simp
        · exact hmem h5

theorem placePiece_wf (grid : Board) (hwf : BoardWF grid) (piece : Piece) :
    BoardWF (placePiece grid piece) := by
  unfold placePiece
  generalize pieceCells piece piece.rotation = cells
  induction cells generalizing grid with
  | nil => exact hwf
  | cons cell rest ih =>
    rw [List.foldl_cons]
    apply ih
    split_ifs
    · exact cellSet_wf hwf _ _ _
    · exact hwf

theorem placePiece_spec (grid : Board) (hwf : BoardWF grid) (piece : Piece)
    (hin : ∀ cell ∈ pieceCells piece piece.rotation,
      0 ≤ cell.r ∧ cell.r < 16 ∧ 0 ≤ cell.c ∧ cell.c < 10) (r2 c2 : Nat) :
    cellAt (placePiece grid piece) r2 c2 =
      if (⟨(r2 : Int), (c2 : Int)⟩ : Pos) ∈ pieceCells piece piece.rotation then
        some piece.value
      else cellAt grid r2 c2 :=
  (placeCells_spec piece.value _ grid hwf hin).2 r2 c2

theorem spawnPiece_spec (s : Game) (q : Piece) (d : SpawnDraw) (hnext : s.next = some q) :
    spawnPiece s d =
      if canPlace s.grid
          { q with rotation := 0, row := 0,
                   col := Int.fdiv ((cols : Int) - pieceWidth q 0) 2 } 0 0 0 then
        { s with current := some { q with rotation := 0, row := 0,
                                          col := Int.fdiv ((cols : Int) - pieceWidth q 0) 2 },
                 next := some (createPiece d.upcoming) }
      else
        handleGameOver
          { s with current := some { q with rotation := 0, row := 0,
                                            col := Int.fdiv ((cols : Int) - pieceWidth q 0) 2 },
                   next := some (createPiece d.upcoming) } := by
  unfold spawnPiece
  rw [hnext]
  rfl

end Tetris

namespace Tetris

theorem lockPiece_grid_wf (s : Game) (p : Piece) (hwf : BoardWF s.grid) :
    BoardWF (applyMergeAndGravity { s with grid := placePiece s.grid p }).grid :=
  (applyMergeAndGravity_spec { s with grid := placePiece s.grid p }
    (placePiece_wf s.grid hwf p)).1

theorem lockPiece_cleared (s : Game) (p : Piece) (hwf : BoardWF s.grid) :
    ∃ s3, clearLines (applyMergeAndGravity { s with grid := placePiece s.grid p }) = some s3 ∧
      BoardWF s3.grid ∧ s3.stats = s.stats ∧ s3.next = s.next ∧ s3.over = s.over ∧
      s3.paused = s.paused ∧ s3.current = s.current := by
  have hwf2 := lockPiece_grid_wf s p hwf
  refine ⟨_, clearLines_spec _ hwf2, (clearLines_wf _ hwf2).1, ?_⟩
  simp only
  rw [applyMergeAndGravity_eq]
  exact ⟨rfl, rfl, rfl, rfl, rfl⟩

/-- C23: `lockPiece` on a game that is not over, with a current and a next piece and a grid
of 16 rows of 10 cells, stamps the value of the piece into each of its cells (when they
are inside the well), applies gravity and merges, clears the lines and returns: the
previous next piece is the current piece at rotation 0, row 0 and column
`floor((10 - width) / 2)`, a new piece is next; the game is over exactly when a cell of the
spawned piece is outside the well or occupied, and then `stats.gamesPlayed` has grown by 1;
otherwise `over` is still false and `stats.gamesPlayed` is unchanged. -/
theorem lockPiece_spawns_next (s : Game) (p q : Piece) (d : SpawnDraw)
    (hcur : s.current = some p) (hnext : s.next = some q) (hover : s.over = false)
    (hwf : BoardWF s.grid) :
    ∃ s3 s2,
      clearLines (applyMergeAndGravity { s with grid := placePiece s.grid p }) = some s3 ∧
      lockPiece s d = some s2 ∧
      BoardWF (placePiece s.grid p) ∧
      ((∀ cell ∈ pieceCells p p.rotation,
          0 ≤ cell.r ∧ cell.r < 16 ∧ 0 ≤ cell.c ∧ cell.c < 10) →
        ∀ r2 c2 : Nat,
          cellAt (placePiece s.grid p) r2 c2 =
            if (⟨(r2 : Int), (c2 : Int)⟩ : Pos) ∈ pieceCells p p.rotation then some p.value
            else cellAt s.grid r2 c2) ∧
      s2.grid = s3.grid ∧ s2.score = s3.score ∧ s2.linesCleared = s3.linesCleared ∧
      s2.paused = s.paused ∧
      s2.current = some { q with rotation := 0, row := 0,
                                 col := Int.fdiv ((cols : Int) - pieceWidth q 0) 2 } ∧
      s2.next = some (createPiece d.upcoming) ∧
      (s2.over = true ↔
        ¬ Fits s2.grid (pieceCells
          { q with rotation := 0, row := 0,
                   col := Int.fdiv ((cols : Int) - pieceWidth q 0) 2 } 0)) ∧
      (s2.over = true → s2.stats.gamesPlayed = s.stats.gamesPlayed + 1) ∧
      (s2.over = false → s2.stats.gamesPlayed = s.stats.gamesPlayed) := by
  obtain ⟨s3, hs3, _, hstats, hnext3, hover3, hpaused3, _⟩ := lockPiece_cleared s p hwf
  obtain ⟨s4, hs4, hlock⟩ := lockPiece_eq s p d hcur hwf.1
  rw [hs3] at hs4
  cases hs4
  have hfit : canPlace s3.grid
      { q with rotation := 0, row := 0,
               col := Int.fdiv ((cols : Int) - pieceWidth q 0) 2 } 0 0 0 = true ↔
      Fits s3.grid (pieceCells
        { q with rotation := 0, row := 0,
                 col := Int.fdiv ((cols : Int) - pieceWidth q 0) 2 } 0) := by
    rw [canPlace_iff]
    simp only [add_zero]
  have hsp := spawnPiece_spec (updateBestStats s3) q d (by rw [← hnext, ← hnext3]; rfl)
  refine ⟨s3, _, hs3, hlock, placePiece_wf s.grid hwf p,
    fun hin r2 c2 => placePiece_spec s.grid hwf p hin r2 c2, ?_⟩
  rw [hsp]
  by_cases hplace : canPlace s3.grid
      { q with rotation := 0, row := 0,
               col := Int.fdiv ((cols : Int) - pieceWidth q 0) 2 } 0 0 0 = true
  · have hplace2 : canPlace (updateBestStats s3).grid
        { q with rotation := 0, row := 0,
                 col := Int.fdiv ((cols : Int) - pieceWidth q 0) 2 } 0 0 0 = true := hplace
    rw [if_pos hplace2]
    refine ⟨rfl, rfl, rfl, hpaused3, rfl, rfl, ?_, ?_, ?_⟩
    · show s3.over = true ↔ _
      rw [hover3, hover]
      constructor
      · intro h; cases h
      · intro h; exact absurd (hfit.mp hplace) h
    · show s3.over = true → _
      rw [hover3, hover]
      intro h; cases h
    · intro _
      show s3.stats.gamesPlayed = _
      rw [hstats]
  · have hplace2 : ¬ canPlace (updateBestStats s3).grid
        { q with rotation := 0, row := 0,
                 col := Int.fdiv ((cols : Int) - pieceWidth q 0) 2 } 0 0 0 = true := hplace
    rw [if_neg hplace2]
    refine ⟨rfl, rfl, rfl, hpaused3, rfl, rfl, ?_, ?_, ?_⟩
    · constructor
      · intro _ h
        exact hplace (hfit.mpr h)
      · intro _
        rfl
    · intro _
      show s3.stats.gamesPlayed + 1 = _
      rw [hstats]
    · intro h
      cases h

theorem lockPiece_spawns_next_witness :
    sampleGame.current = some ⟨3, 0, 0, 3, 2⟩ ∧ sampleGame.next = some ⟨5, 0, 0, 0, 4⟩ ∧
    sampleGame.over = false ∧ BoardWF sampleGame.grid ∧
    ∃ s2, lockPiece sampleGame sampleDraw = some s2 ∧
      s2.current = some { (⟨5, 0, 0, 0, 4⟩ : Piece) with
        rotation := 0, row := 0,
        col := Int.fdiv ((cols : Int) - pieceWidth ⟨5, 0, 0, 0, 4⟩ 0) 2 } ∧
      s2.next = some (createPiece sampleDraw.upcoming) :=
  ⟨rfl, rfl, rfl, by decide,
    (lockPiece_spawns_next sampleGame ⟨3, 0, 0, 3, 2⟩ ⟨5, 0, 0, 0, 4⟩ sampleDraw rfl rfl rfl
      (by decide)).elim fun _ h => h.elim fun s2 h2 =>
        ⟨s2, h2.2.1, h2.2.2.2.2.2.2.2.2.1, h2.2.2.2.2.2.2.2.2.2.1⟩⟩

end Tetris

/-! ### The board after `reset()` -/

theorem addRandomTile_fresh (g : Game2048) (hc : g.cachedValue = none) (hav : ¬ NoEmptyCell g.size g.grid) :
    ∃ r c v : Nat, r < g.size ∧ c < g.size ∧ gridAt g.grid r c = none ∧ (v = 2 ∨ v = 4) ∧
      g.addRandomTile.2.grid = gridSet g.grid r c (some ⟨v, (r : Int), (c : Int), false⟩) ∧
      g.addRandomTile.2.size = g.size ∧ g.addRandomTile.2.cachedValue = none ∧
      g.addRandomTile.2.score = g.score ∧ g.addRandomTile.2.over = g.over ∧
      g.addRandomTile.2.won = g.won := by
  have hne : g.availableCells ≠ [] := fun h => hav ((availableCells_eq_nil_iff g).mp h)
  obtain ⟨cell, hcell, heq⟩ := Game2048.addRandomTile_spec g hne
  obtain ⟨r, c, hr, hcc, hrc, hnone⟩ := Game2048.mem_availableCells (List.getElem?_mem hcell)
  have hv := consume_value_ok g (Or.inl hc)
  have hcons : g.consumeNextValue.2 = g.random.1 := by
    unfold Game2048.consumeNextValue
    rw [hc]
  refine ⟨r, c, g.consumeNextValue.1, hr, hcc, hnone, hv, ?_⟩
  rw [heq, hrc, hcons]
  simp only [Game2048.insertTile, Game2048.random, Int.toNat_ofNat]
  exact ⟨trivial, trivial, hc, trivial, trivial, trivial⟩

theorem reset_fresh (g : Game2048) (hn : 2 ≤ g.size) : Game2048.Fresh g.size g.reset := by
  have hwf0 : GridWF g.size (List.replicate g.size (List.replicate g.size (none : Option Tile))) :=
    gridWF_replicate _
  obtain ⟨r1, c1, v1, hr1, hc1, _, hv1, hgrid1, hsize1, hcache1, hscore1, hover1, hwon1⟩ :=
    addRandomTile_fresh
      { g with grid := g.empty, score := 0, over := false, won := false,
               cachedValue := none, counted := false }
      rfl (fun h => h 0 0 (by show 0 < g.size; omega) (by show 0 < g.size; omega)
        (gridAt_replicate _ _ _))
  generalize hg1 : (Game2048.addRandomTile
      { g with grid := g.empty, score := 0, over := false, won := false,
               cachedValue := none, counted := false }).2 = g1 at *
  have hgrid1' : g1.grid = gridSet (List.replicate g.size (List.replicate g.size none)) r1 c1
      (some ⟨v1, (r1 : Int), (c1 : Int), false⟩) := hgrid1
  have hsize1' : g1.size = g.size := hsize1
  have hat1 : ∀ r c, gridAt g1.grid r c =
      if r = r1 ∧ c = c1 then some ⟨v1, (r1 : Int), (c1 : Int), false⟩ else none := by
    intro r c
    rw [hgrid1', gridAt_gridSet_wf hwf0 hr1 hc1, gridAt_replicate]
  have hwf1 : GridWF g1.size g1.grid := by
    rw [hsize1', hgrid1']
    exact gridSet_wf hwf0 _ _ _
  have hav1 : ¬ NoEmptyCell g1.size g1.grid := by
    intro h
    rw [hsize1'] at h
    by_cases h0 : (0 : Nat) = r1 ∧ (0 : Nat) = c1
    · apply h 0 1 (by omega) (by omega)
      rw [hat1, if_neg]
      rintro ⟨_, h2⟩
      omega
    · apply h 0 0 (by omega) (by omega)
      rw [hat1, if_neg h0]
  obtain ⟨r2, c2, v2, hr2, hc2, hnone2, hv2, hgrid2, hsize2, _, hscore2, hover2, hwon2⟩ :=
    addRandomTile_fresh g1 hcache1 hav1
  rw [hsize1'] at hr2 hc2
  have hne : (r1, c1) ≠ (r2, c2) := by
    intro heq
    simp only [Prod.mk.injEq] at heq
    rw [hat1, if_pos ⟨heq.1.symm, heq.2.symm⟩] at hnone2
    cases hnone2
  have hreset : g.reset = g1.addRandomTile.2 := by
    unfold Game2048.reset
    simp only
    rw [hg1]
  rw [hreset]
  refine ⟨by rw [hsize2, hsize1'], ?_, ⟨r1, c1, r2, c2, v1, v2, hr1, hc1, hr2, hc2, hne, hv1,
    hv2, ?_⟩, by rw [hscore2, hscore1], by rw [hover2, hover1], by rw [hwon2, hwon1]⟩
  · rw [hgrid2]
    rw [hsize1'] at hwf1
    exact gridSet_wf hwf1 _ _ _
  · intro r c
    rw [hsize1'] at hwf1
    rw [hgrid2, gridAt_gridSet_wf hwf1 hr2 hc2, hat1]
    by_cases h2 : r = r2 ∧ c = c2
    · have h1 : ¬ (r, c) = (r1, c1) := by
        intro h
        apply hne
        simp only [Prod.mk.injEq] at h ⊢
        omega
      have h2' : (r, c) = (r2, c2) := by simp [h2.1, h2.2]
      rw [if_pos h2, if_neg h1, if_pos h2']
      rfl
    · have h2' : ¬ (r, c) = (r2, c2) := by simpa using h2
      rw [if_neg h2, if_neg h2']
      by_cases h1 : r = r1 ∧ c = c1
      · have h1' : (r, c) = (r1, c1) := by simp [h1.1, h1.2]
        rw [if_pos h1, if_pos h1']
        rfl
      · have h1' : ¬ (r, c) = (r1, c1) := by simpa using h1
        rw [if_neg h1, if_neg h1']
        rfl

/-- C24: for every size `n ≥ 2`, right after `reset()` on a game of that size, and right
after `new Game2048(n, seed)` for every seed, the grid holds exactly two tiles, at two
different positions, each of value 2 or 4, every other cell is empty, the score is 0 and
`over` and `won` are false. -/
theorem reset_two_tiles (n : Nat) (hn : 2 ≤ n) :
    (∀ g : Game2048, g.size = n → Game2048.Fresh n g.reset) ∧
    ∀ (seed : Option Seed) (drawn : List Nat), Game2048.Fresh n (Game2048.new n seed drawn) := by
  constructor
  · intro g hg
    have := reset_fresh g (by rw [hg]; exact hn)
    rw [hg] at this
    exact this
  · intro seed drawn
    unfold Game2048.new
    exact reset_fresh _ hn

theorem reset_two_tiles_witness :
    2 ≤ 4 ∧ Game2048.Fresh 4 (Game2048.new 4 (some (Seed.num 7)) []) :=
  ⟨by decide, (reset_two_tiles 4 (by decide)).2 (some (Seed.num 7)) []⟩

namespace Tetris

/-! ### Pausing -/

theorem frozen_of_stopped (s : Game) (d : SpawnDraw) (dRow dCol : Int)
    (h : (s.over || s.paused) = true) :
    movePiece s dRow dCol d = some s ∧ rotatePiece s = s ∧ hardDrop s d = some s ∧
      tick s d = some s := by
  have h2 : (s.paused || s.over) = true := by rw [Bool.or_comm]; exact h
  refine ⟨?_, ?_, ?_, ?_⟩
  · unfold movePiece
    cases s.current with
    | none => rfl
    | some piece => simp only [h, if_true]
  · unfold rotatePiece
    cases s.current with
    | none => rfl
    | some piece => simp only [h, if_true]
  · unfold hardDrop
    cases s.current with
    | none => rfl
    | some piece => simp only [h, if_true]
  · unfold tick
    simp only [h2, if_true]

/-- C25: while `paused` is true, and while `over` is true, `movePiece`, `rotatePiece`,
`hardDrop` and `tick` return and leave the whole game as it is.  `togglePause` leaves the
grid, the current and the next piece, the score, `linesCleared`, the statistics and `over`
as they are; it negates `paused` when the game is not over and does nothing when it is, so
two calls in a row give back the game they started from. -/
theorem pause_freezes_game (s : Game) (d : SpawnDraw) (dRow dCol : Int) :
    (s.paused = true ∨ s.over = true →
      movePiece s dRow dCol d = some s ∧ rotatePiece s = s ∧ hardDrop s d = some s ∧
        tick s d = some s) ∧
    (togglePause s).grid = s.grid ∧ (togglePause s).current = s.current ∧
    (togglePause s).next = s.next ∧ (togglePause s).score = s.score ∧
    (togglePause s).linesCleared = s.linesCleared ∧ (togglePause s).stats = s.stats ∧
    (togglePause s).over = s.over ∧
    (s.over = false → (togglePause s).paused = !s.paused) ∧
    (s.over = true → togglePause s = s) ∧
    togglePause (togglePause s) = s := by
  refine ⟨?_, ?_⟩
  · intro h
    apply frozen_of_stopped
    rcases h with h | h <;> simp [h]
  · obtain ⟨grid, stats, current, next, score, linesCleared, paused, over⟩ := s
    cases over <;> cases paused <;> simp [togglePause]

theorem pause_freezes_game_witness :
    (togglePause sampleGame).paused = true ∧
    movePiece (togglePause sampleGame) 1 0 sampleDraw = some (togglePause sampleGame) ∧
    hardDrop (togglePause sampleGame) sampleDraw = some (togglePause sampleGame) ∧
    togglePause (togglePause sampleGame) = sampleGame :=
  ⟨rfl,
    ((pause_freezes_game (togglePause sampleGame) sampleDraw 1 0).1 (Or.inl rfl)).1,
    ((pause_freezes_game (togglePause sampleGame) sampleDraw 1 0).1 (Or.inl rfl)).2.2.1,
    (pause_freezes_game sampleGame sampleDraw 1 0).2.2.2.2.2.2.2.2.2.2⟩

end Tetris

namespace Tetris

/-! ### The invariant of the falling piece -/

theorem canPlace_zero_iff (grid : Board) (p : Piece) (rotation : Nat) :
    canPlace grid p 0 0 rotation = true ↔ Fits grid (pieceCells p rotation) := by
  rw [canPlace_iff]
  simp only [add_zero]

theorem spawnPiece_inv (s : Game) (d : SpawnDraw) (hwf : BoardWF s.grid ∧ NoZero s.grid)
    (q : Piece)
    (hnext : s.next = some q) (hq : q.shapeIndex < 7) : GameInv (spawnPiece s d) := by
  rw [spawnPiece_spec s q d hnext]
  split
  · rename_i hplace
    refine ⟨hwf, ⟨_, rfl, d.upcoming.shape_lt⟩, _, rfl, hq, (show (0 : Nat) < 4 by decide), ?_⟩
    intro _
    exact (canPlace_zero_iff _ _ _).mp hplace
  · refine ⟨hwf, ⟨_, rfl, d.upcoming.shape_lt⟩, _, rfl, hq, (show (0 : Nat) < 4 by decide), ?_⟩
    intro hover
    cases hover

theorem noZero_empty : NoZero createEmptyGrid := by
  intro cells hcells x hx
  rw [createEmptyGrid, List.mem_replicate] at hcells
  rw [hcells.2, List.mem_replicate] at hx
  rw [hx.2]
  exact fun h => Option.noConfusion h

theorem cellAt_of_mem {grid : Board} (hwf : BoardWF grid) {cells : List (Option Nat)}
    (hcells : cells ∈ grid) {x : Option Nat} (hx : x ∈ cells) :
    ∃ r c, r < rows ∧ c < cols ∧ cellAt grid r c = x := by
  obtain ⟨r, hr, hr2⟩ := List.getElem_of_mem hcells
  obtain ⟨c, hc, hc2⟩ := List.getElem_of_mem hx
  refine ⟨r, c, by rw [← hwf.1]; exact hr, by rw [← hwf.2 _ hcells]; exact hc, ?_⟩
  unfold cellAt
  rw [List.getElem?_eq_getElem hr, hr2]
  simp only
  rw [List.getElem?_eq_getElem hc, hc2]
  rfl

theorem mergedCell_ne_zero (merged : List Nat) (idx : Nat) : mergedCell merged idx ≠ some 0 := by
  unfold mergedCell
  cases merged[idx]? with
  | none => exact fun h => Option.noConfusion h
  | some v =>
    simp only
    split
    · exact fun h => Option.noConfusion h
    · rename_i hv
      intro h
      cases h
      exact hv rfl

theorem lockPiece_noZero (s : Game) (p : Piece) (hwf : BoardWF s.grid) :
    ∃ s3, clearLines (applyMergeAndGravity { s with grid := placePiece s.grid p }) = some s3 ∧
      NoZero s3.grid := by
  have hwf1 := lockPiece_grid_wf s p hwf
  have hspec := applyMergeAndGravity_spec { s with grid := placePiece s.grid p }
    (placePiece_wf s.grid hwf p)
  refine ⟨_, clearLines_spec _ hwf1, ?_⟩
  intro cells hcells x hx
  simp only [List.mem_append, List.mem_replicate, List.mem_filter] at hcells
  rcases hcells with h | h
  · rw [h.2, List.mem_replicate] at hx
    rw [hx.2]
    exact fun h => Option.noConfusion h
  · obtain ⟨r, c, hr, hc, hcell⟩ := cellAt_of_mem hwf1 h.1 hx
    rw [← hcell, hspec.2.1 r c hr hc]
    exact mergedCell_ne_zero _ _

theorem spawnPiece_grid (s : Game) (d : SpawnDraw) : (spawnPiece s d).grid = s.grid := by
  unfold spawnPiece
  simp only
  split <;> rfl

theorem resetGame_inv (s : Game) (first : PieceDraw) (d : SpawnDraw) :
    GameInv (resetGame s first d) :=
  spawnPiece_inv _ d ⟨(show BoardWF createEmptyGrid by decide), noZero_empty⟩
    (createPiece first) rfl first.shape_lt

theorem lockPiece_inv (s : Game) (d : SpawnDraw) (p : Piece) (hcur : s.current = some p)
    (hwf : BoardWF s.grid) (q : Piece) (hnext : s.next = some q) (hq : q.shapeIndex < 7)
    (s2 : Game) (h : lockPiece s d = some s2) : GameInv s2 := by
  obtain ⟨s3, h3, hwf3, _, hnext3, _, _, _⟩ := lockPiece_cleared s p hwf
  obtain ⟨s4, h4, h5⟩ := lockPiece_eq s p d hcur hwf.1
  obtain ⟨s5, h6, hnz⟩ := lockPiece_noZero s p hwf
  rw [h3] at h4 h6
  cases h4
  cases h6
  rw [h5] at h
  cases h
  exact spawnPiece_inv _ d ⟨hwf3, hnz⟩ q (by rw [← hnext]; exact hnext3) hq

theorem movePiece_inv (s : Game) (rowOffset colOffset : Int) (d : SpawnDraw)
    (hinv : GameInv s) (s2 : Game) (h : movePiece s rowOffset colOffset d = some s2) :
    GameInv s2 := by
  obtain ⟨hwf, ⟨q, hnext, hq⟩, p, hcur, hp, hrot, hfit⟩ := hinv
  unfold movePiece at h
  split at h
  · cases h
    exact ⟨hwf, ⟨q, hnext, hq⟩, p, hcur, hp, hrot, hfit⟩
  · rename_i piece hc
    have hpp : piece = p := by
      rw [hcur] at hc
      cases hc
      rfl
    subst hpp
    split at h
    · cases h
      exact ⟨hwf, ⟨q, hnext, hq⟩, piece, hcur, hp, hrot, hfit⟩
    · split at h
      · rename_i hplace
        cases h
        refine ⟨hwf, ⟨q, hnext, hq⟩, _, rfl, hp, hrot, ?_⟩
        intro _
        exact (canPlace_iff _ _ _ _ _).mp hplace
      · split at h
        · exact lockPiece_inv s d piece hcur hwf.1 q hnext hq s2 h
        · cases h
          exact ⟨hwf, ⟨q, hnext, hq⟩, piece, hcur, hp, hrot, hfit⟩

theorem rotatePiece_inv (s : Game) (hinv : GameInv s) : GameInv (rotatePiece s) := by
  obtain ⟨hwf, ⟨q, hnext, hq⟩, p, hcur, hp, hrot, hfit⟩ := hinv
  unfold rotatePiece
  split
  · exact ⟨hwf, ⟨q, hnext, hq⟩, p, hcur, hp, hrot, hfit⟩
  · rename_i piece hc
    have hpp : piece = p := by
      rw [hcur] at hc
      cases hc
      rfl
    subst hpp
    split
    · exact ⟨hwf, ⟨q, hnext, hq⟩, piece, hcur, hp, hrot, hfit⟩
    · simp only
      split
      · rename_i hplace
        refine ⟨hwf, ⟨q, hnext, hq⟩, _, rfl, hp, Nat.mod_lt _ (by decide), ?_⟩
        intro _
        exact (canPlace_zero_iff _ _ _).mp hplace
      · split
        · rename_i offset hfind
          have hplace := List.find?_some hfind
          refine ⟨hwf, ⟨q, hnext, hq⟩, _, rfl, hp, Nat.mod_lt _ (by decide), ?_⟩
          intro _
          have := (canPlace_iff _ _ _ _ _).mp hplace
          simp only [add_zero] at this
          exact this
        · exact ⟨hwf, ⟨q, hnext, hq⟩, piece, hcur, hp, hrot, hfit⟩

theorem dropLoop_fits (grid : Board) (p : Piece) (hp : p.shapeIndex < 7)
    (hrot : p.rotation < 4) (hfit : Fits grid (pieceCells p p.rotation)) :
    ∃ k : Nat, dropLoop grid (rows + 1) p = some { p with row := p.row + (k : Int) } ∧
      Fits grid (pieceCells { p with row := p.row + (k : Int) } p.rotation) ∧
      ¬ Fits grid (pieceCells { p with row := p.row + ((k : Int) + 1) } p.rotation) := by
  obtain ⟨y0, hy⟩ := canPlace_row_lt hp hrot
  have hlegal : canPlace grid p 0 0 p.rotation = true := (canPlace_zero_iff _ _ _).mpr hfit
  have hb := hy grid p 0 0 rfl hlegal
  obtain ⟨k, hk, hall, hlast⟩ := dropLoop_spec grid p.shapeIndex p.rotation y0
    (fun q ro co hq hplace => (hy grid q ro co hq hplace).2) (rows + 1) p rfl rfl hlegal
    (by simp only [rows]; push_cast; omega)
  refine ⟨k, hk, ?_, ?_⟩
  · cases k with
    | zero =>
      simp only [Nat.cast_zero, add_zero]
      exact hfit
    | succ j =>
      have := (canPlace_down_iff grid p _).mp (hall j (by omega))
      push_cast
      exact this
  · intro h
    have := (canPlace_down_iff grid p _).mpr h
    rw [hlast] at this
    cases this

theorem hardDrop_inv (s : Game) (d : SpawnDraw) (hinv : GameInv s) (s2 : Game)
    (h : hardDrop s d = some s2) : GameInv s2 := by
  obtain ⟨hwf, ⟨q, hnext, hq⟩, p, hcur, hp, hrot, hfit⟩ := hinv
  by_cases hstop : (s.over || s.paused) = true
  · rw [(frozen_of_stopped s d 0 0 hstop).2.2.1] at h
    cases h
    exact ⟨hwf, ⟨q, hnext, hq⟩, p, hcur, hp, hrot, hfit⟩
  · have hover : s.over = false := by
      cases ho : s.over
      · rfl
      · rw [ho] at hstop
        exact absurd rfl hstop
    have hpaused : s.paused = false := by
      cases hq2 : s.paused
      · rfl
      · rw [hq2, Bool.or_true] at hstop
        exact absurd rfl hstop
    obtain ⟨k, hk, _, _⟩ := dropLoop_fits s.grid p hp hrot (hfit hover)
    rw [hardDrop_eq s p d hcur hpaused hover _ hk] at h
    exact lockPiece_inv { s with current := some { p with row := p.row + (k : Int) } } d
      { p with row := p.row + (k : Int) } rfl hwf.1 q hnext hq s2 h

theorem tick_inv (s : Game) (d : SpawnDraw) (hinv : GameInv s) (s2 : Game)
    (h : tick s d = some s2) : GameInv s2 := by
  unfold tick at h
  split at h
  · cases h
    exact hinv
  · exact movePiece_inv s 1 0 d hinv s2 h

theorem togglePause_inv (s : Game) (hinv : GameInv s) : GameInv (togglePause s) := by
  unfold togglePause
  split
  · exact hinv
  · exact hinv

theorem reachable_gameInv (s : Game) (h : Reachable s) : GameInv s := by
  induction h with
  | reset s first d => exact resetGame_inv s first d
  | move s s2 ro co d _ hm ih => exact movePiece_inv s ro co d ih s2 hm
  | rotate s _ ih => exact rotatePiece_inv s ih
  | drop s s2 d _ hd ih => exact hardDrop_inv s d ih s2 hd
  | tick s s2 d _ ht ih => exact tick_inv s d ih s2 ht
  | pause s _ ih => exact togglePause_inv s ih

end Tetris

namespace Tetris

theorem noZero_cellAt {grid : Board} (h : NoZero grid) (r c : Nat)
    (hf : falsy (cellAt grid r c) = true) : cellAt grid r c = none := by
  unfold cellAt at hf ⊢
  cases hr : grid[r]? with
  | none => rfl
  | some cells =>
    rw [hr] at hf
    simp only at hf ⊢
    cases hc : cells[c]? with
    | none => rfl
    | some x =>
      rw [hc] at hf
      have hx := h cells (List.getElem?_mem hr) x (List.getElem?_mem hc)
      cases x with
      | none => rfl
      | some v =>
        exfalso
        apply hx
        have hv : v = 0 := by simpa [falsy] using hf
        rw [hv]

theorem fits_empty {grid : Board} (h : NoZero grid) {cells : List Pos} (hfit : Fits grid cells) :
    ∀ cell ∈ cells, 0 ≤ cell.r ∧ cell.r < 16 ∧ 0 ≤ cell.c ∧ cell.c < 10 ∧
      cellAt grid cell.r.toNat cell.c.toNat = none := by
  intro cell hcell
  obtain ⟨h1, h2, h3, h4, h5⟩ := hfit cell hcell
  exact ⟨h1, h2, h3, h4, noZero_cellAt h _ _ h5⟩

theorem movePiece_returns (s : Game) (rowOffset colOffset : Int) (d : SpawnDraw)
    (hwf : s.grid.length = rows) : ∃ s2, movePiece s rowOffset colOffset d = some s2 := by
  unfold movePiece
  split
  · exact ⟨_, rfl⟩
  · split
    · exact ⟨_, rfl⟩
    · split
      · exact ⟨_, rfl⟩
      · split
        · exact lockPiece_total s d hwf
        · exact ⟨_, rfl⟩

theorem movePiece_down_lock (s : Game) (p : Piece) (d : SpawnDraw) (hcur : s.current = some p)
    (hpaused : s.paused = false) (hover : s.over = false)
    (hplace : canPlace s.grid p 1 0 p.rotation = false) :
    movePiece s 1 0 d = lockPiece s d := by
  unfold movePiece
  split
  · rename_i hnone
    rw [hcur] at hnone
    cases hnone
  · rename_i piece hc
    rw [hcur] at hc
    cases hc
    simp only [hover, hpaused, Bool.or_self, Bool.false_eq_true, if_false, hplace, and_self,
      if_true]

/-- C26: in every game reachable from `resetGame()` by calls of `movePiece`, `rotatePiece`,
`hardDrop`, `tick` and `togglePause`, if `over` is false then there is a current piece,
`canPlace(current)` holds, and every cell of the piece lies inside the 16 × 10 well on a
grid cell that holds `null`.  So does every piece that `lockPiece` hands to `placePiece`:
`movePiece(1, 0)` returns, and when it locks (the game is not paused and the piece cannot
move down) it runs `lockPiece` with this current piece; `hardDrop` on a game not paused
returns and runs `lockPiece` with the piece `k` rows lower, whose cells too lie inside the
well on cells that hold `null`.  `placePiece` then writes the value of the piece to the
cells of the piece and leaves every other cell of the grid as it is. -/
theorem reachable_current_fits (s : Game) (h : Reachable s) (hover : s.over = false) :
    ∃ p, s.current = some p ∧ canPlace s.grid p 0 0 p.rotation = true ∧
      (∀ cell ∈ pieceCells p p.rotation, 0 ≤ cell.r ∧ cell.r < 16 ∧ 0 ≤ cell.c ∧
        cell.c < 10 ∧ cellAt s.grid cell.r.toNat cell.c.toNat = none) ∧
      (∀ (rowOffset colOffset : Int) (d : SpawnDraw),
        ∃ s2, movePiece s rowOffset colOffset d = some s2) ∧
      (∀ d : SpawnDraw, s.paused = false → canPlace s.grid p 1 0 p.rotation = false →
        movePiece s 1 0 d = lockPiece s d) ∧
      (∀ d : SpawnDraw, s.paused = false → ∃ (k : Nat) (s2 : Game),
        hardDrop s d = some s2 ∧
        lockPiece { s with current := some { p with row := p.row + (k : Int) } } d = some s2 ∧
        ∀ cell ∈ pieceCells { p with row := p.row + (k : Int) } p.rotation,
          0 ≤ cell.r ∧ cell.r < 16 ∧ 0 ≤ cell.c ∧ cell.c < 10 ∧
            cellAt s.grid cell.r.toNat cell.c.toNat = none) ∧
      (∀ r c : Nat, cellAt (placePiece s.grid p) r c =
        if (⟨(r : Int), (c : Int)⟩ : Pos) ∈ pieceCells p p.rotation then some p.value
        else cellAt s.grid r c) := by
  obtain ⟨⟨hwf, hnz⟩, _, p, hcur, hp, hrot, hfit⟩ := reachable_gameInv s h
  have hfit2 := hfit hover
  refine ⟨p, hcur, (canPlace_zero_iff _ _ _).mpr hfit2, fits_empty hnz hfit2, ?_, ?_, ?_, ?_⟩
  · intro ro co d
    exact movePiece_returns s ro co d hwf.1
  · intro d hpaused hplace
    exact movePiece_down_lock s p d hcur hpaused hover hplace
  · intro d hpaused
    obtain ⟨k, hk, hfitk, _⟩ := dropLoop_fits s.grid p hp hrot hfit2
    obtain ⟨s2, hs2⟩ := lockPiece_total
      { s with current := some { p with row := p.row + (k : Int) } } d hwf.1
    refine ⟨k, s2, ?_, hs2, fits_empty hnz hfitk⟩
    rw [hardDrop_eq s p d hcur hpaused hover _ hk, hs2]
  · intro r c
    exact placePiece_spec s.grid hwf p
      (fun cell hcell => ⟨(hfit2 cell hcell).1, (hfit2 cell hcell).2.1, (hfit2 cell hcell).2.2.1,
        (hfit2 cell hcell).2.2.2.1⟩) r c

theorem reachable_current_fits_witness :
    Reachable sampleRotated ∧ sampleRotated.over = false ∧
    ∃ p, sampleRotated.current = some p ∧
      canPlace sampleRotated.grid p 0 0 p.rotation = true :=
  ⟨Reachable.rotate (resetGame sampleGame sampleFirst sampleDraw)
      (Reachable.reset sampleGame sampleFirst sampleDraw),
    by decide,
    (reachable_current_fits sampleRotated
      (Reachable.rotate (resetGame sampleGame sampleFirst sampleDraw)
        (Reachable.reset sampleGame sampleFirst sampleDraw)) (by decide)).elim
      fun p hp => ⟨p, hp.1, hp.2.1⟩⟩

end Tetris

/-! ## The end of the game: no direction changes the board -/

theorem mergeGains_nil_of_distinct (xs : List Nat)
    (h : ∀ i, i + 1 < xs.length → xs[i]? ≠ xs[i + 1]?) : mergeGains xs = [] := by
  induction xs using mergeRow.induct with
  | case1 => rfl
  | case2 a => rfl
  | case3 b rest ih =>
    exfalso
    exact h 0 (by simp) (by simp)
  | case4 a b rest hab ih =>
    rw [mergeGains_cons_cons, if_neg hab]
    apply ih
    intro i hi
    have := h (i + 1) (by simpa using hi)
    simpa using this

theorem mergeGains_ne_nil_of_pair (xs : List Nat) :
    ∀ (l1 l2 : List Nat) (a : Nat), xs = l1 ++ a :: a :: l2 → mergeGains xs ≠ [] := by
  induction xs using mergeRow.induct with
  | case1 =>
    intro l1 l2 a h
    cases l1 <;> cases h
  | case2 a =>
    intro l1 l2 b h
    have := congrArg List.length h
    simp at this
    omega
  | case3 b rest ih =>
    intro l1 l2 a _
    rw [mergeGains_cons_cons, if_pos rfl]
    exact List.cons_ne_nil _ _
  | case4 a b rest hab ih =>
    intro l1 l2 x h
    rw [mergeGains_cons_cons, if_neg hab]
    cases l1 with
    | nil =>
      simp only [List.nil_append, List.cons.injEq] at h
      exact absurd (h.1.trans h.2.1.symm) hab
    | cons y l1 =>
      simp only [List.cons_append, List.cons.injEq] at h
      exact ih l1 l2 x h.2

theorem exists_map_some (vals : List (Option Nat)) (hfull : ∀ x ∈ vals, x ≠ none) :
    vals = (compact vals).map some := by
  induction vals with
  | nil => rfl
  | cons x xs ih =>
    cases x with
    | none => exact absurd rfl (hfull none (List.mem_cons_self _ _))
    | some v =>
      rw [compact_cons_some, List.map_cons,
        ← ih (fun y hy => hfull y (List.mem_cons_of_mem _ hy))]

/-- A line without an empty cell, no two neighbouring cells of which hold the same value,
is left as it is by the line algorithm. -/
theorem slideLine_eq_self_of_full (vals : List (Option Nat))
    (hfull : ∀ x ∈ vals, x ≠ none)
    (hdist : ∀ i, i + 1 < vals.length → vals[i]? ≠ vals[i + 1]?) :
    slideLine vals.length vals = vals := by
  have hv := exists_map_some vals hfull
  have hlen : (compact vals).length = vals.length := by
    conv_rhs => rw [hv]
    rw [List.length_map]
  have hg : mergeGains (compact vals) = [] := by
    apply mergeGains_nil_of_distinct
    intro i hi heq
    apply hdist i (by omega)
    rw [hv, List.getElem?_map, List.getElem?_map, heq]
  unfold slideLine padLine
  rw [mergeRow_eq_self _ hg, hlen, Nat.sub_self]
  simp only [List.replicate_zero, List.append_nil]
  exact hv.symm

/-- A line with an empty cell before a tile is changed by the line algorithm. -/
theorem slideLine_ne_of_gap (vals : List (Option Nat)) (i j v : Nat) (hij : i < j)
    (hi : vals[i]? = some none) (hj : vals[j]? = some (some v)) :
    slideLine vals.length vals ≠ vals := by
  intro h
  have h1 := padLine_getElem? vals.length (mergeRow (compact vals)) i
  have h2 := padLine_getElem? vals.length (mergeRow (compact vals)) j
  unfold slideLine at h
  rw [h, hi] at h1
  rw [h, hj] at h2
  by_cases hlt : i < (mergeRow (compact vals)).length
  · rw [if_pos hlt, List.getElem?_eq_getElem hlt] at h1
    cases h1
  · rw [if_neg (by omega)] at h2
    split at h2 <;> cases h2

/-- A line with two neighbouring tiles of the same value is changed by the line
algorithm. -/
theorem slideLine_ne_of_pair (vals : List (Option Nat)) (i a : Nat)
    (hi : vals[i]? = some (some a)) (hj : vals[i + 1]? = some (some a)) :
    slideLine vals.length vals ≠ vals := by
  intro h
  have hg := gains_nil_of_slideLine_eq vals h
  have hlt : i + 1 < vals.length := (List.getElem?_eq_some_iff.mp hj).1
  have hsplit : vals = vals.take i ++ some a :: some a :: vals.drop (i + 2) := by
    have e1 : vals[i] = some a := by
      have := List.getElem?_eq_getElem (show i < vals.length by omega)
      rw [hi] at this
      exact (Option.some.inj this).symm
    have e2 : vals[i + 1] = some a := by
      have := List.getElem?_eq_getElem hlt
      rw [hj] at this
      exact (Option.some.inj this).symm
    conv_lhs => rw [← List.take_append_drop i vals]
    rw [List.drop_eq_getElem_cons (show i < vals.length by omega), e1,
      List.drop_eq_getElem_cons hlt, e2]
  apply mergeGains_ne_nil_of_pair (compact vals) (compact (vals.take i))
    (compact (vals.drop (i + 2))) a _ hg
  conv_lhs => rw [hsplit]
  rw [compact_append, compact_cons_some, compact_cons_some]

theorem move_unmoved_iff (g : Game2048) (d : Direction) (hwf : GridWF g.size g.grid)
    (hover : g.over = false) :
    (∃ res, g.move d.name = some res ∧ res.1.moved = false) ↔
      ∀ l, l < g.size →
        slideLine g.size (lineValues d g.size g.grid l) = lineValues d g.size g.grid l := by
  obtain ⟨acc, hslide, _, _, hmoved⟩ := slide_lines g d hwf
  have hmove := move_eq_of_slide hover hslide
  constructor
  · rintro ⟨res, hres, hfalse⟩ l hl
    rw [hmove] at hres
    cases hres
    by_contra hne
    have := hmoved.mpr ⟨l, hl, hne⟩
    simp only at hfalse
    rw [hfalse] at this
    cases this
  · intro h
    refine ⟨_, hmove, ?_⟩
    simp only
    cases hm : acc.moved
    · rfl
    · obtain ⟨l, hl, hne⟩ := hmoved.mp hm
      exact absurd (h l hl) hne

theorem lineCoord_adjacent (d : Direction) {n l i : Nat} (hi : i + 1 < n) :
    Adjacent4 (lineCoord d n l i).1 (lineCoord d n l i).2
      (lineCoord d n l (i + 1)).1 (lineCoord d n l (i + 1)).2 := by
  cases d
  · exact Or.inr ⟨rfl, Or.inl rfl⟩
  · refine Or.inr ⟨rfl, Or.inr ?_⟩
    show n - 1 - (i + 1) + 1 = n - 1 - i
    omega
  · exact Or.inl ⟨rfl, Or.inl rfl⟩
  · refine Or.inl ⟨rfl, Or.inr ?_⟩
    show n - 1 - (i + 1) + 1 = n - 1 - i
    omega

/-- A full board without two adjacent equal tiles: no line is changed in any direction. -/
theorem lines_fixed_of_blocked (n : Nat) (grid : Grid) (hfull : NoEmptyCell n grid)
    (hadj : NoAdjacentEqual n grid) (d : Direction) (l : Nat) (hl : l < n) :
    slideLine n (lineValues d n grid l) = lineValues d n grid l := by
  have hlen := lineValues_length d n grid l
  have key := slideLine_eq_self_of_full (lineValues d n grid l) ?_ ?_
  · rw [hlen] at key
    exact key
  · intro x hx
    obtain ⟨i, hi, hxi⟩ := List.getElem_of_mem hx
    rw [hlen] at hi
    have h1 := lineValues_getElem? d n grid l hi
    rw [List.getElem?_eq_getElem (by rw [hlen]; exact hi), hxi] at h1
    have hb := lineCoord_lt d hl hi
    have h2 := hfull _ _ hb.1 hb.2
    cases hg : tileAt d n grid l i with
    | none => exact absurd hg h2
    | some t =>
      rw [hg] at h1
      cases h1
      exact fun h => Option.noConfusion h
  · intro i hi
    rw [hlen] at hi
    rw [lineValues_getElem? d n grid l (show i < n by omega), lineValues_getElem? d n grid l hi]
    have hb := lineCoord_lt d hl (show i < n by omega)
    have hb2 := lineCoord_lt d hl hi
    have h2 := hfull _ _ hb.1 hb.2
    have h3 := hfull _ _ hb2.1 hb2.2
    cases hg : tileAt d n grid l i with
    | none => exact absurd hg h2
    | some t =>
      cases hg2 : tileAt d n grid l (i + 1) with
      | none => exact absurd hg2 h3
      | some t2 =>
        intro heq
        simp only [Option.map_some', Option.some.injEq] at heq
        exact hadj _ _ _ _ hb.1 hb.2 hb2.1 hb2.2 (lineCoord_adjacent d hi) t t2 hg hg2 heq

theorem line_gap_changed (d : Direction) (n : Nat) (grid : Grid) (l i j : Nat) (hij : i < j)
    (hj : j < n) {r1 c1 r2 c2 : Nat} (h1 : lineCoord d n l i = (r1, c1))
    (h2 : lineCoord d n l j = (r2, c2)) (hnone : gridAt grid r1 c1 = none) (t : Tile)
    (hsome : gridAt grid r2 c2 = some t) :
    slideLine n (lineValues d n grid l) ≠ lineValues d n grid l := by
  have key := slideLine_ne_of_gap (lineValues d n grid l) i j t.value hij
    (by rw [lineValues_getElem? d n grid l (show i < n by omega)]
        unfold tileAt
        rw [h1, hnone]
        rfl)
    (by rw [lineValues_getElem? d n grid l hj]
        unfold tileAt
        rw [h2, hsome]
        rfl)
  rw [lineValues_length] at key
  exact key

theorem line_pair_changed (d : Direction) (n : Nat) (grid : Grid) (l i : Nat)
    (hi : i + 1 < n) {r1 c1 r2 c2 : Nat} (h1 : lineCoord d n l i = (r1, c1))
    (h2 : lineCoord d n l (i + 1) = (r2, c2)) (t t2 : Tile)
    (ht : gridAt grid r1 c1 = some t) (ht2 : gridAt grid r2 c2 = some t2)
    (heq : t.value = t2.value) :
    slideLine n (lineValues d n grid l) ≠ lineValues d n grid l := by
  have key := slideLine_ne_of_pair (lineValues d n grid l) i t.value
    (by rw [lineValues_getElem? d n grid l (show i < n by omega)]
        unfold tileAt
        rw [h1, ht]
        rfl)
    (by rw [lineValues_getElem? d n grid l hi]
        unfold tileAt
        rw [h2, ht2, heq]
        rfl)
  rw [lineValues_length] at key
  exact key

/-- A board with a tile, no line of which is changed in any direction, is full and has no
two adjacent equal tiles. -/
theorem blocked_of_lines_fixed (n : Nat) (grid : Grid)
    (htile : ∃ r c t, r < n ∧ c < n ∧ gridAt grid r c = some t)
    (hfix : ∀ (d : Direction) (l : Nat), l < n →
      slideLine n (lineValues d n grid l) = lineValues d n grid l) :
    NoEmptyCell n grid ∧ NoAdjacentEqual n grid := by
  obtain ⟨rT, cT, t, hrT, hcT, ht⟩ := htile
  constructor
  · intro r c hr hc hnone
    cases hx : gridAt grid rT c with
    | none =>
      have hne : c ≠ cT := by
        intro h
        rw [h, ht] at hx
        cases hx
      rcases Nat.lt_or_gt_of_ne hne with hlt | hgt
      · exact line_gap_changed Direction.left n grid rT c cT hlt hcT rfl rfl hx t ht
          (hfix _ _ hrT)
      · have e1 : lineCoord Direction.right n rT (n - 1 - c) = (rT, c) := by
          show (rT, n - 1 - (n - 1 - c)) = (rT, c)
          rw [show n - 1 - (n - 1 - c) = c by omega]
        have e2 : lineCoord Direction.right n rT (n - 1 - cT) = (rT, cT) := by
          show (rT, n - 1 - (n - 1 - cT)) = (rT, cT)
          rw [show n - 1 - (n - 1 - cT) = cT by omega]
        exact line_gap_changed Direction.right n grid rT (n - 1 - c) (n - 1 - cT) (by omega)
          (by omega) e1 e2 hx t ht (hfix _ _ hrT)
    | some x =>
      have hne : r ≠ rT := by
        intro h
        rw [h, hx] at hnone
        cases hnone
      rcases Nat.lt_or_gt_of_ne hne with hlt | hgt
      · exact line_gap_changed Direction.up n grid c r rT hlt hrT rfl rfl hnone x hx
          (hfix _ _ hc)
      · have e1 : lineCoord Direction.down n c (n - 1 - r) = (r, c) := by
          show (n - 1 - (n - 1 - r), c) = (r, c)
          rw [show n - 1 - (n - 1 - r) = r by omega]
        have e2 : lineCoord Direction.down n c (n - 1 - rT) = (rT, c) := by
          show (n - 1 - (n - 1 - rT), c) = (rT, c)
          rw [show n - 1 - (n - 1 - rT) = rT by omega]
        exact line_gap_changed Direction.down n grid c (n - 1 - r) (n - 1 - rT) (by omega)
          (by omega) e1 e2 hnone x hx (hfix _ _ hc)
  · intro r c r2 c2 hr hc hr2 hc2 hadj t1 t2 ht1 ht2 heq
    rcases hadj with ⟨hrr, h | h⟩ | ⟨hcc, h | h⟩
    · subst hrr
      subst h
      exact line_pair_changed Direction.left n grid r c hc2 rfl rfl t1 t2 ht1 ht2 heq
        (hfix _ _ hr)
    · subst hrr
      subst h
      exact line_pair_changed Direction.left n grid r c2 hc rfl rfl t2 t1 ht2 ht1 heq.symm
        (hfix _ _ hr)
    · subst hcc
      subst h
      exact line_pair_changed Direction.up n grid c r hr2 rfl rfl t1 t2 ht1 ht2 heq
        (hfix _ _ hc)
    · subst hcc
      subst h
      exact line_pair_changed Direction.up n grid c r2 hr rfl rfl t2 t1 ht2 ht1 heq.symm
        (hfix _ _ hc)

/-- The square-board half of the end-of-game property: on a board with a tile,
`movesAvailable()` is false exactly when no direction moves a tile. -/
theorem square_blocked_iff (g : Game2048) (hwf : GridWF g.size g.grid)
    (htile : ∃ r c t, r < g.size ∧ c < g.size ∧ gridAt g.grid r c = some t)
    (hover : g.over = false) :
    g.movesAvailable = false ↔
      ∀ d : Direction, ∃ res, g.move d.name = some res ∧ res.1.moved = false := by
  rw [movesAvailable_eq_false_iff]
  constructor
  · rintro ⟨hfull, hadj⟩ d
    exact (move_unmoved_iff g d hwf hover).mpr
      fun l hl => lines_fixed_of_blocked g.size g.grid hfull hadj d l hl
  · intro h
    exact blocked_of_lines_fixed g.size g.grid htile
      fun d l hl => (move_unmoved_iff g d hwf hover).mp (h d) l hl

/-! ### The lines of the hexagonal board -/

theorem groupPush_keys (gs : List (Int × List Hex)) (v : Int) (c : Hex) :
    (groupPush gs v c).map Prod.fst =
      if v ∈ gs.map Prod.fst then gs.map Prod.fst else gs.map Prod.fst ++ [v] := by
  induction gs with
  | nil => simp [groupPush]
  | cons e rest ih =>
    obtain ⟨k, m⟩ := e
    unfold groupPush
    by_cases hk : k = v
    · simp [hk]
    · have hk2 : ¬ v = k := fun h => hk h.symm
      simp only [hk, if_false, List.map_cons, ih, List.mem_cons, hk2, false_or]
      split <;> simp

theorem groupPush_mem (gs : List (Int × List Hex)) (v : Int) (c : Hex) (e : Int × List Hex)
    (he : e ∈ groupPush gs v c) (x : Hex) (hx : x ∈ e.2) :
    (∃ e0 ∈ gs, e0.1 = e.1 ∧ x ∈ e0.2) ∨ (e.1 = v ∧ x = c) := by
  induction gs with
  | nil =>
    simp only [groupPush, List.mem_singleton] at he
    subst he
    simp only [List.mem_singleton] at hx
    exact Or.inr ⟨rfl, hx⟩
  | cons e1 rest ih =>
    obtain ⟨k, m⟩ := e1
    unfold groupPush at he
    by_cases hk : k = v
    · simp only [hk, if_true, List.mem_cons] at he
      rcases he with he | he
      · subst he
        simp only [List.mem_append, List.mem_singleton] at hx
        rcases hx with hx | hx
        · exact Or.inl ⟨(k, m), List.mem_cons_self _ _, hk, hx⟩
        · exact Or.inr ⟨rfl, hx⟩
      · exact Or.inl ⟨e, List.mem_cons_of_mem _ he, rfl, hx⟩
    · simp only [hk, if_false, List.mem_cons] at he
      rcases he with he | he
      · exact Or.inl ⟨(k, m), List.mem_cons_self _ _, by rw [he], by rw [he] at hx; exact hx⟩
      · rcases ih he with ⟨e0, h0, h1⟩ | h
        · exact Or.inl ⟨e0, List.mem_cons_of_mem _ h0, h1⟩
        · exact Or.inr h

theorem groups_ok (ax : Hex → Int) (cells : List Hex) (gs : List (Int × List Hex))
    (h1 : (gs.map Prod.fst).Nodup) (h2 : ∀ e ∈ gs, ∀ x ∈ e.2, ax x = e.1) :
    ((cells.foldl (fun groups cell => groupPush groups (ax cell) cell) gs).map
      Prod.fst).Nodup ∧
    ∀ e ∈ cells.foldl (fun groups cell => groupPush groups (ax cell) cell) gs,
      ∀ x ∈ e.2, ax x = e.1 := by
  induction cells generalizing gs with
  | nil => exact ⟨h1, h2⟩
  | cons c cs ih =>
    rw [List.foldl_cons]
    apply ih
    · rw [groupPush_keys]
      split
      · exact h1
      · rename_i hv
        rw [List.nodup_append]
        refine ⟨h1, List.nodup_singleton _, ?_⟩
        intro a ha hb
        rw [List.mem_singleton] at hb
        subst hb
        exact hv ha
    · intro e he x hx
      rcases groupPush_mem gs (ax c) c e he x hx with ⟨e0, h0, h3, h4⟩ | ⟨h3, h4⟩
      · rw [← h3]
        exact h2 e0 h0 x h4
      · rw [h3, h4]

theorem eq_of_fst_eq {α β : Type} (l : List (α × β)) (h : (l.map Prod.fst).Nodup)
    (a b : α × β) (ha : a ∈ l) (hb : b ∈ l) (hab : a.1 = b.1) : a = b := by
  induction l with
  | nil => cases ha
  | cons x rest ih =>
    rw [List.map_cons, List.nodup_cons] at h
    rcases List.mem_cons.mp ha with ha | ha <;> rcases List.mem_cons.mp hb with hb | hb
    · rw [ha, hb]
    · exfalso
      apply h.1
      rw [← ha, hab]
      exact List.mem_map_of_mem _ hb
    · exfalso
      apply h.1
      rw [← hb, ← hab]
      exact List.mem_map_of_mem _ ha
    · exact ih h.2 ha hb

theorem sort_eq_pos (d : HexDirection) (a b : Hex) : d.lineDef.sort a b = d.pos a - d.pos b := by
  cases d <;> simp only [HexDirection.lineDef, HexDirection.pos] <;> ring

theorem pos_axis_inj (d : HexDirection) (a b : Hex)
    (hax : axisValue d.lineDef.axis a = axisValue d.lineDef.axis b)
    (hpos : d.pos a = d.pos b) : a = b := by
  obtain ⟨q1, r1⟩ := a
  obtain ⟨q2, r2⟩ := b
  cases d <;> simp only [HexDirection.lineDef, HexDirection.pos, axisValue] at hax hpos <;>
    simp only [Hex.mk.injEq] <;> constructor <;> omega

theorem sorted_by_pos (d : HexDirection) (l : List Hex) :
    (List.insertionSort (fun a b => d.lineDef.sort a b ≤ 0) l).Pairwise
      fun a b => d.pos a ≤ d.pos b := by
  have hrel : (fun a b : Hex => d.lineDef.sort a b ≤ 0) = fun a b => d.pos a ≤ d.pos b := by
    funext a b
    rw [sort_eq_pos]
    exact propext (by omega)
  haveI : IsTotal Hex (fun a b => d.lineDef.sort a b ≤ 0) := by
    rw [hrel]
    exact ⟨fun a b => le_total _ _⟩
  haveI : IsTrans Hex (fun a b => d.lineDef.sort a b ≤ 0) := by
    rw [hrel]
    exact ⟨fun a b c h1 h2 => le_trans h1 h2⟩
  have h := List.sorted_insertionSort (fun a b => d.lineDef.sort a b ≤ 0) l
  unfold List.Sorted at h
  exact h.imp (fun {a b} hab => by rw [sort_eq_pos] at hab; omega)

/-- Every line of a direction is the list of the cells of the board that share one value of
the axis of the direction, in strictly increasing order of `pos`. -/
theorem hexLine_spec (size : Int) (d : HexDirection) (line : List HexKey)
    (hline : line ∈ buildLineList (buildCoords size) d.lineDef) :
    ∃ (group : List Hex) (v : Int), line = group.map keyOf ∧
      group.Pairwise (fun a b => d.pos a < d.pos b) ∧
      ∀ c, c ∈ group ↔ c ∈ buildCoords size ∧ axisValue d.lineDef.axis c = v := by
  unfold buildLineList at hline
  rw [List.mem_map] at hline
  obtain ⟨e, he, hl⟩ := hline
  have hok := groups_ok (axisValue d.lineDef.axis) (buildCoords size) [] List.nodup_nil
    (fun e he => by cases he)
  have hperm := groups_perm (axisValue d.lineDef.axis) (buildCoords size) []
  simp only [List.map_nil, List.flatten_nil, List.nil_append] at hperm
  have hsort := List.perm_insertionSort (fun a b => d.lineDef.sort a b ≤ 0) e.2
  have hmem : ∀ c, c ∈ List.insertionSort (fun a b => d.lineDef.sort a b ≤ 0) e.2 ↔
      c ∈ buildCoords size ∧ axisValue d.lineDef.axis c = e.1 := by
    intro c
    rw [hsort.mem_iff]
    constructor
    · intro hc
      refine ⟨hperm.mem_iff.mp (List.mem_flatten.mpr ⟨e.2, List.mem_map_of_mem _ he, hc⟩),
        hok.2 e he c hc⟩
    · rintro ⟨hc, hv⟩
      obtain ⟨m, hm, hcm⟩ := List.mem_flatten.mp (hperm.mem_iff.mpr hc)
      obtain ⟨e2, he2, rfl⟩ := List.mem_map.mp hm
      have := eq_of_fst_eq _ hok.1 e2 e he2 he (by rw [← hok.2 e2 he2 c hcm, hv])
      rw [← this]
      exact hcm
  have hnodup : (List.insertionSort (fun a b => d.lineDef.sort a b ≤ 0) e.2).Nodup := by
    rw [hsort.nodup_iff]
    have h1 : ((List.foldl (fun groups cell =>
        groupPush groups (axisValue d.lineDef.axis cell) cell) [] (buildCoords size)).map
          Prod.snd).flatten.Nodup := hperm.nodup_iff.mpr (buildCoords_nodup size)
    exact (List.nodup_flatten.mp h1).1 e.2 (List.mem_map_of_mem _ he)
  refine ⟨_, e.1, hl.symm, ?_, hmem⟩
  have h2 := (sorted_by_pos d e.2).and hnodup
  refine h2.imp_of_mem ?_
  intro a b ha hb hab
  rcases lt_or_eq_of_le hab.1 with h | h
  · exact h
  · exfalso
    apply hab.2
    exact pos_axis_inj d a b (by rw [((hmem a).mp ha).2, ((hmem b).mp hb).2]) h

theorem step_mem (d : HexDirection) : d.step ∈ neighbourDirs := by
  cases d <;> decide

theorem step_cases (dir : Hex) (h : dir ∈ neighbourDirs) : ∃ d : HexDirection, d.step = dir := by
  simp only [neighbourDirs, List.mem_cons, List.mem_singleton, List.not_mem_nil, or_false] at h
  rcases h with h | h | h | h | h | h
  · exact ⟨HexDirection.w, h.symm⟩
  · exact ⟨HexDirection.e, h.symm⟩
  · exact ⟨HexDirection.sw, h.symm⟩
  · exact ⟨HexDirection.ne, h.symm⟩
  · exact ⟨HexDirection.se, h.symm⟩
  · exact ⟨HexDirection.nw, h.symm⟩

theorem step_pos (d : HexDirection) (x : Hex) :
    d.pos ⟨x.q + d.step.q, x.r + d.step.r⟩ = d.pos x + 1 := by
  cases d <;> simp only [HexDirection.pos, HexDirection.step] <;> omega

theorem step_axis (d : HexDirection) (x : Hex) :
    axisValue d.lineDef.axis ⟨x.q + d.step.q, x.r + d.step.r⟩ = axisValue d.lineDef.axis x := by
  cases d <;> simp only [HexDirection.lineDef, HexDirection.step, axisValue] <;> omega

/-- The board is convex along its lines: the cell after a cell of a line that is not the
last one of the line is on the board. -/
theorem step_mem_coords (size : Int) (d : HexDirection) (x y : Hex)
    (hx : x ∈ buildCoords size) (hy : y ∈ buildCoords size)
    (hax : axisValue d.lineDef.axis x = axisValue d.lineDef.axis y)
    (hlt : d.pos x < d.pos y) :
    (⟨x.q + d.step.q, x.r + d.step.r⟩ : Hex) ∈ buildCoords size := by
  rw [mem_buildCoords] at hx hy ⊢
  obtain ⟨q1, r1⟩ := x
  obtain ⟨q2, r2⟩ := y
  cases d <;>
    simp only [HexDirection.lineDef, HexDirection.pos, HexDirection.step, axisValue]
      at hax hlt hx hy ⊢ <;>
    omega

theorem line_order (d : HexDirection) (group : List Hex)
    (hsorted : group.Pairwise fun a b => d.pos a < d.pos b) (x y : Hex) (hx : x ∈ group)
    (hy : y ∈ group) (hlt : d.pos x < d.pos y) :
    ∃ i j : Nat, i < j ∧ group[i]? = some x ∧ group[j]? = some y := by
  obtain ⟨i, hi, hxi⟩ := List.getElem_of_mem hx
  obtain ⟨j, hj, hyj⟩ := List.getElem_of_mem hy
  rw [List.pairwise_iff_getElem] at hsorted
  refine ⟨i, j, ?_, by rw [List.getElem?_eq_getElem hi, hxi],
    by rw [List.getElem?_eq_getElem hj, hyj]⟩
  by_contra hij
  rcases Nat.lt_or_ge j i with h | h
  · have := hsorted j i hj hi h
    rw [hxi, hyj] at this
    omega
  · have hij2 : i = j := by omega
    subst hij2
    rw [hxi] at hyj
    rw [hyj] at hlt
    omega

/-- Two cells that follow each other on a line are neighbours: the second is the first
moved by the step of the direction. -/
theorem line_next (size : Int) (d : HexDirection) (group : List Hex) (v : Int)
    (hsorted : group.Pairwise fun a b => d.pos a < d.pos b)
    (hmem : ∀ c, c ∈ group ↔ c ∈ buildCoords size ∧ axisValue d.lineDef.axis c = v)
    (i : Nat) (x y : Hex) (hx : group[i]? = some x) (hy : group[i + 1]? = some y) :
    y = ⟨x.q + d.step.q, x.r + d.step.r⟩ := by
  obtain ⟨hi, hxi⟩ := List.getElem?_eq_some_iff.mp hx
  obtain ⟨hi1, hyi⟩ := List.getElem?_eq_some_iff.mp hy
  have hxm := (hmem x).mp (List.getElem?_mem hx)
  have hym := (hmem y).mp (List.getElem?_mem hy)
  have hs := List.pairwise_iff_getElem.mp hsorted
  have hxy : d.pos x < d.pos y := by
    have := hs i (i + 1) hi hi1 (by omega)
    rw [hxi, hyi] at this
    exact this
  have hz := step_mem_coords size d x y hxm.1 hym.1 (by rw [hxm.2, hym.2]) hxy
  have hzm := (hmem _).mpr ⟨hz, by rw [step_axis, hxm.2]⟩
  obtain ⟨k, hk, hzk⟩ := List.getElem_of_mem hzm
  have hzp := step_pos d x
  rcases Nat.lt_trichotomy k (i + 1) with h | h | h
  · exfalso
    rcases Nat.lt_or_ge k i with h2 | h2
    · have := hs k i hk hi h2
      rw [hzk, hxi] at this
      omega
    · have hki : k = i := by omega
      subst hki
      rw [hxi] at hzk
      rw [← hzk] at hzp
      omega
  · subst h
    rw [← hyi, hzk]
  · exfalso
    have := hs (i + 1) k hi1 hk h
    rw [hzk, hyi] at this
    omega

/-- Two neighbouring cells of a line follow each other on it. -/
theorem line_adjacent (d : HexDirection) (group : List Hex)
    (hsorted : group.Pairwise fun a b => d.pos a < d.pos b) (x : Hex) (hx : x ∈ group)
    (hz : (⟨x.q + d.step.q, x.r + d.step.r⟩ : Hex) ∈ group) :
    ∃ i : Nat, group[i]? = some x ∧ group[i + 1]? = some ⟨x.q + d.step.q, x.r + d.step.r⟩ := by
  have hzp := step_pos d x
  obtain ⟨i, j, hij, hxi, hzj⟩ := line_order d group hsorted x _ hx hz (by omega)
  obtain ⟨hi, hxi2⟩ := List.getElem?_eq_some_iff.mp hxi
  obtain ⟨hj, hzj2⟩ := List.getElem?_eq_some_iff.mp hzj
  have hs := List.pairwise_iff_getElem.mp hsorted
  refine ⟨i, hxi, ?_⟩
  rcases Nat.lt_or_ge (i + 1) j with h | h
  · exfalso
    have h1 := hs i (i + 1) hi (by omega) (by omega)
    have h2 := hs (i + 1) j (by omega) hj h
    rw [hxi2] at h1
    rw [hzj2] at h2
    omega
  · have : j = i + 1 := by omega
    rw [← this]
    exact hzj

theorem hexMove_unmoved_iff (size : Int) (g : HexGame) (d : HexDirection) (draw : HexDraw)
    (hwf : HexWF (rebuildGeometry size) g) (hover : g.over = false) :
    (HexGame.moveOwn (rebuildGeometry size) g d.name draw).1.moved = false ↔
      ∀ line ∈ buildLineList (buildCoords size) d.lineDef,
        slideLine line.length (line.map fun key => mapGet g.grid key) =
          line.map fun key => mapGet g.grid key := by
  rw [hexMove_eq size g d draw hover]
  simp only
  rw [(hexSlide_spec size g d hwf).2.2.2.2.1, List.any_eq_false]
  constructor
  · intro h line hline
    have := h line hline
    unfold lineChanged at this
    simpa using this
  · intro h line hline
    unfold lineChanged
    simpa using h line hline

theorem mem_line_group {group : List Hex} {c : Hex} (h : keyOf c ∈ group.map keyOf) :
    c ∈ group := by
  obtain ⟨c2, hc2, he⟩ := List.mem_map.mp h
  rw [← keyOf_injective he]
  exact hc2

theorem line_of_cell (size : Int) (d : HexDirection) (a : Hex) (ha : a ∈ buildCoords size) :
    ∃ line ∈ buildLineList (buildCoords size) d.lineDef, ∃ (group : List Hex) (v : Int),
      line = group.map keyOf ∧ group.Pairwise (fun x y => d.pos x < d.pos y) ∧
      (∀ c, c ∈ group ↔ c ∈ buildCoords size ∧ axisValue d.lineDef.axis c = v) ∧
      a ∈ group := by
  have h1 : keyOf a ∈ (rebuildGeometry size).coordKeys := (mem_coordKeys_iff size a).mpr ha
  have h2 := (lines_flatten_perm size d).mem_iff.mpr h1
  obtain ⟨line, hline, hmem⟩ := List.mem_flatten.mp h2
  obtain ⟨group, v, hl, hsorted, hgroup⟩ := hexLine_spec size d line hline
  refine ⟨line, hline, group, v, hl, hsorted, hgroup, ?_⟩
  rw [hl] at hmem
  exact mem_line_group hmem

theorem group_values_getElem? (grid : HexGrid) (group : List Hex) (i : Nat) (x : Hex)
    (h : group[i]? = some x) :
    ((group.map keyOf).map fun key => mapGet grid key)[i]? = some (mapGet grid (keyOf x)) := by
  rw [List.getElem?_map, List.getElem?_map, h]
  rfl

/-- A hexagonal board without an empty cell and without two adjacent equal tiles: no line
is changed in any direction. -/
theorem hexLines_fixed_of_blocked (size : Int) (grid : HexGrid)
    (hfull : HexNoEmptyCell (rebuildGeometry size) grid)
    (hadj : HexNoAdjacentEqual (rebuildGeometry size) grid) (d : HexDirection)
    (line : List HexKey) (hline : line ∈ buildLineList (buildCoords size) d.lineDef) :
    slideLine line.length (line.map fun key => mapGet grid key) =
      line.map fun key => mapGet grid key := by
  obtain ⟨group, v, hl, hsorted, hmem⟩ := hexLine_spec size d line hline
  subst hl
  have key := slideLine_eq_self_of_full ((group.map keyOf).map fun key => mapGet grid key) ?_ ?_
  · rw [List.length_map] at key
    exact key
  · intro x hx
    obtain ⟨k, hk, rfl⟩ := List.mem_map.mp hx
    obtain ⟨c, hc, rfl⟩ := List.mem_map.mp hk
    exact hfull c ((hmem c).mp hc).1
  · intro i hi
    rw [List.length_map, List.length_map] at hi
    have hx := List.getElem?_eq_getElem (show i < group.length by omega)
    have hy := List.getElem?_eq_getElem hi
    rw [group_values_getElem? grid group i _ hx, group_values_getElem? grid group (i + 1) _ hy]
    have hnext := line_next size d group v hsorted hmem i _ _ hx hy
    have hxm := ((hmem _).mp (List.getElem?_mem hx)).1
    have hym := ((hmem _).mp (List.getElem?_mem hy)).1
    cases hv : mapGet grid (keyOf group[i]) with
    | none => exact absurd hv (hfull _ hxm)
    | some val =>
      intro heq
      exact hadj _ hxm _ hym ⟨d.step, step_mem d, hnext⟩ val hv (Option.some.inj heq).symm

theorem hex_gap_changed (size : Int) (grid : HexGrid) (d : HexDirection) (a b : Hex)
    (ha : a ∈ buildCoords size) (hb : b ∈ buildCoords size)
    (hax : axisValue d.lineDef.axis a = axisValue d.lineDef.axis b)
    (hlt : d.pos b < d.pos a) (hnone : mapGet grid (keyOf b) = none) (val : Nat)
    (hsome : mapGet grid (keyOf a) = some val) :
    ∃ line ∈ buildLineList (buildCoords size) d.lineDef,
      slideLine line.length (line.map fun key => mapGet grid key) ≠
        line.map fun key => mapGet grid key := by
  obtain ⟨line, hline, group, v, hl, hsorted, hmem, hag⟩ := line_of_cell size d a ha
  have hbg : b ∈ group := (hmem b).mpr ⟨hb, by rw [← hax]; exact ((hmem a).mp hag).2⟩
  obtain ⟨i, j, hij, hi, hj⟩ := line_order d group hsorted b a hbg hag hlt
  refine ⟨line, hline, ?_⟩
  subst hl
  have key := slideLine_ne_of_gap ((group.map keyOf).map fun key => mapGet grid key) i j val hij
    (by rw [group_values_getElem? grid group i b hi, hnone])
    (by rw [group_values_getElem? grid group j a hj, hsome])
  rw [List.length_map] at key
  exact key

theorem hex_pair_changed (size : Int) (grid : HexGrid) (d : HexDirection) (a : Hex)
    (ha : a ∈ buildCoords size)
    (hb : (⟨a.q + d.step.q, a.r + d.step.r⟩ : Hex) ∈ buildCoords size) (val : Nat)
    (hva : mapGet grid (keyOf a) = some val)
    (hvb : mapGet grid (keyOf ⟨a.q + d.step.q, a.r + d.step.r⟩) = some val) :
    ∃ line ∈ buildLineList (buildCoords size) d.lineDef,
      slideLine line.length (line.map fun key => mapGet grid key) ≠
        line.map fun key => mapGet grid key := by
  obtain ⟨line, hline, group, v, hl, hsorted, hmem, hag⟩ := line_of_cell size d a ha
  have hbg : (⟨a.q + d.step.q, a.r + d.step.r⟩ : Hex) ∈ group :=
    (hmem _).mpr ⟨hb, by rw [step_axis]; exact ((hmem a).mp hag).2⟩
  obtain ⟨i, hi, hj⟩ := line_adjacent d group hsorted a hag hbg
  refine ⟨line, hline, ?_⟩
  subst hl
  have key := slideLine_ne_of_pair ((group.map keyOf).map fun key => mapGet grid key) i val
    (by rw [group_values_getElem? grid group i a hi, hva])
    (by rw [group_values_getElem? grid group (i + 1) _ hj, hvb])
  rw [List.length_map] at key
  exact key

theorem exists_direction (a b : Hex) (hne : a ≠ b) (ax : Axis)
    (hax : axisValue ax a = axisValue ax b) :
    ∃ d : HexDirection, axisValue d.lineDef.axis a = axisValue d.lineDef.axis b ∧
      d.pos b < d.pos a := by
  obtain ⟨q1, r1⟩ := a
  obtain ⟨q2, r2⟩ := b
  have hne2 : q1 ≠ q2 ∨ r1 ≠ r2 := by
    by_contra h
    apply hne
    have h1 : q1 = q2 := by
      by_contra h1
      exact h (Or.inl h1)
    have h2 : r1 = r2 := by
      by_contra h2
      exact h (Or.inr h2)
    rw [h1, h2]
  cases ax <;> simp only [axisValue] at hax
  · by_cases h : r2 < r1
    · exact ⟨HexDirection.nw, hax, h⟩
    · refine ⟨HexDirection.se, hax, ?_⟩
      show -r2 < -r1
      omega
  · by_cases h : q2 < q1
    · exact ⟨HexDirection.w, hax, h⟩
    · refine ⟨HexDirection.e, hax, ?_⟩
      show -q2 < -q1
      omega
  · by_cases h : q2 < q1
    · exact ⟨HexDirection.sw, hax, h⟩
    · refine ⟨HexDirection.ne, hax, ?_⟩
      show -q2 < -q1
      omega

/-- Any two cells of the board are joined by two lines: some cell of the board shares a line
with each of them. -/
theorem hex_common_line (size : Int) (a b : Hex) (ha : a ∈ buildCoords size)
    (hb : b ∈ buildCoords size) :
    ∃ c ∈ buildCoords size, (∃ ax, axisValue ax a = axisValue ax c) ∧
      ∃ ax, axisValue ax c = axisValue ax b := by
  rw [mem_buildCoords] at ha hb
  by_cases h1 : -size ≤ a.q + b.r ∧ a.q + b.r ≤ size
  · refine ⟨⟨a.q, b.r⟩, ?_, ⟨Axis.q, rfl⟩, ⟨Axis.r, rfl⟩⟩
    rw [mem_buildCoords]
    simp only
    omega
  · by_cases h2 : -size ≤ b.q + b.r - a.r ∧ b.q + b.r - a.r ≤ size
    · refine ⟨⟨b.q + b.r - a.r, a.r⟩, ?_, ⟨Axis.r, rfl⟩, ⟨Axis.s, ?_⟩⟩
      · rw [mem_buildCoords]
        simp only
        omega
      · simp only [axisValue]
        omega
    · refine ⟨⟨b.q, a.q + a.r - b.q⟩, ?_, ⟨Axis.s, ?_⟩, ⟨Axis.q, rfl⟩⟩
      · rw [mem_buildCoords]
        simp only
        omega
      · simp only [axisValue]
        omega

/-- A hexagonal board with a tile, no line of which is changed in any direction, has no
empty cell and no two adjacent equal tiles. -/
theorem hexBlocked_of_lines_fixed (size : Int) (grid : HexGrid)
    (htile : ∃ cell ∈ buildCoords size, ∃ v, mapGet grid (keyOf cell) = some v)
    (hfix : ∀ (d : HexDirection), ∀ line ∈ buildLineList (buildCoords size) d.lineDef,
      slideLine line.length (line.map fun key => mapGet grid key) =
        line.map fun key => mapGet grid key) :
    HexNoEmptyCell (rebuildGeometry size) grid ∧
      HexNoAdjacentEqual (rebuildGeometry size) grid := by
  have hgap : ∀ (a b : Hex), a ∈ buildCoords size → b ∈ buildCoords size →
      (∃ ax, axisValue ax a = axisValue ax b) → ∀ val, mapGet grid (keyOf a) = some val →
      mapGet grid (keyOf b) = none → False := by
    intro a b ha hb hax val hva hvb
    obtain ⟨ax, hax⟩ := hax
    have hne : a ≠ b := by
      intro h
      rw [h, hvb] at hva
      cases hva
    obtain ⟨d, hd, hlt⟩ := exists_direction a b hne ax hax
    obtain ⟨line, hline, hch⟩ := hex_gap_changed size grid d a b ha hb hd hlt hvb val hva
    exact hch (hfix d line hline)
  obtain ⟨t, ht, val, hval⟩ := htile
  constructor
  · intro cell hcell hnone
    obtain ⟨c, hc, h1, h2⟩ := hex_common_line size t cell ht hcell
    cases hv : mapGet grid (keyOf c) with
    | none => exact hgap t c ht hc h1 val hval hv
    | some v2 => exact hgap c cell hc hcell h2 v2 hv hnone
  · intro a ha b hb hadj v hva hvb
    obtain ⟨dir, hdir, hbeq⟩ := hadj
    obtain ⟨d, hd⟩ := step_cases dir hdir
    subst hd
    subst hbeq
    obtain ⟨line, hline, hch⟩ := hex_pair_changed size grid d a ha hb v hva hvb
    exact hch (hfix d line hline)

/-- The hexagonal half of the end-of-game property: on a board with a tile,
`movesAvailable()` is false exactly when no direction moves a tile. -/
theorem hex_blocked_iff (size : Int) (g : HexGame) (hwf : HexWF (rebuildGeometry size) g)
    (hpos : HexPositive g.grid)
    (htile : ∃ cell ∈ buildCoords size, ∃ v, mapGet g.grid (keyOf cell) = some v)
    (hover : g.over = false) :
    g.movesAvailable (rebuildGeometry size) = false ↔
      ∀ (d : HexDirection) (draw : HexDraw),
        (HexGame.moveOwn (rebuildGeometry size) g d.name draw).1.moved = false := by
  rw [hexMovesAvailable_eq_false_iff size g hwf hpos]
  constructor
  · rintro ⟨hfull, hadj⟩ d draw
    exact (hexMove_unmoved_iff size g d draw hwf hover).mpr
      fun line hline => hexLines_fixed_of_blocked size g.grid hfull hadj d line hline
  · intro h
    exact hexBlocked_of_lines_fixed size g.grid htile
      fun d line hline => (hexMove_unmoved_iff size g d sampleDraw hwf hover).mp
        (h d sampleDraw) line hline

/-- C27: on a square board (`n` rows of `n` cells) that holds a tile, with `over` false,
`move` returns for each of the four directions, and `movesAvailable()` is false if and only
if `move(d)` returns `moved = false` for each of the four directions.  On a hexagonal board
of any radius (every cell of the geometry has an entry in the grid, and the tiles hold
positive values) that holds a tile, with `over` false, `movesAvailable()` is false if and
only if `move(d)` returns `moved = false` for each of the six directions, whatever the
random draw. -/
theorem movesAvailable_false_iff_stuck (g : Game2048) (hwf : GridWF g.size g.grid)
    (htile : ∃ r c t, r < g.size ∧ c < g.size ∧ gridAt g.grid r c = some t)
    (hover : g.over = false)
    (size : Int) (h : HexGame) (hwf2 : HexWF (rebuildGeometry size) h)
    (hpos : HexPositive h.grid)
    (htile2 : ∃ cell ∈ (rebuildGeometry size).coords, ∃ v, mapGet h.grid (keyOf cell) = some v)
    (hover2 : h.over = false) :
    (∀ d : Direction, ∃ res, g.move d.name = some res) ∧
    (g.movesAvailable = false ↔
      ∀ d : Direction, ∃ res, g.move d.name = some res ∧ res.1.moved = false) ∧
    (h.movesAvailable (rebuildGeometry size) = false ↔
      ∀ (d : HexDirection) (draw : HexDraw),
        ∃ res, HexGame.move (rebuildGeometry size) h d.name draw = some res ∧
          res.1.moved = false) := by
  refine ⟨?_, square_blocked_iff g hwf htile hover, ?_⟩
  · intro d
    obtain ⟨acc, hslide, _⟩ := slide_lines g d hwf
    exact ⟨_, move_eq_of_slide hover hslide⟩
  · rw [hex_blocked_iff size h hwf2 hpos htile2 hover2]
    constructor
    · intro hall d draw
      exact ⟨_, hexMove_returns size h d draw, hall d draw⟩
    · intro hall d draw
      obtain ⟨res, hres, hm⟩ := hall d draw
      have := hexMove_eq_moveOwn hres
      subst this
      exact hm

theorem movesAvailable_false_iff_stuck_witness :
    GridWF stuckGame.size stuckGame.grid ∧ stuckGame.over = false ∧
    HexWF (rebuildGeometry 1) stuckHex ∧ HexPositive stuckHex.grid ∧ stuckHex.over = false ∧
    stuckGame.movesAvailable = false ∧ stuckHex.movesAvailable (rebuildGeometry 1) = false ∧
    (∀ d : Direction, ∃ res, stuckGame.move d.name = some res ∧ res.1.moved = false) ∧
    (∀ (d : HexDirection) (draw : HexDraw),
      ∃ res, HexGame.move (rebuildGeometry 1) stuckHex d.name draw = some res ∧
        res.1.moved = false) :=
  ⟨by decide, rfl, by decide, hexPositive_of_all _ (by decide), rfl, by decide, by decide,
    (movesAvailable_false_iff_stuck stuckGame (by decide)
      ⟨0, 0, ⟨2, 0, 0, false⟩, by decide, by decide, rfl⟩ rfl
      1 stuckHex (by decide) (hexPositive_of_all _ (by decide))
      ⟨⟨0, 0⟩, by decide, 16, by decide⟩ rfl).2.1.mp (by decide),
    (movesAvailable_false_iff_stuck stuckGame (by decide)
      ⟨0, 0, ⟨2, 0, 0, false⟩, by decide, by decide, rfl⟩ rfl
      1 stuckHex (by decide) (hexPositive_of_all _ (by decide))
      ⟨⟨0, 0⟩, by decide, 16, by decide⟩ rfl).2.2.mp (by decide)⟩

end BAS2048
